import Mathlib

/-!
Verification development for the HalideIR core intermediate representation.

This file gives a shallow embedding, in Lean 4, of the parts of the
HalideIR source that the specification talks about:

* the type descriptor and the expression/statement node kinds
  (`src/ir/IR.h`, `src/ir/IR.cpp`, TVM-flavoured profile);
* the smart constructors with their invariant checks (`src/ir/IR.cpp`),
  with a fallible constructor modelled as an `Except` returning the
  internal/user diagnostic on the failed check;
* the default mutator (`src/ir/IRMutator.cpp`);
* the common-subexpression-elimination pass (`src/pass/CSE.cpp`),
  including the global value numbering, the use-count pass, the
  replacement pass and the let-variable normaliser used by its tests;
* the unique-name counters (`src/base/Util.cpp`);
* the dynamic-dispatch functor (`src/tvm/ir_functor.h`).

Modelling conventions, used throughout:

* C++ reference handles (`Expr`, `Stmt`) may be null; the inductive
  types below have an explicit `undef` constructor playing the role of
  the null handle, so a field the source may store undefined keeps the
  plain field type.
* Node identity (pointer equality) is modelled by structural equality;
  a `Variable` node is identified by its type and name string, which is
  exact for every term in which distinct variables carry distinct
  names (the source's `same_as` on shared nodes then coincides with
  structural equality).
* C++ strings are Lean `String`s, `std::vector` is `List`, and the
  opaque `FunctionRef`/`NodeRef` back-references are modelled by a
  numeric identifier, which no claim inspects.
* Machine integers are `Int`/`Nat` with explicit reduction modulo
  `2 ^ 64` (or the relevant width) exactly where the source relies on
  fixed-width behaviour.
-/

namespace HalideIR

/-- Modelled from the spec: the type-descriptor code (`src/base/Type.h` is
not part of the sources); one of signed integer, unsigned integer,
floating point, or opaque handle. -/
inductive TypeCode where
  | int
  | uint
  | float
  | handle
deriving DecidableEq, Repr

/-- Modelled from the spec: the scalar/vector type descriptor with a code,
a bit width and a lane count (`src/base/Type.h` is not part of the
sources). -/
structure Ty where
  code : TypeCode
  bits : Nat
  lanes : Nat
deriving DecidableEq, Repr

namespace Ty

def is_int (t : Ty) : Bool := t.code = TypeCode.int
def is_uint (t : Ty) : Bool := t.code = TypeCode.uint
def is_float (t : Ty) : Bool := t.code = TypeCode.float
def is_handle (t : Ty) : Bool := t.code = TypeCode.handle
def is_scalar (t : Ty) : Bool := t.lanes = 1
def is_vector (t : Ty) : Bool := t.lanes ≠ 1
def is_bool (t : Ty) : Bool := t.code = TypeCode.uint && t.bits = 1
def with_lanes (t : Ty) (lanes : Nat) : Ty := { t with lanes := lanes }
def element_of (t : Ty) : Ty := t.with_lanes 1

end Ty

/-- `Int(bits, lanes)` of the source's type constructors. -/
def intTy (bits lanes : Nat) : Ty := ⟨TypeCode.int, bits, lanes⟩

/-- `UInt(bits, lanes)`. -/
def uintTy (bits lanes : Nat) : Ty := ⟨TypeCode.uint, bits, lanes⟩

/-- `Float(bits, lanes)`. -/
def floatTy (bits lanes : Nat) : Ty := ⟨TypeCode.float, bits, lanes⟩

/-- `Bool(lanes)`: unsigned with one bit. -/
def boolTy (lanes : Nat) : Ty := ⟨TypeCode.uint, 1, lanes⟩

/-- The 32-bit scalar signed integer type `Int(32)`. -/
def int32 : Ty := intTy 32 1

/-- The type `type_of<const char *>()` given to string immediates. -/
def handleTy : Ty := ⟨TypeCode.handle, 64, 1⟩

/-- A `Variable` node: a type together with the name hint
(`src/ir/IR.h`, `struct Variable`).  The embedding identifies a
variable by this data; a `VarExpr` handle is represented by the same
structure. -/
structure Var where
  type : Ty
  name_hint : String
deriving DecidableEq, Repr

/-- The `Call::CallType` enumeration (`src/ir/IR.h`). -/
inductive CallType where
  | Extern
  | ExternCPlusPlus
  | PureExtern
  | Halide
  | Intrinsic
  | PureIntrinsic
deriving DecidableEq, Repr

/-- The `ForType` enumeration of `For` loops (declared in the missing
`Expr.h`; the four alternatives are listed in the comment on `struct
For` in `src/ir/IR.h`). -/
inductive ForType where
  | Serial
  | Parallel
  | Vectorized
  | Unrolled
deriving DecidableEq, Repr

mutual

/-- Expression nodes of the TVM-flavoured IR profile (`src/ir/IR.h`,
`src/ir/IR.cpp`).  `undef` is the null `Expr` handle.  `floatImm`
carries the bit pattern of its `double` payload; no claim below
inspects it. -/
inductive Expr where
  | undef
  | intImm (t : Ty) (value : Int)
  | uintImm (t : Ty) (value : Nat)
  | floatImm (t : Ty) (value : Nat)
  | stringImm (value : String)
  | cast (t : Ty) (value : Expr)
  | var (v : Var)
  | add (a b : Expr)
  | sub (a b : Expr)
  | mul (a b : Expr)
  | div (a b : Expr)
  | mod (a b : Expr)
  | min (a b : Expr)
  | max (a b : Expr)
  | eq (a b : Expr)
  | ne (a b : Expr)
  | lt (a b : Expr)
  | le (a b : Expr)
  | gt (a b : Expr)
  | ge (a b : Expr)
  | and (a b : Expr)
  | or (a b : Expr)
  | not (a : Expr)
  | select (condition true_value false_value : Expr)
  | load (t : Ty) (buffer_var : Var) (index predicate : Expr)
  | ramp (base stride : Expr) (lanes : Nat)
  | broadcast (value : Expr) (lanes : Nat)
  | call (t : Ty) (name : String) (args : ExprList) (call_type : CallType)
      (func : Nat) (value_index : Int)
  | letE (var : Var) (value body : Expr)
  | shuffle (vectors indices : ExprList)
deriving DecidableEq, Repr

/-- A `std::vector<Expr>` argument list, spelled as a mutual inductive so
that structural recursion through it is available. -/
inductive ExprList where
  | nil
  | cons (head : Expr) (tail : ExprList)
deriving DecidableEq, Repr

end

/-- Statement nodes of the TVM-flavoured IR profile (`src/ir/IR.h`,
`src/ir/IR.cpp`).  `undef` is the null `Stmt` handle (for example the
absent `else_case` of an `IfThenElse`). -/
inductive Stmt where
  | undef
  | letStmt (var : Var) (value : Expr) (body : Stmt)
  | attrStmt (node : Nat) (attr_key : String) (value : Expr) (body : Stmt)
  | assertStmt (condition message : Expr) (body : Stmt)
  | producerConsumer (func : Nat) (is_producer : Bool) (body : Stmt)
  | forS (loop_var : Var) (min extent : Expr) (for_type : ForType)
      (device_api : Nat) (body : Stmt)
  | store (buffer_var : Var) (value index predicate : Expr)
  | provide (func : Nat) (value_index : Int) (value : Expr) (args : List Expr)
  | allocate (buffer_var : Var) (t : Ty) (extents : List Expr)
      (condition : Expr) (body : Stmt) (new_expr : Expr)
      (free_function : String)
  | free (buffer_var : Var)
  | realize (func : Nat) (value_index : Int) (t : Ty)
      (bounds : List (Expr × Expr)) (condition : Expr) (body : Stmt)
  | prefetch (func : Nat) (value_index : Int) (t : Ty)
      (bounds : List (Expr × Expr))
  | block (first rest : Stmt)
  | ifThenElse (condition : Expr) (then_case else_case : Stmt)
  | evaluate (value : Expr)
deriving DecidableEq, Repr

instance : Inhabited Expr := ⟨Expr.undef⟩
instance : Inhabited Stmt := ⟨Stmt.undef⟩

namespace ExprList

def length : ExprList → Nat
  | .nil => 0
  | .cons _ tl => tl.length + 1

def toList : ExprList → List Expr
  | .nil => []
  | .cons hd tl => hd :: tl.toList

def ofList : List Expr → ExprList
  | [] => .nil
  | hd :: tl => .cons hd (ofList tl)

end ExprList

namespace Expr

/-- `Expr::defined()`: the handle is not null. -/
def defined : Expr → Bool
  | .undef => false
  | _ => true

/-- `Expr::type()`: the node's type attribute, as the smart constructors
of `src/ir/IR.cpp` assign it (binary arithmetic takes `a.type()`,
comparisons and logical nodes take `Bool(a.type().lanes())`, and so on).
On the null handle the source would fault; the embedding returns
`int32`. -/
def type : Expr → Ty
  | .undef => int32
  | .intImm t _ => t
  | .uintImm t _ => t
  | .floatImm t _ => t
  | .stringImm _ => handleTy
  | .cast t _ => t
  | .var v => v.type
  | .add a _ => a.type
  | .sub a _ => a.type
  | .mul a _ => a.type
  | .div a _ => a.type
  | .mod a _ => a.type
  | .min a _ => a.type
  | .max a _ => a.type
  | .eq a _ => boolTy a.type.lanes
  | .ne a _ => boolTy a.type.lanes
  | .lt a _ => boolTy a.type.lanes
  | .le a _ => boolTy a.type.lanes
  | .gt a _ => boolTy a.type.lanes
  | .ge a _ => boolTy a.type.lanes
  | .and a _ => boolTy a.type.lanes
  | .or a _ => boolTy a.type.lanes
  | .not a => boolTy a.type.lanes
  | .select _ t _ => t.type
  | .load t _ _ _ => t
  | .ramp base _ lanes => base.type.with_lanes lanes
  | .broadcast value lanes => value.type.with_lanes lanes
  | .call t _ _ _ _ _ => t
  | .letE _ _ body => body.type
  | .shuffle vectors indices =>
    match vectors with
    | .cons v _ => (v.type.element_of).with_lanes indices.length
    | .nil => int32

end Expr

namespace Stmt

/-- `Stmt::defined()`. -/
def defined : Stmt → Bool
  | .undef => false
  | _ => true

end Stmt

/-! ## Constant test and CSE eligibility (`src/pass/CSE.cpp`) -/

/-- Modelled from the spec: `is_const` is declared in `IROperator.h`,
which is not among the sources; the spec calls an expression a constant
when it is a literal immediate (integer, unsigned, float or string
literal). -/
def is_const : Expr → Bool
  | .intImm _ _ => true
  | .uintImm _ _ => true
  | .floatImm _ _ => true
  | .stringImm _ => true
  | _ => false

/-- `should_extract` (`src/pass/CSE.cpp`): whether a subexpression is
worth lifting into a let. -/
def should_extract (e : Expr) : Bool :=
  if is_const e then false
  else
    match e with
    | .var _ => false
    | .broadcast value _ => should_extract value
    | .cast _ value => should_extract value
    | .add a b => !(is_const a || is_const b)
    | .sub a b => !(is_const a || is_const b)
    | .mul a b => !(is_const a || is_const b)
    | .div a b => !(is_const a || is_const b)
    | .ramp _ stride _ => !(is_const stride)
    | _ => true

/-! ## Smart constructors (`src/ir/IR.cpp`)

A failing `internal_assert`/`user_error` is modelled by `Except.error`
carrying the diagnostic message. -/

/-- `IntImm::make` (`src/ir/IR.cpp`).  The value is normalised by the
source with `value <<= (64 - t.bits()); value >>= (64 - t.bits());` on a
64-bit signed integer: the left shift wraps modulo `2 ^ 64` (the
sanitiser is explicitly disabled on this function) and the right shift
is an arithmetic shift, i.e. floor division. -/
def IntImm.make (t : Ty) (value : Int) : Except String Expr :=
  if ¬(t.is_int && t.is_scalar) then .error "IntImm must be a scalar Int"
  else if ¬(t.bits = 8 || t.bits = 16 || t.bits = 32 || t.bits = 64) then
    .error "IntImm must be 8, 16, 32, or 64-bit"
  else
    let shifted : Int := Int.bmod (value * 2 ^ (64 - t.bits)) (2 ^ 64)
    .ok (.intImm t (Int.fdiv shifted (2 ^ (64 - t.bits))))

/-- `UIntImm::make` (`src/ir/IR.cpp`): both shifts are logical, so the
stored value is the value reduced modulo `2 ^ bits`. -/
def UIntImm.make (t : Ty) (value : Nat) : Except String Expr :=
  if ¬(t.is_uint && t.is_scalar) then .error "UIntImm must be a scalar UInt"
  else if ¬(t.bits = 1 || t.bits = 8 || t.bits = 16 || t.bits = 32 || t.bits = 64) then
    .error "UIntImm must be 1, 8, 16, 32, or 64-bit"
  else .ok (.uintImm t (value % 2 ^ t.bits))

/-- `e.as<IntImm>()`: the stored value when the node is an integer
immediate. -/
def asIntImm : Expr → Option Int
  | .intImm _ v => some v
  | _ => none

/-- The loop body of `Allocate::constant_allocation_size`
(`src/ir/IR.cpp`): `result` is a 64-bit signed accumulator, so each
multiplication wraps modulo `2 ^ 64`; after every multiplication the
accumulator is compared against `2 ^ 31 - 1` and a `user_error` is
raised on excess; a non-literal extent returns 0 immediately. -/
def constant_allocation_size_go (name : String) :
    List Expr → Int → Except String Int
  | [], result => .ok (Int.bmod result (2 ^ 32))
  | extent :: rest, result =>
    match asIntImm extent with
    | some v =>
      let result' := Int.bmod (result * v) (2 ^ 64)
      if result' > 2 ^ 31 - 1 then
        .error ("Total size for allocation " ++ name ++
          " is constant but exceeds 2^31 - 1.")
      else constant_allocation_size_go name rest result'
    | none => .ok 0

/-- `Allocate::constant_allocation_size(extents, name)`
(`src/ir/IR.cpp`): the final `return static_cast<int32_t>(result)` casts
the 64-bit accumulator to 32 bits, modelled by a balanced reduction
modulo `2 ^ 32`. -/
def Allocate.constant_allocation_size (extents : List Expr) (name : String) :
    Except String Int :=
  constant_allocation_size_go name extents 1

/-- `Block::make(first, rest)` (`src/ir/IR.cpp`): canonicalises nested
blocks so the spine leans right.  The two `internal_assert`s on
definedness guard the entry; the restructuring itself is total and is
what the claims inspect, so the checked entry point is separate
(`Block.make_checked`). -/
def Block.make : Stmt → Stmt → Stmt
  | .block bfirst brest, rest => .block bfirst (Block.make brest rest)
  | first, rest => .block first rest

/-- `Block::make(first, rest)` including the definedness asserts. -/
def Block.make_checked (first rest : Stmt) : Except String Stmt :=
  if first.defined && rest.defined then .ok (Block.make first rest)
  else .error "Block of undefined"

/-- The `std::vector<Stmt>` overload `Block::make(stmts)`
(`src/ir/IR.cpp`): an empty vector yields the undefined `Stmt`;
otherwise the sequence is folded from the right through
`Block::make`. -/
def Block.makeList : List Stmt → Stmt
  | [] => .undef
  | [s] => s
  | s :: rest => Block.make s (Block.makeList rest)

/-- `IfThenElse::make` (`src/ir/IR.cpp`): asserts that the condition and
the then-branch are defined; the else-branch may be the null handle and
is stored as given. -/
def IfThenElse.make (condition : Expr) (then_case else_case : Stmt) :
    Except String Stmt :=
  if condition.defined && then_case.defined then
    .ok (.ifThenElse condition then_case else_case)
  else .error "IfThenElse of undefined"

/-! ## The default mutator (`src/ir/IRMutator.cpp`)

Each default `visit` mutates the node's children and, when every child
comes back identical to the original (`same_as`, modelled by structural
equality), returns the original node itself (`return_self`); otherwise
it rebuilds a node of the same kind from the mutated children.
`IRMutator::mutate` maps the null handle to the null handle.  The child
lists are those of `src/ir/IRMutator.cpp` (in particular `visit(Load)`
and `visit(Store)` mutate the index but not the predicate, and
`visit(AssertStmt)` mutates condition and message only); the kinds that
file does not list (`Shuffle`, `AttrStmt`, `Prefetch`) are modelled from
the spec: the default visit mutates every child and preserves identity
when nothing changed. -/

mutual

def mutateExpr : Expr → Expr
  | .undef => .undef
  | e@(.intImm _ _) => e
  | e@(.uintImm _ _) => e
  | e@(.floatImm _ _) => e
  | e@(.stringImm _) => e
  | e@(.var _) => e
  | e@(.cast t value) =>
    let value' := mutateExpr value
    if value' = value then e else .cast t value'
  | e@(.add a b) =>
    let a' := mutateExpr a
    let b' := mutateExpr b
    if a' = a ∧ b' = b then e else .add a' b'
  | e@(.sub a b) =>
    let a' := mutateExpr a
    let b' := mutateExpr b
    if a' = a ∧ b' = b then e else .sub a' b'
  | e@(.mul a b) =>
    let a' := mutateExpr a
    let b' := mutateExpr b
    if a' = a ∧ b' = b then e else .mul a' b'
  | e@(.div a b) =>
    let a' := mutateExpr a
    let b' := mutateExpr b
    if a' = a ∧ b' = b then e else .div a' b'
  | e@(.mod a b) =>
    let a' := mutateExpr a
    let b' := mutateExpr b
    if a' = a ∧ b' = b then e else .mod a' b'
  | e@(.min a b) =>
    let a' := mutateExpr a
    let b' := mutateExpr b
    if a' = a ∧ b' = b then e else .min a' b'
  | e@(.max a b) =>
    let a' := mutateExpr a
    let b' := mutateExpr b
    if a' = a ∧ b' = b then e else .max a' b'
  | e@(.eq a b) =>
    let a' := mutateExpr a
    let b' := mutateExpr b
    if a' = a ∧ b' = b then e else .eq a' b'
  | e@(.ne a b) =>
    let a' := mutateExpr a
    let b' := mutateExpr b
    if a' = a ∧ b' = b then e else .ne a' b'
  | e@(.lt a b) =>
    let a' := mutateExpr a
    let b' := mutateExpr b
    if a' = a ∧ b' = b then e else .lt a' b'
  | e@(.le a b) =>
    let a' := mutateExpr a
    let b' := mutateExpr b
    if a' = a ∧ b' = b then e else .le a' b'
  | e@(.gt a b) =>
    let a' := mutateExpr a
    let b' := mutateExpr b
    if a' = a ∧ b' = b then e else .gt a' b'
  | e@(.ge a b) =>
    let a' := mutateExpr a
    let b' := mutateExpr b
    if a' = a ∧ b' = b then e else .ge a' b'
  | e@(.and a b) =>
    let a' := mutateExpr a
    let b' := mutateExpr b
    if a' = a ∧ b' = b then e else .and a' b'
  | e@(.or a b) =>
    let a' := mutateExpr a
    let b' := mutateExpr b
    if a' = a ∧ b' = b then e else .or a' b'
  | e@(.not a) =>
    let a' := mutateExpr a
    if a' = a then e else .not a'
  | e@(.select c t f) =>
    let c' := mutateExpr c
    let t' := mutateExpr t
    let f' := mutateExpr f
    if c' = c ∧ t' = t ∧ f' = f then e else .select c' t' f'
  | e@(.load t bv index pred) =>
    let index' := mutateExpr index
    if index' = index then e else .load t bv index' pred
  | e@(.ramp base stride lanes) =>
    let base' := mutateExpr base
    let stride' := mutateExpr stride
    if base' = base ∧ stride' = stride then e else .ramp base' stride' lanes
  | e@(.broadcast value lanes) =>
    let value' := mutateExpr value
    if value' = value then e else .broadcast value' lanes
  | e@(.call t nm args ct f vi) =>
    let args' := mutateExprList args
    if args' = args then e else .call t nm args' ct f vi
  | e@(.letE v value body) =>
    let value' := mutateExpr value
    let body' := mutateExpr body
    if value' = value ∧ body' = body then e else .letE v value' body'
  | e@(.shuffle vectors indices) =>
    let vectors' := mutateExprList vectors
    let indices' := mutateExprList indices
    if vectors' = vectors ∧ indices' = indices then e
    else .shuffle vectors' indices'

def mutateExprList : ExprList → ExprList
  | .nil => .nil
  | .cons hd tl => .cons (mutateExpr hd) (mutateExprList tl)

end

/-- The default statement mutator (`src/ir/IRMutator.cpp`); `visit(Block)`
rebuilds through `Block::make`. -/
def mutateStmt : Stmt → Stmt
  | .undef => .undef
  | s@(.letStmt v value body) =>
    let value' := mutateExpr value
    let body' := mutateStmt body
    if value' = value ∧ body' = body then s else .letStmt v value' body'
  | s@(.attrStmt n k value body) =>
    let value' := mutateExpr value
    let body' := mutateStmt body
    if value' = value ∧ body' = body then s else .attrStmt n k value' body'
  | s@(.assertStmt condition message body) =>
    let condition' := mutateExpr condition
    let message' := mutateExpr message
    if condition' = condition ∧ message' = message then s
    else .assertStmt condition' message' body
  | s@(.producerConsumer f p body) =>
    let body' := mutateStmt body
    if body' = body then s else .producerConsumer f p body'
  | s@(.forS lv mn ext ft dev body) =>
    let mn' := mutateExpr mn
    let ext' := mutateExpr ext
    let body' := mutateStmt body
    if mn' = mn ∧ ext' = ext ∧ body' = body then s
    else .forS lv mn' ext' ft dev body'
  | s@(.store bv value index pred) =>
    let value' := mutateExpr value
    let index' := mutateExpr index
    if value' = value ∧ index' = index then s else .store bv value' index' pred
  | s@(.provide f vi value args) =>
    let value' := mutateExpr value
    let args' := args.map mutateExpr
    if value' = value ∧ args' = args then s else .provide f vi value' args'
  | s@(.allocate bv t extents condition body new_expr ff) =>
    let extents' := extents.map mutateExpr
    let body' := mutateStmt body
    let condition' := mutateExpr condition
    let new_expr' := mutateExpr new_expr
    if extents' = extents ∧ body' = body ∧ condition' = condition ∧
        new_expr' = new_expr then s
    else .allocate bv t extents' condition' body' new_expr' ff
  | s@(.free _) => s
  | s@(.realize f vi t bounds condition body) =>
    let bounds' := bounds.map (fun p => (mutateExpr p.1, mutateExpr p.2))
    let body' := mutateStmt body
    let condition' := mutateExpr condition
    if bounds' = bounds ∧ body' = body ∧ condition' = condition then s
    else .realize f vi t bounds' condition' body'
  | s@(.prefetch f vi t bounds) =>
    let bounds' := bounds.map (fun p => (mutateExpr p.1, mutateExpr p.2))
    if bounds' = bounds then s else .prefetch f vi t bounds'
  | s@(.block first rest) =>
    let first' := mutateStmt first
    let rest' := mutateStmt rest
    if first' = first ∧ rest' = rest then s else Block.make first' rest'
  | s@(.ifThenElse condition then_case else_case) =>
    let condition' := mutateExpr condition
    let then_case' := mutateStmt then_case
    let else_case' := mutateStmt else_case
    if condition' = condition ∧ then_case' = then_case ∧
        else_case' = else_case then s
    else .ifThenElse condition' then_case' else_case'
  | s@(.evaluate value) =>
    let value' := mutateExpr value
    if value' = value then s else .evaluate value'

/-! ## Common-subexpression elimination (`src/pass/CSE.cpp`)

The embedding replaces the two memo tables of `GVN` — the
pointer-keyed `shallow_numbering` and the structural `numbering` — by a
single structural lookup over the entry list: on the canonical forms
the pass manipulates, structurally equal nodes are the same node, so
pointer identity and structural equality coincide and the two tables
answer alike.  The `Scope` of let substitutions is a stack keyed by the
variable (type and name), with shadowing. -/

/-- `std::to_string` for a natural number: big-endian decimal digits.
The fuel argument is the number itself (ample, since `n / 10 < n` for
positive `n`); spelled with fuel so that the kernel can evaluate it. -/
def decDigitsAux : Nat → Nat → List Char
  | _, 0 => []
  | 0, _ + 1 => []
  | fuel + 1, n + 1 =>
    decDigitsAux fuel ((n + 1) / 10) ++ [Char.ofNat (48 + (n + 1) % 10)]

/-- `std::to_string(n)` as a character list. -/
def decRepr (n : Nat) : List Char :=
  if n = 0 then ['0'] else decDigitsAux n n

/-- `std::to_string(n)` as a string. -/
def natStr (n : Nat) : String := String.mk (decRepr n)

/-- One `GVN::Entry`: the canonical expression and its use count. -/
structure GVNEntry where
  expr : Expr
  use_count : Nat
deriving DecidableEq, Repr

instance : Inhabited GVNEntry := ⟨⟨Expr.undef, 0⟩⟩

/-- The mutable state of the `GVN` mutator. -/
structure GVNState where
  entries : List GVNEntry
  let_substitutions : List (Var × Nat)
deriving Repr

/-- `Scope::get` after `Scope::contains`: the innermost binding of the
variable. -/
def scopeGet (s : List (Var × Nat)) (v : Var) : Option Nat :=
  (s.find? (fun p => p.1 == v)).map (·.2)

/-- `Scope::pop`: drop the innermost binding of the variable. -/
def scopePop (v : Var) : List (Var × Nat) → List (Var × Nat)
  | [] => []
  | p :: rest => if p.1 == v then rest else p :: scopePop v rest

/-- Look an expression up in the numbering: the index of the first
entry holding the expression. -/
def findNumber : List GVNEntry → Expr → Option Nat
  | [], _ => none
  | en :: rest, e =>
    if en.expr == e then some 0 else (findNumber rest e).map (· + 1)

/-- `entries[n].expr`, the canonical form stored at a number. -/
def canonicalOf (entries : List GVNEntry) (n : Nat) : Expr :=
  (entries.getD n default).expr

/-- Append a fresh entry (`use_count = 0`) and return its number. -/
def gvnAdd (e : Expr) (st : GVNState) : Nat × GVNState :=
  (st.entries.length, { st with entries := st.entries ++ [⟨e, 0⟩] })

/-- The common tail of the rebuild branch of `GVN::mutate`: look the
rebuilt node up in the numbering and either return its number or append
a fresh entry. -/
def gvnFinish (e : Expr) (st : GVNState) : Nat × GVNState :=
  match findNumber st.entries e with
  | some n => (n, st)
  | none => gvnAdd e st

mutual

/-- `GVN::mutate` (`src/pass/CSE.cpp`): returns the number assigned to
the expression (the source also returns `entries[number].expr` and
stores the number in a member; the pair here carries the same data).
A hit in the numbering returns the existing number; a variable carrying
a let substitution is redirected; a `Let` is inlined by
`GVN::visit(Let)`: value first, then the body under the substitution;
anything else is rebuilt, in default-mutator child order, from the
canonical forms of its children (`gvnFinish` then looks the rebuilt
node up again and otherwise appends a fresh entry). -/
def gvnMutate (e : Expr) (st : GVNState) : Nat × GVNState :=
  match e with
  | .var v =>
    match findNumber st.entries e with
    | some n => (n, st)
    | none =>
      match scopeGet st.let_substitutions v with
      | some n => (n, st)
      | none => gvnAdd e st
  | .letE v value body =>
    match findNumber st.entries e with
    | some n => (n, st)
    | none =>
      let r1 := gvnMutate value st
      let st2 := { r1.2 with
        let_substitutions := (v, r1.1) :: r1.2.let_substitutions }
      let r2 := gvnMutate body st2
      (r2.1, { r2.2 with
        let_substitutions := scopePop v r2.2.let_substitutions })
  | .cast t value =>
    match findNumber st.entries e with
    | some n => (n, st)
    | none =>
      let r := gvnMutate value st
      gvnFinish (.cast t (canonicalOf r.2.entries r.1)) r.2
  | .add a b =>
    match findNumber st.entries e with
    | some n => (n, st)
    | none =>
      let r1 := gvnMutate a st
      let r2 := gvnMutate b r1.2
      gvnFinish (.add (canonicalOf r2.2.entries r1.1)
        (canonicalOf r2.2.entries r2.1)) r2.2
  | .sub a b =>
    match findNumber st.entries e with
    | some n => (n, st)
    | none =>
      let r1 := gvnMutate a st
      let r2 := gvnMutate b r1.2
      gvnFinish (.sub (canonicalOf r2.2.entries r1.1)
        (canonicalOf r2.2.entries r2.1)) r2.2
  | .mul a b =>
    match findNumber st.entries e with
    | some n => (n, st)
    | none =>
      let r1 := gvnMutate a st
      let r2 := gvnMutate b r1.2
      gvnFinish (.mul (canonicalOf r2.2.entries r1.1)
        (canonicalOf r2.2.entries r2.1)) r2.2
  | .div a b =>
    match findNumber st.entries e with
    | some n => (n, st)
    | none =>
      let r1 := gvnMutate a st
      let r2 := gvnMutate b r1.2
      gvnFinish (.div (canonicalOf r2.2.entries r1.1)
        (canonicalOf r2.2.entries r2.1)) r2.2
  | .mod a b =>
    match findNumber st.entries e with
    | some n => (n, st)
    | none =>
      let r1 := gvnMutate a st
      let r2 := gvnMutate b r1.2
      gvnFinish (.mod (canonicalOf r2.2.entries r1.1)
        (canonicalOf r2.2.entries r2.1)) r2.2
  | .min a b =>
    match findNumber st.entries e with
    | some n => (n, st)
    | none =>
      let r1 := gvnMutate a st
      let r2 := gvnMutate b r1.2
      gvnFinish (.min (canonicalOf r2.2.entries r1.1)
        (canonicalOf r2.2.entries r2.1)) r2.2
  | .max a b =>
    match findNumber st.entries e with
    | some n => (n, st)
    | none =>
      let r1 := gvnMutate a st
      let r2 := gvnMutate b r1.2
      gvnFinish (.max (canonicalOf r2.2.entries r1.1)
        (canonicalOf r2.2.entries r2.1)) r2.2
  | .eq a b =>
    match findNumber st.entries e with
    | some n => (n, st)
    | none =>
      let r1 := gvnMutate a st
      let r2 := gvnMutate b r1.2
      gvnFinish (.eq (canonicalOf r2.2.entries r1.1)
        (canonicalOf r2.2.entries r2.1)) r2.2
  | .ne a b =>
    match findNumber st.entries e with
    | some n => (n, st)
    | none =>
      let r1 := gvnMutate a st
      let r2 := gvnMutate b r1.2
      gvnFinish (.ne (canonicalOf r2.2.entries r1.1)
        (canonicalOf r2.2.entries r2.1)) r2.2
  | .lt a b =>
    match findNumber st.entries e with
    | some n => (n, st)
    | none =>
      let r1 := gvnMutate a st
      let r2 := gvnMutate b r1.2
      gvnFinish (.lt (canonicalOf r2.2.entries r1.1)
        (canonicalOf r2.2.entries r2.1)) r2.2
  | .le a b =>
    match findNumber st.entries e with
    | some n => (n, st)
    | none =>
      let r1 := gvnMutate a st
      let r2 := gvnMutate b r1.2
      gvnFinish (.le (canonicalOf r2.2.entries r1.1)
        (canonicalOf r2.2.entries r2.1)) r2.2
  | .gt a b =>
    match findNumber st.entries e with
    | some n => (n, st)
    | none =>
      let r1 := gvnMutate a st
      let r2 := gvnMutate b r1.2
      gvnFinish (.gt (canonicalOf r2.2.entries r1.1)
        (canonicalOf r2.2.entries r2.1)) r2.2
  | .ge a b =>
    match findNumber st.entries e with
    | some n => (n, st)
    | none =>
      let r1 := gvnMutate a st
      let r2 := gvnMutate b r1.2
      gvnFinish (.ge (canonicalOf r2.2.entries r1.1)
        (canonicalOf r2.2.entries r2.1)) r2.2
  | .and a b =>
    match findNumber st.entries e with
    | some n => (n, st)
    | none =>
      let r1 := gvnMutate a st
      let r2 := gvnMutate b r1.2
      gvnFinish (.and (canonicalOf r2.2.entries r1.1)
        (canonicalOf r2.2.entries r2.1)) r2.2
  | .or a b =>
    match findNumber st.entries e with
    | some n => (n, st)
    | none =>
      let r1 := gvnMutate a st
      let r2 := gvnMutate b r1.2
      gvnFinish (.or (canonicalOf r2.2.entries r1.1)
        (canonicalOf r2.2.entries r2.1)) r2.2
  | .not a =>
    match findNumber st.entries e with
    | some n => (n, st)
    | none =>
      let r := gvnMutate a st
      gvnFinish (.not (canonicalOf r.2.entries r.1)) r.2
  | .select c t f =>
    match findNumber st.entries e with
    | some n => (n, st)
    | none =>
      let r1 := gvnMutate c st
      let r2 := gvnMutate t r1.2
      let r3 := gvnMutate f r2.2
      gvnFinish (.select (canonicalOf r3.2.entries r1.1)
        (canonicalOf r3.2.entries r2.1) (canonicalOf r3.2.entries r3.1)) r3.2
  | .load t bv index pred =>
    match findNumber st.entries e with
    | some n => (n, st)
    | none =>
      let r := gvnMutate index st
      gvnFinish (.load t bv (canonicalOf r.2.entries r.1) pred) r.2
  | .ramp base stride lanes =>
    match findNumber st.entries e with
    | some n => (n, st)
    | none =>
      let r1 := gvnMutate base st
      let r2 := gvnMutate stride r1.2
      gvnFinish (.ramp (canonicalOf r2.2.entries r1.1)
        (canonicalOf r2.2.entries r2.1) lanes) r2.2
  | .broadcast value lanes =>
    match findNumber st.entries e with
    | some n => (n, st)
    | none =>
      let r := gvnMutate value st
      gvnFinish (.broadcast (canonicalOf r.2.entries r.1) lanes) r.2
  | .call t nm args ct f vi =>
    match findNumber st.entries e with
    | some n => (n, st)
    | none =>
      let r := gvnMutateList args st
      gvnFinish (.call t nm r.1 ct f vi) r.2
  | .shuffle vectors indices =>
    match findNumber st.entries e with
    | some n => (n, st)
    | none =>
      let r1 := gvnMutateList vectors st
      let r2 := gvnMutateList indices r1.2
      gvnFinish (.shuffle r1.1 r2.1) r2.2
  | other =>
    match findNumber st.entries e with
    | some n => (n, st)
    | none => gvnFinish other st

/-- Child-list traversal for `Call`/`Shuffle` argument vectors: each
element is mutated and replaced by its canonical form. -/
def gvnMutateList (es : ExprList) (st : GVNState) : ExprList × GVNState :=
  match es with
  | .nil => (.nil, st)
  | .cons hd tl =>
    let r1 := gvnMutate hd st
    let r2 := gvnMutateList tl r1.2
    (.cons (canonicalOf r2.2.entries r1.1) r2.1, r2.2)

end


/-- Increment `entries[n].use_count`. -/
def bumpUse : List GVNEntry → Nat → List GVNEntry
  | [], _ => []
  | en :: rest, 0 => { en with use_count := en.use_count + 1 } :: rest
  | en :: rest, n + 1 => en :: bumpUse rest n

/-- The state of `ComputeUseCounts`: the entry list being annotated and
the `visited` set of the graph visitor (structural identity, see the
note on `GVNState`). -/
structure CUState where
  entries : List GVNEntry
  visited : List Expr


/-- The root step of `ComputeUseCounts::include`: bump the use count
of an extractable node (even when already visited), and report whether
the children should be visited. -/
def cuRoot (e : Expr) (st : CUState) : CUState × Bool :=
  if ¬should_extract e then (st, true)
  else
    let entries' :=
      match findNumber st.entries e with
      | some n => bumpUse st.entries n
      | none => st.entries
    if st.visited.contains e then ({ st with entries := entries' }, false)
    else ({ entries := entries', visited := e :: st.visited }, true)

mutual

/-- `ComputeUseCounts::include` (`src/pass/CSE.cpp`): a non-extractable
node only forwards to its children (every time it is seen); an
extractable node bumps the use count of its entry, then visits its
children unless it was already visited.  The child order is that of the
default visitor. -/
def cuInclude (e : Expr) (st : CUState) : CUState :=
  match e with
  | .cast _ value =>
    let r := cuRoot e st
    if r.2 then cuInclude value r.1 else r.1
  | .add a b =>
    let r := cuRoot e st
    if r.2 then cuInclude b (cuInclude a r.1) else r.1
  | .sub a b =>
    let r := cuRoot e st
    if r.2 then cuInclude b (cuInclude a r.1) else r.1
  | .mul a b =>
    let r := cuRoot e st
    if r.2 then cuInclude b (cuInclude a r.1) else r.1
  | .div a b =>
    let r := cuRoot e st
    if r.2 then cuInclude b (cuInclude a r.1) else r.1
  | .mod a b =>
    let r := cuRoot e st
    if r.2 then cuInclude b (cuInclude a r.1) else r.1
  | .min a b =>
    let r := cuRoot e st
    if r.2 then cuInclude b (cuInclude a r.1) else r.1
  | .max a b =>
    let r := cuRoot e st
    if r.2 then cuInclude b (cuInclude a r.1) else r.1
  | .eq a b =>
    let r := cuRoot e st
    if r.2 then cuInclude b (cuInclude a r.1) else r.1
  | .ne a b =>
    let r := cuRoot e st
    if r.2 then cuInclude b (cuInclude a r.1) else r.1
  | .lt a b =>
    let r := cuRoot e st
    if r.2 then cuInclude b (cuInclude a r.1) else r.1
  | .le a b =>
    let r := cuRoot e st
    if r.2 then cuInclude b (cuInclude a r.1) else r.1
  | .gt a b =>
    let r := cuRoot e st
    if r.2 then cuInclude b (cuInclude a r.1) else r.1
  | .ge a b =>
    let r := cuRoot e st
    if r.2 then cuInclude b (cuInclude a r.1) else r.1
  | .and a b =>
    let r := cuRoot e st
    if r.2 then cuInclude b (cuInclude a r.1) else r.1
  | .or a b =>
    let r := cuRoot e st
    if r.2 then cuInclude b (cuInclude a r.1) else r.1
  | .not a =>
    let r := cuRoot e st
    if r.2 then cuInclude a r.1 else r.1
  | .select c t f =>
    let r := cuRoot e st
    if r.2 then cuInclude f (cuInclude t (cuInclude c r.1)) else r.1
  | .load _ _ index _ =>
    let r := cuRoot e st
    if r.2 then cuInclude index r.1 else r.1
  | .ramp base stride _ =>
    let r := cuRoot e st
    if r.2 then cuInclude stride (cuInclude base r.1) else r.1
  | .broadcast value _ =>
    let r := cuRoot e st
    if r.2 then cuInclude value r.1 else r.1
  | .call _ _ args _ _ _ =>
    let r := cuRoot e st
    if r.2 then cuIncludeList args r.1 else r.1
  | .letE _ value body =>
    let r := cuRoot e st
    if r.2 then cuInclude body (cuInclude value r.1) else r.1
  | .shuffle vectors indices =>
    let r := cuRoot e st
    if r.2 then cuIncludeList indices (cuIncludeList vectors r.1) else r.1
  | _ =>
    let r := cuRoot e st
    r.1

def cuIncludeList (es : ExprList) (st : CUState) : CUState :=
  match es with
  | .nil => st
  | .cons hd tl => cuIncludeList tl (cuInclude hd st)

end


/-- The replacement map of `Replacer`, in insertion order; keys are
unique. -/
abbrev ReplMap := List (Expr × Expr)

/-- `replacements.find(e)`. -/
def replFind (m : ReplMap) (e : Expr) : Option Expr :=
  (m.find? (fun p => p.1 == e)).map (·.2)

/-- `replacements.erase(e)`: drop the binding of the key, if any. -/
def replErase (m : ReplMap) (e : Expr) : ReplMap :=
  m.filter (fun p => ¬(p.1 == e))


mutual

/-- `Replacer::mutate` (`src/pass/CSE.cpp`): a hit in the replacement
map short-circuits; otherwise the node is rebuilt from the mutated
children (default-mutator order) and the result is memoised with
`replacements[e] = new_e`. -/
def replMutate (e : Expr) (m : ReplMap) : Expr × ReplMap :=
  match e with
  | .cast t value =>
    match replFind m e with
    | some r => (r, m)
    | none =>
      let r1 := replMutate value m
      let x : Expr := .cast t r1.1
      (x, r1.2 ++ [(e, x)])
  | .add a b =>
    match replFind m e with
    | some r => (r, m)
    | none =>
      let r1 := replMutate a m
      let r2 := replMutate b r1.2
      let x : Expr := .add r1.1 r2.1
      (x, r2.2 ++ [(e, x)])
  | .sub a b =>
    match replFind m e with
    | some r => (r, m)
    | none =>
      let r1 := replMutate a m
      let r2 := replMutate b r1.2
      let x : Expr := .sub r1.1 r2.1
      (x, r2.2 ++ [(e, x)])
  | .mul a b =>
    match replFind m e with
    | some r => (r, m)
    | none =>
      let r1 := replMutate a m
      let r2 := replMutate b r1.2
      let x : Expr := .mul r1.1 r2.1
      (x, r2.2 ++ [(e, x)])
  | .div a b =>
    match replFind m e with
    | some r => (r, m)
    | none =>
      let r1 := replMutate a m
      let r2 := replMutate b r1.2
      let x : Expr := .div r1.1 r2.1
      (x, r2.2 ++ [(e, x)])
  | .mod a b =>
    match replFind m e with
    | some r => (r, m)
    | none =>
      let r1 := replMutate a m
      let r2 := replMutate b r1.2
      let x : Expr := .mod r1.1 r2.1
      (x, r2.2 ++ [(e, x)])
  | .min a b =>
    match replFind m e with
    | some r => (r, m)
    | none =>
      let r1 := replMutate a m
      let r2 := replMutate b r1.2
      let x : Expr := .min r1.1 r2.1
      (x, r2.2 ++ [(e, x)])
  | .max a b =>
    match replFind m e with
    | some r => (r, m)
    | none =>
      let r1 := replMutate a m
      let r2 := replMutate b r1.2
      let x : Expr := .max r1.1 r2.1
      (x, r2.2 ++ [(e, x)])
  | .eq a b =>
    match replFind m e with
    | some r => (r, m)
    | none =>
      let r1 := replMutate a m
      let r2 := replMutate b r1.2
      let x : Expr := .eq r1.1 r2.1
      (x, r2.2 ++ [(e, x)])
  | .ne a b =>
    match replFind m e with
    | some r => (r, m)
    | none =>
      let r1 := replMutate a m
      let r2 := replMutate b r1.2
      let x : Expr := .ne r1.1 r2.1
      (x, r2.2 ++ [(e, x)])
  | .lt a b =>
    match replFind m e with
    | some r => (r, m)
    | none =>
      let r1 := replMutate a m
      let r2 := replMutate b r1.2
      let x : Expr := .lt r1.1 r2.1
      (x, r2.2 ++ [(e, x)])
  | .le a b =>
    match replFind m e with
    | some r => (r, m)
    | none =>
      let r1 := replMutate a m
      let r2 := replMutate b r1.2
      let x : Expr := .le r1.1 r2.1
      (x, r2.2 ++ [(e, x)])
  | .gt a b =>
    match replFind m e with
    | some r => (r, m)
    | none =>
      let r1 := replMutate a m
      let r2 := replMutate b r1.2
      let x : Expr := .gt r1.1 r2.1
      (x, r2.2 ++ [(e, x)])
  | .ge a b =>
    match replFind m e with
    | some r => (r, m)
    | none =>
      let r1 := replMutate a m
      let r2 := replMutate b r1.2
      let x : Expr := .ge r1.1 r2.1
      (x, r2.2 ++ [(e, x)])
  | .and a b =>
    match replFind m e with
    | some r => (r, m)
    | none =>
      let r1 := replMutate a m
      let r2 := replMutate b r1.2
      let x : Expr := .and r1.1 r2.1
      (x, r2.2 ++ [(e, x)])
  | .or a b =>
    match replFind m e with
    | some r => (r, m)
    | none =>
      let r1 := replMutate a m
      let r2 := replMutate b r1.2
      let x : Expr := .or r1.1 r2.1
      (x, r2.2 ++ [(e, x)])
  | .not a =>
    match replFind m e with
    | some r => (r, m)
    | none =>
      let r1 := replMutate a m
      let x : Expr := .not r1.1
      (x, r1.2 ++ [(e, x)])
  | .select c t f =>
    match replFind m e with
    | some r => (r, m)
    | none =>
      let r1 := replMutate c m
      let r2 := replMutate t r1.2
      let r3 := replMutate f r2.2
      let x : Expr := .select r1.1 r2.1 r3.1
      (x, r3.2 ++ [(e, x)])
  | .load t bv index pred =>
    match replFind m e with
    | some r => (r, m)
    | none =>
      let r1 := replMutate index m
      let x : Expr := .load t bv r1.1 pred
      (x, r1.2 ++ [(e, x)])
  | .ramp base stride lanes =>
    match replFind m e with
    | some r => (r, m)
    | none =>
      let r1 := replMutate base m
      let r2 := replMutate stride r1.2
      let x : Expr := .ramp r1.1 r2.1 lanes
      (x, r2.2 ++ [(e, x)])
  | .broadcast value lanes =>
    match replFind m e with
    | some r => (r, m)
    | none =>
      let r1 := replMutate value m
      let x : Expr := .broadcast r1.1 lanes
      (x, r1.2 ++ [(e, x)])
  | .call t nm args ct f vi =>
    match replFind m e with
    | some r => (r, m)
    | none =>
      let r1 := replMutateList args m
      let x : Expr := .call t nm r1.1 ct f vi
      (x, r1.2 ++ [(e, x)])
  | .letE v value body =>
    match replFind m e with
    | some r => (r, m)
    | none =>
      let r1 := replMutate value m
      let r2 := replMutate body r1.2
      let x : Expr := .letE v r1.1 r2.1
      (x, r2.2 ++ [(e, x)])
  | .shuffle vectors indices =>
    match replFind m e with
    | some r => (r, m)
    | none =>
      let r1 := replMutateList vectors m
      let r2 := replMutateList indices r1.2
      let x : Expr := .shuffle r1.1 r2.1
      (x, r2.2 ++ [(e, x)])
  | other =>
    match replFind m e with
    | some r => (r, m)
    | none => (other, m ++ [(e, other)])

def replMutateList (es : ExprList) (m : ReplMap) : ExprList × ReplMap :=
  match es with
  | .nil => (.nil, m)
  | .cons hd tl =>
    let r1 := replMutate hd m
    let r2 := replMutateList tl r1.2
    (.cons r1.1 r2.1, r2.2)

end


/-- Is the expression a `Variable` node (`e.as<Variable>()`)? -/
def isVarExpr : Expr → Bool
  | .var _ => true
  | _ => false

/-- The let-selection loop of `common_subexpression_elimination`: walk
the entries in numbering order; every entry with `use_count > 1` gets a
fresh variable `unique_name('t')` — modelled by threading the `'t'`
counter, so the names are `"t" ++ k, "t" ++ (k+1), …` — typed like the
entry's expression. -/
def cseLetsGo : List GVNEntry → Nat → List (Var × Expr)
  | [], _ => []
  | en :: rest, k =>
    if en.use_count > 1 then
      (⟨en.expr.type, "t" ++ natStr k⟩, en.expr) :: cseLetsGo rest (k + 1)
    else cseLetsGo rest k

/-- The binding-emission loop of `common_subexpression_elimination`,
which walks the selected lets from the last to the first: for each, the
binding's own key is erased from the replacement map, the value is
rewritten with the remaining map, and the accumulated expression is
wrapped in the `Let`.  The argument list is the selected lets already
reversed. -/
def cseWrap : List (Var × Expr) → Expr → ReplMap → Expr
  | [], e, _ => e
  | (v, value) :: rest, e, m =>
    let m1 := replErase m value
    let r := replMutate value m1
    cseWrap rest (.letE v r.1 e) r.2

/-- `common_subexpression_elimination(Expr)` (`src/pass/CSE.cpp`),
parameterised by the current value `counter` of the global
`unique_name('t')` counter. -/
def cse (e : Expr) (counter : Nat) : Expr :=
  if is_const e || isVarExpr e then e
  else
    let r := gvnMutate e ⟨[], []⟩
    let c := canonicalOf r.2.entries r.1
    let entries := (cuInclude c ⟨r.2.entries, []⟩).entries
    let lets := cseLetsGo entries counter
    let repl : ReplMap := lets.map (fun p => (p.2, Expr.var p.1))
    let rb := replMutate c repl
    cseWrap lets.reverse rb.1 rb.2

/-- The state of `NormalizeVarExprs` (`src/pass/CSE.cpp`): the counter,
the replacement variables created so far, and the map from replaced
let-variables to replacement indices. -/
structure NormState where
  counter : Nat
  replacement_var_exprs : List Var
  new_var_exprs : List (Var × Nat)

mutual

/-- `NormalizeVarExprs::mutate` (`src/pass/CSE.cpp`): every `Let`
variable is renamed, in declaration order, to `t0, t1, …` (keeping the
variable's type); occurrences are rewritten through the map. -/
def normMutate (e : Expr) (st : NormState) : Expr × NormState :=
  match e with
  | .var v =>
    match (st.new_var_exprs.find? (fun p => p.1 == v)).map (·.2) with
    | none => (e, st)
    | some i => (.var (st.replacement_var_exprs.getD i ⟨int32, ""⟩), st)
  | .letE v value body =>
    let s1 :=
      if st.counter = st.replacement_var_exprs.length then
        let nv : Var := ⟨v.type, "t" ++ natStr st.counter⟩
        (nv, { st with
          replacement_var_exprs := st.replacement_var_exprs ++ [nv] })
      else (st.replacement_var_exprs.getD st.counter ⟨int32, ""⟩, st)
    let st2 : NormState := { s1.2 with
      new_var_exprs := (v, s1.2.counter) :: s1.2.new_var_exprs,
      counter := s1.2.counter + 1 }
    let r1 := normMutate value st2
    let r2 := normMutate body r1.2
    (.letE s1.1 r1.1 r2.1, r2.2)
  | .cast t value =>
    let r := normMutate value st
    (.cast t r.1, r.2)
  | .add a b =>
    let r1 := normMutate a st
    let r2 := normMutate b r1.2
    (.add r1.1 r2.1, r2.2)
  | .sub a b =>
    let r1 := normMutate a st
    let r2 := normMutate b r1.2
    (.sub r1.1 r2.1, r2.2)
  | .mul a b =>
    let r1 := normMutate a st
    let r2 := normMutate b r1.2
    (.mul r1.1 r2.1, r2.2)
  | .div a b =>
    let r1 := normMutate a st
    let r2 := normMutate b r1.2
    (.div r1.1 r2.1, r2.2)
  | .mod a b =>
    let r1 := normMutate a st
    let r2 := normMutate b r1.2
    (.mod r1.1 r2.1, r2.2)
  | .min a b =>
    let r1 := normMutate a st
    let r2 := normMutate b r1.2
    (.min r1.1 r2.1, r2.2)
  | .max a b =>
    let r1 := normMutate a st
    let r2 := normMutate b r1.2
    (.max r1.1 r2.1, r2.2)
  | .eq a b =>
    let r1 := normMutate a st
    let r2 := normMutate b r1.2
    (.eq r1.1 r2.1, r2.2)
  | .ne a b =>
    let r1 := normMutate a st
    let r2 := normMutate b r1.2
    (.ne r1.1 r2.1, r2.2)
  | .lt a b =>
    let r1 := normMutate a st
    let r2 := normMutate b r1.2
    (.lt r1.1 r2.1, r2.2)
  | .le a b =>
    let r1 := normMutate a st
    let r2 := normMutate b r1.2
    (.le r1.1 r2.1, r2.2)
  | .gt a b =>
    let r1 := normMutate a st
    let r2 := normMutate b r1.2
    (.gt r1.1 r2.1, r2.2)
  | .ge a b =>
    let r1 := normMutate a st
    let r2 := normMutate b r1.2
    (.ge r1.1 r2.1, r2.2)
  | .and a b =>
    let r1 := normMutate a st
    let r2 := normMutate b r1.2
    (.and r1.1 r2.1, r2.2)
  | .or a b =>
    let r1 := normMutate a st
    let r2 := normMutate b r1.2
    (.or r1.1 r2.1, r2.2)
  | .not a =>
    let r := normMutate a st
    (.not r.1, r.2)
  | .select c t f =>
    let r1 := normMutate c st
    let r2 := normMutate t r1.2
    let r3 := normMutate f r2.2
    (.select r1.1 r2.1 r3.1, r3.2)
  | .load t bv index pred =>
    let r := normMutate index st
    (.load t bv r.1 pred, r.2)
  | .ramp base stride lanes =>
    let r1 := normMutate base st
    let r2 := normMutate stride r1.2
    (.ramp r1.1 r2.1 lanes, r2.2)
  | .broadcast value lanes =>
    let r := normMutate value st
    (.broadcast r.1 lanes, r.2)
  | .call t nm args ct f vi =>
    let r := normMutateList args st
    (.call t nm r.1 ct f vi, r.2)
  | .shuffle vectors indices =>
    let r1 := normMutateList vectors st
    let r2 := normMutateList indices r1.2
    (.shuffle r1.1 r2.1, r2.2)
  | other => (other, st)

def normMutateList (es : ExprList) (st : NormState) : ExprList × NormState :=
  match es with
  | .nil => (.nil, st)
  | .cons hd tl =>
    let r1 := normMutate hd st
    let r2 := normMutateList tl r1.2
    (.cons r1.1 r2.1, r2.2)

end

/-- Normalise the let variables of an expression to `t0, t1, …` in
declaration order, as the CSE tests do before comparing. -/
def normalize (e : Expr) : Expr :=
  (normMutate e ⟨0, [], []⟩).1

/-! ## Unique names (`src/base/Util.cpp`)

Names are modelled as `List Char` (a `std::string`).  The process-wide
counter array `unique_name_counters` (16K atomic slots, zero on start)
is a function from slot index to count; `std::hash<std::string>` is an
unspecified function and enters as a parameter of the run. -/

/-- `num_unique_name_counters = 1 << 14`. -/
def num_unique_name_counters : Nat := 2 ^ 14

/-- The process-wide counter array. -/
structure NameState where
  counters : Nat → Nat

/-- The all-zero initial counter array (static initialisation). -/
def initNames : NameState := ⟨fun _ => 0⟩

/-- `unique_count(h)` (`src/base/Util.cpp`): fetch-and-increment the
counter at slot `h & (num_unique_name_counters - 1)`; masking with the
all-ones pattern of a power of two is reduction mod
`num_unique_name_counters`. -/
def unique_count (h : Nat) (st : NameState) : Nat × NameState :=
  let slot := h % num_unique_name_counters
  (st.counters slot,
    ⟨fun i => if i = slot then st.counters slot + 1 else st.counters i⟩)

/-- `unique_name(char)` (`src/base/Util.cpp`): `'$'` is rewritten to
`'_'`, and the counter is keyed by the character code. -/
def unique_name_char (c : Char) (st : NameState) : List Char × NameState :=
  let c := if c = '$' then '_' else c
  let r := unique_count c.toNat st
  (c :: decRepr r.1, r.2)

/-- The loop state of `unique_name(string)`: the sanitised characters
so far (in order), the number of `'$'`s seen, and the two pattern
flags. -/
structure ScanState where
  sanitized : List Char
  num_dollars : Nat
  matches_char_pattern : Bool
  matches_string_pattern : Bool

/-- The sanitising loop of `unique_name(string)` (`src/base/Util.cpp`).
Each `'$'` is counted and replaced by `'_'` before the digit test, so
the test always sees the replaced character; `isFirst` tracks `i = 0`.
-/
def sanitizeLoop : List Char → Bool → ScanState → ScanState
  | [], _, s => s
  | ch :: rest, isFirst, s =>
    let ch' := if ch = '$' then '_' else ch
    let nd := if ch = '$' then s.num_dollars + 1 else s.num_dollars
    let mc := if ¬isFirst ∧ ¬ch'.isDigit then false else s.matches_char_pattern
    let ms := if ¬isFirst ∧ ¬ch'.isDigit ∧ nd > 0 then false
              else s.matches_string_pattern
    sanitizeLoop rest false
      ⟨s.sanitized ++ [ch'], nd, mc, ms⟩

/-- `unique_name(const std::string &)` (`src/base/Util.cpp`): sanitise,
classify against the char/string patterns, draw a count keyed by the
hash of the sanitised name, and either return the prefix verbatim
(count 0 and no pattern matched) or append `"$" ++ count`. -/
def unique_name_string (hash : List Char → Nat) (pre : List Char)
    (st : NameState) : List Char × NameState :=
  let scan := sanitizeLoop pre true ⟨[], 0, true, true⟩
  let matches_string := scan.matches_string_pattern && scan.num_dollars = 1
  let matches_char := scan.matches_char_pattern && pre.length > 1
  let r := unique_count (hash scan.sanitized) st
  if r.1 = 0 ∧ ¬matches_char ∧ ¬matches_string then (pre, r.2)
  else (scan.sanitized ++ '$' :: decRepr r.1, r.2)

/-- One call to one of the two `unique_name` overloads. -/
inductive NameCall where
  | charCall (c : Char)
  | strCall (pre : List Char)

/-- Run a sequence of `unique_name` calls against the shared counter
array, collecting the returned names. -/
def runNames (hash : List Char → Nat) :
    List NameCall → NameState → List (List Char) × NameState
  | [], st => ([], st)
  | c :: rest, st =>
    let r := match c with
      | .charCall ch => unique_name_char ch st
      | .strCall pre => unique_name_string hash pre st
    let rr := runNames hash rest r.2
    (r.1 :: rr.1, rr.2)

/-! ## The dynamic dispatch functor (`src/tvm/ir_functor.h`)

The dispatch table is the vector `func_` of optional callbacks indexed
by runtime type index; `Node::TypeIndex2Key` lives in the type registry
(not among the sources) and enters as a parameter. -/

/-- A node as the functor sees it: its runtime type index (the embedding
carries nothing else, since dispatch only reads `n.type_index()`). -/
structure NodeRef where
  type_index : Nat
deriving DecidableEq, Repr

/-- `IRFunctor::operator()` (`src/tvm/ir_functor.h`): look the callback
up at the node's type index; a missing registration is the
`internal_assert` failure whose message names the offending type key
through `Node::TypeIndex2Key`. -/
def IRFunctor.callOp {R : Type} (TypeIndex2Key : Nat → String)
    (func_ : List (Option (NodeRef → R))) (n : NodeRef) : Except String R :=
  match func_.getD n.type_index none with
  | some f => .ok (f n)
  | none => .error ("IRFunctor calls un-registered function on type " ++
      TypeIndex2Key n.type_index)

/-- `IRFunctor::set_dispatch` (`src/tvm/ir_functor.h`): grow the table
to cover the index and install the callback; installing over an
existing callback is an `internal_assert` failure. -/
def IRFunctor.set_dispatch {R : Type} (func_ : List (Option (NodeRef → R)))
    (tindex : Nat) (f : NodeRef → R) :
    Except String (List (Option (NodeRef → R))) :=
  let grown := if func_.length ≤ tindex
    then func_ ++ List.replicate (tindex + 1 - func_.length) none
    else func_
  match grown.getD tindex none with
  | some _ => .error "Dispatch is already set"
  | none => .ok (grown.set tindex (some f))

/-! ## Spec-side predicates and concrete inputs used by the claims -/

/-- Not a `Block` node. -/
def notBlock : Stmt → Bool
  | .block _ _ => false
  | _ => true

/-- "Right-leaning spine" (spec §8.3 / glossary): the left child of the
block, and of every nested block reachable through `rest` fields, is
never itself a block. -/
def rightSpine : Stmt → Bool
  | .block f r => notBlock f && rightSpine r
  | _ => true

/-- The eligibility filter exactly as claim C2 words it: non-extractable
are the constants, the variables, broadcasts/casts of non-extractable
expressions, the binary arithmetic nodes {Add, Sub, Mul, Div, Mod, Min,
Max} with a constant operand, and ramps with a constant stride. -/
def claimNonExtractable : Expr → Bool
  | .var _ => true
  | .broadcast value _ => claimNonExtractable value
  | .cast _ value => claimNonExtractable value
  | .add a b => is_const a || is_const b
  | .sub a b => is_const a || is_const b
  | .mul a b => is_const a || is_const b
  | .div a b => is_const a || is_const b
  | .mod a b => is_const a || is_const b
  | .min a b => is_const a || is_const b
  | .max a b => is_const a || is_const b
  | .ramp _ stride _ => is_const stride
  | e => is_const e

/-- Claim C2 amended to the source: the binary arithmetic nodes whose
constant operand blocks extraction are only {Add, Sub, Mul, Div}; a
`Mod`, `Min` or `Max` is extractable regardless of constant operands. -/
def amendedNonExtractable : Expr → Bool
  | .var _ => true
  | .broadcast value _ => amendedNonExtractable value
  | .cast _ value => amendedNonExtractable value
  | .add a b => is_const a || is_const b
  | .sub a b => is_const a || is_const b
  | .mul a b => is_const a || is_const b
  | .div a b => is_const a || is_const b
  | .ramp _ stride _ => is_const stride
  | e => is_const e

/-- The claim's `sign_extend(v, b)`: reduce modulo `2 ^ b`, then
sign-extend back to a 64-bit value — the balanced residue. -/
def sign_extend (b : Nat) (v : Int) : Int := Int.bmod v (2 ^ b)

/-- The integer values of the maximal literal prefix of an extent
list. -/
def litPrefixVals : List Expr → List Int
  | [] => []
  | e :: rest =>
    match asIntImm e with
    | some v => v :: litPrefixVals rest
    | none => []

/-- Does the extent list contain a non-literal entry? -/
def hasNonLit (extents : List Expr) : Bool :=
  extents.any (fun e => (asIntImm e).isNone)

/-- Does some left-to-right prefix product (64-bit wrapping, starting
from `acc`) exceed `2 ^ 31 - 1`? -/
def prefixOverflow : Int → List Int → Bool
  | _, [] => false
  | acc, v :: rest =>
    let acc' := Int.bmod (acc * v) (2 ^ 64)
    acc' > 2 ^ 31 - 1 || prefixOverflow acc' rest

/-- The 64-bit wrapping product of the values, starting from `acc`. -/
def wrapProd (acc : Int) (vs : List Int) : Int :=
  vs.foldl (fun a v => Int.bmod (a * v) (2 ^ 64)) acc

/-- The Int32 variable `x` of the CSE scenarios. -/
def xVar : Expr := .var ⟨int32, "x"⟩

/-- Scenario S2's base expression `((x*x + x) * (x*x + x)) + x*x`. -/
def s2_base : Expr :=
  .add (.mul (.add (.mul xVar xVar) xVar) (.add (.mul xVar xVar) xVar))
    (.mul xVar xVar)

/-- Scenario S2's input: the base expression doubled, `e + e`. -/
def s2_input : Expr := .add s2_base s2_base

/-- The normalised let variable `tN` at type Int32. -/
def tN (i : Nat) : Var := ⟨int32, "t" ++ natStr i⟩

/-- Scenario S2's expected output:
`Let t0 = x*x in Let t1 = t0 + x in Let t2 = t1*t1 + t0 in t2 + t2`. -/
def s2_expected : Expr :=
  .letE (tN 0) (.mul xVar xVar)
    (.letE (tN 1) (.add (.var (tN 0)) xVar)
      (.letE (tN 2) (.add (.mul (.var (tN 1)) (.var (tN 1))) (.var (tN 0)))
        (.add (.var (tN 2)) (.var (tN 2)))))

/-- The `Mod` node with a constant operand that separates the source's
`should_extract` from claim C2's list of binary nodes. -/
def modCex : Expr := .mod xVar (.intImm int32 2)

/-- Extents whose literal product is 0 but whose first prefix product
is `2 ^ 31`: claim C7's overflow test fires on the prefix. -/
def casCexExtents : List Expr :=
  [.intImm (intTy 64 1) (2 ^ 31), .intImm (intTy 64 1) 0]

/-- A call sequence on which `unique_name` returns the same string
twice: `unique_name("t$1")` comes back verbatim (its single `'$'` is
not at position 0, so the loop — which tests the already-sanitised
character — rejects the string pattern), and the second
`unique_name("t")` draws count 1 and also returns `"t$1"`. -/
def collisionCalls : List NameCall :=
  [.strCall ['t', '$', '1'], .strCall ['t'], .strCall ['t']]

/-! ## Notions for the CSE idempotence development

The pass manipulates the canonical (let-free) entry expressions through
three traversals that agree on what the children of a node are; the
notions below name that child relation, the invariants of the GVN
state, and the pure substitution that `Replacer` computes. -/

/-- Is the node a `Let`? -/
def isLetE : Expr → Bool
  | .letE _ _ _ => true
  | _ => false

/-- The children a node exposes to the three CSE traversals
(`GVN`'s rebuild, `ComputeUseCounts`'s visit, `Replacer`'s rebuild);
identical to the child order used in each. -/
def childrenOf : Expr → List Expr
  | .cast _ v => [v]
  | .add a b => [a, b]
  | .sub a b => [a, b]
  | .mul a b => [a, b]
  | .div a b => [a, b]
  | .mod a b => [a, b]
  | .min a b => [a, b]
  | .max a b => [a, b]
  | .eq a b => [a, b]
  | .ne a b => [a, b]
  | .lt a b => [a, b]
  | .le a b => [a, b]
  | .gt a b => [a, b]
  | .ge a b => [a, b]
  | .and a b => [a, b]
  | .or a b => [a, b]
  | .not a => [a]
  | .select c t f => [c, t, f]
  | .load _ _ i _ => [i]
  | .ramp b s _ => [b, s]
  | .broadcast v _ => [v]
  | .call _ _ args _ _ _ => args.toList
  | .letE _ v b => [v, b]
  | .shuffle vs idxs => vs.toList ++ idxs.toList
  | _ => []

/-- The expressions stored in an entry list. -/
def entryExprs (ents : List GVNEntry) : List Expr :=
  ents.map (fun en => en.expr)

/-- The entry list only ever grows by appending. -/
def entriesExtend (old new : List GVNEntry) : Prop :=
  ∃ tail, new = old ++ tail

/-- Reachability through `childrenOf` (reflexive-transitive). -/
inductive reaches : Expr → Expr → Prop
  | refl (e : Expr) : reaches e e
  | child (e ch x : Expr) : ch ∈ childrenOf e → reaches ch x → reaches e x

/-- The well-formedness invariant of the `GVN` state: entry expressions
are pairwise distinct, are never `Let` nodes, have their children among
strictly earlier entries, and the substitution scope only mentions
valid numbers. -/
structure GvnInv (st : GVNState) : Prop where
  nodup : (entryExprs st.entries).Nodup
  noLet : ∀ en ∈ st.entries, isLetE en.expr = false
  closed : ∀ i, i < st.entries.length →
    ∀ ch ∈ childrenOf (canonicalOf st.entries i),
      ch ∈ entryExprs (st.entries.take i)
  scopeOk : ∀ p ∈ st.let_substitutions, p.2 < st.entries.length

mutual

/-- The pure, memo-free substitution `Replacer` computes: replace at
the first map hit, otherwise rebuild the children. -/
def pureRepl (m : ReplMap) (e : Expr) : Expr :=
  match e with
  | .cast t v =>
    match replFind m e with
    | some r => r
    | none => .cast t (pureRepl m v)
  | .add a b =>
    match replFind m e with
    | some r => r
    | none => .add (pureRepl m a) (pureRepl m b)
  | .sub a b =>
    match replFind m e with
    | some r => r
    | none => .sub (pureRepl m a) (pureRepl m b)
  | .mul a b =>
    match replFind m e with
    | some r => r
    | none => .mul (pureRepl m a) (pureRepl m b)
  | .div a b =>
    match replFind m e with
    | some r => r
    | none => .div (pureRepl m a) (pureRepl m b)
  | .mod a b =>
    match replFind m e with
    | some r => r
    | none => .mod (pureRepl m a) (pureRepl m b)
  | .min a b =>
    match replFind m e with
    | some r => r
    | none => .min (pureRepl m a) (pureRepl m b)
  | .max a b =>
    match replFind m e with
    | some r => r
    | none => .max (pureRepl m a) (pureRepl m b)
  | .eq a b =>
    match replFind m e with
    | some r => r
    | none => .eq (pureRepl m a) (pureRepl m b)
  | .ne a b =>
    match replFind m e with
    | some r => r
    | none => .ne (pureRepl m a) (pureRepl m b)
  | .lt a b =>
    match replFind m e with
    | some r => r
    | none => .lt (pureRepl m a) (pureRepl m b)
  | .le a b =>
    match replFind m e with
    | some r => r
    | none => .le (pureRepl m a) (pureRepl m b)
  | .gt a b =>
    match replFind m e with
    | some r => r
    | none => .gt (pureRepl m a) (pureRepl m b)
  | .ge a b =>
    match replFind m e with
    | some r => r
    | none => .ge (pureRepl m a) (pureRepl m b)
  | .and a b =>
    match replFind m e with
    | some r => r
    | none => .and (pureRepl m a) (pureRepl m b)
  | .or a b =>
    match replFind m e with
    | some r => r
    | none => .or (pureRepl m a) (pureRepl m b)
  | .not a =>
    match replFind m e with
    | some r => r
    | none => .not (pureRepl m a)
  | .select c t f =>
    match replFind m e with
    | some r => r
    | none => .select (pureRepl m c) (pureRepl m t) (pureRepl m f)
  | .load t bv i p =>
    match replFind m e with
    | some r => r
    | none => .load t bv (pureRepl m i) p
  | .ramp b s l =>
    match replFind m e with
    | some r => r
    | none => .ramp (pureRepl m b) (pureRepl m s) l
  | .broadcast v l =>
    match replFind m e with
    | some r => r
    | none => .broadcast (pureRepl m v) l
  | .call t nm args ct f vi =>
    match replFind m e with
    | some r => r
    | none => .call t nm (pureReplList m args) ct f vi
  | .letE v value body =>
    match replFind m e with
    | some r => r
    | none => .letE v (pureRepl m value) (pureRepl m body)
  | .shuffle vs idxs =>
    match replFind m e with
    | some r => r
    | none => .shuffle (pureReplList m vs) (pureReplList m idxs)
  | other =>
    match replFind m e with
    | some r => r
    | none => other

def pureReplList (m : ReplMap) (es : ExprList) : ExprList :=
  match es with
  | .nil => .nil
  | .cons hd tl => .cons (pureRepl m hd) (pureReplList m tl)

end

/-- Sequential `include` over a list of children, as the default
graph-visit performs it. -/
def cuFold : List Expr → CUState → CUState
  | [], st => st
  | x :: rest, st => cuFold rest (cuInclude x st)

/-- Sequential `GVN::mutate` over a list of children, collecting the
numbers. -/
def gvnFold : List Expr → GVNState → List Nat × GVNState
  | [], st => ([], st)
  | x :: rest, st =>
    let r1 := gvnMutate x st
    let r2 := gvnFold rest r1.2
    (r1.1 :: r2.1, r2.2)

/-- Sequential `Replacer::mutate` over a list of children. -/
def replFold : List Expr → ReplMap → List Expr × ReplMap
  | [], m => ([], m)
  | x :: rest, m =>
    let r1 := replMutate x m
    let r2 := replFold rest r1.2
    (r1.1 :: r2.1, r2.2)

/-- Rebuild a node of the same kind as `e` from a list of new children
(in `childrenOf` order); non-child fields are copied from `e`. -/
def rebuildNode (e : Expr) (cs : List Expr) : Expr :=
  match e, cs with
  | .cast t _, [v] => .cast t v
  | .add _ _, [a, b] => .add a b
  | .sub _ _, [a, b] => .sub a b
  | .mul _ _, [a, b] => .mul a b
  | .div _ _, [a, b] => .div a b
  | .mod _ _, [a, b] => .mod a b
  | .min _ _, [a, b] => .min a b
  | .max _ _, [a, b] => .max a b
  | .eq _ _, [a, b] => .eq a b
  | .ne _ _, [a, b] => .ne a b
  | .lt _ _, [a, b] => .lt a b
  | .le _ _, [a, b] => .le a b
  | .gt _ _, [a, b] => .gt a b
  | .ge _ _, [a, b] => .ge a b
  | .and _ _, [a, b] => .and a b
  | .or _ _, [a, b] => .or a b
  | .not _, [a] => .not a
  | .select _ _ _, [c, t, f] => .select c t f
  | .load t bv _ p, [i] => .load t bv i p
  | .ramp _ _ l, [b, s] => .ramp b s l
  | .broadcast _ l, [v] => .broadcast v l
  | .call t nm _ ct f vi, cs => .call t nm (ExprList.ofList cs) ct f vi
  | .letE v _ _, [val, body] => .letE v val body
  | .shuffle vs _, cs =>
    .shuffle (ExprList.ofList (cs.take vs.length))
      (ExprList.ofList (cs.drop vs.length))
  | e, _ => e

/-- The use count stored for an expression (0 when absent). -/
def countOf (ents : List GVNEntry) (x : Expr) : Nat :=
  match ents.find? (fun en => en.expr == x) with
  | some en => en.use_count
  | none => 0

/-- A right-nested chain of `Let`s around a body. -/
def letChain : List (Var × Expr) → Expr → Expr
  | [], body => body
  | (v, value) :: rest, body => .letE v value (letChain rest body)

mutual

/-- All variables occurring in an expression: `Variable` nodes and
`Let` binders (the variables `unique_name('t')`-generated names could
collide with). -/
def varsOf : Expr → List Var
  | .var v => [v]
  | .cast _ v => varsOf v
  | .add a b => varsOf a ++ varsOf b
  | .sub a b => varsOf a ++ varsOf b
  | .mul a b => varsOf a ++ varsOf b
  | .div a b => varsOf a ++ varsOf b
  | .mod a b => varsOf a ++ varsOf b
  | .min a b => varsOf a ++ varsOf b
  | .max a b => varsOf a ++ varsOf b
  | .eq a b => varsOf a ++ varsOf b
  | .ne a b => varsOf a ++ varsOf b
  | .lt a b => varsOf a ++ varsOf b
  | .le a b => varsOf a ++ varsOf b
  | .gt a b => varsOf a ++ varsOf b
  | .ge a b => varsOf a ++ varsOf b
  | .and a b => varsOf a ++ varsOf b
  | .or a b => varsOf a ++ varsOf b
  | .not a => varsOf a
  | .select c t f => varsOf c ++ varsOf t ++ varsOf f
  | .load _ _ i _ => varsOf i
  | .ramp b s _ => varsOf b ++ varsOf s
  | .broadcast v _ => varsOf v
  | .call _ _ args _ _ _ => varsOfList args
  | .letE v value body => v :: (varsOf value ++ varsOf body)
  | .shuffle vs idxs => varsOfList vs ++ varsOfList idxs
  | _ => []

def varsOfList : ExprList → List Var
  | .nil => []
  | .cons hd tl => varsOf hd ++ varsOfList tl

end

/-- Does the string have the shape of a `unique_name('t')` result:
`'t'` followed by one or more decimal digits? -/
def isTFamilyName (s : String) : Bool :=
  match s.data with
  | 't' :: rest => ¬rest.isEmpty && rest.all Char.isDigit
  | _ => false

/-- The freshness side condition of the embedding: no variable of the
input bears a name of the `unique_name('t')` family.  (In the source,
variables are keyed by node identity, so a clash of name strings is
harmless; in the embedding, where a variable is its name and type, the
fresh names must be genuinely fresh.) -/
def avoidsT (e : Expr) : Prop :=
  ∀ v ∈ varsOf e, isTFamilyName v.name_hint = false

/-- What one `GVN::mutate` call guarantees: the invariant is kept, the
entry list only grew, the substitution scope is restored, and the
returned number is valid. -/
structure MutOut (st : GVNState) (r : Nat × GVNState) : Prop where
  inv : GvnInv r.2
  ext : entriesExtend st.entries r.2.entries
  subs : r.2.let_substitutions = st.let_substitutions
  lt : r.1 < r.2.entries.length

/-- The same for the child-list traversal, whose result is the list of
canonical forms. -/
structure MutListOut (st : GVNState) (r : ExprList × GVNState) : Prop where
  inv : GvnInv r.2
  ext : entriesExtend st.entries r.2.entries
  subs : r.2.let_substitutions = st.let_substitutions
  mem : ∀ x ∈ r.1.toList, x ∈ entryExprs r.2.entries

/-! ### Further structure for the idempotence development -/

mutual

/-- No `Let` node anywhere inside the expression (canonical forms have
this shape, since `GVN` inlines every `Let`). -/
def noLetIn : Expr → Bool
  | .letE _ _ _ => false
  | .cast _ v => noLetIn v
  | .add a b => noLetIn a && noLetIn b
  | .sub a b => noLetIn a && noLetIn b
  | .mul a b => noLetIn a && noLetIn b
  | .div a b => noLetIn a && noLetIn b
  | .mod a b => noLetIn a && noLetIn b
  | .min a b => noLetIn a && noLetIn b
  | .max a b => noLetIn a && noLetIn b
  | .eq a b => noLetIn a && noLetIn b
  | .ne a b => noLetIn a && noLetIn b
  | .lt a b => noLetIn a && noLetIn b
  | .le a b => noLetIn a && noLetIn b
  | .gt a b => noLetIn a && noLetIn b
  | .ge a b => noLetIn a && noLetIn b
  | .and a b => noLetIn a && noLetIn b
  | .or a b => noLetIn a && noLetIn b
  | .not a => noLetIn a
  | .select c t f => noLetIn c && noLetIn t && noLetIn f
  | .load _ _ i _ => noLetIn i
  | .ramp b s _ => noLetIn b && noLetIn s
  | .broadcast v _ => noLetIn v
  | .call _ _ args _ _ _ => noLetInList args
  | .shuffle vs idxs => noLetInList vs && noLetInList idxs
  | _ => true

def noLetInList : ExprList → Bool
  | .nil => true
  | .cons hd tl => noLetIn hd && noLetInList tl

end

mutual

/-- Every `unique_name('t')`-family variable node occurs under a `Let`
binder of that variable (the scoping discipline of the `cse` output:
its fresh variables are let-bound).  The list collects the binders in
scope. -/
def tOk : Expr → List Var → Bool
  | .var x, bs => !isTFamilyName x.name_hint || bs.contains x
  | .letE v a b, bs => tOk a bs && tOk b (v :: bs)
  | .cast _ v, bs => tOk v bs
  | .add a b, bs => tOk a bs && tOk b bs
  | .sub a b, bs => tOk a bs && tOk b bs
  | .mul a b, bs => tOk a bs && tOk b bs
  | .div a b, bs => tOk a bs && tOk b bs
  | .mod a b, bs => tOk a bs && tOk b bs
  | .min a b, bs => tOk a bs && tOk b bs
  | .max a b, bs => tOk a bs && tOk b bs
  | .eq a b, bs => tOk a bs && tOk b bs
  | .ne a b, bs => tOk a bs && tOk b bs
  | .lt a b, bs => tOk a bs && tOk b bs
  | .le a b, bs => tOk a bs && tOk b bs
  | .gt a b, bs => tOk a bs && tOk b bs
  | .ge a b, bs => tOk a bs && tOk b bs
  | .and a b, bs => tOk a bs && tOk b bs
  | .or a b, bs => tOk a bs && tOk b bs
  | .not a, bs => tOk a bs
  | .select c t f, bs => tOk c bs && tOk t bs && tOk f bs
  | .load _ _ i _, bs => tOk i bs
  | .ramp b s _, bs => tOk b bs && tOk s bs
  | .broadcast v _, bs => tOk v bs
  | .call _ _ args _ _ _, bs => tOkList args bs
  | .shuffle vs idxs, bs => tOkList vs bs && tOkList idxs bs
  | _, _ => true

def tOkList : ExprList → List Var → Bool
  | .nil, _ => true
  | .cons hd tl, bs => tOk hd bs && tOkList tl bs

end

/-- The root step of one `ComputeUseCounts` traversal record: the
bump attempt, the new visited set, and whether to visit the children. -/
def cuVRoot (e : Expr) (vis : List Expr) : List Expr × List Expr × Bool :=
  if ¬should_extract e then ([], vis, true)
  else if vis.contains e then ([e], vis, false)
  else ([e], e :: vis, true)

mutual

/-- The pure record of one `ComputeUseCounts` traversal: the list of
use-count bump attempts (each extractable node seen, in visit order)
and the final visited set.  The entry list plays no part in the
control flow of `ComputeUseCounts::include`, so this captures it
completely. -/
def cuVisit (e : Expr) (vis : List Expr) : List Expr × List Expr :=
  match e with
  | .cast _ value =>
    let r := cuVRoot e vis
    if r.2.2 then
      let c1 := cuVisit value r.2.1
      (r.1 ++ c1.1, c1.2)
    else (r.1, r.2.1)
  | .add a b =>
    let r := cuVRoot e vis
    if r.2.2 then
      let c1 := cuVisit a r.2.1
      let c2 := cuVisit b c1.2
      (r.1 ++ c1.1 ++ c2.1, c2.2)
    else (r.1, r.2.1)
  | .sub a b =>
    let r := cuVRoot e vis
    if r.2.2 then
      let c1 := cuVisit a r.2.1
      let c2 := cuVisit b c1.2
      (r.1 ++ c1.1 ++ c2.1, c2.2)
    else (r.1, r.2.1)
  | .mul a b =>
    let r := cuVRoot e vis
    if r.2.2 then
      let c1 := cuVisit a r.2.1
      let c2 := cuVisit b c1.2
      (r.1 ++ c1.1 ++ c2.1, c2.2)
    else (r.1, r.2.1)
  | .div a b =>
    let r := cuVRoot e vis
    if r.2.2 then
      let c1 := cuVisit a r.2.1
      let c2 := cuVisit b c1.2
      (r.1 ++ c1.1 ++ c2.1, c2.2)
    else (r.1, r.2.1)
  | .mod a b =>
    let r := cuVRoot e vis
    if r.2.2 then
      let c1 := cuVisit a r.2.1
      let c2 := cuVisit b c1.2
      (r.1 ++ c1.1 ++ c2.1, c2.2)
    else (r.1, r.2.1)
  | .min a b =>
    let r := cuVRoot e vis
    if r.2.2 then
      let c1 := cuVisit a r.2.1
      let c2 := cuVisit b c1.2
      (r.1 ++ c1.1 ++ c2.1, c2.2)
    else (r.1, r.2.1)
  | .max a b =>
    let r := cuVRoot e vis
    if r.2.2 then
      let c1 := cuVisit a r.2.1
      let c2 := cuVisit b c1.2
      (r.1 ++ c1.1 ++ c2.1, c2.2)
    else (r.1, r.2.1)
  | .eq a b =>
    let r := cuVRoot e vis
    if r.2.2 then
      let c1 := cuVisit a r.2.1
      let c2 := cuVisit b c1.2
      (r.1 ++ c1.1 ++ c2.1, c2.2)
    else (r.1, r.2.1)
  | .ne a b =>
    let r := cuVRoot e vis
    if r.2.2 then
      let c1 := cuVisit a r.2.1
      let c2 := cuVisit b c1.2
      (r.1 ++ c1.1 ++ c2.1, c2.2)
    else (r.1, r.2.1)
  | .lt a b =>
    let r := cuVRoot e vis
    if r.2.2 then
      let c1 := cuVisit a r.2.1
      let c2 := cuVisit b c1.2
      (r.1 ++ c1.1 ++ c2.1, c2.2)
    else (r.1, r.2.1)
  | .le a b =>
    let r := cuVRoot e vis
    if r.2.2 then
      let c1 := cuVisit a r.2.1
      let c2 := cuVisit b c1.2
      (r.1 ++ c1.1 ++ c2.1, c2.2)
    else (r.1, r.2.1)
  | .gt a b =>
    let r := cuVRoot e vis
    if r.2.2 then
      let c1 := cuVisit a r.2.1
      let c2 := cuVisit b c1.2
      (r.1 ++ c1.1 ++ c2.1, c2.2)
    else (r.1, r.2.1)
  | .ge a b =>
    let r := cuVRoot e vis
    if r.2.2 then
      let c1 := cuVisit a r.2.1
      let c2 := cuVisit b c1.2
      (r.1 ++ c1.1 ++ c2.1, c2.2)
    else (r.1, r.2.1)
  | .and a b =>
    let r := cuVRoot e vis
    if r.2.2 then
      let c1 := cuVisit a r.2.1
      let c2 := cuVisit b c1.2
      (r.1 ++ c1.1 ++ c2.1, c2.2)
    else (r.1, r.2.1)
  | .or a b =>
    let r := cuVRoot e vis
    if r.2.2 then
      let c1 := cuVisit a r.2.1
      let c2 := cuVisit b c1.2
      (r.1 ++ c1.1 ++ c2.1, c2.2)
    else (r.1, r.2.1)
  | .not a =>
    let r := cuVRoot e vis
    if r.2.2 then
      let c1 := cuVisit a r.2.1
      (r.1 ++ c1.1, c1.2)
    else (r.1, r.2.1)
  | .select c t f =>
    let r := cuVRoot e vis
    if r.2.2 then
      let c1 := cuVisit c r.2.1
      let c2 := cuVisit t c1.2
      let c3 := cuVisit f c2.2
      (r.1 ++ c1.1 ++ c2.1 ++ c3.1, c3.2)
    else (r.1, r.2.1)
  | .load _ _ index _ =>
    let r := cuVRoot e vis
    if r.2.2 then
      let c1 := cuVisit index r.2.1
      (r.1 ++ c1.1, c1.2)
    else (r.1, r.2.1)
  | .ramp base stride _ =>
    let r := cuVRoot e vis
    if r.2.2 then
      let c1 := cuVisit base r.2.1
      let c2 := cuVisit stride c1.2
      (r.1 ++ c1.1 ++ c2.1, c2.2)
    else (r.1, r.2.1)
  | .broadcast value _ =>
    let r := cuVRoot e vis
    if r.2.2 then
      let c1 := cuVisit value r.2.1
      (r.1 ++ c1.1, c1.2)
    else (r.1, r.2.1)
  | .call _ _ args _ _ _ =>
    let r := cuVRoot e vis
    if r.2.2 then
      let c := cuVisitList args r.2.1
      (r.1 ++ c.1, c.2)
    else (r.1, r.2.1)
  | .letE _ value body =>
    let r := cuVRoot e vis
    if r.2.2 then
      let c1 := cuVisit value r.2.1
      let c2 := cuVisit body c1.2
      (r.1 ++ c1.1 ++ c2.1, c2.2)
    else (r.1, r.2.1)
  | .shuffle vectors indices =>
    let r := cuVRoot e vis
    if r.2.2 then
      let c1 := cuVisitList vectors r.2.1
      let c2 := cuVisitList indices c1.2
      (r.1 ++ c1.1 ++ c2.1, c2.2)
    else (r.1, r.2.1)
  | _ =>
    let r := cuVRoot e vis
    (r.1, r.2.1)

def cuVisitList (es : ExprList) (vis : List Expr) : List Expr × List Expr :=
  match es with
  | .nil => ([], vis)
  | .cons hd tl =>
    let c1 := cuVisit hd vis
    let c2 := cuVisitList tl c1.2
    (c1.1 ++ c2.1, c2.2)

end


/-- Apply a list of bump attempts to an entry list: each expression in
the list bumps the use count of its entry (a missing expression is
skipped, as in `ComputeUseCounts`). -/
def applyBumps (ents : List GVNEntry) (occs : List Expr) : List GVNEntry :=
  occs.foldl (fun es x =>
    match findNumber es x with
    | some n => bumpUse es n
    | none => es) ents

/-- The expressions selected for extraction: entries with more than one
use, in numbering order. -/
def selExprs (ents : List GVNEntry) : List Expr :=
  (ents.filter (fun en => en.use_count > 1)).map (fun en => en.expr)

/-- The let list `common_subexpression_elimination` builds from a list
of selected expressions: fresh `t`-names from the counter, typed like
the expression. -/
def mkLets : List Expr → Nat → List (Var × Expr)
  | [], _ => []
  | u :: rest, k => (⟨u.type, "t" ++ natStr k⟩, u) :: mkLets rest (k + 1)

/-- The replacement map of the selected lets: each selected expression
maps to its fresh variable. -/
def fullMap (lets : List (Var × Expr)) : ReplMap :=
  lets.map (fun p => (p.2, Expr.var p.1))

/-- The values actually bound by the emitted `Let`s: the `i`-th value
is the `i`-th selected expression rewritten with the replacements of
the earlier ones. -/
def wrapVals (m₀ : ReplMap) : List (Var × Expr) → List (Var × Expr)
  | [] => []
  | (v, u) :: rest =>
    (v, pureRepl m₀ u) :: wrapVals (m₀ ++ [(u, Expr.var v)]) rest

/-- The later selected expressions never occur inside earlier ones
(they carry larger value numbers, and entries are closed downward). -/
def Orderly (us : List Expr) : Prop :=
  us.Pairwise (fun a b => ¬ reaches a b)

/-- The numeric value of a decimal digit string. -/
def decVal (cs : List Char) : Nat :=
  cs.foldl (fun acc c => acc * 10 + (c.toNat - 48)) 0

/-- The variable-renaming map of a `NormalizeVarExprs` state. -/
def nmap (st : NormState) : ReplMap :=
  st.new_var_exprs.map (fun p => (Expr.var p.1,
    Expr.var (st.replacement_var_exprs.getD p.2 ⟨int32, ""⟩)))

/-- The state change of one `NormalizeVarExprs` visit of a fresh `Let`
binder. -/
def pushNorm (v : Var) (st : NormState) : NormState :=
  { counter := st.counter + 1,
    replacement_var_exprs :=
      st.replacement_var_exprs ++ [⟨v.type, "t" ++ natStr st.counter⟩],
    new_var_exprs := (v, st.counter) :: st.new_var_exprs }

/-- Fold `pushNorm` over a let list. -/
def pushAll : List (Var × Expr) → NormState → NormState
  | [], st => st
  | (v, _) :: rest, st => pushAll rest (pushNorm v st)

/-- The normalised let list: binders renamed to `t0, t1, …` in order,
values rewritten through the accumulated renaming. -/
def normLets : List (Var × Expr) → NormState → List (Var × Expr)
  | [], _ => []
  | (v, w) :: rest, st =>
    let st2 := pushNorm v st
    (⟨v.type, "t" ++ natStr st.counter⟩, pureRepl (nmap st2) w) ::
      normLets rest st2

/-- The phase structure of the entry list built by numbering a `cse`
output: a block of subterms per let value (containing the value), then
a block of subterms of the body. -/
def Phased : List Expr → List Expr → Expr → List Expr → Prop
  | base, [], b, final =>
    ∃ t, final = base ++ t ∧ ∀ x ∈ t, reaches b x
  | base, u :: us, b, final =>
    ∃ t, (∀ x ∈ t, reaches u x) ∧ u ∈ t ∧ Phased (base ++ t) us b final

/-- What the `Replacer` finds in its map, on the expressions it may
query while rewriting `e`: a hit is the pure substitution's value, and
a miss is also a miss of the pure map. -/
def CohHyp (m₀ m : ReplMap) (e : Expr) : Prop :=
  (∀ s x, reaches e s → replFind m s = some x → x = pureRepl m₀ s) ∧
  (∀ s, reaches e s → replFind m s = none → replFind m₀ s = none)

/-- What one `Replacer::mutate` call produces: the pure substitution's
value, and a map that keeps every old binding and adds only correct
memo entries for subterms. -/
structure ReplOut (m₀ : ReplMap) (e : Expr) (m : ReplMap)
    (r : Expr × ReplMap) : Prop where
  val : r.1 = pureRepl m₀ e
  mono : ∀ s x, replFind m s = some x → replFind r.2 s = some x
  new : ∀ s x, replFind r.2 s = some x → replFind m s = none →
    reaches e s ∧ x = pureRepl m₀ s

/-- The list form of `ReplOut`. -/
structure ReplListOut (m₀ : ReplMap) (es : ExprList) (m : ReplMap)
    (r : ExprList × ReplMap) : Prop where
  val : r.1 = pureReplList m₀ es
  mono : ∀ s x, replFind m s = some x → replFind r.2 s = some x
  new : ∀ s x, replFind r.2 s = some x → replFind m s = none →
    (∃ u ∈ es.toList, reaches u s) ∧ x = pureRepl m₀ s

/-- The environment of the second `GVN` run: a well-formed state whose
substitution scope binds exactly the planted fresh variables of the
inverse map `m₀`, each to the number of its extracted expression; the
entries mention no `t`-family variable. -/
structure EnvOK (m₀ : ReplMap) (st : GVNState) : Prop where
  inv : GvnInv st
  binds : ∀ p ∈ m₀, ∃ v n, p.2 = Expr.var v ∧
    isTFamilyName v.name_hint = true ∧
    scopeGet st.let_substitutions v = some n ∧
    canonicalOf st.entries n = p.1
  tfree : ∀ x ∈ entryExprs st.entries, avoidsT x
  subsT : ∀ p ∈ st.let_substitutions, isTFamilyName p.1.name_hint = true

/-- What numbering the image `pureRepl m₀ u` of a canonical expression
produces: the canonical form of the result is `u` itself, the
environment survives, and every new entry is a subterm of `u`. -/
structure ExpOut (m₀ : ReplMap) (u : Expr) (st : GVNState)
    (r : Nat × GVNState) : Prop where
  canon : canonicalOf r.2.entries r.1 = u
  env : EnvOK m₀ r.2
  newr : ∀ x ∈ entryExprs r.2.entries,
    x ∈ entryExprs st.entries ∨ reaches u x

/-- The list form of `ExpOut`: the canonical forms are the original
elements. -/
structure ExpListOut (m₀ : ReplMap) (us : ExprList) (st : GVNState)
    (r : ExprList × GVNState) : Prop where
  vals : r.1 = us
  env : EnvOK m₀ r.2
  newr : ∀ x ∈ entryExprs r.2.entries,
    x ∈ entryExprs st.entries ∨ ∃ u ∈ us.toList, reaches u x


/-- The invariant of the replacement map along the binding-emission
loop of `common_subexpression_elimination`: every yet-unemitted
selected expression still maps to its fresh variable, and every answer
the map can give on a subterm of a yet-unemitted value is the pure
substitution under the prefix map. -/
def PINV (L : List (Var × Expr)) (m : ReplMap) : Prop :=
  (∀ p ∈ L, replFind m p.2 = some (Expr.var p.1)) ∧
  (∀ s x, replFind m s = some x → ∀ W p rest, L = W ++ p :: rest →
    reaches p.2 s → s ≠ p.2 → x = pureRepl (fullMap W) s)

/-- The first `GVN` run of `common_subexpression_elimination`. -/
def cseGvn (e : Expr) : Nat × GVNState := gvnMutate e ⟨[], []⟩

/-- The canonical form of the whole input after the `GVN` run. -/
def cseTop (e : Expr) : Expr :=
  canonicalOf (cseGvn e).2.entries (cseGvn e).1

/-- The entry list with use counts, after `ComputeUseCounts`. -/
def cseEntries (e : Expr) : List GVNEntry :=
  (cuInclude (cseTop e) ⟨(cseGvn e).2.entries, []⟩).entries

/-- The selected lets of a `cse` run. -/
def cseLets (e : Expr) (k : Nat) : List (Var × Expr) :=
  cseLetsGo (cseEntries e) k

/-- The `new_var_exprs` accumulated by normalising a fresh let chain:
innermost binder first, with name indices from `k` and absolute
positions from `i`. -/
def NV : List Expr → Nat → Nat → List (Var × Nat)
  | [], _, _ => []
  | u :: rest, k, i =>
    NV rest (k + 1) (i + 1) ++ [(⟨u.type, "t" ++ natStr k⟩, i)]

/-! ## Theorems -/

/-- `should_extract` agrees everywhere with the complement of the
amended non-extractable class (binary arithmetic restricted to
{Add, Sub, Mul, Div}). -/
theorem should_extract_eq_amended :
    ∀ (e : Expr), should_extract e = !(amendedNonExtractable e)
  | .undef => by simp [should_extract, amendedNonExtractable, is_const]
  | .intImm _ _ => by simp [should_extract, amendedNonExtractable, is_const]
  | .uintImm _ _ => by simp [should_extract, amendedNonExtractable, is_const]
  | .floatImm _ _ => by simp [should_extract, amendedNonExtractable, is_const]
  | .stringImm _ => by simp [should_extract, amendedNonExtractable, is_const]
  | .cast _ v => by
    simpa [should_extract, amendedNonExtractable, is_const] using
      should_extract_eq_amended v
  | .var _ => by simp [should_extract, amendedNonExtractable, is_const]
  | .add _ _ => by simp [should_extract, amendedNonExtractable, is_const]
  | .sub _ _ => by simp [should_extract, amendedNonExtractable, is_const]
  | .mul _ _ => by simp [should_extract, amendedNonExtractable, is_const]
  | .div _ _ => by simp [should_extract, amendedNonExtractable, is_const]
  | .mod _ _ => by simp [should_extract, amendedNonExtractable, is_const]
  | .min _ _ => by simp [should_extract, amendedNonExtractable, is_const]
  | .max _ _ => by simp [should_extract, amendedNonExtractable, is_const]
  | .eq _ _ => by simp [should_extract, amendedNonExtractable, is_const]
  | .ne _ _ => by simp [should_extract, amendedNonExtractable, is_const]
  | .lt _ _ => by simp [should_extract, amendedNonExtractable, is_const]
  | .le _ _ => by simp [should_extract, amendedNonExtractable, is_const]
  | .gt _ _ => by simp [should_extract, amendedNonExtractable, is_const]
  | .ge _ _ => by simp [should_extract, amendedNonExtractable, is_const]
  | .and _ _ => by simp [should_extract, amendedNonExtractable, is_const]
  | .or _ _ => by simp [should_extract, amendedNonExtractable, is_const]
  | .not _ => by simp [should_extract, amendedNonExtractable, is_const]
  | .select _ _ _ => by simp [should_extract, amendedNonExtractable, is_const]
  | .load _ _ _ _ => by simp [should_extract, amendedNonExtractable, is_const]
  | .ramp _ _ _ => by simp [should_extract, amendedNonExtractable, is_const]
  | .broadcast v _ => by
    simpa [should_extract, amendedNonExtractable, is_const] using
      should_extract_eq_amended v
  | .call _ _ _ _ _ _ => by
    simp [should_extract, amendedNonExtractable, is_const]
  | .letE _ _ _ => by simp [should_extract, amendedNonExtractable, is_const]
  | .shuffle _ _ => by simp [should_extract, amendedNonExtractable, is_const]

/-- Claim C2, counterexample: on `x % 2` — a `Mod` with a constant
operand — `should_extract` answers extractable, while the claim's class
(which lists `Mod` among the binary arithmetic nodes) calls it
non-extractable; the claim's equivalence fails at this input. -/
theorem should_extract_claim_cex :
    should_extract modCex = true ∧ claimNonExtractable modCex = true ∧
      ¬(should_extract modCex = false ↔ claimNonExtractable modCex = true) := by
  decide

/-- Claim C2, amended: `should_extract` deems an expression
non-extractable exactly when it is a constant, a variable, a
broadcast/cast of a non-extractable expression, one of {Add, Sub, Mul,
Div} with a constant operand, or a ramp with constant stride. -/
theorem should_extract_amended_spec :
    ∀ (e : Expr), should_extract e = false ↔ amendedNonExtractable e = true := by
  intro e
  rw [should_extract_eq_amended e]
  cases amendedNonExtractable e <;> simp

mutual

/-- The default expression mutator returns its input unchanged: every
`visit` takes the `return_self` branch once its children do. -/
theorem mutateExpr_id : ∀ (e : Expr), mutateExpr e = e
  | .undef => rfl
  | .intImm _ _ => rfl
  | .uintImm _ _ => rfl
  | .floatImm _ _ => rfl
  | .stringImm _ => rfl
  | .var _ => rfl
  | .cast _ v => by simp [mutateExpr, mutateExpr_id v]
  | .add a b => by simp [mutateExpr, mutateExpr_id a, mutateExpr_id b]
  | .sub a b => by simp [mutateExpr, mutateExpr_id a, mutateExpr_id b]
  | .mul a b => by simp [mutateExpr, mutateExpr_id a, mutateExpr_id b]
  | .div a b => by simp [mutateExpr, mutateExpr_id a, mutateExpr_id b]
  | .mod a b => by simp [mutateExpr, mutateExpr_id a, mutateExpr_id b]
  | .min a b => by simp [mutateExpr, mutateExpr_id a, mutateExpr_id b]
  | .max a b => by simp [mutateExpr, mutateExpr_id a, mutateExpr_id b]
  | .eq a b => by simp [mutateExpr, mutateExpr_id a, mutateExpr_id b]
  | .ne a b => by simp [mutateExpr, mutateExpr_id a, mutateExpr_id b]
  | .lt a b => by simp [mutateExpr, mutateExpr_id a, mutateExpr_id b]
  | .le a b => by simp [mutateExpr, mutateExpr_id a, mutateExpr_id b]
  | .gt a b => by simp [mutateExpr, mutateExpr_id a, mutateExpr_id b]
  | .ge a b => by simp [mutateExpr, mutateExpr_id a, mutateExpr_id b]
  | .and a b => by simp [mutateExpr, mutateExpr_id a, mutateExpr_id b]
  | .or a b => by simp [mutateExpr, mutateExpr_id a, mutateExpr_id b]
  | .not a => by simp [mutateExpr, mutateExpr_id a]
  | .select c t f => by
    simp [mutateExpr, mutateExpr_id c, mutateExpr_id t, mutateExpr_id f]
  | .load _ _ index _ => by simp [mutateExpr, mutateExpr_id index]
  | .ramp base stride _ => by
    simp [mutateExpr, mutateExpr_id base, mutateExpr_id stride]
  | .broadcast v _ => by simp [mutateExpr, mutateExpr_id v]
  | .call _ _ args _ _ _ => by simp [mutateExpr, mutateExprList_id args]
  | .letE _ value body => by
    simp [mutateExpr, mutateExpr_id value, mutateExpr_id body]
  | .shuffle vectors indices => by
    simp [mutateExpr, mutateExprList_id vectors, mutateExprList_id indices]

theorem mutateExprList_id : ∀ (es : ExprList), mutateExprList es = es
  | .nil => rfl
  | .cons hd tl => by
    simp [mutateExprList, mutateExpr_id hd, mutateExprList_id tl]

end

/-- Mapping the identity-preserving mutator over an argument list is
the identity. -/
theorem map_mutateExpr_id : ∀ (l : List Expr), l.map mutateExpr = l
  | [] => rfl
  | e :: rest => by simp [mutateExpr_id e, map_mutateExpr_id rest]

/-- Mapping the mutator over a bounds list is the identity. -/
theorem map_mutateExpr_pair_id :
    ∀ (l : List (Expr × Expr)),
      l.map (fun p => (mutateExpr p.1, mutateExpr p.2)) = l
  | [] => rfl
  | p :: rest => by
    simp [mutateExpr_id p.1, mutateExpr_id p.2, map_mutateExpr_pair_id rest]

/-- The default statement mutator returns its input unchanged. -/
theorem mutateStmt_id : ∀ (s : Stmt), mutateStmt s = s
  | .undef => rfl
  | .letStmt _ value body => by
    simp [mutateStmt, mutateExpr_id value, mutateStmt_id body]
  | .attrStmt _ _ value body => by
    simp [mutateStmt, mutateExpr_id value, mutateStmt_id body]
  | .assertStmt c m _ => by simp [mutateStmt, mutateExpr_id c, mutateExpr_id m]
  | .producerConsumer _ _ body => by simp [mutateStmt, mutateStmt_id body]
  | .forS _ mn ext _ _ body => by
    simp [mutateStmt, mutateExpr_id mn, mutateExpr_id ext, mutateStmt_id body]
  | .store _ value index _ => by
    simp [mutateStmt, mutateExpr_id value, mutateExpr_id index]
  | .provide _ _ value args => by
    simp [mutateStmt, mutateExpr_id value, map_mutateExpr_id args]
  | .allocate _ _ extents condition body new_expr _ => by
    simp [mutateStmt, map_mutateExpr_id extents, mutateStmt_id body,
      mutateExpr_id condition, mutateExpr_id new_expr]
  | .free _ => rfl
  | .realize _ _ _ bounds condition body => by
    simp [mutateStmt, map_mutateExpr_pair_id bounds, mutateStmt_id body,
      mutateExpr_id condition]
  | .prefetch _ _ _ bounds => by
    simp [mutateStmt, map_mutateExpr_pair_id bounds]
  | .block first rest => by
    simp [mutateStmt, mutateStmt_id first, mutateStmt_id rest]
  | .ifThenElse condition then_case else_case => by
    simp [mutateStmt, mutateExpr_id condition, mutateStmt_id then_case,
      mutateStmt_id else_case]
  | .evaluate value => by simp [mutateStmt, mutateExpr_id value]

/-- Claim C4: every default visit returns the original node when every
mutated child is identical to the original; consequently the default
mutator (no overrides) is the identity on expressions and statements.
In the embedding, node identity is structural equality, and the
`same_as` short-circuits are the `if` tests inside `mutateExpr` and
`mutateStmt`. -/
theorem mutator_identity :
    (∀ (e : Expr), mutateExpr e = e) ∧ (∀ (s : Stmt), mutateStmt s = s) :=
  ⟨mutateExpr_id, mutateStmt_id⟩

/-- `Block::make` preserves right-leaning spines. -/
theorem rightSpine_block_make :
    ∀ (first : Stmt), rightSpine first = true →
      ∀ (rest : Stmt), rightSpine rest = true →
        rightSpine (Block.make first rest) = true := by
  intro first
  induction first with
  | block f r _ ihr =>
    intro h rest hrest
    simp only [rightSpine, Bool.and_eq_true] at h
    have hrec : rightSpine (Block.make r rest) = true := ihr h.2 rest hrest
    simp only [Block.make, rightSpine, Bool.and_eq_true]
    exact ⟨h.1, hrec⟩
  | _ =>
    intro h rest hrest
    simp_all [Block.make, rightSpine, notBlock]

/-- Claim C5: `Block::make(first, rest)` rebuilds a nested first block
as `Block(a, Block::make(b, rest))` and, on inputs whose own spines are
right-leaning (which all statements built through the constructors
are), produces a right-leaning spine; the vector overload folds from
the right and maps the empty sequence to the undefined statement. -/
theorem block_make_canonicalises :
    (∀ (a b rest : Stmt),
      Block.make (.block a b) rest = .block a (Block.make b rest)) ∧
    (∀ (first rest : Stmt), first.defined = true → rest.defined = true →
      rightSpine first = true → rightSpine rest = true →
      rightSpine (Block.make first rest) = true) ∧
    Block.makeList [] = .undef ∧
    (∀ (s : Stmt), Block.makeList [s] = s) ∧
    (∀ (s s2 : Stmt) (rest : List Stmt),
      Block.makeList (s :: s2 :: rest) =
        Block.make s (Block.makeList (s2 :: rest))) ∧
    (∀ (stmts : List Stmt), stmts ≠ [] →
      (∀ s ∈ stmts, rightSpine s = true) →
      rightSpine (Block.makeList stmts) = true) := by
  refine ⟨fun a b rest => rfl, fun first rest _ _ h1 h2 =>
    rightSpine_block_make first h1 rest h2, rfl, fun s => rfl,
    fun s s2 rest => rfl, ?_⟩
  intro stmts
  induction stmts with
  | nil => intro h; exact absurd rfl h
  | cons s rest ih =>
    intro _ hall
    cases rest with
    | nil => exact hall s (by simp)
    | cons s2 r2 =>
      have h1 : rightSpine s = true := hall s (by simp)
      have h2 : rightSpine (Block.makeList (s2 :: r2)) = true := by
        refine ih (by simp) ?_
        intro x hx
        exact hall x (by simp [hx])
      exact rightSpine_block_make s h1 _ h2

/-- Witness for claim C5 at a concrete nested block. -/
theorem block_make_canonicalises_witness :
    (Stmt.block (.evaluate xVar) (.evaluate xVar)).defined = true ∧
    (Stmt.evaluate xVar).defined = true ∧
    rightSpine (Stmt.block (.evaluate xVar) (.evaluate xVar)) = true ∧
    rightSpine (Stmt.evaluate xVar) = true ∧
    rightSpine (Block.make (Stmt.block (.evaluate xVar) (.evaluate xVar))
      (Stmt.evaluate xVar)) = true :=
  ⟨by decide, by decide, by decide, by decide,
    block_make_canonicalises.2.1 (Stmt.block (.evaluate xVar) (.evaluate xVar))
      (Stmt.evaluate xVar) (by decide) (by decide) (by decide) (by decide)⟩

/-- Claim C10: `IfThenElse::make` raises the internal diagnostic exactly
when the condition or the then-branch is undefined; with both defined it
succeeds and stores the else-branch as given, the undefined handle
included. -/
theorem ifThenElse_make_spec :
    ∀ (c : Expr) (t e' : Stmt),
      ((∃ msg, IfThenElse.make c t e' = .error msg) ↔
        (c.defined = false ∨ t.defined = false)) ∧
      (c.defined = true → t.defined = true →
        IfThenElse.make c t e' = .ok (.ifThenElse c t e') ∧
        IfThenElse.make c t .undef = .ok (.ifThenElse c t .undef)) := by
  intro c t e'
  cases hc : c.defined <;> cases ht : t.defined <;>
    simp [IfThenElse.make, hc, ht]

/-- Witness for claim C10: a defined condition and then-branch with the
undefined else-branch. -/
theorem ifThenElse_make_spec_witness :
    (xVar.defined = true) ∧ ((Stmt.evaluate xVar).defined = true) ∧
    IfThenElse.make xVar (.evaluate xVar) .undef =
      .ok (.ifThenElse xVar (.evaluate xVar) .undef) :=
  ⟨by decide, by decide,
    ((ifThenElse_make_spec xVar (.evaluate xVar) .undef).2 (by decide)
      (by decide)).2⟩

/-- Claim C9: `IRFunctor::operator()` invokes the registered callback at
the node's type index, and fails on a missing registration with the
internal diagnostic naming the kind's type key via
`Node::TypeIndex2Key`. -/
theorem irfunctor_dispatch_spec :
    ∀ {R : Type} (key : Nat → String) (func_ : List (Option (NodeRef → R)))
      (n : NodeRef),
      (func_.getD n.type_index none = none →
        IRFunctor.callOp key func_ n =
          .error ("IRFunctor calls un-registered function on type " ++
            key n.type_index)) ∧
      (∀ f, func_.getD n.type_index none = some f →
        IRFunctor.callOp key func_ n = .ok (f n)) := by
  intro R key tbl n
  constructor
  · intro h
    unfold IRFunctor.callOp
    rw [h]
  · intro f h
    unfold IRFunctor.callOp
    rw [h]

/-- `Int.bmod` is idempotent: reducing an already-reduced value changes
nothing. -/
theorem bmod_idem (v : Int) (n : Nat) :
    Int.bmod (Int.bmod v n) n = Int.bmod v n := by
  rw [Int.bmod_def (Int.bmod v n), Int.bmod_emod, ← Int.bmod_def]

/-- The `<<`/`>>` normalisation of `IntImm::make` — wrap the shifted
value in 64 bits, then arithmetic-shift back — equals the balanced
residue modulo `2 ^ b`. -/
theorem store_eq_sign_extend (b : Nat) (hb : 1 ≤ b) (hb64 : b ≤ 64) (v : Int) :
    Int.fdiv (Int.bmod (v * 2 ^ (64 - b)) (2 ^ 64)) (2 ^ (64 - b)) =
      Int.bmod v (2 ^ b) := by
  have hsplit : (2 ^ 64 : Nat) = 2 ^ b * 2 ^ (64 - b) := by
    rw [← pow_add]
    congr 1
    omega
  have hKpos : (0 : Int) < 2 ^ (64 - b) := by positivity
  have hKne : ((2 : Int) ^ (64 - b)) ≠ 0 := by positivity
  have hmod : v * 2 ^ (64 - b) % ((2 ^ 64 : Nat) : Int) =
      (v % ((2 ^ b : Nat) : Int)) * 2 ^ (64 - b) := by
    rw [hsplit]
    push_cast
    rw [mul_comm v ((2 : Int) ^ (64 - b)),
      mul_comm ((2 : Int) ^ b) ((2 : Int) ^ (64 - b)),
      Int.mul_emod_mul_of_pos _ _ hKpos, mul_comm]
  have hth1 : (((2 ^ 64 : Nat) : Int) + 1) / 2 = 2 ^ 63 := by norm_num
  have hth2 : (2 ^ 63 : Int) = 2 ^ (b - 1) * 2 ^ (64 - b) := by
    rw [← pow_add]
    congr 1
    omega
  have hth3 : (((2 ^ b : Nat) : Int) + 1) / 2 = 2 ^ (b - 1) := by
    push_cast
    have h2b : (2 : Int) ^ b = 2 ^ (b - 1) * 2 := by
      rw [← pow_succ]
      congr 1
      omega
    rw [h2b, add_comm, Int.add_mul_ediv_right _ _ (two_ne_zero)]
    norm_num
  rw [Int.bmod_def, Int.bmod_def, hmod, hth1, hth3]
  by_cases hc : v % ((2 ^ b : Nat) : Int) < 2 ^ (b - 1)
  · rw [if_pos (by rw [hth2]; exact mul_lt_mul_of_pos_right hc hKpos), if_pos hc]
    exact Int.mul_fdiv_cancel _ hKne
  · rw [if_neg ?_, if_neg hc]
    · have hsub : (v % ((2 ^ b : Nat) : Int)) * 2 ^ (64 - b) -
          ((2 ^ 64 : Nat) : Int) =
          (v % ((2 ^ b : Nat) : Int) - ((2 ^ b : Nat) : Int)) *
            2 ^ (64 - b) := by
        rw [hsplit]
        push_cast
        ring
      rw [hsub, Int.mul_fdiv_cancel _ hKne]
    · rw [hth2]
      intro hlt
      exact hc (lt_of_mul_lt_mul_right hlt (le_of_lt hKpos))

/-- The first half of claim C6: what `IntImm::make` stores. -/
theorem intImm_make_stores_sign_extend :
    ∀ (b : Nat), (b = 8 ∨ b = 16 ∨ b = 32 ∨ b = 64) → ∀ (v : Int),
    IntImm.make (intTy b 1) v = .ok (.intImm (intTy b 1) (sign_extend b v)) := by
  intro b hb v
  have key : ∀ (bb : Nat), 1 ≤ bb → bb ≤ 64 →
      (Int.fdiv (Int.bmod (v * 2 ^ (64 - bb)) (2 ^ 64)) (2 ^ (64 - bb)) =
        Int.bmod v (2 ^ bb)) := fun bb h1 h2 => store_eq_sign_extend bb h1 h2 v
  rcases hb with rfl | rfl | rfl | rfl
  · simp only [IntImm.make, intTy, Ty.is_int, Ty.is_scalar, sign_extend]
    norm_num
    have h := key 8 (by norm_num) (by norm_num)
    norm_num at h
    exact h
  · simp only [IntImm.make, intTy, Ty.is_int, Ty.is_scalar, sign_extend]
    norm_num
    have h := key 16 (by norm_num) (by norm_num)
    norm_num at h
    exact h
  · simp only [IntImm.make, intTy, Ty.is_int, Ty.is_scalar, sign_extend]
    norm_num
    have h := key 32 (by norm_num) (by norm_num)
    norm_num at h
    exact h
  · simp only [IntImm.make, intTy, Ty.is_int, Ty.is_scalar, sign_extend]
    norm_num

/-- Claim C6: for every signed integer width `b ∈ {8, 16, 32, 64}` and
64-bit value `v`, `IntImm::make` stores `sign_extend(v, b)`, and the
literals built from `v` and from `sign_extend(v, b)` have identical
stored representations. -/
theorem intImm_make_normalises :
    ∀ (b : Nat), (b = 8 ∨ b = 16 ∨ b = 32 ∨ b = 64) → ∀ (v : Int),
    IntImm.make (intTy b 1) v = .ok (.intImm (intTy b 1) (sign_extend b v)) ∧
    IntImm.make (intTy b 1) (sign_extend b v) = IntImm.make (intTy b 1) v := by
  intro b hb v
  refine ⟨intImm_make_stores_sign_extend b hb v, ?_⟩
  rw [intImm_make_stores_sign_extend b hb v,
    intImm_make_stores_sign_extend b hb (sign_extend b v)]
  simp only [sign_extend, bmod_idem]

/-- Witness for claim C6 at width 32 and value `2 ^ 35 + 5`. -/
theorem intImm_make_normalises_witness :
    ((32 : Nat) = 8 ∨ (32 : Nat) = 16 ∨ (32 : Nat) = 32 ∨ (32 : Nat) = 64) ∧
    IntImm.make (intTy 32 1) (2 ^ 35 + 5) =
      .ok (.intImm (intTy 32 1) (sign_extend 32 (2 ^ 35 + 5))) ∧
    sign_extend 32 (2 ^ 35 + 5) = 5 :=
  ⟨by decide, (intImm_make_normalises 32 (by decide) (2 ^ 35 + 5)).1,
    by decide⟩

/-- The invariant of the traversal loop of
`Allocate::constant_allocation_size`, for any starting accumulator:
the outcome is decided by the wrapping prefix products of the maximal
literal prefix and by whether a non-literal extent follows it. -/
theorem cas_go_spec : ∀ (extents : List Expr) (name : String) (acc : Int),
    (prefixOverflow acc (litPrefixVals extents) = true →
      constant_allocation_size_go name extents acc =
        .error ("Total size for allocation " ++ name ++
          " is constant but exceeds 2^31 - 1.")) ∧
    (prefixOverflow acc (litPrefixVals extents) = false →
      hasNonLit extents = true →
      constant_allocation_size_go name extents acc = .ok 0) ∧
    (prefixOverflow acc (litPrefixVals extents) = false →
      hasNonLit extents = false →
      constant_allocation_size_go name extents acc =
        .ok (Int.bmod (wrapProd acc (litPrefixVals extents)) (2 ^ 32))) := by
  intro extents
  induction extents with
  | nil =>
    intro name acc
    simp [prefixOverflow, litPrefixVals, hasNonLit, wrapProd,
      constant_allocation_size_go]
  | cons e rest ih =>
    intro name acc
    match he : asIntImm e with
    | some v =>
      have hlit : litPrefixVals (e :: rest) = v :: litPrefixVals rest := by
        simp [litPrefixVals, he]
      have hnl : hasNonLit (e :: rest) = hasNonLit rest := by
        simp [hasNonLit, he]
      have hgo : constant_allocation_size_go name (e :: rest) acc =
          (if Int.bmod (acc * v) (2 ^ 64) > 2 ^ 31 - 1 then
            .error ("Total size for allocation " ++ name ++
              " is constant but exceeds 2^31 - 1.")
          else constant_allocation_size_go name rest
            (Int.bmod (acc * v) (2 ^ 64))) := by
        simp [constant_allocation_size_go, he]
      have hpo : prefixOverflow acc (litPrefixVals (e :: rest)) =
          ((Int.bmod (acc * v) (2 ^ 64) > 2 ^ 31 - 1) ||
            prefixOverflow (Int.bmod (acc * v) (2 ^ 64))
              (litPrefixVals rest)) := by
        rw [hlit]
        simp [prefixOverflow]
      have hwp : wrapProd acc (litPrefixVals (e :: rest)) =
          wrapProd (Int.bmod (acc * v) (2 ^ 64)) (litPrefixVals rest) := by
        rw [hlit]
        simp [wrapProd]
      rw [hgo, hpo, hnl, hwp]
      by_cases hov : Int.bmod (acc * v) (2 ^ 64) > 2 ^ 31 - 1
      · have hd : decide ((acc * v).bmod (2 ^ 64) > 2 ^ 31 - 1) = true :=
          decide_eq_true hov
        rw [if_pos hov, hd, Bool.true_or]
        refine ⟨fun _ => rfl, fun h _ => ?_, fun h _ => ?_⟩ <;> simp at h
      · have hd : decide ((acc * v).bmod (2 ^ 64) > 2 ^ 31 - 1) = false :=
          decide_eq_false hov
        rw [if_neg hov, hd, Bool.false_or]
        exact ih name (Int.bmod (acc * v) (2 ^ 64))
    | none =>
      have hlit : litPrefixVals (e :: rest) = [] := by
        simp [litPrefixVals, he]
      have hnl : hasNonLit (e :: rest) = true := by
        simp [hasNonLit, he]
      have hgo : constant_allocation_size_go name (e :: rest) acc = .ok 0 := by
        simp [constant_allocation_size_go, he]
      rw [hlit, hnl, hgo]
      simp [prefixOverflow]

/-- Claim C7, counterexample: on the extent list `[2^31, 0]` — all
integer literals with product 0, well within `2^31 - 1` — the source
raises the user error, because the overflow check runs after every
single multiplication and the first prefix product is already `2^31`;
the claim as stated requires `.ok 0` here. -/
theorem constant_allocation_size_claim_cex :
    (∀ e ∈ casCexExtents, (asIntImm e).isSome) ∧
    wrapProd 1 (litPrefixVals casCexExtents) = 0 ∧
    Allocate.constant_allocation_size casCexExtents "buf" =
      .error "Total size for allocation buf is constant but exceeds 2^31 - 1." ∧
    Allocate.constant_allocation_size casCexExtents "buf" ≠ .ok 0 := by
  refine ⟨by decide, by decide, rfl, ?_⟩
  rw [show Allocate.constant_allocation_size casCexExtents "buf" =
    Except.error
      "Total size for allocation buf is constant but exceeds 2^31 - 1."
    from rfl]
  simp

/-- Claim C7, amended: scanning the extents left to right, the function
raises the user error as soon as a wrapping 64-bit prefix product of
the literal values exceeds `2^31 - 1`; it returns 0 at the first
non-literal extent if no earlier prefix overflowed; and when every
extent is a literal and no prefix overflows it returns the (wrapped)
product cast to 32 bits. -/
theorem constant_allocation_size_amended_spec :
    ∀ (name : String) (extents : List Expr),
      (prefixOverflow 1 (litPrefixVals extents) = true →
        Allocate.constant_allocation_size extents name =
          .error ("Total size for allocation " ++ name ++
            " is constant but exceeds 2^31 - 1.")) ∧
      (prefixOverflow 1 (litPrefixVals extents) = false →
        hasNonLit extents = true →
        Allocate.constant_allocation_size extents name = .ok 0) ∧
      (prefixOverflow 1 (litPrefixVals extents) = false →
        hasNonLit extents = false →
        Allocate.constant_allocation_size extents name =
          .ok (Int.bmod (wrapProd 1 (litPrefixVals extents)) (2 ^ 32))) :=
  fun name extents => cas_go_spec extents name 1

/-- Witness for amended claim C7 on literal extents `[2, 3]`. -/
theorem constant_allocation_size_amended_witness :
    prefixOverflow 1 (litPrefixVals
      [Expr.intImm (intTy 64 1) 2, Expr.intImm (intTy 64 1) 3]) = false ∧
    hasNonLit [Expr.intImm (intTy 64 1) 2, Expr.intImm (intTy 64 1) 3] =
      false ∧
    Allocate.constant_allocation_size
      [Expr.intImm (intTy 64 1) 2, Expr.intImm (intTy 64 1) 3] "a" =
      .ok (Int.bmod (wrapProd 1 (litPrefixVals
        [Expr.intImm (intTy 64 1) 2, Expr.intImm (intTy 64 1) 3])) (2 ^ 32)) ∧
    Allocate.constant_allocation_size
      [Expr.intImm (intTy 64 1) 2, Expr.intImm (intTy 64 1) 3] "a" = .ok 6 :=
  ⟨by decide, by decide,
    (constant_allocation_size_amended_spec "a"
      [Expr.intImm (intTy 64 1) 2, Expr.intImm (intTy 64 1) 3]).2.2
      (by decide) (by decide), rfl⟩

/-- Claim C1: on scenario S2's input — `((x*x + x) * (x*x + x)) + x*x`
doubled — `common_subexpression_elimination` returns, after
normalisation of the let variables, exactly
`Let t0 = x*x in Let t1 = t0 + x in Let t2 = t1*t1 + t0 in t2 + t2`. -/
theorem cse_basic_sharing : normalize (cse s2_input 0) = s2_expected := by
  rfl

/-- Claim C8 (code bug): the calls `unique_name("t$1")`,
`unique_name("t")`, `unique_name("t")` (with the string hash sending
everything to slot 0) return `"t$1"` twice — the first verbatim through
the pass-through family, the second from the `'$'`-plus-counter family —
so the families are not disjoint, contradicting the comment above
`unique_name` in `src/base/Util.cpp`. -/
theorem unique_name_cross_family_collision :
    (runNames (fun _ => 0) collisionCalls initNames).1 =
      [['t', '$', '1'], ['t', '$', '1'], ['t', '$', '2']] := by
  decide

/-- Witness for claim C9: a two-slot table with slot 1 registered. -/
theorem irfunctor_dispatch_spec_witness :
    (([none, some (fun n => n.type_index)] :
        List (Option (NodeRef → Nat))).getD 0 none = none) ∧
    (([none, some (fun n => n.type_index)] :
        List (Option (NodeRef → Nat))).getD 1 none =
      some (fun n => n.type_index)) ∧
    IRFunctor.callOp (fun i => "Key" ++ toString i)
      [none, some (fun n => n.type_index)] ⟨0⟩ =
      .error ("IRFunctor calls un-registered function on type Key0") ∧
    IRFunctor.callOp (fun i => "Key" ++ toString i)
      [none, some (fun n => n.type_index)] ⟨1⟩ = .ok 1 :=
  ⟨rfl, rfl,
    (irfunctor_dispatch_spec (fun i => "Key" ++ toString i)
      [none, some (fun n => n.type_index)] ⟨0⟩).1 rfl,
    (irfunctor_dispatch_spec (fun i => "Key" ++ toString i)
      [none, some (fun n => n.type_index)] ⟨1⟩).2 (fun n => n.type_index) rfl⟩


/-! ### Basic facts about the numbering and the child relation -/

theorem findNumber_eq_none : ∀ {ents : List GVNEntry} {e : Expr},
    findNumber ents e = none ↔ e ∉ entryExprs ents := by
  intro ents e
  induction ents with
  | nil => simp [findNumber, entryExprs]
  | cons en rest ih =>
    by_cases h : en.expr = e
    · simp [findNumber, h, entryExprs]
    · simp [findNumber, h, entryExprs, Option.map_eq_none', Ne.symm h] at ih ⊢
      exact ih

theorem findNumber_some : ∀ {ents : List GVNEntry} {e : Expr} {n : Nat},
    findNumber ents e = some n →
      n < ents.length ∧ canonicalOf ents n = e := by
  intro ents e
  induction ents with
  | nil => intro n h; simp [findNumber] at h
  | cons en rest ih =>
    intro n h
    by_cases he : en.expr = e
    · simp [findNumber, he] at h
      subst h
      simp [canonicalOf, he]
    · simp only [findNumber, beq_iff_eq, he, if_false, if_neg] at h
      rcases Option.map_eq_some'.mp (by simpa using h) with ⟨m, hm, rfl⟩
      rcases ih hm with ⟨h1, h2⟩
      refine ⟨by simpa using Nat.succ_lt_succ h1, ?_⟩
      simpa [canonicalOf] using h2

theorem findNumber_mem {ents : List GVNEntry} {e : Expr} :
    e ∈ entryExprs ents → ∃ n, findNumber ents e = some n := by
  intro h
  cases hf : findNumber ents e with
  | none => exact absurd h (findNumber_eq_none.mp hf)
  | some n => exact ⟨n, rfl⟩

theorem findNumber_append : ∀ {ents tail : List GVNEntry} {e : Expr} {n : Nat},
    findNumber ents e = some n → findNumber (ents ++ tail) e = some n := by
  intro ents tail e
  induction ents with
  | nil => intro n h; simp [findNumber] at h
  | cons en rest ih =>
    intro n h
    rw [show (en :: rest) ++ tail = en :: (rest ++ tail) from rfl]
    by_cases he : en.expr = e
    · simp [findNumber, he] at h ⊢
      exact h
    · simp only [findNumber, beq_iff_eq, he, if_false, if_neg] at h
      rcases Option.map_eq_some'.mp (by simpa using h) with ⟨m, hm, rfl⟩
      simp only [findNumber, beq_iff_eq, he, if_false, if_neg]
      rw [ih hm]
      rfl

theorem canonicalOf_mem {ents : List GVNEntry} {n : Nat} (h : n < ents.length) :
    canonicalOf ents n ∈ entryExprs ents := by
  simp only [canonicalOf, entryExprs]
  rw [List.getD_eq_getElem ents default h]
  exact List.mem_map_of_mem _ (List.getElem_mem h)

theorem canonicalOf_append {ents tail : List GVNEntry} {n : Nat}
    (h : n < ents.length) :
    canonicalOf (ents ++ tail) n = canonicalOf ents n := by
  simp only [canonicalOf]
  rw [List.getD_eq_getElem ents default h,
    List.getD_eq_getElem (ents ++ tail) default
      (by simp; omega),
    List.getElem_append_left h]

theorem entriesExtend_refl (ents : List GVNEntry) : entriesExtend ents ents :=
  ⟨[], by simp⟩

theorem entriesExtend_trans {a b c : List GVNEntry} :
    entriesExtend a b → entriesExtend b c → entriesExtend a c := by
  rintro ⟨t1, rfl⟩ ⟨t2, rfl⟩
  exact ⟨t1 ++ t2, by simp⟩

theorem entriesExtend_length {a b : List GVNEntry} :
    entriesExtend a b → a.length ≤ b.length := by
  rintro ⟨t, rfl⟩
  simp

theorem entriesExtend_canonicalOf {a b : List GVNEntry} {n : Nat}
    (hx : entriesExtend a b) (h : n < a.length) :
    canonicalOf b n = canonicalOf a n := by
  rcases hx with ⟨t, rfl⟩
  exact canonicalOf_append h

theorem entriesExtend_mem {a b : List GVNEntry} {e : Expr}
    (hx : entriesExtend a b) (h : e ∈ entryExprs a) : e ∈ entryExprs b := by
  rcases hx with ⟨t, rfl⟩
  simp only [entryExprs, List.map_append]
  exact List.mem_append_left _ h

theorem entriesExtend_findNumber {a b : List GVNEntry} {e : Expr} {n : Nat}
    (hx : entriesExtend a b) (h : findNumber a e = some n) :
    findNumber b e = some n := by
  rcases hx with ⟨t, rfl⟩
  exact findNumber_append h

theorem exprList_toList_sizeOf : ∀ {es : ExprList} {ch : Expr},
    ch ∈ es.toList → sizeOf ch < sizeOf es
  | .nil, ch => by simp [ExprList.toList]
  | .cons hd tl, ch => by
    intro h
    rcases (by simpa [ExprList.toList] using h : ch = hd ∨ ch ∈ tl.toList) with
      rfl | h
    · simp
      omega
    · have := @exprList_toList_sizeOf tl _ h
      simp
      omega

theorem childrenOf_sizeOf : ∀ {e ch : Expr}, ch ∈ childrenOf e →
    sizeOf ch < sizeOf e := by
  intro e ch h
  cases e with
  | cast t v =>
    simp [childrenOf] at h
    subst h; first | (simp; omega) | simp
  | add a b =>
    simp [childrenOf] at h
    rcases h with rfl | rfl <;> (first | (simp; omega) | simp)
  | sub a b =>
    simp [childrenOf] at h
    rcases h with rfl | rfl <;> (first | (simp; omega) | simp)
  | mul a b =>
    simp [childrenOf] at h
    rcases h with rfl | rfl <;> (first | (simp; omega) | simp)
  | div a b =>
    simp [childrenOf] at h
    rcases h with rfl | rfl <;> (first | (simp; omega) | simp)
  | mod a b =>
    simp [childrenOf] at h
    rcases h with rfl | rfl <;> (first | (simp; omega) | simp)
  | min a b =>
    simp [childrenOf] at h
    rcases h with rfl | rfl <;> (first | (simp; omega) | simp)
  | max a b =>
    simp [childrenOf] at h
    rcases h with rfl | rfl <;> (first | (simp; omega) | simp)
  | eq a b =>
    simp [childrenOf] at h
    rcases h with rfl | rfl <;> (first | (simp; omega) | simp)
  | ne a b =>
    simp [childrenOf] at h
    rcases h with rfl | rfl <;> (first | (simp; omega) | simp)
  | lt a b =>
    simp [childrenOf] at h
    rcases h with rfl | rfl <;> (first | (simp; omega) | simp)
  | le a b =>
    simp [childrenOf] at h
    rcases h with rfl | rfl <;> (first | (simp; omega) | simp)
  | gt a b =>
    simp [childrenOf] at h
    rcases h with rfl | rfl <;> (first | (simp; omega) | simp)
  | ge a b =>
    simp [childrenOf] at h
    rcases h with rfl | rfl <;> (first | (simp; omega) | simp)
  | and a b =>
    simp [childrenOf] at h
    rcases h with rfl | rfl <;> (first | (simp; omega) | simp)
  | or a b =>
    simp [childrenOf] at h
    rcases h with rfl | rfl <;> (first | (simp; omega) | simp)
  | not a =>
    simp [childrenOf] at h
    subst h; first | (simp; omega) | simp
  | select c t f =>
    simp [childrenOf] at h
    rcases h with rfl | rfl | rfl <;> (first | (simp; omega) | simp)
  | load t bv i p =>
    simp [childrenOf] at h
    subst h; first | (simp; omega) | simp
  | ramp b s l =>
    simp [childrenOf] at h
    rcases h with rfl | rfl <;> (first | (simp; omega) | simp)
  | broadcast v l =>
    simp [childrenOf] at h
    subst h; first | (simp; omega) | simp
  | call t nm args ct f vi =>
    simp [childrenOf] at h
    have := exprList_toList_sizeOf h
    first | (simp; omega) | simp | omega
  | letE v value body =>
    simp [childrenOf] at h
    rcases h with rfl | rfl <;> (first | (simp; omega) | simp)
  | shuffle vs idxs =>
    simp [childrenOf] at h
    rcases h with h | h
    · have h2 := @exprList_toList_sizeOf vs _ h
      first | (simp; omega) | simp | omega
    · have h2 := @exprList_toList_sizeOf idxs _ h
      first | (simp; omega) | simp | omega
  | undef => simp [childrenOf] at h
  | intImm t v => simp [childrenOf] at h
  | uintImm t v => simp [childrenOf] at h
  | floatImm t v => simp [childrenOf] at h
  | stringImm v => simp [childrenOf] at h
  | var v => simp [childrenOf] at h

theorem reaches_trans {a b c : Expr} :
    reaches a b → reaches b c → reaches a c := by
  intro h1 h2
  induction h1 with
  | refl => exact h2
  | child e ch x hch _ ih => exact reaches.child e ch c hch (ih h2)

theorem reaches_sizeOf {a b : Expr} : reaches a b → sizeOf b ≤ sizeOf a := by
  intro h
  induction h with
  | refl => exact le_refl _
  | child e ch x hch _ ih => exact le_of_lt (lt_of_le_of_lt ih (childrenOf_sizeOf hch))

theorem reaches_of_child {e ch x : Expr} (hch : ch ∈ childrenOf e)
    (h : reaches ch x) : reaches e x :=
  reaches.child e ch x hch h

/-- A node never reaches itself through a strict child. -/
theorem not_child_reaches_self {e ch : Expr} (hch : ch ∈ childrenOf e) :
    ¬ reaches ch e := by
  intro h
  have h1 := reaches_sizeOf h
  have h2 := childrenOf_sizeOf hch
  omega

/-! ### Preservation of the GVN invariant -/

theorem gvnAdd_spec {e : Expr} {st : GVNState} (hInv : GvnInv st)
    (hnot : e ∉ entryExprs st.entries)
    (hch : ∀ ch ∈ childrenOf e, ch ∈ entryExprs st.entries)
    (hlet : isLetE e = false) :
    MutOut st (gvnAdd e st) ∧
    canonicalOf (gvnAdd e st).2.entries (gvnAdd e st).1 = e := by
  have hlen : (gvnAdd e st).1 = st.entries.length := rfl
  have hents : (gvnAdd e st).2.entries = st.entries ++ [⟨e, 0⟩] := rfl
  have hcanon : canonicalOf (st.entries ++ [⟨e, 0⟩]) st.entries.length = e := by
    have key : ∀ (l : List GVNEntry) (x : GVNEntry),
        (l ++ [x]).getD l.length default = x := by
      intro l x
      induction l with
      | nil => rfl
      | cons a t ih => simpa [List.getD_cons_succ] using ih
    show ((st.entries ++ [(⟨e, 0⟩ : GVNEntry)]).getD st.entries.length
      default).expr = e
    rw [key]
  have htake : (st.entries ++ [(⟨e, 0⟩ : GVNEntry)]).take st.entries.length =
      st.entries := by
    simpa using List.take_left st.entries [(⟨e, 0⟩ : GVNEntry)]
  have hnodup : (entryExprs (gvnAdd e st).2.entries).Nodup := by
    rw [hents]
    simp only [entryExprs, List.map_append, List.map_cons, List.map_nil]
    exact List.Nodup.append hInv.nodup (List.nodup_singleton e)
      (by simpa [List.disjoint_singleton, entryExprs] using hnot)
  have hnolet : ∀ en ∈ (gvnAdd e st).2.entries, isLetE en.expr = false := by
    intro en hen
    rw [hents] at hen
    rcases (by simpa using hen : en ∈ st.entries ∨ en = (⟨e, 0⟩ : GVNEntry))
      with h | h
    · exact hInv.noLet en h
    · subst h
      exact hlet
  have hclosed : ∀ i, i < (gvnAdd e st).2.entries.length →
      ∀ ch ∈ childrenOf (canonicalOf (gvnAdd e st).2.entries i),
        ch ∈ entryExprs ((gvnAdd e st).2.entries.take i) := by
    intro i hi ch hchm
    rw [hents] at hi hchm ⊢
    simp only [List.length_append, List.length_cons, List.length_nil] at hi
    by_cases hilt : i < st.entries.length
    · rw [canonicalOf_append hilt] at hchm
      have := hInv.closed i hilt ch hchm
      rw [List.take_append_of_le_length (le_of_lt hilt)]
      exact this
    · have hieq : i = st.entries.length := by omega
      subst hieq
      rw [hcanon] at hchm
      rw [htake]
      exact hch ch hchm
  have hscope : ∀ p ∈ (gvnAdd e st).2.let_substitutions,
      p.2 < (gvnAdd e st).2.entries.length := by
    intro p hp
    have := hInv.scopeOk p hp
    rw [hents]
    simp only [List.length_append, List.length_cons, List.length_nil]
    omega
  have hlt : (gvnAdd e st).1 < (gvnAdd e st).2.entries.length := by
    rw [hlen, hents]
    simp
  have hcan : canonicalOf (gvnAdd e st).2.entries (gvnAdd e st).1 = e := by
    rw [hlen, hents]
    exact hcanon
  exact ⟨⟨⟨hnodup, hnolet, hclosed, hscope⟩, ⟨[⟨e, 0⟩], hents⟩, rfl, hlt⟩, hcan⟩

theorem gvnFinish_spec {e : Expr} {st : GVNState} (hInv : GvnInv st)
    (hch : ∀ ch ∈ childrenOf e, ch ∈ entryExprs st.entries)
    (hlet : isLetE e = false) :
    MutOut st (gvnFinish e st) ∧
    canonicalOf (gvnFinish e st).2.entries (gvnFinish e st).1 = e := by
  unfold gvnFinish
  cases hf : findNumber st.entries e with
  | some n =>
    rcases findNumber_some hf with ⟨hn, hc⟩
    exact ⟨⟨hInv, entriesExtend_refl _, rfl, hn⟩, hc⟩
  | none =>
    exact gvnAdd_spec hInv (findNumber_eq_none.mp hf) hch hlet

theorem gvn_found {e : Expr} {st : GVNState} {n : Nat} (hInv : GvnInv st)
    (hf : findNumber st.entries e = some n) : MutOut st (n, st) :=
  ⟨hInv, entriesExtend_refl _, rfl, (findNumber_some hf).1⟩

theorem gvn_step_unary (mk : Expr → Expr)
    (hch : ∀ x, childrenOf (mk x) = [x])
    (hlet : ∀ x, isLetE (mk x) = false)
    (a : Expr) (st : GVNState) (hInv : GvnInv st)
    (iha : ∀ st', GvnInv st' → MutOut st' (gvnMutate a st')) :
    MutOut st
      (gvnFinish (mk (canonicalOf (gvnMutate a st).2.entries
        (gvnMutate a st).1)) (gvnMutate a st).2) := by
  have o1 := iha st hInv
  have hmem : canonicalOf (gvnMutate a st).2.entries (gvnMutate a st).1 ∈
      entryExprs (gvnMutate a st).2.entries := canonicalOf_mem o1.lt
  rcases gvnFinish_spec o1.inv
    (by intro ch hchm; rw [hch] at hchm; simp at hchm; subst hchm; exact hmem)
    (hlet _) with ⟨o2, _⟩
  exact ⟨o2.inv, entriesExtend_trans o1.ext o2.ext, o2.subs.trans o1.subs,
    o2.lt⟩

theorem gvn_step_binary (mk : Expr → Expr → Expr)
    (hch : ∀ x y, childrenOf (mk x y) = [x, y])
    (hlet : ∀ x y, isLetE (mk x y) = false)
    (a b : Expr) (st : GVNState) (hInv : GvnInv st)
    (iha : ∀ st', GvnInv st' → MutOut st' (gvnMutate a st'))
    (ihb : ∀ st', GvnInv st' → MutOut st' (gvnMutate b st')) :
    MutOut st
      (gvnFinish (mk
        (canonicalOf (gvnMutate b (gvnMutate a st).2).2.entries
          (gvnMutate a st).1)
        (canonicalOf (gvnMutate b (gvnMutate a st).2).2.entries
          (gvnMutate b (gvnMutate a st).2).1))
        (gvnMutate b (gvnMutate a st).2).2) := by
  have o1 := iha st hInv
  have o2 := ihb _ o1.inv
  have hlt1 : (gvnMutate a st).1 <
      (gvnMutate b (gvnMutate a st).2).2.entries.length :=
    lt_of_lt_of_le o1.lt (entriesExtend_length o2.ext)
  have hmem1 := canonicalOf_mem hlt1
  have hmem2 := canonicalOf_mem o2.lt
  rcases gvnFinish_spec o2.inv
    (by
      intro ch hchm
      rw [hch] at hchm
      rcases (by simpa using hchm) with rfl | rfl
      · exact hmem1
      · exact hmem2)
    (hlet _ _) with ⟨o3, _⟩
  exact ⟨o3.inv, entriesExtend_trans o1.ext (entriesExtend_trans o2.ext o3.ext),
    o3.subs.trans (o2.subs.trans o1.subs), o3.lt⟩

theorem gvn_step_ternary (mk : Expr → Expr → Expr → Expr)
    (hch : ∀ x y z, childrenOf (mk x y z) = [x, y, z])
    (hlet : ∀ x y z, isLetE (mk x y z) = false)
    (a b c : Expr) (st : GVNState) (hInv : GvnInv st)
    (iha : ∀ st', GvnInv st' → MutOut st' (gvnMutate a st'))
    (ihb : ∀ st', GvnInv st' → MutOut st' (gvnMutate b st'))
    (ihc : ∀ st', GvnInv st' → MutOut st' (gvnMutate c st')) :
    MutOut st
      (gvnFinish (mk
        (canonicalOf (gvnMutate c (gvnMutate b (gvnMutate a st).2).2).2.entries
          (gvnMutate a st).1)
        (canonicalOf (gvnMutate c (gvnMutate b (gvnMutate a st).2).2).2.entries
          (gvnMutate b (gvnMutate a st).2).1)
        (canonicalOf (gvnMutate c (gvnMutate b (gvnMutate a st).2).2).2.entries
          (gvnMutate c (gvnMutate b (gvnMutate a st).2).2).1))
        (gvnMutate c (gvnMutate b (gvnMutate a st).2).2).2) := by
  have o1 := iha st hInv
  have o2 := ihb _ o1.inv
  have o3 := ihc _ o2.inv
  have hlt1 : (gvnMutate a st).1 <
      (gvnMutate c (gvnMutate b (gvnMutate a st).2).2).2.entries.length :=
    lt_of_lt_of_le o1.lt (le_trans (entriesExtend_length o2.ext)
      (entriesExtend_length o3.ext))
  have hlt2 : (gvnMutate b (gvnMutate a st).2).1 <
      (gvnMutate c (gvnMutate b (gvnMutate a st).2).2).2.entries.length :=
    lt_of_lt_of_le o2.lt (entriesExtend_length o3.ext)
  rcases gvnFinish_spec o3.inv
    (by
      intro ch hchm
      rw [hch] at hchm
      rcases (by simpa using hchm) with rfl | rfl | rfl
      · exact canonicalOf_mem hlt1
      · exact canonicalOf_mem hlt2
      · exact canonicalOf_mem o3.lt)
    (hlet _ _ _) with ⟨o4, _⟩
  exact ⟨o4.inv,
    entriesExtend_trans o1.ext (entriesExtend_trans o2.ext
      (entriesExtend_trans o3.ext o4.ext)),
    o4.subs.trans (o3.subs.trans (o2.subs.trans o1.subs)), o4.lt⟩

theorem scopePop_cons {v : Var} {n : Nat} {s : List (Var × Nat)} :
    scopePop v ((v, n) :: s) = s := by
  simp [scopePop]

theorem scopePop_subset : ∀ {s : List (Var × Nat)} {v : Var} {p : Var × Nat},
    p ∈ scopePop v s → p ∈ s
  | [], _, _, h => by simp [scopePop] at h
  | q :: rest, v, p, h => by
    simp only [scopePop] at h
    by_cases hq : q.1 == v
    · rw [if_pos hq] at h
      exact List.mem_cons_of_mem q h
    · rw [if_neg hq] at h
      rcases List.mem_cons.mp h with h1 | h2
      · rw [h1]
        exact List.mem_cons_self _ _
      · exact List.mem_cons_of_mem q (scopePop_subset h2)

theorem scopeGet_mem {s : List (Var × Nat)} {v : Var} {n : Nat}
    (h : scopeGet s v = some n) : ∃ p ∈ s, p.2 = n := by
  simp only [scopeGet, Option.map_eq_some'] at h
  rcases h with ⟨p, hp, hn⟩
  exact ⟨p, List.mem_of_find?_eq_some hp, hn⟩

set_option maxHeartbeats 2000000

mutual

/-- A full `GVN::mutate` run from a well-formed state preserves the
invariant, only appends entries, restores the substitution scope and
returns a valid number. -/
theorem gvnMutate_inv : ∀ (e : Expr) (st : GVNState), GvnInv st →
    MutOut st (gvnMutate e st)
  | .undef, st, hInv => by
    simp only [gvnMutate]
    cases hf : findNumber st.entries Expr.undef with
    | some n => exact gvn_found hInv hf
    | none =>
      exact (@gvnFinish_spec Expr.undef _ hInv
        (by intro ch hchm; simp [childrenOf] at hchm) rfl).1
  | .intImm t v, st, hInv => by
    simp only [gvnMutate]
    cases hf : findNumber st.entries (Expr.intImm t v) with
    | some n => exact gvn_found hInv hf
    | none =>
      exact (@gvnFinish_spec (Expr.intImm t v) _ hInv
        (by intro ch hchm; simp [childrenOf] at hchm) rfl).1
  | .uintImm t v, st, hInv => by
    simp only [gvnMutate]
    cases hf : findNumber st.entries (Expr.uintImm t v) with
    | some n => exact gvn_found hInv hf
    | none =>
      exact (@gvnFinish_spec (Expr.uintImm t v) _ hInv
        (by intro ch hchm; simp [childrenOf] at hchm) rfl).1
  | .floatImm t v, st, hInv => by
    simp only [gvnMutate]
    cases hf : findNumber st.entries (Expr.floatImm t v) with
    | some n => exact gvn_found hInv hf
    | none =>
      exact (@gvnFinish_spec (Expr.floatImm t v) _ hInv
        (by intro ch hchm; simp [childrenOf] at hchm) rfl).1
  | .stringImm v, st, hInv => by
    simp only [gvnMutate]
    cases hf : findNumber st.entries (Expr.stringImm v) with
    | some n => exact gvn_found hInv hf
    | none =>
      exact (@gvnFinish_spec (Expr.stringImm v) _ hInv
        (by intro ch hchm; simp [childrenOf] at hchm) rfl).1
  | .var v, st, hInv => by
    simp only [gvnMutate]
    cases hf : findNumber st.entries (Expr.var v) with
    | some n => exact gvn_found hInv hf
    | none =>
      cases hs : scopeGet st.let_substitutions v with
      | some n =>
        rcases scopeGet_mem hs with ⟨p, hp, hpn⟩
        exact ⟨hInv, entriesExtend_refl _, rfl, hpn ▸ hInv.scopeOk p hp⟩
      | none =>
        exact (gvnAdd_spec hInv (findNumber_eq_none.mp hf)
          (by intro ch hchm; simp [childrenOf] at hchm) rfl).1
  | .cast t value, st, hInv => by
    simp only [gvnMutate]
    cases hf : findNumber st.entries (Expr.cast t value) with
    | some n => exact gvn_found hInv hf
    | none =>
      exact gvn_step_unary (Expr.cast t) (fun x => rfl) (fun x => rfl)
        value st hInv (fun st' h => gvnMutate_inv value st' h)
  | .add a b, st, hInv => by
    simp only [gvnMutate]
    cases hf : findNumber st.entries (Expr.add a b) with
    | some n => exact gvn_found hInv hf
    | none =>
      exact gvn_step_binary Expr.add (fun x y => rfl) (fun x y => rfl)
        a b st hInv (fun st' h => gvnMutate_inv a st' h)
        (fun st' h => gvnMutate_inv b st' h)
  | .sub a b, st, hInv => by
    simp only [gvnMutate]
    cases hf : findNumber st.entries (Expr.sub a b) with
    | some n => exact gvn_found hInv hf
    | none =>
      exact gvn_step_binary Expr.sub (fun x y => rfl) (fun x y => rfl)
        a b st hInv (fun st' h => gvnMutate_inv a st' h)
        (fun st' h => gvnMutate_inv b st' h)
  | .mul a b, st, hInv => by
    simp only [gvnMutate]
    cases hf : findNumber st.entries (Expr.mul a b) with
    | some n => exact gvn_found hInv hf
    | none =>
      exact gvn_step_binary Expr.mul (fun x y => rfl) (fun x y => rfl)
        a b st hInv (fun st' h => gvnMutate_inv a st' h)
        (fun st' h => gvnMutate_inv b st' h)
  | .div a b, st, hInv => by
    simp only [gvnMutate]
    cases hf : findNumber st.entries (Expr.div a b) with
    | some n => exact gvn_found hInv hf
    | none =>
      exact gvn_step_binary Expr.div (fun x y => rfl) (fun x y => rfl)
        a b st hInv (fun st' h => gvnMutate_inv a st' h)
        (fun st' h => gvnMutate_inv b st' h)
  | .mod a b, st, hInv => by
    simp only [gvnMutate]
    cases hf : findNumber st.entries (Expr.mod a b) with
    | some n => exact gvn_found hInv hf
    | none =>
      exact gvn_step_binary Expr.mod (fun x y => rfl) (fun x y => rfl)
        a b st hInv (fun st' h => gvnMutate_inv a st' h)
        (fun st' h => gvnMutate_inv b st' h)
  | .min a b, st, hInv => by
    simp only [gvnMutate]
    cases hf : findNumber st.entries (Expr.min a b) with
    | some n => exact gvn_found hInv hf
    | none =>
      exact gvn_step_binary Expr.min (fun x y => rfl) (fun x y => rfl)
        a b st hInv (fun st' h => gvnMutate_inv a st' h)
        (fun st' h => gvnMutate_inv b st' h)
  | .max a b, st, hInv => by
    simp only [gvnMutate]
    cases hf : findNumber st.entries (Expr.max a b) with
    | some n => exact gvn_found hInv hf
    | none =>
      exact gvn_step_binary Expr.max (fun x y => rfl) (fun x y => rfl)
        a b st hInv (fun st' h => gvnMutate_inv a st' h)
        (fun st' h => gvnMutate_inv b st' h)
  | .eq a b, st, hInv => by
    simp only [gvnMutate]
    cases hf : findNumber st.entries (Expr.eq a b) with
    | some n => exact gvn_found hInv hf
    | none =>
      exact gvn_step_binary Expr.eq (fun x y => rfl) (fun x y => rfl)
        a b st hInv (fun st' h => gvnMutate_inv a st' h)
        (fun st' h => gvnMutate_inv b st' h)
  | .ne a b, st, hInv => by
    simp only [gvnMutate]
    cases hf : findNumber st.entries (Expr.ne a b) with
    | some n => exact gvn_found hInv hf
    | none =>
      exact gvn_step_binary Expr.ne (fun x y => rfl) (fun x y => rfl)
        a b st hInv (fun st' h => gvnMutate_inv a st' h)
        (fun st' h => gvnMutate_inv b st' h)
  | .lt a b, st, hInv => by
    simp only [gvnMutate]
    cases hf : findNumber st.entries (Expr.lt a b) with
    | some n => exact gvn_found hInv hf
    | none =>
      exact gvn_step_binary Expr.lt (fun x y => rfl) (fun x y => rfl)
        a b st hInv (fun st' h => gvnMutate_inv a st' h)
        (fun st' h => gvnMutate_inv b st' h)
  | .le a b, st, hInv => by
    simp only [gvnMutate]
    cases hf : findNumber st.entries (Expr.le a b) with
    | some n => exact gvn_found hInv hf
    | none =>
      exact gvn_step_binary Expr.le (fun x y => rfl) (fun x y => rfl)
        a b st hInv (fun st' h => gvnMutate_inv a st' h)
        (fun st' h => gvnMutate_inv b st' h)
  | .gt a b, st, hInv => by
    simp only [gvnMutate]
    cases hf : findNumber st.entries (Expr.gt a b) with
    | some n => exact gvn_found hInv hf
    | none =>
      exact gvn_step_binary Expr.gt (fun x y => rfl) (fun x y => rfl)
        a b st hInv (fun st' h => gvnMutate_inv a st' h)
        (fun st' h => gvnMutate_inv b st' h)
  | .ge a b, st, hInv => by
    simp only [gvnMutate]
    cases hf : findNumber st.entries (Expr.ge a b) with
    | some n => exact gvn_found hInv hf
    | none =>
      exact gvn_step_binary Expr.ge (fun x y => rfl) (fun x y => rfl)
        a b st hInv (fun st' h => gvnMutate_inv a st' h)
        (fun st' h => gvnMutate_inv b st' h)
  | .and a b, st, hInv => by
    simp only [gvnMutate]
    cases hf : findNumber st.entries (Expr.and a b) with
    | some n => exact gvn_found hInv hf
    | none =>
      exact gvn_step_binary Expr.and (fun x y => rfl) (fun x y => rfl)
        a b st hInv (fun st' h => gvnMutate_inv a st' h)
        (fun st' h => gvnMutate_inv b st' h)
  | .or a b, st, hInv => by
    simp only [gvnMutate]
    cases hf : findNumber st.entries (Expr.or a b) with
    | some n => exact gvn_found hInv hf
    | none =>
      exact gvn_step_binary Expr.or (fun x y => rfl) (fun x y => rfl)
        a b st hInv (fun st' h => gvnMutate_inv a st' h)
        (fun st' h => gvnMutate_inv b st' h)
  | .not a, st, hInv => by
    simp only [gvnMutate]
    cases hf : findNumber st.entries (Expr.not a) with
    | some n => exact gvn_found hInv hf
    | none =>
      exact gvn_step_unary Expr.not (fun x => rfl) (fun x => rfl)
        a st hInv (fun st' h => gvnMutate_inv a st' h)
  | .select c t f, st, hInv => by
    simp only [gvnMutate]
    cases hf : findNumber st.entries (Expr.select c t f) with
    | some n => exact gvn_found hInv hf
    | none =>
      exact gvn_step_ternary Expr.select (fun x y z => rfl)
        (fun x y z => rfl) c t f st hInv
        (fun st' h => gvnMutate_inv c st' h)
        (fun st' h => gvnMutate_inv t st' h)
        (fun st' h => gvnMutate_inv f st' h)
  | .load t bv index pred, st, hInv => by
    simp only [gvnMutate]
    cases hf : findNumber st.entries (Expr.load t bv index pred) with
    | some n => exact gvn_found hInv hf
    | none =>
      exact gvn_step_unary (fun x => Expr.load t bv x pred) (fun x => rfl)
        (fun x => rfl) index st hInv (fun st' h => gvnMutate_inv index st' h)
  | .ramp base stride lanes, st, hInv => by
    simp only [gvnMutate]
    cases hf : findNumber st.entries (Expr.ramp base stride lanes) with
    | some n => exact gvn_found hInv hf
    | none =>
      exact gvn_step_binary (fun x y => Expr.ramp x y lanes)
        (fun x y => rfl) (fun x y => rfl) base stride st hInv
        (fun st' h => gvnMutate_inv base st' h)
        (fun st' h => gvnMutate_inv stride st' h)
  | .broadcast value lanes, st, hInv => by
    simp only [gvnMutate]
    cases hf : findNumber st.entries (Expr.broadcast value lanes) with
    | some n => exact gvn_found hInv hf
    | none =>
      exact gvn_step_unary (fun x => Expr.broadcast x lanes) (fun x => rfl)
        (fun x => rfl) value st hInv (fun st' h => gvnMutate_inv value st' h)
  | .call t nm args ct f vi, st, hInv => by
    simp only [gvnMutate]
    cases hf : findNumber st.entries (Expr.call t nm args ct f vi) with
    | some n => exact gvn_found hInv hf
    | none =>
      have o1 := gvnMutateList_inv args st hInv
      have o2 := (@gvnFinish_spec
        (Expr.call t nm (gvnMutateList args st).1 ct f vi) _ o1.inv
        (by
          intro ch hchm
          simp only [childrenOf] at hchm
          exact o1.mem ch hchm) rfl).1
      exact ⟨o2.inv, entriesExtend_trans o1.ext o2.ext,
        o2.subs.trans o1.subs, o2.lt⟩
  | .shuffle vectors indices, st, hInv => by
    simp only [gvnMutate]
    cases hf : findNumber st.entries (Expr.shuffle vectors indices) with
    | some n => exact gvn_found hInv hf
    | none =>
      have o1 := gvnMutateList_inv vectors st hInv
      have o2 := gvnMutateList_inv indices _ o1.inv
      have o3 := (@gvnFinish_spec
        (Expr.shuffle (gvnMutateList vectors st).1
          (gvnMutateList indices (gvnMutateList vectors st).2).1) _ o2.inv
        (by
          intro ch hchm
          simp only [childrenOf] at hchm
          rcases List.mem_append.mp hchm with h | h
          · exact entriesExtend_mem o2.ext (o1.mem ch h)
          · exact o2.mem ch h) rfl).1
      exact ⟨o3.inv,
        entriesExtend_trans o1.ext (entriesExtend_trans o2.ext o3.ext),
        o3.subs.trans (o2.subs.trans o1.subs), o3.lt⟩
  | .letE v value body, st, hInv => by
    simp only [gvnMutate]
    cases hf : findNumber st.entries (Expr.letE v value body) with
    | some n => exact gvn_found hInv hf
    | none =>
      have o1 := gvnMutate_inv value st hInv
      have hInv2 : GvnInv { (gvnMutate value st).2 with
          let_substitutions := (v, (gvnMutate value st).1) ::
            (gvnMutate value st).2.let_substitutions } := by
        refine ⟨o1.inv.nodup, o1.inv.noLet, o1.inv.closed, ?_⟩
        intro p hp
        rcases List.mem_cons.mp hp with h1 | h2
        · rw [h1]
          exact o1.lt
        · exact o1.inv.scopeOk p h2
      have o2 := gvnMutate_inv body _ hInv2
      have hsubs : scopePop v (gvnMutate body { (gvnMutate value st).2 with
          let_substitutions := (v, (gvnMutate value st).1) ::
            (gvnMutate value st).2.let_substitutions
          }).2.let_substitutions = st.let_substitutions := by
        rw [o2.subs]
        show scopePop v ((v, (gvnMutate value st).1) ::
          (gvnMutate value st).2.let_substitutions) = st.let_substitutions
        rw [scopePop_cons, o1.subs]
      exact ⟨⟨o2.inv.nodup, o2.inv.noLet, o2.inv.closed,
          fun p hp => o2.inv.scopeOk p (scopePop_subset hp)⟩,
        entriesExtend_trans o1.ext o2.ext, hsubs, o2.lt⟩

/-- The child-list traversal preserves the invariant, only appends
entries, restores the scope and returns canonical (stored) elements. -/
theorem gvnMutateList_inv : ∀ (es : ExprList) (st : GVNState), GvnInv st →
    MutListOut st (gvnMutateList es st)
  | .nil, st, hInv => by
    refine ⟨hInv, entriesExtend_refl _, rfl, ?_⟩
    intro x hx
    simp [gvnMutateList, ExprList.toList] at hx
  | .cons hd tl, st, hInv => by
    have o1 := gvnMutate_inv hd st hInv
    have o2 := gvnMutateList_inv tl _ o1.inv
    have hlt : (gvnMutate hd st).1 <
        (gvnMutateList tl (gvnMutate hd st).2).2.entries.length :=
      lt_of_lt_of_le o1.lt (entriesExtend_length o2.ext)
    refine ⟨o2.inv, entriesExtend_trans o1.ext o2.ext,
      o2.subs.trans o1.subs, ?_⟩
    intro x hx
    rcases (by simpa [gvnMutateList, ExprList.toList] using hx :
        x = canonicalOf (gvnMutateList tl (gvnMutate hd st).2).2.entries
          (gvnMutate hd st).1 ∨
        x ∈ (gvnMutateList tl (gvnMutate hd st).2).1.toList) with h | h
    · rw [h]
      exact canonicalOf_mem hlt
    · exact o2.mem x h

end



/-! ### Entry-list closure and numbering -/

theorem noLetInList_iff : ∀ (es : ExprList),
    noLetInList es = true ↔ ∀ x ∈ es.toList, noLetIn x = true
  | .nil => by simp [noLetInList, ExprList.toList]
  | .cons hd tl => by
    simp [noLetInList, ExprList.toList, Bool.and_eq_true, noLetInList_iff tl]

theorem noLetIn_iff : ∀ (x : Expr), noLetIn x = true ↔
    (isLetE x = false ∧ ∀ ch ∈ childrenOf x, noLetIn ch = true) := by
  intro x
  cases x <;>
    simp [noLetIn, childrenOf, isLetE, Bool.and_eq_true, noLetInList_iff,
      and_assoc, or_imp, forall_and]

theorem findNumber_of_canonical : ∀ {ents : List GVNEntry} {i : Nat},
    (entryExprs ents).Nodup → i < ents.length →
    findNumber ents (canonicalOf ents i) = some i := by
  intro ents
  induction ents with
  | nil => intro i _ hi; simp at hi
  | cons en rest ih =>
    intro i hnd hi
    rcases (by simpa [entryExprs] using hnd :
        (en.expr ∉ entryExprs rest) ∧ (entryExprs rest).Nodup) with ⟨hne, hnd2⟩
    cases i with
    | zero =>
      simp [canonicalOf, findNumber]
    | succ i =>
      have hi2 : i < rest.length := by simpa using hi
      have hcan : canonicalOf (en :: rest) (i + 1) = canonicalOf rest i := by
        simp [canonicalOf, List.getD]
      rw [hcan, findNumber]
      have hmem : canonicalOf rest i ∈ entryExprs rest := canonicalOf_mem hi2
      have hneq : (en.expr == canonicalOf rest i) = false := by
        simp only [beq_eq_false_iff_ne, ne_eq]
        intro h
        exact hne (h ▸ hmem)
      rw [hneq]
      simp [ih hnd2 hi2]

theorem entryExprs_take_subset {ents : List GVNEntry} {i : Nat} {x : Expr}
    (h : x ∈ entryExprs (ents.take i)) : x ∈ entryExprs ents := by
  simp only [entryExprs] at h ⊢
  rcases List.mem_map.mp h with ⟨en, hen, rfl⟩
  exact List.mem_map_of_mem _ (List.mem_of_mem_take hen)

theorem entryExprs_take_mono {ents : List GVNEntry} {i j : Nat} {x : Expr}
    (hij : i ≤ j) (h : x ∈ entryExprs (ents.take i)) :
    x ∈ entryExprs (ents.take j) := by
  simp only [entryExprs] at h ⊢
  rcases List.mem_map.mp h with ⟨en, hen, rfl⟩
  refine List.mem_map_of_mem _ ?_
  have h2 : en ∈ List.take i (List.take j ents) := by
    rw [List.take_take, Nat.min_eq_left hij]
    exact hen
  exact List.mem_of_mem_take h2

theorem findNumber_lt_of_mem_take : ∀ {ents : List GVNEntry} {i : Nat}
    {x : Expr}, x ∈ entryExprs (ents.take i) →
    ∃ j, j < i ∧ findNumber ents x = some j := by
  intro ents
  induction ents with
  | nil => intro i x h; simp [entryExprs] at h
  | cons en rest ih =>
    intro i x h
    cases i with
    | zero => simp [entryExprs] at h
    | succ i =>
      rcases (by simpa [entryExprs] using h :
          x = en.expr ∨ x ∈ entryExprs (rest.take i)) with rfl | h2
      · exact ⟨0, Nat.succ_pos _, by simp [findNumber]⟩
      · by_cases hx : en.expr == x
        · exact ⟨0, Nat.succ_pos _, by simp [findNumber, hx]⟩
        · rcases ih h2 with ⟨j, hj, hfind⟩
          refine ⟨j + 1, by omega, ?_⟩
          rw [findNumber, if_neg (by simp_all), hfind]
          rfl

theorem closed_reaches_take {ents : List GVNEntry}
    (hnodup : (entryExprs ents).Nodup)
    (hclosed : ∀ i, i < ents.length →
      ∀ ch ∈ childrenOf (canonicalOf ents i),
        ch ∈ entryExprs (ents.take i)) :
    ∀ {x s : Expr}, reaches x s → ∀ {i : Nat}, findNumber ents x = some i →
      s = x ∨ s ∈ entryExprs (ents.take i) := by
  intro x s hr
  induction hr with
  | refl e => intro i _; exact Or.inl rfl
  | child e ch y hch hr2 ih =>
    intro i hfind
    rcases findNumber_some hfind with ⟨hi, hcan⟩
    have hch2 : ch ∈ entryExprs (ents.take i) := hclosed i hi ch (hcan ▸ hch)
    rcases findNumber_lt_of_mem_take hch2 with ⟨j, hj, hfind2⟩
    rcases ih hfind2 with rfl | h2
    · exact Or.inr hch2
    · exact Or.inr (entryExprs_take_mono (le_of_lt hj) h2)

theorem closed_reaches_mem {ents : List GVNEntry}
    (hnodup : (entryExprs ents).Nodup)
    (hclosed : ∀ i, i < ents.length →
      ∀ ch ∈ childrenOf (canonicalOf ents i),
        ch ∈ entryExprs (ents.take i))
    {x s : Expr} (hx : x ∈ entryExprs ents) (hr : reaches x s) :
    s ∈ entryExprs ents := by
  rcases Option.ne_none_iff_exists'.mp
      (fun h => (findNumber_eq_none.mp h) hx) with ⟨i, hfind⟩
  rcases closed_reaches_take hnodup hclosed hr hfind with rfl | h2
  · exact hx
  · exact entryExprs_take_subset h2

theorem entry_noLetIn {ents : List GVNEntry}
    (hnodup : (entryExprs ents).Nodup)
    (hclosed : ∀ i, i < ents.length →
      ∀ ch ∈ childrenOf (canonicalOf ents i),
        ch ∈ entryExprs (ents.take i))
    (hnolet : ∀ en ∈ ents, isLetE en.expr = false) :
    ∀ x ∈ entryExprs ents, noLetIn x = true := by
  suffices h : ∀ n (x : Expr), sizeOf x ≤ n → x ∈ entryExprs ents →
      noLetIn x = true from fun x hx => h (sizeOf x) x le_rfl hx
  intro n
  induction n with
  | zero =>
    intro x hsz _
    cases x <;> simp_arith at hsz
  | succ n ih =>
    intro x hsz hx
    rw [noLetIn_iff]
    constructor
    · rcases List.mem_map.mp hx with ⟨en, hen, rfl⟩
      exact hnolet en hen
    · intro ch hch
      rcases Option.ne_none_iff_exists'.mp
          (fun h => (findNumber_eq_none.mp h) hx) with ⟨i, hfind⟩
      rcases findNumber_some hfind with ⟨hi, hcan⟩
      have hmem : ch ∈ entryExprs ents :=
        entryExprs_take_subset (hclosed i hi ch (hcan ▸ hch))
      exact ih ch (by have := childrenOf_sizeOf hch; omega) hmem

theorem reaches_through {e ch : Expr} (hch : ch ∈ childrenOf e) :
    ∀ {s : Expr}, reaches ch s → reaches e s :=
  fun h => reaches.child _ _ _ hch h

theorem entry_pairwise {ents : List GVNEntry}
    (hnodup : (entryExprs ents).Nodup)
    (hclosed : ∀ i, i < ents.length →
      ∀ ch ∈ childrenOf (canonicalOf ents i),
        ch ∈ entryExprs (ents.take i)) :
    (entryExprs ents).Pairwise (fun a b => ¬ reaches a b) := by
  rw [List.pairwise_iff_get]
  intro a b hab hr
  have hlen : (entryExprs ents).length = ents.length := by
    simp [entryExprs]
  have hcana : canonicalOf ents a.1 = (entryExprs ents).get a := by
    simp only [canonicalOf, entryExprs]
    rw [List.getD_eq_getElem ents default (by omega)]
    simp [List.get_eq_getElem]
  have hfa : findNumber ents ((entryExprs ents).get a) = some a.1 := by
    rw [← hcana]
    exact findNumber_of_canonical hnodup (by omega)
  rcases closed_reaches_take hnodup hclosed hr hfa with heq | h2
  · have hba : b = a := (List.Nodup.get_inj_iff hnodup).mp heq
    rw [hba] at hab
    exact absurd hab (lt_irrefl _)
  · rcases findNumber_lt_of_mem_take h2 with ⟨j, hj, hfj⟩
    have hcanb : canonicalOf ents b.1 = (entryExprs ents).get b := by
      simp only [canonicalOf, entryExprs]
      rw [List.getD_eq_getElem ents default (by omega)]
      simp [List.get_eq_getElem]
    have hfb : findNumber ents ((entryExprs ents).get b) = some b.1 := by
      rw [← hcanb]
      exact findNumber_of_canonical hnodup (by omega)
    rw [hfb] at hfj
    have : b.1 = j := by injection hfj
    omega


/-! ### Replacement-map lookups -/

theorem replFind_cons_pos {p : Expr × Expr} {m : ReplMap} {e : Expr}
    (h : (p.1 == e) = true) : replFind (p :: m) e = some p.2 := by
  simp [replFind, List.find?, h]

theorem replFind_cons_neg {p : Expr × Expr} {m : ReplMap} {e : Expr}
    (h : (p.1 == e) = false) : replFind (p :: m) e = replFind m e := by
  simp [replFind, List.find?, h]

theorem replFind_mem {m : ReplMap} {e x : Expr}
    (h : replFind m e = some x) : (e, x) ∈ m := by
  simp only [replFind, Option.map_eq_some'] at h
  rcases h with ⟨⟨k, v⟩, hp, hx⟩
  have hkey : k = e := by simpa using List.find?_some hp
  subst hkey
  cases hx
  exact List.mem_of_find?_eq_some hp

theorem replFind_append_some : ∀ {m : ReplMap} (m' : ReplMap) {e x : Expr},
    replFind m e = some x → replFind (m ++ m') e = some x := by
  intro m
  induction m with
  | nil => intro m' e x h; simp [replFind] at h
  | cons p rest ih =>
    intro m' e x h
    by_cases hk : (p.1 == e) = true
    · rw [replFind_cons_pos hk] at h
      rw [List.cons_append, replFind_cons_pos hk]
      exact h
    · rw [replFind_cons_neg (by simpa using hk)] at h
      rw [List.cons_append, replFind_cons_neg (by simpa using hk)]
      exact ih m' h

theorem replFind_append_none : ∀ {m : ReplMap} (m' : ReplMap) {e : Expr},
    replFind m e = none → replFind (m ++ m') e = replFind m' e := by
  intro m
  induction m with
  | nil => intro m' e _; simp
  | cons p rest ih =>
    intro m' e h
    by_cases hk : (p.1 == e) = true
    · rw [replFind_cons_pos hk] at h
      exact absurd h (by simp)
    · rw [replFind_cons_neg (by simpa using hk)] at h
      rw [List.cons_append, replFind_cons_neg (by simpa using hk)]
      exact ih m' h

theorem replFind_erase : ∀ (m : ReplMap) (k e : Expr),
    replFind (replErase m k) e = if e = k then none else replFind m e := by
  intro m
  induction m with
  | nil => intro k e; simp [replErase, replFind]
  | cons p rest ih =>
    intro k e
    by_cases hpk : (p.1 == k) = true
    · have hp1 : p.1 = k := beq_iff_eq.mp hpk
      have hfil : replErase (p :: rest) k = replErase rest k := by
        simp [replErase, List.filter_cons, hp1]
      rw [hfil, ih]
      by_cases hek : e = k
      · simp [hek]
      · have hpe : (p.1 == e) = false := by
          simp only [beq_eq_false_iff_ne, ne_eq]
          intro hcon
          exact hek (hcon ▸ hp1)
        rw [if_neg hek, if_neg hek, replFind_cons_neg hpe]
    · have hp1 : p.1 ≠ k := by simpa using hpk
      have hfil : replErase (p :: rest) k = p :: replErase rest k := by
        simp [replErase, List.filter_cons, hp1]
      rw [hfil]
      by_cases hpe : (p.1 == e) = true
      · have hek : e ≠ k := by
          intro hcon
          rw [hcon] at hpe
          exact absurd hpe (by simpa using hpk)
        rw [replFind_cons_pos hpe, if_neg hek, replFind_cons_pos hpe]
      · rw [replFind_cons_neg (by simpa using hpe), ih,
          replFind_cons_neg (by simpa using hpe)]

theorem replFind_not_key : ∀ {m : ReplMap} {e : Expr},
    (∀ p ∈ m, p.1 ≠ e) → replFind m e = none := by
  intro m
  induction m with
  | nil => intro e _; simp [replFind]
  | cons p rest ih =>
    intro e h
    rw [replFind_cons_neg (by simpa using h p (List.mem_cons_self p rest))]
    exact ih (fun q hq => h q (List.mem_cons_of_mem p hq))

theorem replFind_keyed : ∀ {m : ReplMap} {e x : Expr}, (e, x) ∈ m →
    (m.map (fun p => p.1)).Nodup → replFind m e = some x := by
  intro m
  induction m with
  | nil => intro e x h _; simp at h
  | cons p rest ih =>
    intro e x h hnd
    rw [List.map_cons] at hnd
    rcases List.nodup_cons.mp hnd with ⟨hnp, hnd2⟩
    rcases List.mem_cons.mp h with rfl | h2
    · exact replFind_cons_pos (by simp)
    · have hne : (p.1 == e) = false := by
        simp only [beq_eq_false_iff_ne, ne_eq]
        intro hcon
        exact hnp (hcon ▸ List.mem_map_of_mem (fun q => q.1) h2)
      rw [replFind_cons_neg hne]
      exact ih h2 hnd2

theorem replFind_map_val (g : Expr → Expr) : ∀ (m : ReplMap) (e : Expr),
    replFind (m.map (fun p => (p.1, g p.2))) e = (replFind m e).map g := by
  intro m
  induction m with
  | nil => intro e; simp [replFind]
  | cons p rest ih =>
    intro e
    by_cases hk : (p.1 == e) = true
    · rw [List.map_cons, replFind_cons_pos (by simpa using hk),
        replFind_cons_pos hk]
      rfl
    · rw [List.map_cons, replFind_cons_neg (by simpa using hk),
        replFind_cons_neg (by simpa using hk)]
      exact ih e

theorem pureRepl_hit {m : ReplMap} {e r : Expr}
    (h : replFind m e = some r) : pureRepl m e = r := by
  cases e <;> simp only [pureRepl, h]

mutual

/-- `pureRepl` only consults the map on subterms, so maps that agree
there give the same result. -/
theorem pureRepl_congr : ∀ (e : Expr) (m₁ m₂ : ReplMap),
    (∀ s, reaches e s → replFind m₁ s = replFind m₂ s) →
    pureRepl m₁ e = pureRepl m₂ e
  | .undef, m₁, m₂, h => by
    have h0 := h _ (reaches.refl _)
    cases hfind : replFind m₂ (Expr.undef) with
    | some r => simp only [pureRepl, h0, hfind]
    | none => simp only [pureRepl, h0, hfind]
  | .intImm ty v, m₁, m₂, h => by
    have h0 := h _ (reaches.refl _)
    cases hfind : replFind m₂ (Expr.intImm ty v) with
    | some r => simp only [pureRepl, h0, hfind]
    | none => simp only [pureRepl, h0, hfind]
  | .uintImm ty v, m₁, m₂, h => by
    have h0 := h _ (reaches.refl _)
    cases hfind : replFind m₂ (Expr.uintImm ty v) with
    | some r => simp only [pureRepl, h0, hfind]
    | none => simp only [pureRepl, h0, hfind]
  | .floatImm ty v, m₁, m₂, h => by
    have h0 := h _ (reaches.refl _)
    cases hfind : replFind m₂ (Expr.floatImm ty v) with
    | some r => simp only [pureRepl, h0, hfind]
    | none => simp only [pureRepl, h0, hfind]
  | .stringImm v, m₁, m₂, h => by
    have h0 := h _ (reaches.refl _)
    cases hfind : replFind m₂ (Expr.stringImm v) with
    | some r => simp only [pureRepl, h0, hfind]
    | none => simp only [pureRepl, h0, hfind]
  | .var v, m₁, m₂, h => by
    have h0 := h _ (reaches.refl _)
    cases hfind : replFind m₂ (Expr.var v) with
    | some r => simp only [pureRepl, h0, hfind]
    | none => simp only [pureRepl, h0, hfind]
  | .cast ty value, m₁, m₂, h => by
    have h0 := h _ (reaches.refl _)
    have hvalue := pureRepl_congr value m₁ m₂ (fun z hz => h z
      (reaches_through (show value ∈ childrenOf (Expr.cast ty value) by simp [childrenOf]) hz))
    cases hfind : replFind m₂ (Expr.cast ty value) with
    | some r => simp only [pureRepl, h0, hfind]
    | none => simp only [pureRepl, h0, hfind, hvalue]
  | .add a b, m₁, m₂, h => by
    have h0 := h _ (reaches.refl _)
    have ha := pureRepl_congr a m₁ m₂ (fun z hz => h z
      (reaches_through (show a ∈ childrenOf (Expr.add a b) by simp [childrenOf]) hz))
    have hb := pureRepl_congr b m₁ m₂ (fun z hz => h z
      (reaches_through (show b ∈ childrenOf (Expr.add a b) by simp [childrenOf]) hz))
    cases hfind : replFind m₂ (Expr.add a b) with
    | some r => simp only [pureRepl, h0, hfind]
    | none => simp only [pureRepl, h0, hfind, ha, hb]
  | .sub a b, m₁, m₂, h => by
    have h0 := h _ (reaches.refl _)
    have ha := pureRepl_congr a m₁ m₂ (fun z hz => h z
      (reaches_through (show a ∈ childrenOf (Expr.sub a b) by simp [childrenOf]) hz))
    have hb := pureRepl_congr b m₁ m₂ (fun z hz => h z
      (reaches_through (show b ∈ childrenOf (Expr.sub a b) by simp [childrenOf]) hz))
    cases hfind : replFind m₂ (Expr.sub a b) with
    | some r => simp only [pureRepl, h0, hfind]
    | none => simp only [pureRepl, h0, hfind, ha, hb]
  | .mul a b, m₁, m₂, h => by
    have h0 := h _ (reaches.refl _)
    have ha := pureRepl_congr a m₁ m₂ (fun z hz => h z
      (reaches_through (show a ∈ childrenOf (Expr.mul a b) by simp [childrenOf]) hz))
    have hb := pureRepl_congr b m₁ m₂ (fun z hz => h z
      (reaches_through (show b ∈ childrenOf (Expr.mul a b) by simp [childrenOf]) hz))
    cases hfind : replFind m₂ (Expr.mul a b) with
    | some r => simp only [pureRepl, h0, hfind]
    | none => simp only [pureRepl, h0, hfind, ha, hb]
  | .div a b, m₁, m₂, h => by
    have h0 := h _ (reaches.refl _)
    have ha := pureRepl_congr a m₁ m₂ (fun z hz => h z
      (reaches_through (show a ∈ childrenOf (Expr.div a b) by simp [childrenOf]) hz))
    have hb := pureRepl_congr b m₁ m₂ (fun z hz => h z
      (reaches_through (show b ∈ childrenOf (Expr.div a b) by simp [childrenOf]) hz))
    cases hfind : replFind m₂ (Expr.div a b) with
    | some r => simp only [pureRepl, h0, hfind]
    | none => simp only [pureRepl, h0, hfind, ha, hb]
  | .mod a b, m₁, m₂, h => by
    have h0 := h _ (reaches.refl _)
    have ha := pureRepl_congr a m₁ m₂ (fun z hz => h z
      (reaches_through (show a ∈ childrenOf (Expr.mod a b) by simp [childrenOf]) hz))
    have hb := pureRepl_congr b m₁ m₂ (fun z hz => h z
      (reaches_through (show b ∈ childrenOf (Expr.mod a b) by simp [childrenOf]) hz))
    cases hfind : replFind m₂ (Expr.mod a b) with
    | some r => simp only [pureRepl, h0, hfind]
    | none => simp only [pureRepl, h0, hfind, ha, hb]
  | .min a b, m₁, m₂, h => by
    have h0 := h _ (reaches.refl _)
    have ha := pureRepl_congr a m₁ m₂ (fun z hz => h z
      (reaches_through (show a ∈ childrenOf (Expr.min a b) by simp [childrenOf]) hz))
    have hb := pureRepl_congr b m₁ m₂ (fun z hz => h z
      (reaches_through (show b ∈ childrenOf (Expr.min a b) by simp [childrenOf]) hz))
    cases hfind : replFind m₂ (Expr.min a b) with
    | some r => simp only [pureRepl, h0, hfind]
    | none => simp only [pureRepl, h0, hfind, ha, hb]
  | .max a b, m₁, m₂, h => by
    have h0 := h _ (reaches.refl _)
    have ha := pureRepl_congr a m₁ m₂ (fun z hz => h z
      (reaches_through (show a ∈ childrenOf (Expr.max a b) by simp [childrenOf]) hz))
    have hb := pureRepl_congr b m₁ m₂ (fun z hz => h z
      (reaches_through (show b ∈ childrenOf (Expr.max a b) by simp [childrenOf]) hz))
    cases hfind : replFind m₂ (Expr.max a b) with
    | some r => simp only [pureRepl, h0, hfind]
    | none => simp only [pureRepl, h0, hfind, ha, hb]
  | .eq a b, m₁, m₂, h => by
    have h0 := h _ (reaches.refl _)
    have ha := pureRepl_congr a m₁ m₂ (fun z hz => h z
      (reaches_through (show a ∈ childrenOf (Expr.eq a b) by simp [childrenOf]) hz))
    have hb := pureRepl_congr b m₁ m₂ (fun z hz => h z
      (reaches_through (show b ∈ childrenOf (Expr.eq a b) by simp [childrenOf]) hz))
    cases hfind : replFind m₂ (Expr.eq a b) with
    | some r => simp only [pureRepl, h0, hfind]
    | none => simp only [pureRepl, h0, hfind, ha, hb]
  | .ne a b, m₁, m₂, h => by
    have h0 := h _ (reaches.refl _)
    have ha := pureRepl_congr a m₁ m₂ (fun z hz => h z
      (reaches_through (show a ∈ childrenOf (Expr.ne a b) by simp [childrenOf]) hz))
    have hb := pureRepl_congr b m₁ m₂ (fun z hz => h z
      (reaches_through (show b ∈ childrenOf (Expr.ne a b) by simp [childrenOf]) hz))
    cases hfind : replFind m₂ (Expr.ne a b) with
    | some r => simp only [pureRepl, h0, hfind]
    | none => simp only [pureRepl, h0, hfind, ha, hb]
  | .lt a b, m₁, m₂, h => by
    have h0 := h _ (reaches.refl _)
    have ha := pureRepl_congr a m₁ m₂ (fun z hz => h z
      (reaches_through (show a ∈ childrenOf (Expr.lt a b) by simp [childrenOf]) hz))
    have hb := pureRepl_congr b m₁ m₂ (fun z hz => h z
      (reaches_through (show b ∈ childrenOf (Expr.lt a b) by simp [childrenOf]) hz))
    cases hfind : replFind m₂ (Expr.lt a b) with
    | some r => simp only [pureRepl, h0, hfind]
    | none => simp only [pureRepl, h0, hfind, ha, hb]
  | .le a b, m₁, m₂, h => by
    have h0 := h _ (reaches.refl _)
    have ha := pureRepl_congr a m₁ m₂ (fun z hz => h z
      (reaches_through (show a ∈ childrenOf (Expr.le a b) by simp [childrenOf]) hz))
    have hb := pureRepl_congr b m₁ m₂ (fun z hz => h z
      (reaches_through (show b ∈ childrenOf (Expr.le a b) by simp [childrenOf]) hz))
    cases hfind : replFind m₂ (Expr.le a b) with
    | some r => simp only [pureRepl, h0, hfind]
    | none => simp only [pureRepl, h0, hfind, ha, hb]
  | .gt a b, m₁, m₂, h => by
    have h0 := h _ (reaches.refl _)
    have ha := pureRepl_congr a m₁ m₂ (fun z hz => h z
      (reaches_through (show a ∈ childrenOf (Expr.gt a b) by simp [childrenOf]) hz))
    have hb := pureRepl_congr b m₁ m₂ (fun z hz => h z
      (reaches_through (show b ∈ childrenOf (Expr.gt a b) by simp [childrenOf]) hz))
    cases hfind : replFind m₂ (Expr.gt a b) with
    | some r => simp only [pureRepl, h0, hfind]
    | none => simp only [pureRepl, h0, hfind, ha, hb]
  | .ge a b, m₁, m₂, h => by
    have h0 := h _ (reaches.refl _)
    have ha := pureRepl_congr a m₁ m₂ (fun z hz => h z
      (reaches_through (show a ∈ childrenOf (Expr.ge a b) by simp [childrenOf]) hz))
    have hb := pureRepl_congr b m₁ m₂ (fun z hz => h z
      (reaches_through (show b ∈ childrenOf (Expr.ge a b) by simp [childrenOf]) hz))
    cases hfind : replFind m₂ (Expr.ge a b) with
    | some r => simp only [pureRepl, h0, hfind]
    | none => simp only [pureRepl, h0, hfind, ha, hb]
  | .and a b, m₁, m₂, h => by
    have h0 := h _ (reaches.refl _)
    have ha := pureRepl_congr a m₁ m₂ (fun z hz => h z
      (reaches_through (show a ∈ childrenOf (Expr.and a b) by simp [childrenOf]) hz))
    have hb := pureRepl_congr b m₁ m₂ (fun z hz => h z
      (reaches_through (show b ∈ childrenOf (Expr.and a b) by simp [childrenOf]) hz))
    cases hfind : replFind m₂ (Expr.and a b) with
    | some r => simp only [pureRepl, h0, hfind]
    | none => simp only [pureRepl, h0, hfind, ha, hb]
  | .or a b, m₁, m₂, h => by
    have h0 := h _ (reaches.refl _)
    have ha := pureRepl_congr a m₁ m₂ (fun z hz => h z
      (reaches_through (show a ∈ childrenOf (Expr.or a b) by simp [childrenOf]) hz))
    have hb := pureRepl_congr b m₁ m₂ (fun z hz => h z
      (reaches_through (show b ∈ childrenOf (Expr.or a b) by simp [childrenOf]) hz))
    cases hfind : replFind m₂ (Expr.or a b) with
    | some r => simp only [pureRepl, h0, hfind]
    | none => simp only [pureRepl, h0, hfind, ha, hb]
  | .not a, m₁, m₂, h => by
    have h0 := h _ (reaches.refl _)
    have ha := pureRepl_congr a m₁ m₂ (fun z hz => h z
      (reaches_through (show a ∈ childrenOf (Expr.not a) by simp [childrenOf]) hz))
    cases hfind : replFind m₂ (Expr.not a) with
    | some r => simp only [pureRepl, h0, hfind]
    | none => simp only [pureRepl, h0, hfind, ha]
  | .select c t f, m₁, m₂, h => by
    have h0 := h _ (reaches.refl _)
    have hc := pureRepl_congr c m₁ m₂ (fun z hz => h z
      (reaches_through (show c ∈ childrenOf (Expr.select c t f) by simp [childrenOf]) hz))
    have ht := pureRepl_congr t m₁ m₂ (fun z hz => h z
      (reaches_through (show t ∈ childrenOf (Expr.select c t f) by simp [childrenOf]) hz))
    have hf := pureRepl_congr f m₁ m₂ (fun z hz => h z
      (reaches_through (show f ∈ childrenOf (Expr.select c t f) by simp [childrenOf]) hz))
    cases hfind : replFind m₂ (Expr.select c t f) with
    | some r => simp only [pureRepl, h0, hfind]
    | none => simp only [pureRepl, h0, hfind, hc, ht, hf]
  | .load ty bv ix pr, m₁, m₂, h => by
    have h0 := h _ (reaches.refl _)
    have hix := pureRepl_congr ix m₁ m₂ (fun z hz => h z
      (reaches_through (show ix ∈ childrenOf (Expr.load ty bv ix pr) by simp [childrenOf]) hz))
    cases hfind : replFind m₂ (Expr.load ty bv ix pr) with
    | some r => simp only [pureRepl, h0, hfind]
    | none => simp only [pureRepl, h0, hfind, hix]
  | .ramp b s l, m₁, m₂, h => by
    have h0 := h _ (reaches.refl _)
    have hb := pureRepl_congr b m₁ m₂ (fun z hz => h z
      (reaches_through (show b ∈ childrenOf (Expr.ramp b s l) by simp [childrenOf]) hz))
    have hs := pureRepl_congr s m₁ m₂ (fun z hz => h z
      (reaches_through (show s ∈ childrenOf (Expr.ramp b s l) by simp [childrenOf]) hz))
    cases hfind : replFind m₂ (Expr.ramp b s l) with
    | some r => simp only [pureRepl, h0, hfind]
    | none => simp only [pureRepl, h0, hfind, hb, hs]
  | .broadcast v l, m₁, m₂, h => by
    have h0 := h _ (reaches.refl _)
    have hv := pureRepl_congr v m₁ m₂ (fun z hz => h z
      (reaches_through (show v ∈ childrenOf (Expr.broadcast v l) by simp [childrenOf]) hz))
    cases hfind : replFind m₂ (Expr.broadcast v l) with
    | some r => simp only [pureRepl, h0, hfind]
    | none => simp only [pureRepl, h0, hfind, hv]
  | .call ty nm args ct fn vi, m₁, m₂, h => by
    have h0 := h _ (reaches.refl _)
    have hargs := pureReplList_congr args m₁ m₂ (fun z hz => by
      rcases hz with ⟨u, hu, hr⟩
      exact h z (reaches_through (show u ∈ childrenOf (Expr.call ty nm args ct fn vi) by
        simp only [childrenOf]; simp [hu]) hr))
    cases hfind : replFind m₂ (Expr.call ty nm args ct fn vi) with
    | some r => simp only [pureRepl, h0, hfind]
    | none => simp only [pureRepl, h0, hfind, hargs]
  | .letE v value body, m₁, m₂, h => by
    have h0 := h _ (reaches.refl _)
    have hvalue := pureRepl_congr value m₁ m₂ (fun z hz => h z
      (reaches_through (show value ∈ childrenOf (Expr.letE v value body) by simp [childrenOf]) hz))
    have hbody := pureRepl_congr body m₁ m₂ (fun z hz => h z
      (reaches_through (show body ∈ childrenOf (Expr.letE v value body) by simp [childrenOf]) hz))
    cases hfind : replFind m₂ (Expr.letE v value body) with
    | some r => simp only [pureRepl, h0, hfind]
    | none => simp only [pureRepl, h0, hfind, hvalue, hbody]
  | .shuffle vs idxs, m₁, m₂, h => by
    have h0 := h _ (reaches.refl _)
    have hvs := pureReplList_congr vs m₁ m₂ (fun z hz => by
      rcases hz with ⟨u, hu, hr⟩
      exact h z (reaches_through (show u ∈ childrenOf (Expr.shuffle vs idxs) by
        simp only [childrenOf]; simp [hu]) hr))
    have hidxs := pureReplList_congr idxs m₁ m₂ (fun z hz => by
      rcases hz with ⟨u, hu, hr⟩
      exact h z (reaches_through (show u ∈ childrenOf (Expr.shuffle vs idxs) by
        simp only [childrenOf]; simp [hu]) hr))
    cases hfind : replFind m₂ (Expr.shuffle vs idxs) with
    | some r => simp only [pureRepl, h0, hfind]
    | none => simp only [pureRepl, h0, hfind, hvs, hidxs]

theorem pureReplList_congr : ∀ (es : ExprList) (m₁ m₂ : ReplMap),
    (∀ s, (∃ u ∈ es.toList, reaches u s) → replFind m₁ s = replFind m₂ s) →
    pureReplList m₁ es = pureReplList m₂ es
  | .nil, m₁, m₂, h => rfl
  | .cons hd tl, m₁, m₂, h => by
    have hhd := pureRepl_congr hd m₁ m₂ (fun z hz => h z
      ⟨hd, by simp [ExprList.toList], hz⟩)
    have htl := pureReplList_congr tl m₁ m₂ (fun z hz => by
      rcases hz with ⟨u, hu, hr⟩
      exact h z ⟨u, by simp [ExprList.toList, hu], hr⟩)
    simp only [pureReplList, hhd, htl]

end


/-! ### Images of canonical expressions under the replacement map -/

theorem varsOfList_mem : ∀ (es : ExprList) (v : Var),
    v ∈ varsOfList es ↔ ∃ x ∈ es.toList, v ∈ varsOf x
  | .nil, v => by simp [varsOfList, ExprList.toList]
  | .cons hd tl, v => by
    simp [varsOfList, ExprList.toList, varsOfList_mem tl]

mutual

/-- When the map sends everything to fresh-family variables, the image
of an expression is the expression itself or mentions such a
variable. -/
theorem pureRepl_tvar : ∀ (e : Expr) (m : ReplMap),
    (∀ p ∈ m, ∃ v, p.2 = Expr.var v ∧ isTFamilyName v.name_hint = true) →
    pureRepl m e = e ∨
      ∃ v, v ∈ varsOf (pureRepl m e) ∧ isTFamilyName v.name_hint = true
  | .undef, m, hm => by
    cases hfind : replFind m (Expr.undef) with
    | some r =>
      rcases hm _ (replFind_mem hfind) with ⟨w, hw, htw⟩
      have hw2 : r = Expr.var w := hw
      right
      refine ⟨w, ?_, htw⟩
      rw [pureRepl_hit hfind, hw2]
      simp [varsOf]
    | none =>
      left
      simp only [pureRepl, hfind]
  | .intImm ty v, m, hm => by
    cases hfind : replFind m (Expr.intImm ty v) with
    | some r =>
      rcases hm _ (replFind_mem hfind) with ⟨w, hw, htw⟩
      have hw2 : r = Expr.var w := hw
      right
      refine ⟨w, ?_, htw⟩
      rw [pureRepl_hit hfind, hw2]
      simp [varsOf]
    | none =>
      left
      simp only [pureRepl, hfind]
  | .uintImm ty v, m, hm => by
    cases hfind : replFind m (Expr.uintImm ty v) with
    | some r =>
      rcases hm _ (replFind_mem hfind) with ⟨w, hw, htw⟩
      have hw2 : r = Expr.var w := hw
      right
      refine ⟨w, ?_, htw⟩
      rw [pureRepl_hit hfind, hw2]
      simp [varsOf]
    | none =>
      left
      simp only [pureRepl, hfind]
  | .floatImm ty v, m, hm => by
    cases hfind : replFind m (Expr.floatImm ty v) with
    | some r =>
      rcases hm _ (replFind_mem hfind) with ⟨w, hw, htw⟩
      have hw2 : r = Expr.var w := hw
      right
      refine ⟨w, ?_, htw⟩
      rw [pureRepl_hit hfind, hw2]
      simp [varsOf]
    | none =>
      left
      simp only [pureRepl, hfind]
  | .stringImm v, m, hm => by
    cases hfind : replFind m (Expr.stringImm v) with
    | some r =>
      rcases hm _ (replFind_mem hfind) with ⟨w, hw, htw⟩
      have hw2 : r = Expr.var w := hw
      right
      refine ⟨w, ?_, htw⟩
      rw [pureRepl_hit hfind, hw2]
      simp [varsOf]
    | none =>
      left
      simp only [pureRepl, hfind]
  | .var v, m, hm => by
    cases hfind : replFind m (Expr.var v) with
    | some r =>
      rcases hm _ (replFind_mem hfind) with ⟨w, hw, htw⟩
      have hw2 : r = Expr.var w := hw
      right
      refine ⟨w, ?_, htw⟩
      rw [pureRepl_hit hfind, hw2]
      simp [varsOf]
    | none =>
      left
      simp only [pureRepl, hfind]
  | .cast ty value, m, hm => by
    cases hfind : replFind m (Expr.cast ty value) with
    | some r =>
      rcases hm _ (replFind_mem hfind) with ⟨w, hw, htw⟩
      have hw2 : r = Expr.var w := hw
      right
      refine ⟨w, ?_, htw⟩
      rw [pureRepl_hit hfind, hw2]
      simp [varsOf]
    | none =>
      rcases pureRepl_tvar value m hm with hvalue | ⟨w, hw, htw⟩
      · -- unchanged so far
        left
        simp only [pureRepl, pureReplList, hfind, hvalue]
      · right
        refine ⟨w, ?_, htw⟩
        simp only [pureRepl, hfind, varsOf, List.mem_append, List.mem_cons,
          varsOfList_mem]
        tauto
  | .add a b, m, hm => by
    cases hfind : replFind m (Expr.add a b) with
    | some r =>
      rcases hm _ (replFind_mem hfind) with ⟨w, hw, htw⟩
      have hw2 : r = Expr.var w := hw
      right
      refine ⟨w, ?_, htw⟩
      rw [pureRepl_hit hfind, hw2]
      simp [varsOf]
    | none =>
      rcases pureRepl_tvar a m hm with ha | ⟨w, hw, htw⟩
      · -- unchanged so far
        rcases pureRepl_tvar b m hm with hb | ⟨w, hw, htw⟩
        · -- unchanged so far
          left
          simp only [pureRepl, pureReplList, hfind, ha, hb]
        · right
          refine ⟨w, ?_, htw⟩
          simp only [pureRepl, hfind, varsOf, List.mem_append, List.mem_cons,
            varsOfList_mem]
          tauto
      · right
        refine ⟨w, ?_, htw⟩
        simp only [pureRepl, hfind, varsOf, List.mem_append, List.mem_cons,
          varsOfList_mem]
        tauto
  | .sub a b, m, hm => by
    cases hfind : replFind m (Expr.sub a b) with
    | some r =>
      rcases hm _ (replFind_mem hfind) with ⟨w, hw, htw⟩
      have hw2 : r = Expr.var w := hw
      right
      refine ⟨w, ?_, htw⟩
      rw [pureRepl_hit hfind, hw2]
      simp [varsOf]
    | none =>
      rcases pureRepl_tvar a m hm with ha | ⟨w, hw, htw⟩
      · -- unchanged so far
        rcases pureRepl_tvar b m hm with hb | ⟨w, hw, htw⟩
        · -- unchanged so far
          left
          simp only [pureRepl, pureReplList, hfind, ha, hb]
        · right
          refine ⟨w, ?_, htw⟩
          simp only [pureRepl, hfind, varsOf, List.mem_append, List.mem_cons,
            varsOfList_mem]
          tauto
      · right
        refine ⟨w, ?_, htw⟩
        simp only [pureRepl, hfind, varsOf, List.mem_append, List.mem_cons,
          varsOfList_mem]
        tauto
  | .mul a b, m, hm => by
    cases hfind : replFind m (Expr.mul a b) with
    | some r =>
      rcases hm _ (replFind_mem hfind) with ⟨w, hw, htw⟩
      have hw2 : r = Expr.var w := hw
      right
      refine ⟨w, ?_, htw⟩
      rw [pureRepl_hit hfind, hw2]
      simp [varsOf]
    | none =>
      rcases pureRepl_tvar a m hm with ha | ⟨w, hw, htw⟩
      · -- unchanged so far
        rcases pureRepl_tvar b m hm with hb | ⟨w, hw, htw⟩
        · -- unchanged so far
          left
          simp only [pureRepl, pureReplList, hfind, ha, hb]
        · right
          refine ⟨w, ?_, htw⟩
          simp only [pureRepl, hfind, varsOf, List.mem_append, List.mem_cons,
            varsOfList_mem]
          tauto
      · right
        refine ⟨w, ?_, htw⟩
        simp only [pureRepl, hfind, varsOf, List.mem_append, List.mem_cons,
          varsOfList_mem]
        tauto
  | .div a b, m, hm => by
    cases hfind : replFind m (Expr.div a b) with
    | some r =>
      rcases hm _ (replFind_mem hfind) with ⟨w, hw, htw⟩
      have hw2 : r = Expr.var w := hw
      right
      refine ⟨w, ?_, htw⟩
      rw [pureRepl_hit hfind, hw2]
      simp [varsOf]
    | none =>
      rcases pureRepl_tvar a m hm with ha | ⟨w, hw, htw⟩
      · -- unchanged so far
        rcases pureRepl_tvar b m hm with hb | ⟨w, hw, htw⟩
        · -- unchanged so far
          left
          simp only [pureRepl, pureReplList, hfind, ha, hb]
        · right
          refine ⟨w, ?_, htw⟩
          simp only [pureRepl, hfind, varsOf, List.mem_append, List.mem_cons,
            varsOfList_mem]
          tauto
      · right
        refine ⟨w, ?_, htw⟩
        simp only [pureRepl, hfind, varsOf, List.mem_append, List.mem_cons,
          varsOfList_mem]
        tauto
  | .mod a b, m, hm => by
    cases hfind : replFind m (Expr.mod a b) with
    | some r =>
      rcases hm _ (replFind_mem hfind) with ⟨w, hw, htw⟩
      have hw2 : r = Expr.var w := hw
      right
      refine ⟨w, ?_, htw⟩
      rw [pureRepl_hit hfind, hw2]
      simp [varsOf]
    | none =>
      rcases pureRepl_tvar a m hm with ha | ⟨w, hw, htw⟩
      · -- unchanged so far
        rcases pureRepl_tvar b m hm with hb | ⟨w, hw, htw⟩
        · -- unchanged so far
          left
          simp only [pureRepl, pureReplList, hfind, ha, hb]
        · right
          refine ⟨w, ?_, htw⟩
          simp only [pureRepl, hfind, varsOf, List.mem_append, List.mem_cons,
            varsOfList_mem]
          tauto
      · right
        refine ⟨w, ?_, htw⟩
        simp only [pureRepl, hfind, varsOf, List.mem_append, List.mem_cons,
          varsOfList_mem]
        tauto
  | .min a b, m, hm => by
    cases hfind : replFind m (Expr.min a b) with
    | some r =>
      rcases hm _ (replFind_mem hfind) with ⟨w, hw, htw⟩
      have hw2 : r = Expr.var w := hw
      right
      refine ⟨w, ?_, htw⟩
      rw [pureRepl_hit hfind, hw2]
      simp [varsOf]
    | none =>
      rcases pureRepl_tvar a m hm with ha | ⟨w, hw, htw⟩
      · -- unchanged so far
        rcases pureRepl_tvar b m hm with hb | ⟨w, hw, htw⟩
        · -- unchanged so far
          left
          simp only [pureRepl, pureReplList, hfind, ha, hb]
        · right
          refine ⟨w, ?_, htw⟩
          simp only [pureRepl, hfind, varsOf, List.mem_append, List.mem_cons,
            varsOfList_mem]
          tauto
      · right
        refine ⟨w, ?_, htw⟩
        simp only [pureRepl, hfind, varsOf, List.mem_append, List.mem_cons,
          varsOfList_mem]
        tauto
  | .max a b, m, hm => by
    cases hfind : replFind m (Expr.max a b) with
    | some r =>
      rcases hm _ (replFind_mem hfind) with ⟨w, hw, htw⟩
      have hw2 : r = Expr.var w := hw
      right
      refine ⟨w, ?_, htw⟩
      rw [pureRepl_hit hfind, hw2]
      simp [varsOf]
    | none =>
      rcases pureRepl_tvar a m hm with ha | ⟨w, hw, htw⟩
      · -- unchanged so far
        rcases pureRepl_tvar b m hm with hb | ⟨w, hw, htw⟩
        · -- unchanged so far
          left
          simp only [pureRepl, pureReplList, hfind, ha, hb]
        · right
          refine ⟨w, ?_, htw⟩
          simp only [pureRepl, hfind, varsOf, List.mem_append, List.mem_cons,
            varsOfList_mem]
          tauto
      · right
        refine ⟨w, ?_, htw⟩
        simp only [pureRepl, hfind, varsOf, List.mem_append, List.mem_cons,
          varsOfList_mem]
        tauto
  | .eq a b, m, hm => by
    cases hfind : replFind m (Expr.eq a b) with
    | some r =>
      rcases hm _ (replFind_mem hfind) with ⟨w, hw, htw⟩
      have hw2 : r = Expr.var w := hw
      right
      refine ⟨w, ?_, htw⟩
      rw [pureRepl_hit hfind, hw2]
      simp [varsOf]
    | none =>
      rcases pureRepl_tvar a m hm with ha | ⟨w, hw, htw⟩
      · -- unchanged so far
        rcases pureRepl_tvar b m hm with hb | ⟨w, hw, htw⟩
        · -- unchanged so far
          left
          simp only [pureRepl, pureReplList, hfind, ha, hb]
        · right
          refine ⟨w, ?_, htw⟩
          simp only [pureRepl, hfind, varsOf, List.mem_append, List.mem_cons,
            varsOfList_mem]
          tauto
      · right
        refine ⟨w, ?_, htw⟩
        simp only [pureRepl, hfind, varsOf, List.mem_append, List.mem_cons,
          varsOfList_mem]
        tauto
  | .ne a b, m, hm => by
    cases hfind : replFind m (Expr.ne a b) with
    | some r =>
      rcases hm _ (replFind_mem hfind) with ⟨w, hw, htw⟩
      have hw2 : r = Expr.var w := hw
      right
      refine ⟨w, ?_, htw⟩
      rw [pureRepl_hit hfind, hw2]
      simp [varsOf]
    | none =>
      rcases pureRepl_tvar a m hm with ha | ⟨w, hw, htw⟩
      · -- unchanged so far
        rcases pureRepl_tvar b m hm with hb | ⟨w, hw, htw⟩
        · -- unchanged so far
          left
          simp only [pureRepl, pureReplList, hfind, ha, hb]
        · right
          refine ⟨w, ?_, htw⟩
          simp only [pureRepl, hfind, varsOf, List.mem_append, List.mem_cons,
            varsOfList_mem]
          tauto
      · right
        refine ⟨w, ?_, htw⟩
        simp only [pureRepl, hfind, varsOf, List.mem_append, List.mem_cons,
          varsOfList_mem]
        tauto
  | .lt a b, m, hm => by
    cases hfind : replFind m (Expr.lt a b) with
    | some r =>
      rcases hm _ (replFind_mem hfind) with ⟨w, hw, htw⟩
      have hw2 : r = Expr.var w := hw
      right
      refine ⟨w, ?_, htw⟩
      rw [pureRepl_hit hfind, hw2]
      simp [varsOf]
    | none =>
      rcases pureRepl_tvar a m hm with ha | ⟨w, hw, htw⟩
      · -- unchanged so far
        rcases pureRepl_tvar b m hm with hb | ⟨w, hw, htw⟩
        · -- unchanged so far
          left
          simp only [pureRepl, pureReplList, hfind, ha, hb]
        · right
          refine ⟨w, ?_, htw⟩
          simp only [pureRepl, hfind, varsOf, List.mem_append, List.mem_cons,
            varsOfList_mem]
          tauto
      · right
        refine ⟨w, ?_, htw⟩
        simp only [pureRepl, hfind, varsOf, List.mem_append, List.mem_cons,
          varsOfList_mem]
        tauto
  | .le a b, m, hm => by
    cases hfind : replFind m (Expr.le a b) with
    | some r =>
      rcases hm _ (replFind_mem hfind) with ⟨w, hw, htw⟩
      have hw2 : r = Expr.var w := hw
      right
      refine ⟨w, ?_, htw⟩
      rw [pureRepl_hit hfind, hw2]
      simp [varsOf]
    | none =>
      rcases pureRepl_tvar a m hm with ha | ⟨w, hw, htw⟩
      · -- unchanged so far
        rcases pureRepl_tvar b m hm with hb | ⟨w, hw, htw⟩
        · -- unchanged so far
          left
          simp only [pureRepl, pureReplList, hfind, ha, hb]
        · right
          refine ⟨w, ?_, htw⟩
          simp only [pureRepl, hfind, varsOf, List.mem_append, List.mem_cons,
            varsOfList_mem]
          tauto
      · right
        refine ⟨w, ?_, htw⟩
        simp only [pureRepl, hfind, varsOf, List.mem_append, List.mem_cons,
          varsOfList_mem]
        tauto
  | .gt a b, m, hm => by
    cases hfind : replFind m (Expr.gt a b) with
    | some r =>
      rcases hm _ (replFind_mem hfind) with ⟨w, hw, htw⟩
      have hw2 : r = Expr.var w := hw
      right
      refine ⟨w, ?_, htw⟩
      rw [pureRepl_hit hfind, hw2]
      simp [varsOf]
    | none =>
      rcases pureRepl_tvar a m hm with ha | ⟨w, hw, htw⟩
      · -- unchanged so far
        rcases pureRepl_tvar b m hm with hb | ⟨w, hw, htw⟩
        · -- unchanged so far
          left
          simp only [pureRepl, pureReplList, hfind, ha, hb]
        · right
          refine ⟨w, ?_, htw⟩
          simp only [pureRepl, hfind, varsOf, List.mem_append, List.mem_cons,
            varsOfList_mem]
          tauto
      · right
        refine ⟨w, ?_, htw⟩
        simp only [pureRepl, hfind, varsOf, List.mem_append, List.mem_cons,
          varsOfList_mem]
        tauto
  | .ge a b, m, hm => by
    cases hfind : replFind m (Expr.ge a b) with
    | some r =>
      rcases hm _ (replFind_mem hfind) with ⟨w, hw, htw⟩
      have hw2 : r = Expr.var w := hw
      right
      refine ⟨w, ?_, htw⟩
      rw [pureRepl_hit hfind, hw2]
      simp [varsOf]
    | none =>
      rcases pureRepl_tvar a m hm with ha | ⟨w, hw, htw⟩
      · -- unchanged so far
        rcases pureRepl_tvar b m hm with hb | ⟨w, hw, htw⟩
        · -- unchanged so far
          left
          simp only [pureRepl, pureReplList, hfind, ha, hb]
        · right
          refine ⟨w, ?_, htw⟩
          simp only [pureRepl, hfind, varsOf, List.mem_append, List.mem_cons,
            varsOfList_mem]
          tauto
      · right
        refine ⟨w, ?_, htw⟩
        simp only [pureRepl, hfind, varsOf, List.mem_append, List.mem_cons,
          varsOfList_mem]
        tauto
  | .and a b, m, hm => by
    cases hfind : replFind m (Expr.and a b) with
    | some r =>
      rcases hm _ (replFind_mem hfind) with ⟨w, hw, htw⟩
      have hw2 : r = Expr.var w := hw
      right
      refine ⟨w, ?_, htw⟩
      rw [pureRepl_hit hfind, hw2]
      simp [varsOf]
    | none =>
      rcases pureRepl_tvar a m hm with ha | ⟨w, hw, htw⟩
      · -- unchanged so far
        rcases pureRepl_tvar b m hm with hb | ⟨w, hw, htw⟩
        · -- unchanged so far
          left
          simp only [pureRepl, pureReplList, hfind, ha, hb]
        · right
          refine ⟨w, ?_, htw⟩
          simp only [pureRepl, hfind, varsOf, List.mem_append, List.mem_cons,
            varsOfList_mem]
          tauto
      · right
        refine ⟨w, ?_, htw⟩
        simp only [pureRepl, hfind, varsOf, List.mem_append, List.mem_cons,
          varsOfList_mem]
        tauto
  | .or a b, m, hm => by
    cases hfind : replFind m (Expr.or a b) with
    | some r =>
      rcases hm _ (replFind_mem hfind) with ⟨w, hw, htw⟩
      have hw2 : r = Expr.var w := hw
      right
      refine ⟨w, ?_, htw⟩
      rw [pureRepl_hit hfind, hw2]
      simp [varsOf]
    | none =>
      rcases pureRepl_tvar a m hm with ha | ⟨w, hw, htw⟩
      · -- unchanged so far
        rcases pureRepl_tvar b m hm with hb | ⟨w, hw, htw⟩
        · -- unchanged so far
          left
          simp only [pureRepl, pureReplList, hfind, ha, hb]
        · right
          refine ⟨w, ?_, htw⟩
          simp only [pureRepl, hfind, varsOf, List.mem_append, List.mem_cons,
            varsOfList_mem]
          tauto
      · right
        refine ⟨w, ?_, htw⟩
        simp only [pureRepl, hfind, varsOf, List.mem_append, List.mem_cons,
          varsOfList_mem]
        tauto
  | .not a, m, hm => by
    cases hfind : replFind m (Expr.not a) with
    | some r =>
      rcases hm _ (replFind_mem hfind) with ⟨w, hw, htw⟩
      have hw2 : r = Expr.var w := hw
      right
      refine ⟨w, ?_, htw⟩
      rw [pureRepl_hit hfind, hw2]
      simp [varsOf]
    | none =>
      rcases pureRepl_tvar a m hm with ha | ⟨w, hw, htw⟩
      · -- unchanged so far
        left
        simp only [pureRepl, pureReplList, hfind, ha]
      · right
        refine ⟨w, ?_, htw⟩
        simp only [pureRepl, hfind, varsOf, List.mem_append, List.mem_cons,
          varsOfList_mem]
        tauto
  | .select c t f, m, hm => by
    cases hfind : replFind m (Expr.select c t f) with
    | some r =>
      rcases hm _ (replFind_mem hfind) with ⟨w, hw, htw⟩
      have hw2 : r = Expr.var w := hw
      right
      refine ⟨w, ?_, htw⟩
      rw [pureRepl_hit hfind, hw2]
      simp [varsOf]
    | none =>
      rcases pureRepl_tvar c m hm with hc | ⟨w, hw, htw⟩
      · -- unchanged so far
        rcases pureRepl_tvar t m hm with ht | ⟨w, hw, htw⟩
        · -- unchanged so far
          rcases pureRepl_tvar f m hm with hf | ⟨w, hw, htw⟩
          · -- unchanged so far
            left
            simp only [pureRepl, pureReplList, hfind, hc, ht, hf]
          · right
            refine ⟨w, ?_, htw⟩
            simp only [pureRepl, hfind, varsOf, List.mem_append, List.mem_cons,
              varsOfList_mem]
            tauto
        · right
          refine ⟨w, ?_, htw⟩
          simp only [pureRepl, hfind, varsOf, List.mem_append, List.mem_cons,
            varsOfList_mem]
          tauto
      · right
        refine ⟨w, ?_, htw⟩
        simp only [pureRepl, hfind, varsOf, List.mem_append, List.mem_cons,
          varsOfList_mem]
        tauto
  | .load ty bv ix pr, m, hm => by
    cases hfind : replFind m (Expr.load ty bv ix pr) with
    | some r =>
      rcases hm _ (replFind_mem hfind) with ⟨w, hw, htw⟩
      have hw2 : r = Expr.var w := hw
      right
      refine ⟨w, ?_, htw⟩
      rw [pureRepl_hit hfind, hw2]
      simp [varsOf]
    | none =>
      rcases pureRepl_tvar ix m hm with hix | ⟨w, hw, htw⟩
      · -- unchanged so far
        left
        simp only [pureRepl, pureReplList, hfind, hix]
      · right
        refine ⟨w, ?_, htw⟩
        simp only [pureRepl, hfind, varsOf, List.mem_append, List.mem_cons,
          varsOfList_mem]
        tauto
  | .ramp b s l, m, hm => by
    cases hfind : replFind m (Expr.ramp b s l) with
    | some r =>
      rcases hm _ (replFind_mem hfind) with ⟨w, hw, htw⟩
      have hw2 : r = Expr.var w := hw
      right
      refine ⟨w, ?_, htw⟩
      rw [pureRepl_hit hfind, hw2]
      simp [varsOf]
    | none =>
      rcases pureRepl_tvar b m hm with hb | ⟨w, hw, htw⟩
      · -- unchanged so far
        rcases pureRepl_tvar s m hm with hs | ⟨w, hw, htw⟩
        · -- unchanged so far
          left
          simp only [pureRepl, pureReplList, hfind, hb, hs]
        · right
          refine ⟨w, ?_, htw⟩
          simp only [pureRepl, hfind, varsOf, List.mem_append, List.mem_cons,
            varsOfList_mem]
          tauto
      · right
        refine ⟨w, ?_, htw⟩
        simp only [pureRepl, hfind, varsOf, List.mem_append, List.mem_cons,
          varsOfList_mem]
        tauto
  | .broadcast v l, m, hm => by
    cases hfind : replFind m (Expr.broadcast v l) with
    | some r =>
      rcases hm _ (replFind_mem hfind) with ⟨w, hw, htw⟩
      have hw2 : r = Expr.var w := hw
      right
      refine ⟨w, ?_, htw⟩
      rw [pureRepl_hit hfind, hw2]
      simp [varsOf]
    | none =>
      rcases pureRepl_tvar v m hm with hv | ⟨w, hw, htw⟩
      · -- unchanged so far
        left
        simp only [pureRepl, pureReplList, hfind, hv]
      · right
        refine ⟨w, ?_, htw⟩
        simp only [pureRepl, hfind, varsOf, List.mem_append, List.mem_cons,
          varsOfList_mem]
        tauto
  | .call ty nm args ct fn vi, m, hm => by
    cases hfind : replFind m (Expr.call ty nm args ct fn vi) with
    | some r =>
      rcases hm _ (replFind_mem hfind) with ⟨w, hw, htw⟩
      have hw2 : r = Expr.var w := hw
      right
      refine ⟨w, ?_, htw⟩
      rw [pureRepl_hit hfind, hw2]
      simp [varsOf]
    | none =>
      rcases pureReplList_tvar args m hm with hargs | ⟨w, hw, htw⟩
      · -- unchanged so far
        left
        simp only [pureRepl, pureReplList, hfind, hargs]
      · right
        refine ⟨w, ?_, htw⟩
        simp only [pureRepl, hfind, varsOf, List.mem_append, List.mem_cons,
          varsOfList_mem]
        rcases (varsOfList_mem _ w).mp hw with ⟨x, hx, hvx⟩
        first
          | exact ⟨x, hx, hvx⟩
          | exact Or.inl ⟨x, hx, hvx⟩
          | exact Or.inr ⟨x, hx, hvx⟩
  | .letE v value body, m, hm => by
    cases hfind : replFind m (Expr.letE v value body) with
    | some r =>
      rcases hm _ (replFind_mem hfind) with ⟨w, hw, htw⟩
      have hw2 : r = Expr.var w := hw
      right
      refine ⟨w, ?_, htw⟩
      rw [pureRepl_hit hfind, hw2]
      simp [varsOf]
    | none =>
      rcases pureRepl_tvar value m hm with hvalue | ⟨w, hw, htw⟩
      · -- unchanged so far
        rcases pureRepl_tvar body m hm with hbody | ⟨w, hw, htw⟩
        · -- unchanged so far
          left
          simp only [pureRepl, pureReplList, hfind, hvalue, hbody]
        · right
          refine ⟨w, ?_, htw⟩
          simp only [pureRepl, hfind, varsOf, List.mem_append, List.mem_cons,
            varsOfList_mem]
          tauto
      · right
        refine ⟨w, ?_, htw⟩
        simp only [pureRepl, hfind, varsOf, List.mem_append, List.mem_cons,
          varsOfList_mem]
        tauto
  | .shuffle vs idxs, m, hm => by
    cases hfind : replFind m (Expr.shuffle vs idxs) with
    | some r =>
      rcases hm _ (replFind_mem hfind) with ⟨w, hw, htw⟩
      have hw2 : r = Expr.var w := hw
      right
      refine ⟨w, ?_, htw⟩
      rw [pureRepl_hit hfind, hw2]
      simp [varsOf]
    | none =>
      rcases pureReplList_tvar vs m hm with hvs | ⟨w, hw, htw⟩
      · -- unchanged so far
        rcases pureReplList_tvar idxs m hm with hidxs | ⟨w, hw, htw⟩
        · -- unchanged so far
          left
          simp only [pureRepl, pureReplList, hfind, hvs, hidxs]
        · right
          refine ⟨w, ?_, htw⟩
          simp only [pureRepl, hfind, varsOf, List.mem_append, List.mem_cons,
            varsOfList_mem]
          rcases (varsOfList_mem _ w).mp hw with ⟨x, hx, hvx⟩
          first
            | exact ⟨x, hx, hvx⟩
            | exact Or.inl ⟨x, hx, hvx⟩
            | exact Or.inr ⟨x, hx, hvx⟩
      · right
        refine ⟨w, ?_, htw⟩
        simp only [pureRepl, hfind, varsOf, List.mem_append, List.mem_cons,
          varsOfList_mem]
        rcases (varsOfList_mem _ w).mp hw with ⟨x, hx, hvx⟩
        first
          | exact ⟨x, hx, hvx⟩
          | exact Or.inl ⟨x, hx, hvx⟩
          | exact Or.inr ⟨x, hx, hvx⟩

theorem pureReplList_tvar : ∀ (es : ExprList) (m : ReplMap),
    (∀ p ∈ m, ∃ v, p.2 = Expr.var v ∧ isTFamilyName v.name_hint = true) →
    pureReplList m es = es ∨
      ∃ v, v ∈ varsOfList (pureReplList m es) ∧
        isTFamilyName v.name_hint = true
  | .nil, m, hm => Or.inl rfl
  | .cons hd tl, m, hm => by
    rcases pureRepl_tvar hd m hm with hhd | ⟨w, hw, htw⟩
    · rcases pureReplList_tvar tl m hm with htl | ⟨w, hw, htw⟩
      · left
        simp only [pureReplList, hhd, htl]
      · right
        refine ⟨w, ?_, htw⟩
        simp only [pureReplList, varsOfList, List.mem_append]
        exact Or.inr hw
    · right
      refine ⟨w, ?_, htw⟩
      simp only [pureReplList, varsOfList, List.mem_append]
      exact Or.inl hw

end


mutual

/-- A substitution whose values are variables introduces no `Let`. -/
theorem pureRepl_noLet : ∀ (e : Expr) (m : ReplMap),
    (∀ p ∈ m, ∃ v, p.2 = Expr.var v) → noLetIn e = true →
    noLetIn (pureRepl m e) = true
  | .undef, m, hm, he => by
    cases hfind : replFind m (Expr.undef) with
    | some r =>
      rcases hm _ (replFind_mem hfind) with ⟨w, hw⟩
      have hw2 : r = Expr.var w := hw
      rw [pureRepl_hit hfind, hw2]
      simp [noLetIn]
    | none =>
      simp only [pureRepl, hfind]
      exact he
  | .intImm ty v, m, hm, he => by
    cases hfind : replFind m (Expr.intImm ty v) with
    | some r =>
      rcases hm _ (replFind_mem hfind) with ⟨w, hw⟩
      have hw2 : r = Expr.var w := hw
      rw [pureRepl_hit hfind, hw2]
      simp [noLetIn]
    | none =>
      simp only [pureRepl, hfind]
      exact he
  | .uintImm ty v, m, hm, he => by
    cases hfind : replFind m (Expr.uintImm ty v) with
    | some r =>
      rcases hm _ (replFind_mem hfind) with ⟨w, hw⟩
      have hw2 : r = Expr.var w := hw
      rw [pureRepl_hit hfind, hw2]
      simp [noLetIn]
    | none =>
      simp only [pureRepl, hfind]
      exact he
  | .floatImm ty v, m, hm, he => by
    cases hfind : replFind m (Expr.floatImm ty v) with
    | some r =>
      rcases hm _ (replFind_mem hfind) with ⟨w, hw⟩
      have hw2 : r = Expr.var w := hw
      rw [pureRepl_hit hfind, hw2]
      simp [noLetIn]
    | none =>
      simp only [pureRepl, hfind]
      exact he
  | .stringImm v, m, hm, he => by
    cases hfind : replFind m (Expr.stringImm v) with
    | some r =>
      rcases hm _ (replFind_mem hfind) with ⟨w, hw⟩
      have hw2 : r = Expr.var w := hw
      rw [pureRepl_hit hfind, hw2]
      simp [noLetIn]
    | none =>
      simp only [pureRepl, hfind]
      exact he
  | .var v, m, hm, he => by
    cases hfind : replFind m (Expr.var v) with
    | some r =>
      rcases hm _ (replFind_mem hfind) with ⟨w, hw⟩
      have hw2 : r = Expr.var w := hw
      rw [pureRepl_hit hfind, hw2]
      simp [noLetIn]
    | none =>
      simp only [pureRepl, hfind]
      exact he
  | .cast ty value, m, hm, he => by
    cases hfind : replFind m (Expr.cast ty value) with
    | some r =>
      rcases hm _ (replFind_mem hfind) with ⟨w, hw⟩
      have hw2 : r = Expr.var w := hw
      rw [pureRepl_hit hfind, hw2]
      simp [noLetIn]
    | none =>
    {
      have hch : noLetIn value = true := by
        simpa [noLetIn, Bool.and_eq_true, and_assoc] using he
      simp only [pureRepl, hfind, noLetIn, Bool.and_eq_true]
      exact pureRepl_noLet value m hm hch
    }
  | .add a b, m, hm, he => by
    cases hfind : replFind m (Expr.add a b) with
    | some r =>
      rcases hm _ (replFind_mem hfind) with ⟨w, hw⟩
      have hw2 : r = Expr.var w := hw
      rw [pureRepl_hit hfind, hw2]
      simp [noLetIn]
    | none =>
    {
      have hch : noLetIn a = true ∧ noLetIn b = true := by
        simpa [noLetIn, Bool.and_eq_true, and_assoc] using he
      simp only [pureRepl, hfind, noLetIn, Bool.and_eq_true]
      exact ⟨pureRepl_noLet a m hm hch.1, pureRepl_noLet b m hm hch.2⟩
    }
  | .sub a b, m, hm, he => by
    cases hfind : replFind m (Expr.sub a b) with
    | some r =>
      rcases hm _ (replFind_mem hfind) with ⟨w, hw⟩
      have hw2 : r = Expr.var w := hw
      rw [pureRepl_hit hfind, hw2]
      simp [noLetIn]
    | none =>
    {
      have hch : noLetIn a = true ∧ noLetIn b = true := by
        simpa [noLetIn, Bool.and_eq_true, and_assoc] using he
      simp only [pureRepl, hfind, noLetIn, Bool.and_eq_true]
      exact ⟨pureRepl_noLet a m hm hch.1, pureRepl_noLet b m hm hch.2⟩
    }
  | .mul a b, m, hm, he => by
    cases hfind : replFind m (Expr.mul a b) with
    | some r =>
      rcases hm _ (replFind_mem hfind) with ⟨w, hw⟩
      have hw2 : r = Expr.var w := hw
      rw [pureRepl_hit hfind, hw2]
      simp [noLetIn]
    | none =>
    {
      have hch : noLetIn a = true ∧ noLetIn b = true := by
        simpa [noLetIn, Bool.and_eq_true, and_assoc] using he
      simp only [pureRepl, hfind, noLetIn, Bool.and_eq_true]
      exact ⟨pureRepl_noLet a m hm hch.1, pureRepl_noLet b m hm hch.2⟩
    }
  | .div a b, m, hm, he => by
    cases hfind : replFind m (Expr.div a b) with
    | some r =>
      rcases hm _ (replFind_mem hfind) with ⟨w, hw⟩
      have hw2 : r = Expr.var w := hw
      rw [pureRepl_hit hfind, hw2]
      simp [noLetIn]
    | none =>
    {
      have hch : noLetIn a = true ∧ noLetIn b = true := by
        simpa [noLetIn, Bool.and_eq_true, and_assoc] using he
      simp only [pureRepl, hfind, noLetIn, Bool.and_eq_true]
      exact ⟨pureRepl_noLet a m hm hch.1, pureRepl_noLet b m hm hch.2⟩
    }
  | .mod a b, m, hm, he => by
    cases hfind : replFind m (Expr.mod a b) with
    | some r =>
      rcases hm _ (replFind_mem hfind) with ⟨w, hw⟩
      have hw2 : r = Expr.var w := hw
      rw [pureRepl_hit hfind, hw2]
      simp [noLetIn]
    | none =>
    {
      have hch : noLetIn a = true ∧ noLetIn b = true := by
        simpa [noLetIn, Bool.and_eq_true, and_assoc] using he
      simp only [pureRepl, hfind, noLetIn, Bool.and_eq_true]
      exact ⟨pureRepl_noLet a m hm hch.1, pureRepl_noLet b m hm hch.2⟩
    }
  | .min a b, m, hm, he => by
    cases hfind : replFind m (Expr.min a b) with
    | some r =>
      rcases hm _ (replFind_mem hfind) with ⟨w, hw⟩
      have hw2 : r = Expr.var w := hw
      rw [pureRepl_hit hfind, hw2]
      simp [noLetIn]
    | none =>
    {
      have hch : noLetIn a = true ∧ noLetIn b = true := by
        simpa [noLetIn, Bool.and_eq_true, and_assoc] using he
      simp only [pureRepl, hfind, noLetIn, Bool.and_eq_true]
      exact ⟨pureRepl_noLet a m hm hch.1, pureRepl_noLet b m hm hch.2⟩
    }
  | .max a b, m, hm, he => by
    cases hfind : replFind m (Expr.max a b) with
    | some r =>
      rcases hm _ (replFind_mem hfind) with ⟨w, hw⟩
      have hw2 : r = Expr.var w := hw
      rw [pureRepl_hit hfind, hw2]
      simp [noLetIn]
    | none =>
    {
      have hch : noLetIn a = true ∧ noLetIn b = true := by
        simpa [noLetIn, Bool.and_eq_true, and_assoc] using he
      simp only [pureRepl, hfind, noLetIn, Bool.and_eq_true]
      exact ⟨pureRepl_noLet a m hm hch.1, pureRepl_noLet b m hm hch.2⟩
    }
  | .eq a b, m, hm, he => by
    cases hfind : replFind m (Expr.eq a b) with
    | some r =>
      rcases hm _ (replFind_mem hfind) with ⟨w, hw⟩
      have hw2 : r = Expr.var w := hw
      rw [pureRepl_hit hfind, hw2]
      simp [noLetIn]
    | none =>
    {
      have hch : noLetIn a = true ∧ noLetIn b = true := by
        simpa [noLetIn, Bool.and_eq_true, and_assoc] using he
      simp only [pureRepl, hfind, noLetIn, Bool.and_eq_true]
      exact ⟨pureRepl_noLet a m hm hch.1, pureRepl_noLet b m hm hch.2⟩
    }
  | .ne a b, m, hm, he => by
    cases hfind : replFind m (Expr.ne a b) with
    | some r =>
      rcases hm _ (replFind_mem hfind) with ⟨w, hw⟩
      have hw2 : r = Expr.var w := hw
      rw [pureRepl_hit hfind, hw2]
      simp [noLetIn]
    | none =>
    {
      have hch : noLetIn a = true ∧ noLetIn b = true := by
        simpa [noLetIn, Bool.and_eq_true, and_assoc] using he
      simp only [pureRepl, hfind, noLetIn, Bool.and_eq_true]
      exact ⟨pureRepl_noLet a m hm hch.1, pureRepl_noLet b m hm hch.2⟩
    }
  | .lt a b, m, hm, he => by
    cases hfind : replFind m (Expr.lt a b) with
    | some r =>
      rcases hm _ (replFind_mem hfind) with ⟨w, hw⟩
      have hw2 : r = Expr.var w := hw
      rw [pureRepl_hit hfind, hw2]
      simp [noLetIn]
    | none =>
    {
      have hch : noLetIn a = true ∧ noLetIn b = true := by
        simpa [noLetIn, Bool.and_eq_true, and_assoc] using he
      simp only [pureRepl, hfind, noLetIn, Bool.and_eq_true]
      exact ⟨pureRepl_noLet a m hm hch.1, pureRepl_noLet b m hm hch.2⟩
    }
  | .le a b, m, hm, he => by
    cases hfind : replFind m (Expr.le a b) with
    | some r =>
      rcases hm _ (replFind_mem hfind) with ⟨w, hw⟩
      have hw2 : r = Expr.var w := hw
      rw [pureRepl_hit hfind, hw2]
      simp [noLetIn]
    | none =>
    {
      have hch : noLetIn a = true ∧ noLetIn b = true := by
        simpa [noLetIn, Bool.and_eq_true, and_assoc] using he
      simp only [pureRepl, hfind, noLetIn, Bool.and_eq_true]
      exact ⟨pureRepl_noLet a m hm hch.1, pureRepl_noLet b m hm hch.2⟩
    }
  | .gt a b, m, hm, he => by
    cases hfind : replFind m (Expr.gt a b) with
    | some r =>
      rcases hm _ (replFind_mem hfind) with ⟨w, hw⟩
      have hw2 : r = Expr.var w := hw
      rw [pureRepl_hit hfind, hw2]
      simp [noLetIn]
    | none =>
    {
      have hch : noLetIn a = true ∧ noLetIn b = true := by
        simpa [noLetIn, Bool.and_eq_true, and_assoc] using he
      simp only [pureRepl, hfind, noLetIn, Bool.and_eq_true]
      exact ⟨pureRepl_noLet a m hm hch.1, pureRepl_noLet b m hm hch.2⟩
    }
  | .ge a b, m, hm, he => by
    cases hfind : replFind m (Expr.ge a b) with
    | some r =>
      rcases hm _ (replFind_mem hfind) with ⟨w, hw⟩
      have hw2 : r = Expr.var w := hw
      rw [pureRepl_hit hfind, hw2]
      simp [noLetIn]
    | none =>
    {
      have hch : noLetIn a = true ∧ noLetIn b = true := by
        simpa [noLetIn, Bool.and_eq_true, and_assoc] using he
      simp only [pureRepl, hfind, noLetIn, Bool.and_eq_true]
      exact ⟨pureRepl_noLet a m hm hch.1, pureRepl_noLet b m hm hch.2⟩
    }
  | .and a b, m, hm, he => by
    cases hfind : replFind m (Expr.and a b) with
    | some r =>
      rcases hm _ (replFind_mem hfind) with ⟨w, hw⟩
      have hw2 : r = Expr.var w := hw
      rw [pureRepl_hit hfind, hw2]
      simp [noLetIn]
    | none =>
    {
      have hch : noLetIn a = true ∧ noLetIn b = true := by
        simpa [noLetIn, Bool.and_eq_true, and_assoc] using he
      simp only [pureRepl, hfind, noLetIn, Bool.and_eq_true]
      exact ⟨pureRepl_noLet a m hm hch.1, pureRepl_noLet b m hm hch.2⟩
    }
  | .or a b, m, hm, he => by
    cases hfind : replFind m (Expr.or a b) with
    | some r =>
      rcases hm _ (replFind_mem hfind) with ⟨w, hw⟩
      have hw2 : r = Expr.var w := hw
      rw [pureRepl_hit hfind, hw2]
      simp [noLetIn]
    | none =>
    {
      have hch : noLetIn a = true ∧ noLetIn b = true := by
        simpa [noLetIn, Bool.and_eq_true, and_assoc] using he
      simp only [pureRepl, hfind, noLetIn, Bool.and_eq_true]
      exact ⟨pureRepl_noLet a m hm hch.1, pureRepl_noLet b m hm hch.2⟩
    }
  | .not a, m, hm, he => by
    cases hfind : replFind m (Expr.not a) with
    | some r =>
      rcases hm _ (replFind_mem hfind) with ⟨w, hw⟩
      have hw2 : r = Expr.var w := hw
      rw [pureRepl_hit hfind, hw2]
      simp [noLetIn]
    | none =>
    {
      have hch : noLetIn a = true := by
        simpa [noLetIn, Bool.and_eq_true, and_assoc] using he
      simp only [pureRepl, hfind, noLetIn, Bool.and_eq_true]
      exact pureRepl_noLet a m hm hch
    }
  | .select c t f, m, hm, he => by
    cases hfind : replFind m (Expr.select c t f) with
    | some r =>
      rcases hm _ (replFind_mem hfind) with ⟨w, hw⟩
      have hw2 : r = Expr.var w := hw
      rw [pureRepl_hit hfind, hw2]
      simp [noLetIn]
    | none =>
    {
      have hch : noLetIn c = true ∧ noLetIn t = true ∧ noLetIn f = true := by
        simpa [noLetIn, Bool.and_eq_true, and_assoc] using he
      simp only [pureRepl, hfind, noLetIn, Bool.and_eq_true]
      exact ⟨⟨pureRepl_noLet c m hm hch.1, pureRepl_noLet t m hm hch.2.1⟩, pureRepl_noLet f m hm hch.2.2⟩
    }
  | .load ty bv ix pr, m, hm, he => by
    cases hfind : replFind m (Expr.load ty bv ix pr) with
    | some r =>
      rcases hm _ (replFind_mem hfind) with ⟨w, hw⟩
      have hw2 : r = Expr.var w := hw
      rw [pureRepl_hit hfind, hw2]
      simp [noLetIn]
    | none =>
    {
      have hch : noLetIn ix = true := by
        simpa [noLetIn, Bool.and_eq_true, and_assoc] using he
      simp only [pureRepl, hfind, noLetIn, Bool.and_eq_true]
      exact pureRepl_noLet ix m hm hch
    }
  | .ramp b s l, m, hm, he => by
    cases hfind : replFind m (Expr.ramp b s l) with
    | some r =>
      rcases hm _ (replFind_mem hfind) with ⟨w, hw⟩
      have hw2 : r = Expr.var w := hw
      rw [pureRepl_hit hfind, hw2]
      simp [noLetIn]
    | none =>
    {
      have hch : noLetIn b = true ∧ noLetIn s = true := by
        simpa [noLetIn, Bool.and_eq_true, and_assoc] using he
      simp only [pureRepl, hfind, noLetIn, Bool.and_eq_true]
      exact ⟨pureRepl_noLet b m hm hch.1, pureRepl_noLet s m hm hch.2⟩
    }
  | .broadcast v l, m, hm, he => by
    cases hfind : replFind m (Expr.broadcast v l) with
    | some r =>
      rcases hm _ (replFind_mem hfind) with ⟨w, hw⟩
      have hw2 : r = Expr.var w := hw
      rw [pureRepl_hit hfind, hw2]
      simp [noLetIn]
    | none =>
    {
      have hch : noLetIn v = true := by
        simpa [noLetIn, Bool.and_eq_true, and_assoc] using he
      simp only [pureRepl, hfind, noLetIn, Bool.and_eq_true]
      exact pureRepl_noLet v m hm hch
    }
  | .call ty nm args ct fn vi, m, hm, he => by
    cases hfind : replFind m (Expr.call ty nm args ct fn vi) with
    | some r =>
      rcases hm _ (replFind_mem hfind) with ⟨w, hw⟩
      have hw2 : r = Expr.var w := hw
      rw [pureRepl_hit hfind, hw2]
      simp [noLetIn]
    | none =>
    {
      have hch : noLetInList args = true := by
        simpa [noLetIn, Bool.and_eq_true, and_assoc] using he
      simp only [pureRepl, hfind, noLetIn, Bool.and_eq_true]
      exact pureReplList_noLet args m hm hch
    }
  | .letE v value body, m, hm, he => by
    simp [noLetIn] at he
  | .shuffle vs idxs, m, hm, he => by
    cases hfind : replFind m (Expr.shuffle vs idxs) with
    | some r =>
      rcases hm _ (replFind_mem hfind) with ⟨w, hw⟩
      have hw2 : r = Expr.var w := hw
      rw [pureRepl_hit hfind, hw2]
      simp [noLetIn]
    | none =>
    {
      have hch : noLetInList vs = true ∧ noLetInList idxs = true := by
        simpa [noLetIn, Bool.and_eq_true, and_assoc] using he
      simp only [pureRepl, hfind, noLetIn, Bool.and_eq_true]
      exact ⟨pureReplList_noLet vs m hm hch.1, pureReplList_noLet idxs m hm hch.2⟩
    }

theorem pureReplList_noLet : ∀ (es : ExprList) (m : ReplMap),
    (∀ p ∈ m, ∃ v, p.2 = Expr.var v) → noLetInList es = true →
    noLetInList (pureReplList m es) = true
  | .nil, m, hm, _ => rfl
  | .cons hd tl, m, hm, he => by
    rcases (by simpa [noLetInList, Bool.and_eq_true] using he :
        noLetIn hd = true ∧ noLetInList tl = true) with ⟨h1, h2⟩
    simp only [pureReplList, noLetInList, Bool.and_eq_true]
    exact ⟨pureRepl_noLet hd m hm h1, pureReplList_noLet tl m hm h2⟩

end

mutual

/-- Renaming the fresh variables commutes with the substitution: the
renaming applied to the image equals the substitution with renamed
values (the renaming keys are fresh-family variables, which the
original expression avoids). -/
theorem pureRepl_comp : ∀ (u : Expr) (ρ m : ReplMap),
    (∀ p ∈ ρ, ∃ v, p.1 = Expr.var v ∧ isTFamilyName v.name_hint = true) →
    avoidsT u →
    pureRepl ρ (pureRepl m u) =
      pureRepl (m.map (fun p => (p.1, pureRepl ρ p.2))) u
  | .undef, ρ, m, hρ, hA => by
    cases hfind : replFind m (Expr.undef) with
    | some r =>
      rw [pureRepl_hit hfind]
      rw [pureRepl_hit (show replFind (m.map
        (fun p => (p.1, pureRepl ρ p.2))) (Expr.undef) =
        some (pureRepl ρ r) from by rw [replFind_map_val, hfind]; rfl)]
    | none =>
      have hfind2 : replFind (m.map
          (fun p => (p.1, pureRepl ρ p.2))) (Expr.undef) = none := by
        rw [replFind_map_val, hfind]
        rfl
      have hmiss : replFind ρ (Expr.undef) = none :=
        replFind_not_key (fun p hp => by
          rcases hρ p hp with ⟨w, hw, htw⟩
          rw [hw]
          simp)
      rw [show pureRepl m (Expr.undef) = Expr.undef from by
        simp only [pureRepl, hfind]]
      simp only [pureRepl, hmiss, hfind2]
  | .intImm ty v, ρ, m, hρ, hA => by
    cases hfind : replFind m (Expr.intImm ty v) with
    | some r =>
      rw [pureRepl_hit hfind]
      rw [pureRepl_hit (show replFind (m.map
        (fun p => (p.1, pureRepl ρ p.2))) (Expr.intImm ty v) =
        some (pureRepl ρ r) from by rw [replFind_map_val, hfind]; rfl)]
    | none =>
      have hfind2 : replFind (m.map
          (fun p => (p.1, pureRepl ρ p.2))) (Expr.intImm ty v) = none := by
        rw [replFind_map_val, hfind]
        rfl
      have hmiss : replFind ρ (Expr.intImm ty v) = none :=
        replFind_not_key (fun p hp => by
          rcases hρ p hp with ⟨w, hw, htw⟩
          rw [hw]
          simp)
      rw [show pureRepl m (Expr.intImm ty v) = Expr.intImm ty v from by
        simp only [pureRepl, hfind]]
      simp only [pureRepl, hmiss, hfind2]
  | .uintImm ty v, ρ, m, hρ, hA => by
    cases hfind : replFind m (Expr.uintImm ty v) with
    | some r =>
      rw [pureRepl_hit hfind]
      rw [pureRepl_hit (show replFind (m.map
        (fun p => (p.1, pureRepl ρ p.2))) (Expr.uintImm ty v) =
        some (pureRepl ρ r) from by rw [replFind_map_val, hfind]; rfl)]
    | none =>
      have hfind2 : replFind (m.map
          (fun p => (p.1, pureRepl ρ p.2))) (Expr.uintImm ty v) = none := by
        rw [replFind_map_val, hfind]
        rfl
      have hmiss : replFind ρ (Expr.uintImm ty v) = none :=
        replFind_not_key (fun p hp => by
          rcases hρ p hp with ⟨w, hw, htw⟩
          rw [hw]
          simp)
      rw [show pureRepl m (Expr.uintImm ty v) = Expr.uintImm ty v from by
        simp only [pureRepl, hfind]]
      simp only [pureRepl, hmiss, hfind2]
  | .floatImm ty v, ρ, m, hρ, hA => by
    cases hfind : replFind m (Expr.floatImm ty v) with
    | some r =>
      rw [pureRepl_hit hfind]
      rw [pureRepl_hit (show replFind (m.map
        (fun p => (p.1, pureRepl ρ p.2))) (Expr.floatImm ty v) =
        some (pureRepl ρ r) from by rw [replFind_map_val, hfind]; rfl)]
    | none =>
      have hfind2 : replFind (m.map
          (fun p => (p.1, pureRepl ρ p.2))) (Expr.floatImm ty v) = none := by
        rw [replFind_map_val, hfind]
        rfl
      have hmiss : replFind ρ (Expr.floatImm ty v) = none :=
        replFind_not_key (fun p hp => by
          rcases hρ p hp with ⟨w, hw, htw⟩
          rw [hw]
          simp)
      rw [show pureRepl m (Expr.floatImm ty v) = Expr.floatImm ty v from by
        simp only [pureRepl, hfind]]
      simp only [pureRepl, hmiss, hfind2]
  | .stringImm v, ρ, m, hρ, hA => by
    cases hfind : replFind m (Expr.stringImm v) with
    | some r =>
      rw [pureRepl_hit hfind]
      rw [pureRepl_hit (show replFind (m.map
        (fun p => (p.1, pureRepl ρ p.2))) (Expr.stringImm v) =
        some (pureRepl ρ r) from by rw [replFind_map_val, hfind]; rfl)]
    | none =>
      have hfind2 : replFind (m.map
          (fun p => (p.1, pureRepl ρ p.2))) (Expr.stringImm v) = none := by
        rw [replFind_map_val, hfind]
        rfl
      have hmiss : replFind ρ (Expr.stringImm v) = none :=
        replFind_not_key (fun p hp => by
          rcases hρ p hp with ⟨w, hw, htw⟩
          rw [hw]
          simp)
      rw [show pureRepl m (Expr.stringImm v) = Expr.stringImm v from by
        simp only [pureRepl, hfind]]
      simp only [pureRepl, hmiss, hfind2]
  | .var v, ρ, m, hρ, hA => by
    cases hfind : replFind m (Expr.var v) with
    | some r =>
      rw [pureRepl_hit hfind]
      rw [pureRepl_hit (show replFind (m.map
        (fun p => (p.1, pureRepl ρ p.2))) (Expr.var v) =
        some (pureRepl ρ r) from by rw [replFind_map_val, hfind]; rfl)]
    | none =>
      have hfind2 : replFind (m.map
          (fun p => (p.1, pureRepl ρ p.2))) (Expr.var v) = none := by
        rw [replFind_map_val, hfind]
        rfl
      have hmiss : replFind ρ (Expr.var v) = none :=
        replFind_not_key (fun p hp => by
          rcases hρ p hp with ⟨w, hw, htw⟩
          rw [hw]
          intro hcon
          have hwv : w = v := by injection hcon
          rw [hwv] at htw
          rw [hA v (by simp [varsOf])] at htw
          exact absurd htw (by simp)
          )
      rw [show pureRepl m (Expr.var v) = Expr.var v from by
        simp only [pureRepl, hfind]]
      simp only [pureRepl, hmiss, hfind2]
  | .cast ty value, ρ, m, hρ, hA => by
    cases hfind : replFind m (Expr.cast ty value) with
    | some r =>
      rw [pureRepl_hit hfind]
      rw [pureRepl_hit (show replFind (m.map
        (fun p => (p.1, pureRepl ρ p.2))) (Expr.cast ty value) =
        some (pureRepl ρ r) from by rw [replFind_map_val, hfind]; rfl)]
    | none =>
      have hfind2 : replFind (m.map
          (fun p => (p.1, pureRepl ρ p.2))) (Expr.cast ty value) = none := by
        rw [replFind_map_val, hfind]
        rfl
      have hmiss : replFind ρ (Expr.cast ty (pureRepl m value)) = none :=
        replFind_not_key (fun p hp => by
          rcases hρ p hp with ⟨w, hw, htw⟩
          rw [hw]
          simp)
      rw [show pureRepl m (Expr.cast ty value) = Expr.cast ty (pureRepl m value) from by
        simp only [pureRepl, hfind]]
      simp only [pureRepl, hmiss, hfind2]
      rw [pureRepl_comp value ρ m hρ (fun w hw => hA w (by
        simp only [varsOf, List.mem_append, List.mem_cons, varsOfList_mem]
        tauto))]
  | .add a b, ρ, m, hρ, hA => by
    cases hfind : replFind m (Expr.add a b) with
    | some r =>
      rw [pureRepl_hit hfind]
      rw [pureRepl_hit (show replFind (m.map
        (fun p => (p.1, pureRepl ρ p.2))) (Expr.add a b) =
        some (pureRepl ρ r) from by rw [replFind_map_val, hfind]; rfl)]
    | none =>
      have hfind2 : replFind (m.map
          (fun p => (p.1, pureRepl ρ p.2))) (Expr.add a b) = none := by
        rw [replFind_map_val, hfind]
        rfl
      have hmiss : replFind ρ (Expr.add (pureRepl m a) (pureRepl m b)) = none :=
        replFind_not_key (fun p hp => by
          rcases hρ p hp with ⟨w, hw, htw⟩
          rw [hw]
          simp)
      rw [show pureRepl m (Expr.add a b) = Expr.add (pureRepl m a) (pureRepl m b) from by
        simp only [pureRepl, hfind]]
      simp only [pureRepl, hmiss, hfind2]
      rw [pureRepl_comp a ρ m hρ (fun w hw => hA w (by
        simp only [varsOf, List.mem_append, List.mem_cons, varsOfList_mem]
        tauto))]
      rw [pureRepl_comp b ρ m hρ (fun w hw => hA w (by
        simp only [varsOf, List.mem_append, List.mem_cons, varsOfList_mem]
        tauto))]
  | .sub a b, ρ, m, hρ, hA => by
    cases hfind : replFind m (Expr.sub a b) with
    | some r =>
      rw [pureRepl_hit hfind]
      rw [pureRepl_hit (show replFind (m.map
        (fun p => (p.1, pureRepl ρ p.2))) (Expr.sub a b) =
        some (pureRepl ρ r) from by rw [replFind_map_val, hfind]; rfl)]
    | none =>
      have hfind2 : replFind (m.map
          (fun p => (p.1, pureRepl ρ p.2))) (Expr.sub a b) = none := by
        rw [replFind_map_val, hfind]
        rfl
      have hmiss : replFind ρ (Expr.sub (pureRepl m a) (pureRepl m b)) = none :=
        replFind_not_key (fun p hp => by
          rcases hρ p hp with ⟨w, hw, htw⟩
          rw [hw]
          simp)
      rw [show pureRepl m (Expr.sub a b) = Expr.sub (pureRepl m a) (pureRepl m b) from by
        simp only [pureRepl, hfind]]
      simp only [pureRepl, hmiss, hfind2]
      rw [pureRepl_comp a ρ m hρ (fun w hw => hA w (by
        simp only [varsOf, List.mem_append, List.mem_cons, varsOfList_mem]
        tauto))]
      rw [pureRepl_comp b ρ m hρ (fun w hw => hA w (by
        simp only [varsOf, List.mem_append, List.mem_cons, varsOfList_mem]
        tauto))]
  | .mul a b, ρ, m, hρ, hA => by
    cases hfind : replFind m (Expr.mul a b) with
    | some r =>
      rw [pureRepl_hit hfind]
      rw [pureRepl_hit (show replFind (m.map
        (fun p => (p.1, pureRepl ρ p.2))) (Expr.mul a b) =
        some (pureRepl ρ r) from by rw [replFind_map_val, hfind]; rfl)]
    | none =>
      have hfind2 : replFind (m.map
          (fun p => (p.1, pureRepl ρ p.2))) (Expr.mul a b) = none := by
        rw [replFind_map_val, hfind]
        rfl
      have hmiss : replFind ρ (Expr.mul (pureRepl m a) (pureRepl m b)) = none :=
        replFind_not_key (fun p hp => by
          rcases hρ p hp with ⟨w, hw, htw⟩
          rw [hw]
          simp)
      rw [show pureRepl m (Expr.mul a b) = Expr.mul (pureRepl m a) (pureRepl m b) from by
        simp only [pureRepl, hfind]]
      simp only [pureRepl, hmiss, hfind2]
      rw [pureRepl_comp a ρ m hρ (fun w hw => hA w (by
        simp only [varsOf, List.mem_append, List.mem_cons, varsOfList_mem]
        tauto))]
      rw [pureRepl_comp b ρ m hρ (fun w hw => hA w (by
        simp only [varsOf, List.mem_append, List.mem_cons, varsOfList_mem]
        tauto))]
  | .div a b, ρ, m, hρ, hA => by
    cases hfind : replFind m (Expr.div a b) with
    | some r =>
      rw [pureRepl_hit hfind]
      rw [pureRepl_hit (show replFind (m.map
        (fun p => (p.1, pureRepl ρ p.2))) (Expr.div a b) =
        some (pureRepl ρ r) from by rw [replFind_map_val, hfind]; rfl)]
    | none =>
      have hfind2 : replFind (m.map
          (fun p => (p.1, pureRepl ρ p.2))) (Expr.div a b) = none := by
        rw [replFind_map_val, hfind]
        rfl
      have hmiss : replFind ρ (Expr.div (pureRepl m a) (pureRepl m b)) = none :=
        replFind_not_key (fun p hp => by
          rcases hρ p hp with ⟨w, hw, htw⟩
          rw [hw]
          simp)
      rw [show pureRepl m (Expr.div a b) = Expr.div (pureRepl m a) (pureRepl m b) from by
        simp only [pureRepl, hfind]]
      simp only [pureRepl, hmiss, hfind2]
      rw [pureRepl_comp a ρ m hρ (fun w hw => hA w (by
        simp only [varsOf, List.mem_append, List.mem_cons, varsOfList_mem]
        tauto))]
      rw [pureRepl_comp b ρ m hρ (fun w hw => hA w (by
        simp only [varsOf, List.mem_append, List.mem_cons, varsOfList_mem]
        tauto))]
  | .mod a b, ρ, m, hρ, hA => by
    cases hfind : replFind m (Expr.mod a b) with
    | some r =>
      rw [pureRepl_hit hfind]
      rw [pureRepl_hit (show replFind (m.map
        (fun p => (p.1, pureRepl ρ p.2))) (Expr.mod a b) =
        some (pureRepl ρ r) from by rw [replFind_map_val, hfind]; rfl)]
    | none =>
      have hfind2 : replFind (m.map
          (fun p => (p.1, pureRepl ρ p.2))) (Expr.mod a b) = none := by
        rw [replFind_map_val, hfind]
        rfl
      have hmiss : replFind ρ (Expr.mod (pureRepl m a) (pureRepl m b)) = none :=
        replFind_not_key (fun p hp => by
          rcases hρ p hp with ⟨w, hw, htw⟩
          rw [hw]
          simp)
      rw [show pureRepl m (Expr.mod a b) = Expr.mod (pureRepl m a) (pureRepl m b) from by
        simp only [pureRepl, hfind]]
      simp only [pureRepl, hmiss, hfind2]
      rw [pureRepl_comp a ρ m hρ (fun w hw => hA w (by
        simp only [varsOf, List.mem_append, List.mem_cons, varsOfList_mem]
        tauto))]
      rw [pureRepl_comp b ρ m hρ (fun w hw => hA w (by
        simp only [varsOf, List.mem_append, List.mem_cons, varsOfList_mem]
        tauto))]
  | .min a b, ρ, m, hρ, hA => by
    cases hfind : replFind m (Expr.min a b) with
    | some r =>
      rw [pureRepl_hit hfind]
      rw [pureRepl_hit (show replFind (m.map
        (fun p => (p.1, pureRepl ρ p.2))) (Expr.min a b) =
        some (pureRepl ρ r) from by rw [replFind_map_val, hfind]; rfl)]
    | none =>
      have hfind2 : replFind (m.map
          (fun p => (p.1, pureRepl ρ p.2))) (Expr.min a b) = none := by
        rw [replFind_map_val, hfind]
        rfl
      have hmiss : replFind ρ (Expr.min (pureRepl m a) (pureRepl m b)) = none :=
        replFind_not_key (fun p hp => by
          rcases hρ p hp with ⟨w, hw, htw⟩
          rw [hw]
          simp)
      rw [show pureRepl m (Expr.min a b) = Expr.min (pureRepl m a) (pureRepl m b) from by
        simp only [pureRepl, hfind]]
      simp only [pureRepl, hmiss, hfind2]
      rw [pureRepl_comp a ρ m hρ (fun w hw => hA w (by
        simp only [varsOf, List.mem_append, List.mem_cons, varsOfList_mem]
        tauto))]
      rw [pureRepl_comp b ρ m hρ (fun w hw => hA w (by
        simp only [varsOf, List.mem_append, List.mem_cons, varsOfList_mem]
        tauto))]
  | .max a b, ρ, m, hρ, hA => by
    cases hfind : replFind m (Expr.max a b) with
    | some r =>
      rw [pureRepl_hit hfind]
      rw [pureRepl_hit (show replFind (m.map
        (fun p => (p.1, pureRepl ρ p.2))) (Expr.max a b) =
        some (pureRepl ρ r) from by rw [replFind_map_val, hfind]; rfl)]
    | none =>
      have hfind2 : replFind (m.map
          (fun p => (p.1, pureRepl ρ p.2))) (Expr.max a b) = none := by
        rw [replFind_map_val, hfind]
        rfl
      have hmiss : replFind ρ (Expr.max (pureRepl m a) (pureRepl m b)) = none :=
        replFind_not_key (fun p hp => by
          rcases hρ p hp with ⟨w, hw, htw⟩
          rw [hw]
          simp)
      rw [show pureRepl m (Expr.max a b) = Expr.max (pureRepl m a) (pureRepl m b) from by
        simp only [pureRepl, hfind]]
      simp only [pureRepl, hmiss, hfind2]
      rw [pureRepl_comp a ρ m hρ (fun w hw => hA w (by
        simp only [varsOf, List.mem_append, List.mem_cons, varsOfList_mem]
        tauto))]
      rw [pureRepl_comp b ρ m hρ (fun w hw => hA w (by
        simp only [varsOf, List.mem_append, List.mem_cons, varsOfList_mem]
        tauto))]
  | .eq a b, ρ, m, hρ, hA => by
    cases hfind : replFind m (Expr.eq a b) with
    | some r =>
      rw [pureRepl_hit hfind]
      rw [pureRepl_hit (show replFind (m.map
        (fun p => (p.1, pureRepl ρ p.2))) (Expr.eq a b) =
        some (pureRepl ρ r) from by rw [replFind_map_val, hfind]; rfl)]
    | none =>
      have hfind2 : replFind (m.map
          (fun p => (p.1, pureRepl ρ p.2))) (Expr.eq a b) = none := by
        rw [replFind_map_val, hfind]
        rfl
      have hmiss : replFind ρ (Expr.eq (pureRepl m a) (pureRepl m b)) = none :=
        replFind_not_key (fun p hp => by
          rcases hρ p hp with ⟨w, hw, htw⟩
          rw [hw]
          simp)
      rw [show pureRepl m (Expr.eq a b) = Expr.eq (pureRepl m a) (pureRepl m b) from by
        simp only [pureRepl, hfind]]
      simp only [pureRepl, hmiss, hfind2]
      rw [pureRepl_comp a ρ m hρ (fun w hw => hA w (by
        simp only [varsOf, List.mem_append, List.mem_cons, varsOfList_mem]
        tauto))]
      rw [pureRepl_comp b ρ m hρ (fun w hw => hA w (by
        simp only [varsOf, List.mem_append, List.mem_cons, varsOfList_mem]
        tauto))]
  | .ne a b, ρ, m, hρ, hA => by
    cases hfind : replFind m (Expr.ne a b) with
    | some r =>
      rw [pureRepl_hit hfind]
      rw [pureRepl_hit (show replFind (m.map
        (fun p => (p.1, pureRepl ρ p.2))) (Expr.ne a b) =
        some (pureRepl ρ r) from by rw [replFind_map_val, hfind]; rfl)]
    | none =>
      have hfind2 : replFind (m.map
          (fun p => (p.1, pureRepl ρ p.2))) (Expr.ne a b) = none := by
        rw [replFind_map_val, hfind]
        rfl
      have hmiss : replFind ρ (Expr.ne (pureRepl m a) (pureRepl m b)) = none :=
        replFind_not_key (fun p hp => by
          rcases hρ p hp with ⟨w, hw, htw⟩
          rw [hw]
          simp)
      rw [show pureRepl m (Expr.ne a b) = Expr.ne (pureRepl m a) (pureRepl m b) from by
        simp only [pureRepl, hfind]]
      simp only [pureRepl, hmiss, hfind2]
      rw [pureRepl_comp a ρ m hρ (fun w hw => hA w (by
        simp only [varsOf, List.mem_append, List.mem_cons, varsOfList_mem]
        tauto))]
      rw [pureRepl_comp b ρ m hρ (fun w hw => hA w (by
        simp only [varsOf, List.mem_append, List.mem_cons, varsOfList_mem]
        tauto))]
  | .lt a b, ρ, m, hρ, hA => by
    cases hfind : replFind m (Expr.lt a b) with
    | some r =>
      rw [pureRepl_hit hfind]
      rw [pureRepl_hit (show replFind (m.map
        (fun p => (p.1, pureRepl ρ p.2))) (Expr.lt a b) =
        some (pureRepl ρ r) from by rw [replFind_map_val, hfind]; rfl)]
    | none =>
      have hfind2 : replFind (m.map
          (fun p => (p.1, pureRepl ρ p.2))) (Expr.lt a b) = none := by
        rw [replFind_map_val, hfind]
        rfl
      have hmiss : replFind ρ (Expr.lt (pureRepl m a) (pureRepl m b)) = none :=
        replFind_not_key (fun p hp => by
          rcases hρ p hp with ⟨w, hw, htw⟩
          rw [hw]
          simp)
      rw [show pureRepl m (Expr.lt a b) = Expr.lt (pureRepl m a) (pureRepl m b) from by
        simp only [pureRepl, hfind]]
      simp only [pureRepl, hmiss, hfind2]
      rw [pureRepl_comp a ρ m hρ (fun w hw => hA w (by
        simp only [varsOf, List.mem_append, List.mem_cons, varsOfList_mem]
        tauto))]
      rw [pureRepl_comp b ρ m hρ (fun w hw => hA w (by
        simp only [varsOf, List.mem_append, List.mem_cons, varsOfList_mem]
        tauto))]
  | .le a b, ρ, m, hρ, hA => by
    cases hfind : replFind m (Expr.le a b) with
    | some r =>
      rw [pureRepl_hit hfind]
      rw [pureRepl_hit (show replFind (m.map
        (fun p => (p.1, pureRepl ρ p.2))) (Expr.le a b) =
        some (pureRepl ρ r) from by rw [replFind_map_val, hfind]; rfl)]
    | none =>
      have hfind2 : replFind (m.map
          (fun p => (p.1, pureRepl ρ p.2))) (Expr.le a b) = none := by
        rw [replFind_map_val, hfind]
        rfl
      have hmiss : replFind ρ (Expr.le (pureRepl m a) (pureRepl m b)) = none :=
        replFind_not_key (fun p hp => by
          rcases hρ p hp with ⟨w, hw, htw⟩
          rw [hw]
          simp)
      rw [show pureRepl m (Expr.le a b) = Expr.le (pureRepl m a) (pureRepl m b) from by
        simp only [pureRepl, hfind]]
      simp only [pureRepl, hmiss, hfind2]
      rw [pureRepl_comp a ρ m hρ (fun w hw => hA w (by
        simp only [varsOf, List.mem_append, List.mem_cons, varsOfList_mem]
        tauto))]
      rw [pureRepl_comp b ρ m hρ (fun w hw => hA w (by
        simp only [varsOf, List.mem_append, List.mem_cons, varsOfList_mem]
        tauto))]
  | .gt a b, ρ, m, hρ, hA => by
    cases hfind : replFind m (Expr.gt a b) with
    | some r =>
      rw [pureRepl_hit hfind]
      rw [pureRepl_hit (show replFind (m.map
        (fun p => (p.1, pureRepl ρ p.2))) (Expr.gt a b) =
        some (pureRepl ρ r) from by rw [replFind_map_val, hfind]; rfl)]
    | none =>
      have hfind2 : replFind (m.map
          (fun p => (p.1, pureRepl ρ p.2))) (Expr.gt a b) = none := by
        rw [replFind_map_val, hfind]
        rfl
      have hmiss : replFind ρ (Expr.gt (pureRepl m a) (pureRepl m b)) = none :=
        replFind_not_key (fun p hp => by
          rcases hρ p hp with ⟨w, hw, htw⟩
          rw [hw]
          simp)
      rw [show pureRepl m (Expr.gt a b) = Expr.gt (pureRepl m a) (pureRepl m b) from by
        simp only [pureRepl, hfind]]
      simp only [pureRepl, hmiss, hfind2]
      rw [pureRepl_comp a ρ m hρ (fun w hw => hA w (by
        simp only [varsOf, List.mem_append, List.mem_cons, varsOfList_mem]
        tauto))]
      rw [pureRepl_comp b ρ m hρ (fun w hw => hA w (by
        simp only [varsOf, List.mem_append, List.mem_cons, varsOfList_mem]
        tauto))]
  | .ge a b, ρ, m, hρ, hA => by
    cases hfind : replFind m (Expr.ge a b) with
    | some r =>
      rw [pureRepl_hit hfind]
      rw [pureRepl_hit (show replFind (m.map
        (fun p => (p.1, pureRepl ρ p.2))) (Expr.ge a b) =
        some (pureRepl ρ r) from by rw [replFind_map_val, hfind]; rfl)]
    | none =>
      have hfind2 : replFind (m.map
          (fun p => (p.1, pureRepl ρ p.2))) (Expr.ge a b) = none := by
        rw [replFind_map_val, hfind]
        rfl
      have hmiss : replFind ρ (Expr.ge (pureRepl m a) (pureRepl m b)) = none :=
        replFind_not_key (fun p hp => by
          rcases hρ p hp with ⟨w, hw, htw⟩
          rw [hw]
          simp)
      rw [show pureRepl m (Expr.ge a b) = Expr.ge (pureRepl m a) (pureRepl m b) from by
        simp only [pureRepl, hfind]]
      simp only [pureRepl, hmiss, hfind2]
      rw [pureRepl_comp a ρ m hρ (fun w hw => hA w (by
        simp only [varsOf, List.mem_append, List.mem_cons, varsOfList_mem]
        tauto))]
      rw [pureRepl_comp b ρ m hρ (fun w hw => hA w (by
        simp only [varsOf, List.mem_append, List.mem_cons, varsOfList_mem]
        tauto))]
  | .and a b, ρ, m, hρ, hA => by
    cases hfind : replFind m (Expr.and a b) with
    | some r =>
      rw [pureRepl_hit hfind]
      rw [pureRepl_hit (show replFind (m.map
        (fun p => (p.1, pureRepl ρ p.2))) (Expr.and a b) =
        some (pureRepl ρ r) from by rw [replFind_map_val, hfind]; rfl)]
    | none =>
      have hfind2 : replFind (m.map
          (fun p => (p.1, pureRepl ρ p.2))) (Expr.and a b) = none := by
        rw [replFind_map_val, hfind]
        rfl
      have hmiss : replFind ρ (Expr.and (pureRepl m a) (pureRepl m b)) = none :=
        replFind_not_key (fun p hp => by
          rcases hρ p hp with ⟨w, hw, htw⟩
          rw [hw]
          simp)
      rw [show pureRepl m (Expr.and a b) = Expr.and (pureRepl m a) (pureRepl m b) from by
        simp only [pureRepl, hfind]]
      simp only [pureRepl, hmiss, hfind2]
      rw [pureRepl_comp a ρ m hρ (fun w hw => hA w (by
        simp only [varsOf, List.mem_append, List.mem_cons, varsOfList_mem]
        tauto))]
      rw [pureRepl_comp b ρ m hρ (fun w hw => hA w (by
        simp only [varsOf, List.mem_append, List.mem_cons, varsOfList_mem]
        tauto))]
  | .or a b, ρ, m, hρ, hA => by
    cases hfind : replFind m (Expr.or a b) with
    | some r =>
      rw [pureRepl_hit hfind]
      rw [pureRepl_hit (show replFind (m.map
        (fun p => (p.1, pureRepl ρ p.2))) (Expr.or a b) =
        some (pureRepl ρ r) from by rw [replFind_map_val, hfind]; rfl)]
    | none =>
      have hfind2 : replFind (m.map
          (fun p => (p.1, pureRepl ρ p.2))) (Expr.or a b) = none := by
        rw [replFind_map_val, hfind]
        rfl
      have hmiss : replFind ρ (Expr.or (pureRepl m a) (pureRepl m b)) = none :=
        replFind_not_key (fun p hp => by
          rcases hρ p hp with ⟨w, hw, htw⟩
          rw [hw]
          simp)
      rw [show pureRepl m (Expr.or a b) = Expr.or (pureRepl m a) (pureRepl m b) from by
        simp only [pureRepl, hfind]]
      simp only [pureRepl, hmiss, hfind2]
      rw [pureRepl_comp a ρ m hρ (fun w hw => hA w (by
        simp only [varsOf, List.mem_append, List.mem_cons, varsOfList_mem]
        tauto))]
      rw [pureRepl_comp b ρ m hρ (fun w hw => hA w (by
        simp only [varsOf, List.mem_append, List.mem_cons, varsOfList_mem]
        tauto))]
  | .not a, ρ, m, hρ, hA => by
    cases hfind : replFind m (Expr.not a) with
    | some r =>
      rw [pureRepl_hit hfind]
      rw [pureRepl_hit (show replFind (m.map
        (fun p => (p.1, pureRepl ρ p.2))) (Expr.not a) =
        some (pureRepl ρ r) from by rw [replFind_map_val, hfind]; rfl)]
    | none =>
      have hfind2 : replFind (m.map
          (fun p => (p.1, pureRepl ρ p.2))) (Expr.not a) = none := by
        rw [replFind_map_val, hfind]
        rfl
      have hmiss : replFind ρ (Expr.not (pureRepl m a)) = none :=
        replFind_not_key (fun p hp => by
          rcases hρ p hp with ⟨w, hw, htw⟩
          rw [hw]
          simp)
      rw [show pureRepl m (Expr.not a) = Expr.not (pureRepl m a) from by
        simp only [pureRepl, hfind]]
      simp only [pureRepl, hmiss, hfind2]
      rw [pureRepl_comp a ρ m hρ (fun w hw => hA w (by
        simp only [varsOf, List.mem_append, List.mem_cons, varsOfList_mem]
        tauto))]
  | .select c t f, ρ, m, hρ, hA => by
    cases hfind : replFind m (Expr.select c t f) with
    | some r =>
      rw [pureRepl_hit hfind]
      rw [pureRepl_hit (show replFind (m.map
        (fun p => (p.1, pureRepl ρ p.2))) (Expr.select c t f) =
        some (pureRepl ρ r) from by rw [replFind_map_val, hfind]; rfl)]
    | none =>
      have hfind2 : replFind (m.map
          (fun p => (p.1, pureRepl ρ p.2))) (Expr.select c t f) = none := by
        rw [replFind_map_val, hfind]
        rfl
      have hmiss : replFind ρ (Expr.select (pureRepl m c) (pureRepl m t) (pureRepl m f)) = none :=
        replFind_not_key (fun p hp => by
          rcases hρ p hp with ⟨w, hw, htw⟩
          rw [hw]
          simp)
      rw [show pureRepl m (Expr.select c t f) = Expr.select (pureRepl m c) (pureRepl m t) (pureRepl m f) from by
        simp only [pureRepl, hfind]]
      simp only [pureRepl, hmiss, hfind2]
      rw [pureRepl_comp c ρ m hρ (fun w hw => hA w (by
        simp only [varsOf, List.mem_append, List.mem_cons, varsOfList_mem]
        tauto))]
      rw [pureRepl_comp t ρ m hρ (fun w hw => hA w (by
        simp only [varsOf, List.mem_append, List.mem_cons, varsOfList_mem]
        tauto))]
      rw [pureRepl_comp f ρ m hρ (fun w hw => hA w (by
        simp only [varsOf, List.mem_append, List.mem_cons, varsOfList_mem]
        tauto))]
  | .load ty bv ix pr, ρ, m, hρ, hA => by
    cases hfind : replFind m (Expr.load ty bv ix pr) with
    | some r =>
      rw [pureRepl_hit hfind]
      rw [pureRepl_hit (show replFind (m.map
        (fun p => (p.1, pureRepl ρ p.2))) (Expr.load ty bv ix pr) =
        some (pureRepl ρ r) from by rw [replFind_map_val, hfind]; rfl)]
    | none =>
      have hfind2 : replFind (m.map
          (fun p => (p.1, pureRepl ρ p.2))) (Expr.load ty bv ix pr) = none := by
        rw [replFind_map_val, hfind]
        rfl
      have hmiss : replFind ρ (Expr.load ty bv (pureRepl m ix) pr) = none :=
        replFind_not_key (fun p hp => by
          rcases hρ p hp with ⟨w, hw, htw⟩
          rw [hw]
          simp)
      rw [show pureRepl m (Expr.load ty bv ix pr) = Expr.load ty bv (pureRepl m ix) pr from by
        simp only [pureRepl, hfind]]
      simp only [pureRepl, hmiss, hfind2]
      rw [pureRepl_comp ix ρ m hρ (fun w hw => hA w (by
        simp only [varsOf, List.mem_append, List.mem_cons, varsOfList_mem]
        tauto))]
  | .ramp b s l, ρ, m, hρ, hA => by
    cases hfind : replFind m (Expr.ramp b s l) with
    | some r =>
      rw [pureRepl_hit hfind]
      rw [pureRepl_hit (show replFind (m.map
        (fun p => (p.1, pureRepl ρ p.2))) (Expr.ramp b s l) =
        some (pureRepl ρ r) from by rw [replFind_map_val, hfind]; rfl)]
    | none =>
      have hfind2 : replFind (m.map
          (fun p => (p.1, pureRepl ρ p.2))) (Expr.ramp b s l) = none := by
        rw [replFind_map_val, hfind]
        rfl
      have hmiss : replFind ρ (Expr.ramp (pureRepl m b) (pureRepl m s) l) = none :=
        replFind_not_key (fun p hp => by
          rcases hρ p hp with ⟨w, hw, htw⟩
          rw [hw]
          simp)
      rw [show pureRepl m (Expr.ramp b s l) = Expr.ramp (pureRepl m b) (pureRepl m s) l from by
        simp only [pureRepl, hfind]]
      simp only [pureRepl, hmiss, hfind2]
      rw [pureRepl_comp b ρ m hρ (fun w hw => hA w (by
        simp only [varsOf, List.mem_append, List.mem_cons, varsOfList_mem]
        tauto))]
      rw [pureRepl_comp s ρ m hρ (fun w hw => hA w (by
        simp only [varsOf, List.mem_append, List.mem_cons, varsOfList_mem]
        tauto))]
  | .broadcast v l, ρ, m, hρ, hA => by
    cases hfind : replFind m (Expr.broadcast v l) with
    | some r =>
      rw [pureRepl_hit hfind]
      rw [pureRepl_hit (show replFind (m.map
        (fun p => (p.1, pureRepl ρ p.2))) (Expr.broadcast v l) =
        some (pureRepl ρ r) from by rw [replFind_map_val, hfind]; rfl)]
    | none =>
      have hfind2 : replFind (m.map
          (fun p => (p.1, pureRepl ρ p.2))) (Expr.broadcast v l) = none := by
        rw [replFind_map_val, hfind]
        rfl
      have hmiss : replFind ρ (Expr.broadcast (pureRepl m v) l) = none :=
        replFind_not_key (fun p hp => by
          rcases hρ p hp with ⟨w, hw, htw⟩
          rw [hw]
          simp)
      rw [show pureRepl m (Expr.broadcast v l) = Expr.broadcast (pureRepl m v) l from by
        simp only [pureRepl, hfind]]
      simp only [pureRepl, hmiss, hfind2]
      rw [pureRepl_comp v ρ m hρ (fun w hw => hA w (by
        simp only [varsOf, List.mem_append, List.mem_cons, varsOfList_mem]
        tauto))]
  | .call ty nm args ct fn vi, ρ, m, hρ, hA => by
    cases hfind : replFind m (Expr.call ty nm args ct fn vi) with
    | some r =>
      rw [pureRepl_hit hfind]
      rw [pureRepl_hit (show replFind (m.map
        (fun p => (p.1, pureRepl ρ p.2))) (Expr.call ty nm args ct fn vi) =
        some (pureRepl ρ r) from by rw [replFind_map_val, hfind]; rfl)]
    | none =>
      have hfind2 : replFind (m.map
          (fun p => (p.1, pureRepl ρ p.2))) (Expr.call ty nm args ct fn vi) = none := by
        rw [replFind_map_val, hfind]
        rfl
      have hmiss : replFind ρ (Expr.call ty nm (pureReplList m args) ct fn vi) = none :=
        replFind_not_key (fun p hp => by
          rcases hρ p hp with ⟨w, hw, htw⟩
          rw [hw]
          simp)
      rw [show pureRepl m (Expr.call ty nm args ct fn vi) = Expr.call ty nm (pureReplList m args) ct fn vi from by
        simp only [pureRepl, hfind]]
      simp only [pureRepl, hmiss, hfind2]
      rw [pureReplList_comp args ρ m hρ (fun x hx w hw => hA w (by
        simp only [varsOf, List.mem_append, List.mem_cons, varsOfList_mem]
        first
          | exact ⟨x, hx, hw⟩
          | exact Or.inl ⟨x, hx, hw⟩
          | exact Or.inr ⟨x, hx, hw⟩))]
  | .letE v value body, ρ, m, hρ, hA => by
    cases hfind : replFind m (Expr.letE v value body) with
    | some r =>
      rw [pureRepl_hit hfind]
      rw [pureRepl_hit (show replFind (m.map
        (fun p => (p.1, pureRepl ρ p.2))) (Expr.letE v value body) =
        some (pureRepl ρ r) from by rw [replFind_map_val, hfind]; rfl)]
    | none =>
      have hfind2 : replFind (m.map
          (fun p => (p.1, pureRepl ρ p.2))) (Expr.letE v value body) = none := by
        rw [replFind_map_val, hfind]
        rfl
      have hmiss : replFind ρ (Expr.letE v (pureRepl m value) (pureRepl m body)) = none :=
        replFind_not_key (fun p hp => by
          rcases hρ p hp with ⟨w, hw, htw⟩
          rw [hw]
          simp)
      rw [show pureRepl m (Expr.letE v value body) = Expr.letE v (pureRepl m value) (pureRepl m body) from by
        simp only [pureRepl, hfind]]
      simp only [pureRepl, hmiss, hfind2]
      rw [pureRepl_comp value ρ m hρ (fun w hw => hA w (by
        simp only [varsOf, List.mem_append, List.mem_cons, varsOfList_mem]
        tauto))]
      rw [pureRepl_comp body ρ m hρ (fun w hw => hA w (by
        simp only [varsOf, List.mem_append, List.mem_cons, varsOfList_mem]
        tauto))]
  | .shuffle vs idxs, ρ, m, hρ, hA => by
    cases hfind : replFind m (Expr.shuffle vs idxs) with
    | some r =>
      rw [pureRepl_hit hfind]
      rw [pureRepl_hit (show replFind (m.map
        (fun p => (p.1, pureRepl ρ p.2))) (Expr.shuffle vs idxs) =
        some (pureRepl ρ r) from by rw [replFind_map_val, hfind]; rfl)]
    | none =>
      have hfind2 : replFind (m.map
          (fun p => (p.1, pureRepl ρ p.2))) (Expr.shuffle vs idxs) = none := by
        rw [replFind_map_val, hfind]
        rfl
      have hmiss : replFind ρ (Expr.shuffle (pureReplList m vs) (pureReplList m idxs)) = none :=
        replFind_not_key (fun p hp => by
          rcases hρ p hp with ⟨w, hw, htw⟩
          rw [hw]
          simp)
      rw [show pureRepl m (Expr.shuffle vs idxs) = Expr.shuffle (pureReplList m vs) (pureReplList m idxs) from by
        simp only [pureRepl, hfind]]
      simp only [pureRepl, hmiss, hfind2]
      rw [pureReplList_comp vs ρ m hρ (fun x hx w hw => hA w (by
        simp only [varsOf, List.mem_append, List.mem_cons, varsOfList_mem]
        first
          | exact ⟨x, hx, hw⟩
          | exact Or.inl ⟨x, hx, hw⟩
          | exact Or.inr ⟨x, hx, hw⟩))]
      rw [pureReplList_comp idxs ρ m hρ (fun x hx w hw => hA w (by
        simp only [varsOf, List.mem_append, List.mem_cons, varsOfList_mem]
        first
          | exact ⟨x, hx, hw⟩
          | exact Or.inl ⟨x, hx, hw⟩
          | exact Or.inr ⟨x, hx, hw⟩))]

theorem pureReplList_comp : ∀ (us : ExprList) (ρ m : ReplMap),
    (∀ p ∈ ρ, ∃ v, p.1 = Expr.var v ∧ isTFamilyName v.name_hint = true) →
    (∀ x ∈ us.toList, avoidsT x) →
    pureReplList ρ (pureReplList m us) =
      pureReplList (m.map (fun p => (p.1, pureRepl ρ p.2))) us
  | .nil, ρ, m, hρ, hA => rfl
  | .cons hd tl, ρ, m, hρ, hA => by
    simp only [pureReplList]
    rw [pureRepl_comp hd ρ m hρ (hA hd (by simp [ExprList.toList]))]
    rw [pureReplList_comp tl ρ m hρ (fun x hx => hA x (by
      simp [ExprList.toList, hx]))]

end


/-! ### Variable normalisation as a pure renaming -/

theorem var_beq (a b : Var) : (Expr.var a == Expr.var b) = (a == b) := by
  by_cases h : a = b <;> simp [h]

theorem nmap_find (l : List (Var × Nat)) (rep : List Var) (v : Var) :
    replFind (l.map (fun p => (Expr.var p.1,
      Expr.var (rep.getD p.2 ⟨int32, ""⟩)))) (Expr.var v) =
    ((l.find? (fun p => p.1 == v)).map
      (fun p => Expr.var (rep.getD p.2 ⟨int32, ""⟩))) := by
  induction l with
  | nil => simp [replFind]
  | cons q rest ih =>
    by_cases h : (q.1 == v) = true
    · rw [List.map_cons, replFind_cons_pos (by simp [var_beq, h]),
        show List.find? (fun p => p.1 == v) (q :: rest) = some q from
          List.find?_cons_of_pos _ h]
      rfl
    · rw [List.map_cons, replFind_cons_neg (by simp [var_beq]; simpa using h),
        show List.find? (fun p => p.1 == v) (q :: rest) =
          List.find? (fun p => p.1 == v) rest from
          List.find?_cons_of_neg _ (by simpa using h), ih]

theorem scopeGet_isSome {s : List (Var × Nat)} {v : Var} :
    (scopeGet s v).isSome ↔ v ∈ s.map (fun p => p.1) := by
  unfold scopeGet
  cases hf : s.find? (fun p => p.1 == v) with
  | none =>
    constructor
    · intro h
      simp at h
    · intro hmem
      exfalso
      rcases List.mem_map.mp hmem with ⟨p, hp, hpv⟩
      have h2 := List.find?_eq_none.mp hf p hp
      exact h2 (by simp [hpv])
  | some p =>
    simp only [Option.map_some', Option.isSome_some, true_iff]
    have hmem := List.mem_of_find?_eq_some hf
    have hk0 := List.find?_some hf
    exact List.mem_map.mpr ⟨p, hmem, by simpa using hk0⟩

mutual

/-- On a `Let`-free expression, `NormalizeVarExprs::mutate` is the pure
renaming through the state map and leaves the state unchanged. -/
theorem normMutate_pure : ∀ (e : Expr) (st : NormState), noLetIn e = true →
    normMutate e st = (pureRepl (nmap st) e, st)
  | .undef, st, he => by
    have hmiss : replFind (nmap st) (Expr.undef) = none :=
      replFind_not_key (fun p hp => by
        rcases List.mem_map.mp hp with ⟨q, hq, rfl⟩
        simp)
    simp [normMutate, pureRepl, hmiss]
  | .intImm ty v, st, he => by
    have hmiss : replFind (nmap st) (Expr.intImm ty v) = none :=
      replFind_not_key (fun p hp => by
        rcases List.mem_map.mp hp with ⟨q, hq, rfl⟩
        simp)
    simp [normMutate, pureRepl, hmiss]
  | .uintImm ty v, st, he => by
    have hmiss : replFind (nmap st) (Expr.uintImm ty v) = none :=
      replFind_not_key (fun p hp => by
        rcases List.mem_map.mp hp with ⟨q, hq, rfl⟩
        simp)
    simp [normMutate, pureRepl, hmiss]
  | .floatImm ty v, st, he => by
    have hmiss : replFind (nmap st) (Expr.floatImm ty v) = none :=
      replFind_not_key (fun p hp => by
        rcases List.mem_map.mp hp with ⟨q, hq, rfl⟩
        simp)
    simp [normMutate, pureRepl, hmiss]
  | .stringImm v, st, he => by
    have hmiss : replFind (nmap st) (Expr.stringImm v) = none :=
      replFind_not_key (fun p hp => by
        rcases List.mem_map.mp hp with ⟨q, hq, rfl⟩
        simp)
    simp [normMutate, pureRepl, hmiss]
  | .var v, st, _ => by
    have hfind : replFind (nmap st) (Expr.var v) =
        ((st.new_var_exprs.find? (fun p => p.1 == v)).map
          (fun p => Expr.var (st.replacement_var_exprs.getD p.2
            ⟨int32, ""⟩))) :=
      nmap_find st.new_var_exprs st.replacement_var_exprs v
    cases hf2 : st.new_var_exprs.find? (fun p => p.1 == v) with
    | none =>
      rw [hf2] at hfind
      have hmap : (st.new_var_exprs.find? (fun p => p.1 == v)).map
          (fun p => p.2) = none := by rw [hf2]; rfl
      simp only [normMutate, hmap, pureRepl, hfind, Option.map_none']
    | some q =>
      rw [hf2] at hfind
      have hmap : (st.new_var_exprs.find? (fun p => p.1 == v)).map
          (fun p => p.2) = some q.2 := by rw [hf2]; rfl
      simp only [normMutate, hmap, pureRepl, hfind, Option.map_some']
  | .cast ty value, st, he => by
    have hmiss : replFind (nmap st) (Expr.cast ty value) = none :=
      replFind_not_key (fun p hp => by
        rcases List.mem_map.mp hp with ⟨q, hq, rfl⟩
        simp)
    have hch : noLetIn value = true := by
      simpa [noLetIn, Bool.and_eq_true, and_assoc] using he
    simp [normMutate, pureRepl, hmiss, normMutate_pure value st hch]
  | .add a b, st, he => by
    have hmiss : replFind (nmap st) (Expr.add a b) = none :=
      replFind_not_key (fun p hp => by
        rcases List.mem_map.mp hp with ⟨q, hq, rfl⟩
        simp)
    have hch : noLetIn a = true ∧ noLetIn b = true := by
      simpa [noLetIn, Bool.and_eq_true, and_assoc] using he
    simp [normMutate, pureRepl, hmiss, normMutate_pure a st hch.1, normMutate_pure b st hch.2]
  | .sub a b, st, he => by
    have hmiss : replFind (nmap st) (Expr.sub a b) = none :=
      replFind_not_key (fun p hp => by
        rcases List.mem_map.mp hp with ⟨q, hq, rfl⟩
        simp)
    have hch : noLetIn a = true ∧ noLetIn b = true := by
      simpa [noLetIn, Bool.and_eq_true, and_assoc] using he
    simp [normMutate, pureRepl, hmiss, normMutate_pure a st hch.1, normMutate_pure b st hch.2]
  | .mul a b, st, he => by
    have hmiss : replFind (nmap st) (Expr.mul a b) = none :=
      replFind_not_key (fun p hp => by
        rcases List.mem_map.mp hp with ⟨q, hq, rfl⟩
        simp)
    have hch : noLetIn a = true ∧ noLetIn b = true := by
      simpa [noLetIn, Bool.and_eq_true, and_assoc] using he
    simp [normMutate, pureRepl, hmiss, normMutate_pure a st hch.1, normMutate_pure b st hch.2]
  | .div a b, st, he => by
    have hmiss : replFind (nmap st) (Expr.div a b) = none :=
      replFind_not_key (fun p hp => by
        rcases List.mem_map.mp hp with ⟨q, hq, rfl⟩
        simp)
    have hch : noLetIn a = true ∧ noLetIn b = true := by
      simpa [noLetIn, Bool.and_eq_true, and_assoc] using he
    simp [normMutate, pureRepl, hmiss, normMutate_pure a st hch.1, normMutate_pure b st hch.2]
  | .mod a b, st, he => by
    have hmiss : replFind (nmap st) (Expr.mod a b) = none :=
      replFind_not_key (fun p hp => by
        rcases List.mem_map.mp hp with ⟨q, hq, rfl⟩
        simp)
    have hch : noLetIn a = true ∧ noLetIn b = true := by
      simpa [noLetIn, Bool.and_eq_true, and_assoc] using he
    simp [normMutate, pureRepl, hmiss, normMutate_pure a st hch.1, normMutate_pure b st hch.2]
  | .min a b, st, he => by
    have hmiss : replFind (nmap st) (Expr.min a b) = none :=
      replFind_not_key (fun p hp => by
        rcases List.mem_map.mp hp with ⟨q, hq, rfl⟩
        simp)
    have hch : noLetIn a = true ∧ noLetIn b = true := by
      simpa [noLetIn, Bool.and_eq_true, and_assoc] using he
    simp [normMutate, pureRepl, hmiss, normMutate_pure a st hch.1, normMutate_pure b st hch.2]
  | .max a b, st, he => by
    have hmiss : replFind (nmap st) (Expr.max a b) = none :=
      replFind_not_key (fun p hp => by
        rcases List.mem_map.mp hp with ⟨q, hq, rfl⟩
        simp)
    have hch : noLetIn a = true ∧ noLetIn b = true := by
      simpa [noLetIn, Bool.and_eq_true, and_assoc] using he
    simp [normMutate, pureRepl, hmiss, normMutate_pure a st hch.1, normMutate_pure b st hch.2]
  | .eq a b, st, he => by
    have hmiss : replFind (nmap st) (Expr.eq a b) = none :=
      replFind_not_key (fun p hp => by
        rcases List.mem_map.mp hp with ⟨q, hq, rfl⟩
        simp)
    have hch : noLetIn a = true ∧ noLetIn b = true := by
      simpa [noLetIn, Bool.and_eq_true, and_assoc] using he
    simp [normMutate, pureRepl, hmiss, normMutate_pure a st hch.1, normMutate_pure b st hch.2]
  | .ne a b, st, he => by
    have hmiss : replFind (nmap st) (Expr.ne a b) = none :=
      replFind_not_key (fun p hp => by
        rcases List.mem_map.mp hp with ⟨q, hq, rfl⟩
        simp)
    have hch : noLetIn a = true ∧ noLetIn b = true := by
      simpa [noLetIn, Bool.and_eq_true, and_assoc] using he
    simp [normMutate, pureRepl, hmiss, normMutate_pure a st hch.1, normMutate_pure b st hch.2]
  | .lt a b, st, he => by
    have hmiss : replFind (nmap st) (Expr.lt a b) = none :=
      replFind_not_key (fun p hp => by
        rcases List.mem_map.mp hp with ⟨q, hq, rfl⟩
        simp)
    have hch : noLetIn a = true ∧ noLetIn b = true := by
      simpa [noLetIn, Bool.and_eq_true, and_assoc] using he
    simp [normMutate, pureRepl, hmiss, normMutate_pure a st hch.1, normMutate_pure b st hch.2]
  | .le a b, st, he => by
    have hmiss : replFind (nmap st) (Expr.le a b) = none :=
      replFind_not_key (fun p hp => by
        rcases List.mem_map.mp hp with ⟨q, hq, rfl⟩
        simp)
    have hch : noLetIn a = true ∧ noLetIn b = true := by
      simpa [noLetIn, Bool.and_eq_true, and_assoc] using he
    simp [normMutate, pureRepl, hmiss, normMutate_pure a st hch.1, normMutate_pure b st hch.2]
  | .gt a b, st, he => by
    have hmiss : replFind (nmap st) (Expr.gt a b) = none :=
      replFind_not_key (fun p hp => by
        rcases List.mem_map.mp hp with ⟨q, hq, rfl⟩
        simp)
    have hch : noLetIn a = true ∧ noLetIn b = true := by
      simpa [noLetIn, Bool.and_eq_true, and_assoc] using he
    simp [normMutate, pureRepl, hmiss, normMutate_pure a st hch.1, normMutate_pure b st hch.2]
  | .ge a b, st, he => by
    have hmiss : replFind (nmap st) (Expr.ge a b) = none :=
      replFind_not_key (fun p hp => by
        rcases List.mem_map.mp hp with ⟨q, hq, rfl⟩
        simp)
    have hch : noLetIn a = true ∧ noLetIn b = true := by
      simpa [noLetIn, Bool.and_eq_true, and_assoc] using he
    simp [normMutate, pureRepl, hmiss, normMutate_pure a st hch.1, normMutate_pure b st hch.2]
  | .and a b, st, he => by
    have hmiss : replFind (nmap st) (Expr.and a b) = none :=
      replFind_not_key (fun p hp => by
        rcases List.mem_map.mp hp with ⟨q, hq, rfl⟩
        simp)
    have hch : noLetIn a = true ∧ noLetIn b = true := by
      simpa [noLetIn, Bool.and_eq_true, and_assoc] using he
    simp [normMutate, pureRepl, hmiss, normMutate_pure a st hch.1, normMutate_pure b st hch.2]
  | .or a b, st, he => by
    have hmiss : replFind (nmap st) (Expr.or a b) = none :=
      replFind_not_key (fun p hp => by
        rcases List.mem_map.mp hp with ⟨q, hq, rfl⟩
        simp)
    have hch : noLetIn a = true ∧ noLetIn b = true := by
      simpa [noLetIn, Bool.and_eq_true, and_assoc] using he
    simp [normMutate, pureRepl, hmiss, normMutate_pure a st hch.1, normMutate_pure b st hch.2]
  | .not a, st, he => by
    have hmiss : replFind (nmap st) (Expr.not a) = none :=
      replFind_not_key (fun p hp => by
        rcases List.mem_map.mp hp with ⟨q, hq, rfl⟩
        simp)
    have hch : noLetIn a = true := by
      simpa [noLetIn, Bool.and_eq_true, and_assoc] using he
    simp [normMutate, pureRepl, hmiss, normMutate_pure a st hch]
  | .select c t f, st, he => by
    have hmiss : replFind (nmap st) (Expr.select c t f) = none :=
      replFind_not_key (fun p hp => by
        rcases List.mem_map.mp hp with ⟨q, hq, rfl⟩
        simp)
    have hch : noLetIn c = true ∧ noLetIn t = true ∧ noLetIn f = true := by
      simpa [noLetIn, Bool.and_eq_true, and_assoc] using he
    simp [normMutate, pureRepl, hmiss, normMutate_pure c st hch.1, normMutate_pure t st hch.2.1, normMutate_pure f st hch.2.2]
  | .load ty bv ix pr, st, he => by
    have hmiss : replFind (nmap st) (Expr.load ty bv ix pr) = none :=
      replFind_not_key (fun p hp => by
        rcases List.mem_map.mp hp with ⟨q, hq, rfl⟩
        simp)
    have hch : noLetIn ix = true := by
      simpa [noLetIn, Bool.and_eq_true, and_assoc] using he
    simp [normMutate, pureRepl, hmiss, normMutate_pure ix st hch]
  | .ramp b s l, st, he => by
    have hmiss : replFind (nmap st) (Expr.ramp b s l) = none :=
      replFind_not_key (fun p hp => by
        rcases List.mem_map.mp hp with ⟨q, hq, rfl⟩
        simp)
    have hch : noLetIn b = true ∧ noLetIn s = true := by
      simpa [noLetIn, Bool.and_eq_true, and_assoc] using he
    simp [normMutate, pureRepl, hmiss, normMutate_pure b st hch.1, normMutate_pure s st hch.2]
  | .broadcast v l, st, he => by
    have hmiss : replFind (nmap st) (Expr.broadcast v l) = none :=
      replFind_not_key (fun p hp => by
        rcases List.mem_map.mp hp with ⟨q, hq, rfl⟩
        simp)
    have hch : noLetIn v = true := by
      simpa [noLetIn, Bool.and_eq_true, and_assoc] using he
    simp [normMutate, pureRepl, hmiss, normMutate_pure v st hch]
  | .call ty nm args ct fn vi, st, he => by
    have hmiss : replFind (nmap st) (Expr.call ty nm args ct fn vi) = none :=
      replFind_not_key (fun p hp => by
        rcases List.mem_map.mp hp with ⟨q, hq, rfl⟩
        simp)
    have hch : noLetInList args = true := by
      simpa [noLetIn, Bool.and_eq_true, and_assoc] using he
    simp [normMutate, pureRepl, hmiss, normMutateList_pure args st hch]
  | .letE v value body, st, he => by
    simp [noLetIn] at he
  | .shuffle vs idxs, st, he => by
    have hmiss : replFind (nmap st) (Expr.shuffle vs idxs) = none :=
      replFind_not_key (fun p hp => by
        rcases List.mem_map.mp hp with ⟨q, hq, rfl⟩
        simp)
    have hch : noLetInList vs = true ∧ noLetInList idxs = true := by
      simpa [noLetIn, Bool.and_eq_true, and_assoc] using he
    simp [normMutate, pureRepl, hmiss, normMutateList_pure vs st hch.1, normMutateList_pure idxs st hch.2]

theorem normMutateList_pure : ∀ (es : ExprList) (st : NormState),
    noLetInList es = true →
    normMutateList es st = (pureReplList (nmap st) es, st)
  | .nil, st, _ => rfl
  | .cons hd tl, st, he => by
    rcases (by simpa [noLetInList, Bool.and_eq_true] using he :
        noLetIn hd = true ∧ noLetInList tl = true) with ⟨h1, h2⟩
    simp [normMutateList, pureReplList, normMutate_pure hd st h1,
      normMutateList_pure tl st h2]

end


/-! ### Decimal names -/

theorem decVal_append (xs : List Char) (d : Char) :
    decVal (xs ++ [d]) = decVal xs * 10 + (d.toNat - 48) := by
  simp [decVal, List.foldl_append]

theorem charOfNat_digit_toNat {r : Nat} (h : r < 10) :
    (Char.ofNat (48 + r)).toNat - 48 = r := by
  interval_cases r <;> decide

theorem decVal_decDigitsAux : ∀ (fuel n : Nat), n ≤ fuel →
    decVal (decDigitsAux fuel n) = n := by
  intro fuel
  induction fuel with
  | zero =>
    intro n hn
    interval_cases n
    rfl
  | succ fuel ih =>
    intro n hn
    cases n with
    | zero => rfl
    | succ k =>
      have hdiv : (k + 1) / 10 < k + 1 := Nat.div_lt_self (Nat.succ_pos k)
        (by norm_num)
      rw [decDigitsAux, decVal_append, ih ((k + 1) / 10) (by omega),
        charOfNat_digit_toNat (Nat.mod_lt _ (by norm_num))]
      omega

theorem decVal_decRepr (n : Nat) : decVal (decRepr n) = n := by
  by_cases h : n = 0
  · subst h
    rfl
  · rw [decRepr, if_neg h]
    exact decVal_decDigitsAux n n le_rfl

theorem natStr_inj {a b : Nat} (h : natStr a = natStr b) : a = b := by
  have hd : decRepr a = decRepr b := congrArg String.data h
  calc a = decVal (decRepr a) := (decVal_decRepr a).symm
    _ = decVal (decRepr b) := by rw [hd]
    _ = b := decVal_decRepr b

theorem cseLetsGo_eq_mkLets : ∀ (ents : List GVNEntry) (k : Nat),
    cseLetsGo ents k = mkLets (selExprs ents) k := by
  intro ents
  induction ents with
  | nil => intro k; rfl
  | cons en rest ih =>
    intro k
    by_cases h : en.use_count > 1
    · rw [show selExprs (en :: rest) = en.expr :: selExprs rest from by
        simp [selExprs, List.filter_cons, h]]
      simp only [cseLetsGo, if_pos h, mkLets]
      exact congrArg _ (ih (k + 1))
    · rw [show selExprs (en :: rest) = selExprs rest from by
        simp [selExprs, List.filter_cons, h]]
      simp only [cseLetsGo, if_neg h]
      exact ih k


/-! ### `GVN` keeps counts at zero and entries fresh-variable-free -/

theorem gvnAdd_zero {st : GVNState} {e : Expr}
    (h0 : ∀ en ∈ st.entries, en.use_count = 0) :
    ∀ en ∈ (gvnAdd e st).2.entries, en.use_count = 0 := by
  intro en hen
  rcases (by simpa [gvnAdd] using hen :
      en ∈ st.entries ∨ en = (⟨e, 0⟩ : GVNEntry)) with h | h
  · exact h0 en h
  · rw [h]

theorem gvnFinish_zero {st : GVNState} (e : Expr)
    (h0 : ∀ en ∈ st.entries, en.use_count = 0) :
    ∀ en ∈ (gvnFinish e st).2.entries, en.use_count = 0 := by
  unfold gvnFinish
  cases hf : findNumber st.entries e with
  | some n => exact h0
  | none => exact gvnAdd_zero h0

mutual

/-- `GVN` never touches a use count: all entries stay at zero. -/
theorem gvnMutate_zero : ∀ (e : Expr) (st : GVNState),
    (∀ en ∈ st.entries, en.use_count = 0) →
    ∀ en ∈ (gvnMutate e st).2.entries, en.use_count = 0
  | .undef, st, h0 => by
    simp only [gvnMutate]
    cases hf : findNumber st.entries (Expr.undef) with
    | some n => exact h0
    | none =>
      exact gvnFinish_zero _ h0
  | .intImm ty v, st, h0 => by
    simp only [gvnMutate]
    cases hf : findNumber st.entries (Expr.intImm ty v) with
    | some n => exact h0
    | none =>
      exact gvnFinish_zero _ h0
  | .uintImm ty v, st, h0 => by
    simp only [gvnMutate]
    cases hf : findNumber st.entries (Expr.uintImm ty v) with
    | some n => exact h0
    | none =>
      exact gvnFinish_zero _ h0
  | .floatImm ty v, st, h0 => by
    simp only [gvnMutate]
    cases hf : findNumber st.entries (Expr.floatImm ty v) with
    | some n => exact h0
    | none =>
      exact gvnFinish_zero _ h0
  | .stringImm v, st, h0 => by
    simp only [gvnMutate]
    cases hf : findNumber st.entries (Expr.stringImm v) with
    | some n => exact h0
    | none =>
      exact gvnFinish_zero _ h0
  | .var v, st, h0 => by
    simp only [gvnMutate]
    cases hf : findNumber st.entries (Expr.var v) with
    | some n => exact h0
    | none =>
      cases hs : scopeGet st.let_substitutions v with
      | some n => exact h0
      | none => exact gvnAdd_zero h0
  | .cast ty value, st, h0 => by
    simp only [gvnMutate]
    cases hf : findNumber st.entries (Expr.cast ty value) with
    | some n => exact h0
    | none =>
      exact gvnFinish_zero _ (gvnMutate_zero value _ h0)
  | .add a b, st, h0 => by
    simp only [gvnMutate]
    cases hf : findNumber st.entries (Expr.add a b) with
    | some n => exact h0
    | none =>
      exact gvnFinish_zero _ (gvnMutate_zero b _ (gvnMutate_zero a _ h0))
  | .sub a b, st, h0 => by
    simp only [gvnMutate]
    cases hf : findNumber st.entries (Expr.sub a b) with
    | some n => exact h0
    | none =>
      exact gvnFinish_zero _ (gvnMutate_zero b _ (gvnMutate_zero a _ h0))
  | .mul a b, st, h0 => by
    simp only [gvnMutate]
    cases hf : findNumber st.entries (Expr.mul a b) with
    | some n => exact h0
    | none =>
      exact gvnFinish_zero _ (gvnMutate_zero b _ (gvnMutate_zero a _ h0))
  | .div a b, st, h0 => by
    simp only [gvnMutate]
    cases hf : findNumber st.entries (Expr.div a b) with
    | some n => exact h0
    | none =>
      exact gvnFinish_zero _ (gvnMutate_zero b _ (gvnMutate_zero a _ h0))
  | .mod a b, st, h0 => by
    simp only [gvnMutate]
    cases hf : findNumber st.entries (Expr.mod a b) with
    | some n => exact h0
    | none =>
      exact gvnFinish_zero _ (gvnMutate_zero b _ (gvnMutate_zero a _ h0))
  | .min a b, st, h0 => by
    simp only [gvnMutate]
    cases hf : findNumber st.entries (Expr.min a b) with
    | some n => exact h0
    | none =>
      exact gvnFinish_zero _ (gvnMutate_zero b _ (gvnMutate_zero a _ h0))
  | .max a b, st, h0 => by
    simp only [gvnMutate]
    cases hf : findNumber st.entries (Expr.max a b) with
    | some n => exact h0
    | none =>
      exact gvnFinish_zero _ (gvnMutate_zero b _ (gvnMutate_zero a _ h0))
  | .eq a b, st, h0 => by
    simp only [gvnMutate]
    cases hf : findNumber st.entries (Expr.eq a b) with
    | some n => exact h0
    | none =>
      exact gvnFinish_zero _ (gvnMutate_zero b _ (gvnMutate_zero a _ h0))
  | .ne a b, st, h0 => by
    simp only [gvnMutate]
    cases hf : findNumber st.entries (Expr.ne a b) with
    | some n => exact h0
    | none =>
      exact gvnFinish_zero _ (gvnMutate_zero b _ (gvnMutate_zero a _ h0))
  | .lt a b, st, h0 => by
    simp only [gvnMutate]
    cases hf : findNumber st.entries (Expr.lt a b) with
    | some n => exact h0
    | none =>
      exact gvnFinish_zero _ (gvnMutate_zero b _ (gvnMutate_zero a _ h0))
  | .le a b, st, h0 => by
    simp only [gvnMutate]
    cases hf : findNumber st.entries (Expr.le a b) with
    | some n => exact h0
    | none =>
      exact gvnFinish_zero _ (gvnMutate_zero b _ (gvnMutate_zero a _ h0))
  | .gt a b, st, h0 => by
    simp only [gvnMutate]
    cases hf : findNumber st.entries (Expr.gt a b) with
    | some n => exact h0
    | none =>
      exact gvnFinish_zero _ (gvnMutate_zero b _ (gvnMutate_zero a _ h0))
  | .ge a b, st, h0 => by
    simp only [gvnMutate]
    cases hf : findNumber st.entries (Expr.ge a b) with
    | some n => exact h0
    | none =>
      exact gvnFinish_zero _ (gvnMutate_zero b _ (gvnMutate_zero a _ h0))
  | .and a b, st, h0 => by
    simp only [gvnMutate]
    cases hf : findNumber st.entries (Expr.and a b) with
    | some n => exact h0
    | none =>
      exact gvnFinish_zero _ (gvnMutate_zero b _ (gvnMutate_zero a _ h0))
  | .or a b, st, h0 => by
    simp only [gvnMutate]
    cases hf : findNumber st.entries (Expr.or a b) with
    | some n => exact h0
    | none =>
      exact gvnFinish_zero _ (gvnMutate_zero b _ (gvnMutate_zero a _ h0))
  | .not a, st, h0 => by
    simp only [gvnMutate]
    cases hf : findNumber st.entries (Expr.not a) with
    | some n => exact h0
    | none =>
      exact gvnFinish_zero _ (gvnMutate_zero a _ h0)
  | .select c t f, st, h0 => by
    simp only [gvnMutate]
    cases hf : findNumber st.entries (Expr.select c t f) with
    | some n => exact h0
    | none =>
      exact gvnFinish_zero _ (gvnMutate_zero f _ (gvnMutate_zero t _ (gvnMutate_zero c _ h0)))
  | .load ty bv ix pr, st, h0 => by
    simp only [gvnMutate]
    cases hf : findNumber st.entries (Expr.load ty bv ix pr) with
    | some n => exact h0
    | none =>
      exact gvnFinish_zero _ (gvnMutate_zero ix _ h0)
  | .ramp b s l, st, h0 => by
    simp only [gvnMutate]
    cases hf : findNumber st.entries (Expr.ramp b s l) with
    | some n => exact h0
    | none =>
      exact gvnFinish_zero _ (gvnMutate_zero s _ (gvnMutate_zero b _ h0))
  | .broadcast v l, st, h0 => by
    simp only [gvnMutate]
    cases hf : findNumber st.entries (Expr.broadcast v l) with
    | some n => exact h0
    | none =>
      exact gvnFinish_zero _ (gvnMutate_zero v _ h0)
  | .call ty nm args ct fn vi, st, h0 => by
    simp only [gvnMutate]
    cases hf : findNumber st.entries (Expr.call ty nm args ct fn vi) with
    | some n => exact h0
    | none =>
      exact gvnFinish_zero _ (gvnMutateList_zero args _ h0)
  | .letE v value body, st, h0 => by
    simp only [gvnMutate]
    cases hf : findNumber st.entries (Expr.letE v value body) with
    | some n => exact h0
    | none =>
      exact gvnMutate_zero body _ (gvnMutate_zero value _ h0)
  | .shuffle vs idxs, st, h0 => by
    simp only [gvnMutate]
    cases hf : findNumber st.entries (Expr.shuffle vs idxs) with
    | some n => exact h0
    | none =>
      exact gvnFinish_zero _ (gvnMutateList_zero idxs _ (gvnMutateList_zero vs _ h0))

theorem gvnMutateList_zero : ∀ (es : ExprList) (st : GVNState),
    (∀ en ∈ st.entries, en.use_count = 0) →
    ∀ en ∈ (gvnMutateList es st).2.entries, en.use_count = 0
  | .nil, st, h0 => h0
  | .cons hd tl, st, h0 =>
    gvnMutateList_zero tl _ (gvnMutate_zero hd _ h0)

end

theorem gvnAdd_tfree {st : GVNState} {e : Expr}
    (htf : ∀ x ∈ entryExprs st.entries, avoidsT x) (he : avoidsT e) :
    ∀ x ∈ entryExprs (gvnAdd e st).2.entries, avoidsT x := by
  intro x hx
  rcases (by simpa [gvnAdd, entryExprs] using hx :
      x ∈ List.map (fun en => en.expr) st.entries ∨ x = e) with h | h
  · exact htf x h
  · rw [h]
    exact he

theorem gvnFinish_tfree {st : GVNState} (e : Expr)
    (htf : ∀ x ∈ entryExprs st.entries, avoidsT x) (he : avoidsT e) :
    ∀ x ∈ entryExprs (gvnFinish e st).2.entries, avoidsT x := by
  unfold gvnFinish
  cases hf : findNumber st.entries e with
  | some n => exact htf
  | none => exact gvnAdd_tfree htf he

mutual

/-- Every entry a `GVN` run creates avoids the fresh-name family,
provided the input\'s fresh-family variables are all let-bound. -/
theorem gvnMutate_tfree : ∀ (e : Expr) (st : GVNState), GvnInv st →
    (∀ x ∈ entryExprs st.entries, avoidsT x) →
    tOk e (st.let_substitutions.map (fun p => p.1)) = true →
    ∀ x ∈ entryExprs (gvnMutate e st).2.entries, avoidsT x
  | .undef, st, hInv, htf, htok => by
    simp only [gvnMutate]
    cases hf : findNumber st.entries (Expr.undef) with
    | some n => exact htf
    | none =>
      apply gvnFinish_tfree _ htf
      intro w hw
      simp [varsOf] at hw
  | .intImm ty v, st, hInv, htf, htok => by
    simp only [gvnMutate]
    cases hf : findNumber st.entries (Expr.intImm ty v) with
    | some n => exact htf
    | none =>
      apply gvnFinish_tfree _ htf
      intro w hw
      simp [varsOf] at hw
  | .uintImm ty v, st, hInv, htf, htok => by
    simp only [gvnMutate]
    cases hf : findNumber st.entries (Expr.uintImm ty v) with
    | some n => exact htf
    | none =>
      apply gvnFinish_tfree _ htf
      intro w hw
      simp [varsOf] at hw
  | .floatImm ty v, st, hInv, htf, htok => by
    simp only [gvnMutate]
    cases hf : findNumber st.entries (Expr.floatImm ty v) with
    | some n => exact htf
    | none =>
      apply gvnFinish_tfree _ htf
      intro w hw
      simp [varsOf] at hw
  | .stringImm v, st, hInv, htf, htok => by
    simp only [gvnMutate]
    cases hf : findNumber st.entries (Expr.stringImm v) with
    | some n => exact htf
    | none =>
      apply gvnFinish_tfree _ htf
      intro w hw
      simp [varsOf] at hw
  | .var v, st, hInv, htf, htok => by
    simp only [gvnMutate]
    cases hf : findNumber st.entries (Expr.var v) with
    | some n => exact htf
    | none =>
      cases hs : scopeGet st.let_substitutions v with
      | some n => exact htf
      | none =>
        apply gvnAdd_tfree htf
        intro w hw
        have hwv : w = v := by simpa [varsOf] using hw
        subst hwv
        by_contra hT
        rw [Bool.not_eq_false] at hT
        rw [tOk, hT] at htok
        simp only [Bool.not_true, Bool.false_or] at htok
        have hv2 : w ∈ st.let_substitutions.map (fun p => p.1) := by
          simpa using htok
        have hss := scopeGet_isSome.mpr hv2
        rw [hs] at hss
        simp at hss
  | .cast ty value, st, hInv, htf, htok => by
    simp only [gvnMutate]
    cases hf : findNumber st.entries (Expr.cast ty value) with
    | some n => exact htf
    | none =>
      have htok2 : tOk value (st.let_substitutions.map (fun p => p.1)) = true := by
        simpa [tOk, Bool.and_eq_true, and_assoc] using htok
      have o1 := gvnMutate_inv value st hInv
      have htf1 := gvnMutate_tfree value st hInv htf htok2
      apply gvnFinish_tfree _ htf1
      intro w hw
      simp only [varsOf, List.mem_append, List.mem_cons, varsOfList_mem] at hw
      exact htf1 _ (canonicalOf_mem o1.lt) w hw
  | .add a b, st, hInv, htf, htok => by
    simp only [gvnMutate]
    cases hf : findNumber st.entries (Expr.add a b) with
    | some n => exact htf
    | none =>
      have htok2 : tOk a (st.let_substitutions.map (fun p => p.1)) = true ∧ tOk b (st.let_substitutions.map (fun p => p.1)) = true := by
        simpa [tOk, Bool.and_eq_true, and_assoc] using htok
      have o1 := gvnMutate_inv a st hInv
      have htf1 := gvnMutate_tfree a st hInv htf htok2.1
      have o2 := gvnMutate_inv b _ o1.inv
      have htf2 := gvnMutate_tfree b _ o1.inv htf1 (by
        rw [o1.subs]
        exact htok2.2)
      apply gvnFinish_tfree _ htf2
      intro w hw
      simp only [varsOf, List.mem_append, List.mem_cons, varsOfList_mem] at hw
      have hlt1 : (gvnMutate a st).1 < (gvnMutate b (gvnMutate a st).2).2.entries.length :=
        lt_of_lt_of_le o1.lt (entriesExtend_length o2.ext)
      rcases hw with hw | hw
      · exact htf2 _ (canonicalOf_mem hlt1) w hw
      · exact htf2 _ (canonicalOf_mem o2.lt) w hw
  | .sub a b, st, hInv, htf, htok => by
    simp only [gvnMutate]
    cases hf : findNumber st.entries (Expr.sub a b) with
    | some n => exact htf
    | none =>
      have htok2 : tOk a (st.let_substitutions.map (fun p => p.1)) = true ∧ tOk b (st.let_substitutions.map (fun p => p.1)) = true := by
        simpa [tOk, Bool.and_eq_true, and_assoc] using htok
      have o1 := gvnMutate_inv a st hInv
      have htf1 := gvnMutate_tfree a st hInv htf htok2.1
      have o2 := gvnMutate_inv b _ o1.inv
      have htf2 := gvnMutate_tfree b _ o1.inv htf1 (by
        rw [o1.subs]
        exact htok2.2)
      apply gvnFinish_tfree _ htf2
      intro w hw
      simp only [varsOf, List.mem_append, List.mem_cons, varsOfList_mem] at hw
      have hlt1 : (gvnMutate a st).1 < (gvnMutate b (gvnMutate a st).2).2.entries.length :=
        lt_of_lt_of_le o1.lt (entriesExtend_length o2.ext)
      rcases hw with hw | hw
      · exact htf2 _ (canonicalOf_mem hlt1) w hw
      · exact htf2 _ (canonicalOf_mem o2.lt) w hw
  | .mul a b, st, hInv, htf, htok => by
    simp only [gvnMutate]
    cases hf : findNumber st.entries (Expr.mul a b) with
    | some n => exact htf
    | none =>
      have htok2 : tOk a (st.let_substitutions.map (fun p => p.1)) = true ∧ tOk b (st.let_substitutions.map (fun p => p.1)) = true := by
        simpa [tOk, Bool.and_eq_true, and_assoc] using htok
      have o1 := gvnMutate_inv a st hInv
      have htf1 := gvnMutate_tfree a st hInv htf htok2.1
      have o2 := gvnMutate_inv b _ o1.inv
      have htf2 := gvnMutate_tfree b _ o1.inv htf1 (by
        rw [o1.subs]
        exact htok2.2)
      apply gvnFinish_tfree _ htf2
      intro w hw
      simp only [varsOf, List.mem_append, List.mem_cons, varsOfList_mem] at hw
      have hlt1 : (gvnMutate a st).1 < (gvnMutate b (gvnMutate a st).2).2.entries.length :=
        lt_of_lt_of_le o1.lt (entriesExtend_length o2.ext)
      rcases hw with hw | hw
      · exact htf2 _ (canonicalOf_mem hlt1) w hw
      · exact htf2 _ (canonicalOf_mem o2.lt) w hw
  | .div a b, st, hInv, htf, htok => by
    simp only [gvnMutate]
    cases hf : findNumber st.entries (Expr.div a b) with
    | some n => exact htf
    | none =>
      have htok2 : tOk a (st.let_substitutions.map (fun p => p.1)) = true ∧ tOk b (st.let_substitutions.map (fun p => p.1)) = true := by
        simpa [tOk, Bool.and_eq_true, and_assoc] using htok
      have o1 := gvnMutate_inv a st hInv
      have htf1 := gvnMutate_tfree a st hInv htf htok2.1
      have o2 := gvnMutate_inv b _ o1.inv
      have htf2 := gvnMutate_tfree b _ o1.inv htf1 (by
        rw [o1.subs]
        exact htok2.2)
      apply gvnFinish_tfree _ htf2
      intro w hw
      simp only [varsOf, List.mem_append, List.mem_cons, varsOfList_mem] at hw
      have hlt1 : (gvnMutate a st).1 < (gvnMutate b (gvnMutate a st).2).2.entries.length :=
        lt_of_lt_of_le o1.lt (entriesExtend_length o2.ext)
      rcases hw with hw | hw
      · exact htf2 _ (canonicalOf_mem hlt1) w hw
      · exact htf2 _ (canonicalOf_mem o2.lt) w hw
  | .mod a b, st, hInv, htf, htok => by
    simp only [gvnMutate]
    cases hf : findNumber st.entries (Expr.mod a b) with
    | some n => exact htf
    | none =>
      have htok2 : tOk a (st.let_substitutions.map (fun p => p.1)) = true ∧ tOk b (st.let_substitutions.map (fun p => p.1)) = true := by
        simpa [tOk, Bool.and_eq_true, and_assoc] using htok
      have o1 := gvnMutate_inv a st hInv
      have htf1 := gvnMutate_tfree a st hInv htf htok2.1
      have o2 := gvnMutate_inv b _ o1.inv
      have htf2 := gvnMutate_tfree b _ o1.inv htf1 (by
        rw [o1.subs]
        exact htok2.2)
      apply gvnFinish_tfree _ htf2
      intro w hw
      simp only [varsOf, List.mem_append, List.mem_cons, varsOfList_mem] at hw
      have hlt1 : (gvnMutate a st).1 < (gvnMutate b (gvnMutate a st).2).2.entries.length :=
        lt_of_lt_of_le o1.lt (entriesExtend_length o2.ext)
      rcases hw with hw | hw
      · exact htf2 _ (canonicalOf_mem hlt1) w hw
      · exact htf2 _ (canonicalOf_mem o2.lt) w hw
  | .min a b, st, hInv, htf, htok => by
    simp only [gvnMutate]
    cases hf : findNumber st.entries (Expr.min a b) with
    | some n => exact htf
    | none =>
      have htok2 : tOk a (st.let_substitutions.map (fun p => p.1)) = true ∧ tOk b (st.let_substitutions.map (fun p => p.1)) = true := by
        simpa [tOk, Bool.and_eq_true, and_assoc] using htok
      have o1 := gvnMutate_inv a st hInv
      have htf1 := gvnMutate_tfree a st hInv htf htok2.1
      have o2 := gvnMutate_inv b _ o1.inv
      have htf2 := gvnMutate_tfree b _ o1.inv htf1 (by
        rw [o1.subs]
        exact htok2.2)
      apply gvnFinish_tfree _ htf2
      intro w hw
      simp only [varsOf, List.mem_append, List.mem_cons, varsOfList_mem] at hw
      have hlt1 : (gvnMutate a st).1 < (gvnMutate b (gvnMutate a st).2).2.entries.length :=
        lt_of_lt_of_le o1.lt (entriesExtend_length o2.ext)
      rcases hw with hw | hw
      · exact htf2 _ (canonicalOf_mem hlt1) w hw
      · exact htf2 _ (canonicalOf_mem o2.lt) w hw
  | .max a b, st, hInv, htf, htok => by
    simp only [gvnMutate]
    cases hf : findNumber st.entries (Expr.max a b) with
    | some n => exact htf
    | none =>
      have htok2 : tOk a (st.let_substitutions.map (fun p => p.1)) = true ∧ tOk b (st.let_substitutions.map (fun p => p.1)) = true := by
        simpa [tOk, Bool.and_eq_true, and_assoc] using htok
      have o1 := gvnMutate_inv a st hInv
      have htf1 := gvnMutate_tfree a st hInv htf htok2.1
      have o2 := gvnMutate_inv b _ o1.inv
      have htf2 := gvnMutate_tfree b _ o1.inv htf1 (by
        rw [o1.subs]
        exact htok2.2)
      apply gvnFinish_tfree _ htf2
      intro w hw
      simp only [varsOf, List.mem_append, List.mem_cons, varsOfList_mem] at hw
      have hlt1 : (gvnMutate a st).1 < (gvnMutate b (gvnMutate a st).2).2.entries.length :=
        lt_of_lt_of_le o1.lt (entriesExtend_length o2.ext)
      rcases hw with hw | hw
      · exact htf2 _ (canonicalOf_mem hlt1) w hw
      · exact htf2 _ (canonicalOf_mem o2.lt) w hw
  | .eq a b, st, hInv, htf, htok => by
    simp only [gvnMutate]
    cases hf : findNumber st.entries (Expr.eq a b) with
    | some n => exact htf
    | none =>
      have htok2 : tOk a (st.let_substitutions.map (fun p => p.1)) = true ∧ tOk b (st.let_substitutions.map (fun p => p.1)) = true := by
        simpa [tOk, Bool.and_eq_true, and_assoc] using htok
      have o1 := gvnMutate_inv a st hInv
      have htf1 := gvnMutate_tfree a st hInv htf htok2.1
      have o2 := gvnMutate_inv b _ o1.inv
      have htf2 := gvnMutate_tfree b _ o1.inv htf1 (by
        rw [o1.subs]
        exact htok2.2)
      apply gvnFinish_tfree _ htf2
      intro w hw
      simp only [varsOf, List.mem_append, List.mem_cons, varsOfList_mem] at hw
      have hlt1 : (gvnMutate a st).1 < (gvnMutate b (gvnMutate a st).2).2.entries.length :=
        lt_of_lt_of_le o1.lt (entriesExtend_length o2.ext)
      rcases hw with hw | hw
      · exact htf2 _ (canonicalOf_mem hlt1) w hw
      · exact htf2 _ (canonicalOf_mem o2.lt) w hw
  | .ne a b, st, hInv, htf, htok => by
    simp only [gvnMutate]
    cases hf : findNumber st.entries (Expr.ne a b) with
    | some n => exact htf
    | none =>
      have htok2 : tOk a (st.let_substitutions.map (fun p => p.1)) = true ∧ tOk b (st.let_substitutions.map (fun p => p.1)) = true := by
        simpa [tOk, Bool.and_eq_true, and_assoc] using htok
      have o1 := gvnMutate_inv a st hInv
      have htf1 := gvnMutate_tfree a st hInv htf htok2.1
      have o2 := gvnMutate_inv b _ o1.inv
      have htf2 := gvnMutate_tfree b _ o1.inv htf1 (by
        rw [o1.subs]
        exact htok2.2)
      apply gvnFinish_tfree _ htf2
      intro w hw
      simp only [varsOf, List.mem_append, List.mem_cons, varsOfList_mem] at hw
      have hlt1 : (gvnMutate a st).1 < (gvnMutate b (gvnMutate a st).2).2.entries.length :=
        lt_of_lt_of_le o1.lt (entriesExtend_length o2.ext)
      rcases hw with hw | hw
      · exact htf2 _ (canonicalOf_mem hlt1) w hw
      · exact htf2 _ (canonicalOf_mem o2.lt) w hw
  | .lt a b, st, hInv, htf, htok => by
    simp only [gvnMutate]
    cases hf : findNumber st.entries (Expr.lt a b) with
    | some n => exact htf
    | none =>
      have htok2 : tOk a (st.let_substitutions.map (fun p => p.1)) = true ∧ tOk b (st.let_substitutions.map (fun p => p.1)) = true := by
        simpa [tOk, Bool.and_eq_true, and_assoc] using htok
      have o1 := gvnMutate_inv a st hInv
      have htf1 := gvnMutate_tfree a st hInv htf htok2.1
      have o2 := gvnMutate_inv b _ o1.inv
      have htf2 := gvnMutate_tfree b _ o1.inv htf1 (by
        rw [o1.subs]
        exact htok2.2)
      apply gvnFinish_tfree _ htf2
      intro w hw
      simp only [varsOf, List.mem_append, List.mem_cons, varsOfList_mem] at hw
      have hlt1 : (gvnMutate a st).1 < (gvnMutate b (gvnMutate a st).2).2.entries.length :=
        lt_of_lt_of_le o1.lt (entriesExtend_length o2.ext)
      rcases hw with hw | hw
      · exact htf2 _ (canonicalOf_mem hlt1) w hw
      · exact htf2 _ (canonicalOf_mem o2.lt) w hw
  | .le a b, st, hInv, htf, htok => by
    simp only [gvnMutate]
    cases hf : findNumber st.entries (Expr.le a b) with
    | some n => exact htf
    | none =>
      have htok2 : tOk a (st.let_substitutions.map (fun p => p.1)) = true ∧ tOk b (st.let_substitutions.map (fun p => p.1)) = true := by
        simpa [tOk, Bool.and_eq_true, and_assoc] using htok
      have o1 := gvnMutate_inv a st hInv
      have htf1 := gvnMutate_tfree a st hInv htf htok2.1
      have o2 := gvnMutate_inv b _ o1.inv
      have htf2 := gvnMutate_tfree b _ o1.inv htf1 (by
        rw [o1.subs]
        exact htok2.2)
      apply gvnFinish_tfree _ htf2
      intro w hw
      simp only [varsOf, List.mem_append, List.mem_cons, varsOfList_mem] at hw
      have hlt1 : (gvnMutate a st).1 < (gvnMutate b (gvnMutate a st).2).2.entries.length :=
        lt_of_lt_of_le o1.lt (entriesExtend_length o2.ext)
      rcases hw with hw | hw
      · exact htf2 _ (canonicalOf_mem hlt1) w hw
      · exact htf2 _ (canonicalOf_mem o2.lt) w hw
  | .gt a b, st, hInv, htf, htok => by
    simp only [gvnMutate]
    cases hf : findNumber st.entries (Expr.gt a b) with
    | some n => exact htf
    | none =>
      have htok2 : tOk a (st.let_substitutions.map (fun p => p.1)) = true ∧ tOk b (st.let_substitutions.map (fun p => p.1)) = true := by
        simpa [tOk, Bool.and_eq_true, and_assoc] using htok
      have o1 := gvnMutate_inv a st hInv
      have htf1 := gvnMutate_tfree a st hInv htf htok2.1
      have o2 := gvnMutate_inv b _ o1.inv
      have htf2 := gvnMutate_tfree b _ o1.inv htf1 (by
        rw [o1.subs]
        exact htok2.2)
      apply gvnFinish_tfree _ htf2
      intro w hw
      simp only [varsOf, List.mem_append, List.mem_cons, varsOfList_mem] at hw
      have hlt1 : (gvnMutate a st).1 < (gvnMutate b (gvnMutate a st).2).2.entries.length :=
        lt_of_lt_of_le o1.lt (entriesExtend_length o2.ext)
      rcases hw with hw | hw
      · exact htf2 _ (canonicalOf_mem hlt1) w hw
      · exact htf2 _ (canonicalOf_mem o2.lt) w hw
  | .ge a b, st, hInv, htf, htok => by
    simp only [gvnMutate]
    cases hf : findNumber st.entries (Expr.ge a b) with
    | some n => exact htf
    | none =>
      have htok2 : tOk a (st.let_substitutions.map (fun p => p.1)) = true ∧ tOk b (st.let_substitutions.map (fun p => p.1)) = true := by
        simpa [tOk, Bool.and_eq_true, and_assoc] using htok
      have o1 := gvnMutate_inv a st hInv
      have htf1 := gvnMutate_tfree a st hInv htf htok2.1
      have o2 := gvnMutate_inv b _ o1.inv
      have htf2 := gvnMutate_tfree b _ o1.inv htf1 (by
        rw [o1.subs]
        exact htok2.2)
      apply gvnFinish_tfree _ htf2
      intro w hw
      simp only [varsOf, List.mem_append, List.mem_cons, varsOfList_mem] at hw
      have hlt1 : (gvnMutate a st).1 < (gvnMutate b (gvnMutate a st).2).2.entries.length :=
        lt_of_lt_of_le o1.lt (entriesExtend_length o2.ext)
      rcases hw with hw | hw
      · exact htf2 _ (canonicalOf_mem hlt1) w hw
      · exact htf2 _ (canonicalOf_mem o2.lt) w hw
  | .and a b, st, hInv, htf, htok => by
    simp only [gvnMutate]
    cases hf : findNumber st.entries (Expr.and a b) with
    | some n => exact htf
    | none =>
      have htok2 : tOk a (st.let_substitutions.map (fun p => p.1)) = true ∧ tOk b (st.let_substitutions.map (fun p => p.1)) = true := by
        simpa [tOk, Bool.and_eq_true, and_assoc] using htok
      have o1 := gvnMutate_inv a st hInv
      have htf1 := gvnMutate_tfree a st hInv htf htok2.1
      have o2 := gvnMutate_inv b _ o1.inv
      have htf2 := gvnMutate_tfree b _ o1.inv htf1 (by
        rw [o1.subs]
        exact htok2.2)
      apply gvnFinish_tfree _ htf2
      intro w hw
      simp only [varsOf, List.mem_append, List.mem_cons, varsOfList_mem] at hw
      have hlt1 : (gvnMutate a st).1 < (gvnMutate b (gvnMutate a st).2).2.entries.length :=
        lt_of_lt_of_le o1.lt (entriesExtend_length o2.ext)
      rcases hw with hw | hw
      · exact htf2 _ (canonicalOf_mem hlt1) w hw
      · exact htf2 _ (canonicalOf_mem o2.lt) w hw
  | .or a b, st, hInv, htf, htok => by
    simp only [gvnMutate]
    cases hf : findNumber st.entries (Expr.or a b) with
    | some n => exact htf
    | none =>
      have htok2 : tOk a (st.let_substitutions.map (fun p => p.1)) = true ∧ tOk b (st.let_substitutions.map (fun p => p.1)) = true := by
        simpa [tOk, Bool.and_eq_true, and_assoc] using htok
      have o1 := gvnMutate_inv a st hInv
      have htf1 := gvnMutate_tfree a st hInv htf htok2.1
      have o2 := gvnMutate_inv b _ o1.inv
      have htf2 := gvnMutate_tfree b _ o1.inv htf1 (by
        rw [o1.subs]
        exact htok2.2)
      apply gvnFinish_tfree _ htf2
      intro w hw
      simp only [varsOf, List.mem_append, List.mem_cons, varsOfList_mem] at hw
      have hlt1 : (gvnMutate a st).1 < (gvnMutate b (gvnMutate a st).2).2.entries.length :=
        lt_of_lt_of_le o1.lt (entriesExtend_length o2.ext)
      rcases hw with hw | hw
      · exact htf2 _ (canonicalOf_mem hlt1) w hw
      · exact htf2 _ (canonicalOf_mem o2.lt) w hw
  | .not a, st, hInv, htf, htok => by
    simp only [gvnMutate]
    cases hf : findNumber st.entries (Expr.not a) with
    | some n => exact htf
    | none =>
      have htok2 : tOk a (st.let_substitutions.map (fun p => p.1)) = true := by
        simpa [tOk, Bool.and_eq_true, and_assoc] using htok
      have o1 := gvnMutate_inv a st hInv
      have htf1 := gvnMutate_tfree a st hInv htf htok2
      apply gvnFinish_tfree _ htf1
      intro w hw
      simp only [varsOf, List.mem_append, List.mem_cons, varsOfList_mem] at hw
      exact htf1 _ (canonicalOf_mem o1.lt) w hw
  | .select c t f, st, hInv, htf, htok => by
    simp only [gvnMutate]
    cases hf : findNumber st.entries (Expr.select c t f) with
    | some n => exact htf
    | none =>
      have htok2 : tOk c (st.let_substitutions.map (fun p => p.1)) = true ∧ tOk t (st.let_substitutions.map (fun p => p.1)) = true ∧ tOk f (st.let_substitutions.map (fun p => p.1)) = true := by
        simpa [tOk, Bool.and_eq_true, and_assoc] using htok
      have o1 := gvnMutate_inv c st hInv
      have htf1 := gvnMutate_tfree c st hInv htf htok2.1
      have o2 := gvnMutate_inv t _ o1.inv
      have htf2 := gvnMutate_tfree t _ o1.inv htf1 (by
        rw [o1.subs]
        exact htok2.2.1)
      have o3 := gvnMutate_inv f _ o2.inv
      have htf3 := gvnMutate_tfree f _ o2.inv htf2 (by
        rw [o2.subs]
        rw [o1.subs]
        exact htok2.2.2)
      apply gvnFinish_tfree _ htf3
      intro w hw
      simp only [varsOf, List.mem_append, List.mem_cons, varsOfList_mem] at hw
      have hlt1 : (gvnMutate c st).1 < (gvnMutate f (gvnMutate t (gvnMutate c st).2).2).2.entries.length :=
        lt_of_lt_of_le o1.lt (le_trans (entriesExtend_length o2.ext) (entriesExtend_length o3.ext))
      have hlt2 : (gvnMutate t (gvnMutate c st).2).1 < (gvnMutate f (gvnMutate t (gvnMutate c st).2).2).2.entries.length :=
        lt_of_lt_of_le o2.lt (entriesExtend_length o3.ext)
      rcases hw with (hw | hw) | hw
      · exact htf3 _ (canonicalOf_mem hlt1) w hw
      · exact htf3 _ (canonicalOf_mem hlt2) w hw
      · exact htf3 _ (canonicalOf_mem o3.lt) w hw
  | .load ty bv ix pr, st, hInv, htf, htok => by
    simp only [gvnMutate]
    cases hf : findNumber st.entries (Expr.load ty bv ix pr) with
    | some n => exact htf
    | none =>
      have htok2 : tOk ix (st.let_substitutions.map (fun p => p.1)) = true := by
        simpa [tOk, Bool.and_eq_true, and_assoc] using htok
      have o1 := gvnMutate_inv ix st hInv
      have htf1 := gvnMutate_tfree ix st hInv htf htok2
      apply gvnFinish_tfree _ htf1
      intro w hw
      simp only [varsOf, List.mem_append, List.mem_cons, varsOfList_mem] at hw
      exact htf1 _ (canonicalOf_mem o1.lt) w hw
  | .ramp b s l, st, hInv, htf, htok => by
    simp only [gvnMutate]
    cases hf : findNumber st.entries (Expr.ramp b s l) with
    | some n => exact htf
    | none =>
      have htok2 : tOk b (st.let_substitutions.map (fun p => p.1)) = true ∧ tOk s (st.let_substitutions.map (fun p => p.1)) = true := by
        simpa [tOk, Bool.and_eq_true, and_assoc] using htok
      have o1 := gvnMutate_inv b st hInv
      have htf1 := gvnMutate_tfree b st hInv htf htok2.1
      have o2 := gvnMutate_inv s _ o1.inv
      have htf2 := gvnMutate_tfree s _ o1.inv htf1 (by
        rw [o1.subs]
        exact htok2.2)
      apply gvnFinish_tfree _ htf2
      intro w hw
      simp only [varsOf, List.mem_append, List.mem_cons, varsOfList_mem] at hw
      have hlt1 : (gvnMutate b st).1 < (gvnMutate s (gvnMutate b st).2).2.entries.length :=
        lt_of_lt_of_le o1.lt (entriesExtend_length o2.ext)
      rcases hw with hw | hw
      · exact htf2 _ (canonicalOf_mem hlt1) w hw
      · exact htf2 _ (canonicalOf_mem o2.lt) w hw
  | .broadcast v l, st, hInv, htf, htok => by
    simp only [gvnMutate]
    cases hf : findNumber st.entries (Expr.broadcast v l) with
    | some n => exact htf
    | none =>
      have htok2 : tOk v (st.let_substitutions.map (fun p => p.1)) = true := by
        simpa [tOk, Bool.and_eq_true, and_assoc] using htok
      have o1 := gvnMutate_inv v st hInv
      have htf1 := gvnMutate_tfree v st hInv htf htok2
      apply gvnFinish_tfree _ htf1
      intro w hw
      simp only [varsOf, List.mem_append, List.mem_cons, varsOfList_mem] at hw
      exact htf1 _ (canonicalOf_mem o1.lt) w hw
  | .call ty nm args ct fn vi, st, hInv, htf, htok => by
    simp only [gvnMutate]
    cases hf : findNumber st.entries (Expr.call ty nm args ct fn vi) with
    | some n => exact htf
    | none =>
      have htok2 : tOkList args (st.let_substitutions.map (fun p => p.1)) = true := by
        simpa [tOk, Bool.and_eq_true, and_assoc] using htok
      have o1 := gvnMutateList_inv args st hInv
      have htf1 := gvnMutateList_tfree args st hInv htf htok2
      apply gvnFinish_tfree _ htf1
      intro w hw
      simp only [varsOf, List.mem_append, List.mem_cons, varsOfList_mem] at hw
      rcases hw with ⟨x, hx, hwx⟩
      exact htf1 x (o1.mem x hx) w hwx
  | .letE v value body, st, hInv, htf, htok => by
    simp only [gvnMutate]
    cases hf : findNumber st.entries (Expr.letE v value body) with
    | some n => exact htf
    | none =>
      have htok2 : tOk value (st.let_substitutions.map (fun p => p.1)) = true ∧
          tOk body (v :: st.let_substitutions.map (fun p => p.1)) = true := by
        simpa [tOk, Bool.and_eq_true] using htok
      have o1 := gvnMutate_inv value st hInv
      have htf1 := gvnMutate_tfree value st hInv htf htok2.1
      have hInv2 : GvnInv { (gvnMutate value st).2 with
          let_substitutions := (v, (gvnMutate value st).1) ::
            (gvnMutate value st).2.let_substitutions } := by
        refine ⟨o1.inv.nodup, o1.inv.noLet, o1.inv.closed, ?_⟩
        intro p hp
        rcases List.mem_cons.mp hp with h1 | h2
        · rw [h1]
          exact o1.lt
        · exact o1.inv.scopeOk p h2
      have hkeys : ({ (gvnMutate value st).2 with
          let_substitutions := (v, (gvnMutate value st).1) ::
            (gvnMutate value st).2.let_substitutions } :
          GVNState).let_substitutions.map (fun p => p.1) =
          v :: st.let_substitutions.map (fun p => p.1) := by
        show (v, (gvnMutate value st).1).1 ::
          (gvnMutate value st).2.let_substitutions.map (fun p => p.1) = _
        rw [o1.subs]
      exact gvnMutate_tfree body _ hInv2 htf1 (by rw [hkeys]; exact htok2.2)
  | .shuffle vs idxs, st, hInv, htf, htok => by
    simp only [gvnMutate]
    cases hf : findNumber st.entries (Expr.shuffle vs idxs) with
    | some n => exact htf
    | none =>
      have htok2 : tOkList vs (st.let_substitutions.map (fun p => p.1)) = true ∧ tOkList idxs (st.let_substitutions.map (fun p => p.1)) = true := by
        simpa [tOk, Bool.and_eq_true, and_assoc] using htok
      have o1 := gvnMutateList_inv vs st hInv
      have htf1 := gvnMutateList_tfree vs st hInv htf htok2.1
      have o2 := gvnMutateList_inv idxs _ o1.inv
      have htf2 := gvnMutateList_tfree idxs _ o1.inv htf1 (by
        rw [o1.subs]
        exact htok2.2)
      apply gvnFinish_tfree _ htf2
      intro w hw
      simp only [varsOf, List.mem_append, List.mem_cons, varsOfList_mem] at hw
      rcases hw with ⟨x, hx, hwx⟩ | ⟨x, hx, hwx⟩
      · exact htf2 x (entriesExtend_mem o2.ext (o1.mem x hx)) w hwx
      · exact htf2 x (o2.mem x hx) w hwx

theorem gvnMutateList_tfree : ∀ (es : ExprList) (st : GVNState), GvnInv st →
    (∀ x ∈ entryExprs st.entries, avoidsT x) →
    tOkList es (st.let_substitutions.map (fun p => p.1)) = true →
    ∀ x ∈ entryExprs (gvnMutateList es st).2.entries, avoidsT x
  | .nil, st, hInv, htf, _ => htf
  | .cons hd tl, st, hInv, htf, htok => by
    have htok2 : tOk hd (st.let_substitutions.map (fun p => p.1)) = true ∧
        tOkList tl (st.let_substitutions.map (fun p => p.1)) = true := by
      simpa [tOkList, Bool.and_eq_true] using htok
    have o1 := gvnMutate_inv hd st hInv
    have htf1 := gvnMutate_tfree hd st hInv htf htok2.1
    exact gvnMutateList_tfree tl _ o1.inv htf1 (by rw [o1.subs]; exact htok2.2)

end


/-! ### `ComputeUseCounts` as a pure bump record -/

theorem cuVRoot_occ {e : Expr} {vis : List Expr} :
    ∀ x ∈ (cuVRoot e vis).1, x = e := by
  intro x hx
  unfold cuVRoot at hx
  split at hx
  · simp at hx
  · split at hx <;> simpa using hx

theorem applyBumps_cons (ents : List GVNEntry) (x : Expr)
    (occs : List Expr) :
    applyBumps ents (x :: occs) =
      applyBumps (match findNumber ents x with
        | some n => bumpUse ents n
        | none => ents) occs := rfl

theorem applyBumps_append (ents : List GVNEntry) (xs ys : List Expr) :
    applyBumps ents (xs ++ ys) = applyBumps (applyBumps ents xs) ys := by
  simp [applyBumps, List.foldl_append]

theorem bumpUse_exprs : ∀ (ents : List GVNEntry) (n : Nat),
    entryExprs (bumpUse ents n) = entryExprs ents
  | [], _ => rfl
  | en :: rest, 0 => by simp [bumpUse, entryExprs]
  | en :: rest, n + 1 => by
    have ih := bumpUse_exprs rest n
    simp only [entryExprs] at ih ⊢
    simp [bumpUse, ih]

theorem applyBumps_exprs : ∀ (occs : List Expr) (ents : List GVNEntry),
    entryExprs (applyBumps ents occs) = entryExprs ents
  | [], ents => rfl
  | x :: occs, ents => by
    rw [applyBumps_cons]
    cases hf : findNumber ents x with
    | some n =>
      show entryExprs (applyBumps (bumpUse ents n) occs) = entryExprs ents
      rw [applyBumps_exprs occs, bumpUse_exprs]
    | none =>
      show entryExprs (applyBumps ents occs) = entryExprs ents
      rw [applyBumps_exprs occs]

theorem cuRoot_vroot (e : Expr) (st : CUState) :
    cuRoot e st = (⟨applyBumps st.entries (cuVRoot e st.visited).1,
      (cuVRoot e st.visited).2.1⟩, (cuVRoot e st.visited).2.2) := by
  unfold cuRoot cuVRoot
  split_ifs with h1 h2
  · simp [applyBumps]
  · cases hf : findNumber st.entries e
    all_goals simp [applyBumps, hf]
  · cases hf : findNumber st.entries e
    all_goals simp [applyBumps, hf]

mutual

/-- Every recorded bump attempt is a subterm of the visited root. -/
theorem cuVisit_reach : ∀ (e : Expr) (vis : List Expr),
    ∀ x ∈ (cuVisit e vis).1, reaches e x
  | .undef, vis => by
    intro x hx
    simp only [cuVisit] at hx
    rw [cuVRoot_occ x (by simpa using hx)]
    exact reaches.refl _
  | .intImm ty v, vis => by
    intro x hx
    simp only [cuVisit] at hx
    rw [cuVRoot_occ x (by simpa using hx)]
    exact reaches.refl _
  | .uintImm ty v, vis => by
    intro x hx
    simp only [cuVisit] at hx
    rw [cuVRoot_occ x (by simpa using hx)]
    exact reaches.refl _
  | .floatImm ty v, vis => by
    intro x hx
    simp only [cuVisit] at hx
    rw [cuVRoot_occ x (by simpa using hx)]
    exact reaches.refl _
  | .stringImm v, vis => by
    intro x hx
    simp only [cuVisit] at hx
    rw [cuVRoot_occ x (by simpa using hx)]
    exact reaches.refl _
  | .var v, vis => by
    intro x hx
    simp only [cuVisit] at hx
    rw [cuVRoot_occ x (by simpa using hx)]
    exact reaches.refl _
  | .cast ty value, vis => by
    intro x hx
    simp only [cuVisit] at hx
    split at hx
    · rcases (by simpa using hx) with h | h
      · rw [cuVRoot_occ x h]
        exact reaches.refl _
      · exact reaches_through (show value ∈ childrenOf (Expr.cast ty value) by
          simp [childrenOf]) (cuVisit_reach value _ x h)
    · rw [cuVRoot_occ x (by simpa using hx)]
      exact reaches.refl _
  | .add a b, vis => by
    intro x hx
    simp only [cuVisit] at hx
    split at hx
    · rcases (by simpa using hx) with h | h | h
      · rw [cuVRoot_occ x h]
        exact reaches.refl _
      · exact reaches_through (show a ∈ childrenOf (Expr.add a b) by
          simp [childrenOf]) (cuVisit_reach a _ x h)
      · exact reaches_through (show b ∈ childrenOf (Expr.add a b) by
          simp [childrenOf]) (cuVisit_reach b _ x h)
    · rw [cuVRoot_occ x (by simpa using hx)]
      exact reaches.refl _
  | .sub a b, vis => by
    intro x hx
    simp only [cuVisit] at hx
    split at hx
    · rcases (by simpa using hx) with h | h | h
      · rw [cuVRoot_occ x h]
        exact reaches.refl _
      · exact reaches_through (show a ∈ childrenOf (Expr.sub a b) by
          simp [childrenOf]) (cuVisit_reach a _ x h)
      · exact reaches_through (show b ∈ childrenOf (Expr.sub a b) by
          simp [childrenOf]) (cuVisit_reach b _ x h)
    · rw [cuVRoot_occ x (by simpa using hx)]
      exact reaches.refl _
  | .mul a b, vis => by
    intro x hx
    simp only [cuVisit] at hx
    split at hx
    · rcases (by simpa using hx) with h | h | h
      · rw [cuVRoot_occ x h]
        exact reaches.refl _
      · exact reaches_through (show a ∈ childrenOf (Expr.mul a b) by
          simp [childrenOf]) (cuVisit_reach a _ x h)
      · exact reaches_through (show b ∈ childrenOf (Expr.mul a b) by
          simp [childrenOf]) (cuVisit_reach b _ x h)
    · rw [cuVRoot_occ x (by simpa using hx)]
      exact reaches.refl _
  | .div a b, vis => by
    intro x hx
    simp only [cuVisit] at hx
    split at hx
    · rcases (by simpa using hx) with h | h | h
      · rw [cuVRoot_occ x h]
        exact reaches.refl _
      · exact reaches_through (show a ∈ childrenOf (Expr.div a b) by
          simp [childrenOf]) (cuVisit_reach a _ x h)
      · exact reaches_through (show b ∈ childrenOf (Expr.div a b) by
          simp [childrenOf]) (cuVisit_reach b _ x h)
    · rw [cuVRoot_occ x (by simpa using hx)]
      exact reaches.refl _
  | .mod a b, vis => by
    intro x hx
    simp only [cuVisit] at hx
    split at hx
    · rcases (by simpa using hx) with h | h | h
      · rw [cuVRoot_occ x h]
        exact reaches.refl _
      · exact reaches_through (show a ∈ childrenOf (Expr.mod a b) by
          simp [childrenOf]) (cuVisit_reach a _ x h)
      · exact reaches_through (show b ∈ childrenOf (Expr.mod a b) by
          simp [childrenOf]) (cuVisit_reach b _ x h)
    · rw [cuVRoot_occ x (by simpa using hx)]
      exact reaches.refl _
  | .min a b, vis => by
    intro x hx
    simp only [cuVisit] at hx
    split at hx
    · rcases (by simpa using hx) with h | h | h
      · rw [cuVRoot_occ x h]
        exact reaches.refl _
      · exact reaches_through (show a ∈ childrenOf (Expr.min a b) by
          simp [childrenOf]) (cuVisit_reach a _ x h)
      · exact reaches_through (show b ∈ childrenOf (Expr.min a b) by
          simp [childrenOf]) (cuVisit_reach b _ x h)
    · rw [cuVRoot_occ x (by simpa using hx)]
      exact reaches.refl _
  | .max a b, vis => by
    intro x hx
    simp only [cuVisit] at hx
    split at hx
    · rcases (by simpa using hx) with h | h | h
      · rw [cuVRoot_occ x h]
        exact reaches.refl _
      · exact reaches_through (show a ∈ childrenOf (Expr.max a b) by
          simp [childrenOf]) (cuVisit_reach a _ x h)
      · exact reaches_through (show b ∈ childrenOf (Expr.max a b) by
          simp [childrenOf]) (cuVisit_reach b _ x h)
    · rw [cuVRoot_occ x (by simpa using hx)]
      exact reaches.refl _
  | .eq a b, vis => by
    intro x hx
    simp only [cuVisit] at hx
    split at hx
    · rcases (by simpa using hx) with h | h | h
      · rw [cuVRoot_occ x h]
        exact reaches.refl _
      · exact reaches_through (show a ∈ childrenOf (Expr.eq a b) by
          simp [childrenOf]) (cuVisit_reach a _ x h)
      · exact reaches_through (show b ∈ childrenOf (Expr.eq a b) by
          simp [childrenOf]) (cuVisit_reach b _ x h)
    · rw [cuVRoot_occ x (by simpa using hx)]
      exact reaches.refl _
  | .ne a b, vis => by
    intro x hx
    simp only [cuVisit] at hx
    split at hx
    · rcases (by simpa using hx) with h | h | h
      · rw [cuVRoot_occ x h]
        exact reaches.refl _
      · exact reaches_through (show a ∈ childrenOf (Expr.ne a b) by
          simp [childrenOf]) (cuVisit_reach a _ x h)
      · exact reaches_through (show b ∈ childrenOf (Expr.ne a b) by
          simp [childrenOf]) (cuVisit_reach b _ x h)
    · rw [cuVRoot_occ x (by simpa using hx)]
      exact reaches.refl _
  | .lt a b, vis => by
    intro x hx
    simp only [cuVisit] at hx
    split at hx
    · rcases (by simpa using hx) with h | h | h
      · rw [cuVRoot_occ x h]
        exact reaches.refl _
      · exact reaches_through (show a ∈ childrenOf (Expr.lt a b) by
          simp [childrenOf]) (cuVisit_reach a _ x h)
      · exact reaches_through (show b ∈ childrenOf (Expr.lt a b) by
          simp [childrenOf]) (cuVisit_reach b _ x h)
    · rw [cuVRoot_occ x (by simpa using hx)]
      exact reaches.refl _
  | .le a b, vis => by
    intro x hx
    simp only [cuVisit] at hx
    split at hx
    · rcases (by simpa using hx) with h | h | h
      · rw [cuVRoot_occ x h]
        exact reaches.refl _
      · exact reaches_through (show a ∈ childrenOf (Expr.le a b) by
          simp [childrenOf]) (cuVisit_reach a _ x h)
      · exact reaches_through (show b ∈ childrenOf (Expr.le a b) by
          simp [childrenOf]) (cuVisit_reach b _ x h)
    · rw [cuVRoot_occ x (by simpa using hx)]
      exact reaches.refl _
  | .gt a b, vis => by
    intro x hx
    simp only [cuVisit] at hx
    split at hx
    · rcases (by simpa using hx) with h | h | h
      · rw [cuVRoot_occ x h]
        exact reaches.refl _
      · exact reaches_through (show a ∈ childrenOf (Expr.gt a b) by
          simp [childrenOf]) (cuVisit_reach a _ x h)
      · exact reaches_through (show b ∈ childrenOf (Expr.gt a b) by
          simp [childrenOf]) (cuVisit_reach b _ x h)
    · rw [cuVRoot_occ x (by simpa using hx)]
      exact reaches.refl _
  | .ge a b, vis => by
    intro x hx
    simp only [cuVisit] at hx
    split at hx
    · rcases (by simpa using hx) with h | h | h
      · rw [cuVRoot_occ x h]
        exact reaches.refl _
      · exact reaches_through (show a ∈ childrenOf (Expr.ge a b) by
          simp [childrenOf]) (cuVisit_reach a _ x h)
      · exact reaches_through (show b ∈ childrenOf (Expr.ge a b) by
          simp [childrenOf]) (cuVisit_reach b _ x h)
    · rw [cuVRoot_occ x (by simpa using hx)]
      exact reaches.refl _
  | .and a b, vis => by
    intro x hx
    simp only [cuVisit] at hx
    split at hx
    · rcases (by simpa using hx) with h | h | h
      · rw [cuVRoot_occ x h]
        exact reaches.refl _
      · exact reaches_through (show a ∈ childrenOf (Expr.and a b) by
          simp [childrenOf]) (cuVisit_reach a _ x h)
      · exact reaches_through (show b ∈ childrenOf (Expr.and a b) by
          simp [childrenOf]) (cuVisit_reach b _ x h)
    · rw [cuVRoot_occ x (by simpa using hx)]
      exact reaches.refl _
  | .or a b, vis => by
    intro x hx
    simp only [cuVisit] at hx
    split at hx
    · rcases (by simpa using hx) with h | h | h
      · rw [cuVRoot_occ x h]
        exact reaches.refl _
      · exact reaches_through (show a ∈ childrenOf (Expr.or a b) by
          simp [childrenOf]) (cuVisit_reach a _ x h)
      · exact reaches_through (show b ∈ childrenOf (Expr.or a b) by
          simp [childrenOf]) (cuVisit_reach b _ x h)
    · rw [cuVRoot_occ x (by simpa using hx)]
      exact reaches.refl _
  | .not a, vis => by
    intro x hx
    simp only [cuVisit] at hx
    split at hx
    · rcases (by simpa using hx) with h | h
      · rw [cuVRoot_occ x h]
        exact reaches.refl _
      · exact reaches_through (show a ∈ childrenOf (Expr.not a) by
          simp [childrenOf]) (cuVisit_reach a _ x h)
    · rw [cuVRoot_occ x (by simpa using hx)]
      exact reaches.refl _
  | .select c t f, vis => by
    intro x hx
    simp only [cuVisit] at hx
    split at hx
    · rcases (by simpa using hx) with h | h | h | h
      · rw [cuVRoot_occ x h]
        exact reaches.refl _
      · exact reaches_through (show c ∈ childrenOf (Expr.select c t f) by
          simp [childrenOf]) (cuVisit_reach c _ x h)
      · exact reaches_through (show t ∈ childrenOf (Expr.select c t f) by
          simp [childrenOf]) (cuVisit_reach t _ x h)
      · exact reaches_through (show f ∈ childrenOf (Expr.select c t f) by
          simp [childrenOf]) (cuVisit_reach f _ x h)
    · rw [cuVRoot_occ x (by simpa using hx)]
      exact reaches.refl _
  | .load ty bv ix pr, vis => by
    intro x hx
    simp only [cuVisit] at hx
    split at hx
    · rcases (by simpa using hx) with h | h
      · rw [cuVRoot_occ x h]
        exact reaches.refl _
      · exact reaches_through (show ix ∈ childrenOf (Expr.load ty bv ix pr) by
          simp [childrenOf]) (cuVisit_reach ix _ x h)
    · rw [cuVRoot_occ x (by simpa using hx)]
      exact reaches.refl _
  | .ramp b s l, vis => by
    intro x hx
    simp only [cuVisit] at hx
    split at hx
    · rcases (by simpa using hx) with h | h | h
      · rw [cuVRoot_occ x h]
        exact reaches.refl _
      · exact reaches_through (show b ∈ childrenOf (Expr.ramp b s l) by
          simp [childrenOf]) (cuVisit_reach b _ x h)
      · exact reaches_through (show s ∈ childrenOf (Expr.ramp b s l) by
          simp [childrenOf]) (cuVisit_reach s _ x h)
    · rw [cuVRoot_occ x (by simpa using hx)]
      exact reaches.refl _
  | .broadcast v l, vis => by
    intro x hx
    simp only [cuVisit] at hx
    split at hx
    · rcases (by simpa using hx) with h | h
      · rw [cuVRoot_occ x h]
        exact reaches.refl _
      · exact reaches_through (show v ∈ childrenOf (Expr.broadcast v l) by
          simp [childrenOf]) (cuVisit_reach v _ x h)
    · rw [cuVRoot_occ x (by simpa using hx)]
      exact reaches.refl _
  | .call ty nm args ct fn vi, vis => by
    intro x hx
    simp only [cuVisit] at hx
    split at hx
    · rcases (by simpa using hx) with h | h
      · rw [cuVRoot_occ x h]
        exact reaches.refl _
      · rcases cuVisitList_reach args _ x h with ⟨u, hu, hr⟩
        exact reaches_through (show u ∈ childrenOf (Expr.call ty nm args ct fn vi) by
          simp only [childrenOf]; simp [hu]) hr
    · rw [cuVRoot_occ x (by simpa using hx)]
      exact reaches.refl _
  | .letE v value body, vis => by
    intro x hx
    simp only [cuVisit] at hx
    split at hx
    · rcases (by simpa using hx) with h | h | h
      · rw [cuVRoot_occ x h]
        exact reaches.refl _
      · exact reaches_through (show value ∈ childrenOf (Expr.letE v value body) by
          simp [childrenOf]) (cuVisit_reach value _ x h)
      · exact reaches_through (show body ∈ childrenOf (Expr.letE v value body) by
          simp [childrenOf]) (cuVisit_reach body _ x h)
    · rw [cuVRoot_occ x (by simpa using hx)]
      exact reaches.refl _
  | .shuffle vs idxs, vis => by
    intro x hx
    simp only [cuVisit] at hx
    split at hx
    · rcases (by simpa using hx) with h | h | h
      · rw [cuVRoot_occ x h]
        exact reaches.refl _
      · rcases cuVisitList_reach vs _ x h with ⟨u, hu, hr⟩
        exact reaches_through (show u ∈ childrenOf (Expr.shuffle vs idxs) by
          simp only [childrenOf]; simp [hu]) hr
      · rcases cuVisitList_reach idxs _ x h with ⟨u, hu, hr⟩
        exact reaches_through (show u ∈ childrenOf (Expr.shuffle vs idxs) by
          simp only [childrenOf]; simp [hu]) hr
    · rw [cuVRoot_occ x (by simpa using hx)]
      exact reaches.refl _

theorem cuVisitList_reach : ∀ (es : ExprList) (vis : List Expr),
    ∀ x ∈ (cuVisitList es vis).1, ∃ u ∈ es.toList, reaches u x
  | .nil, vis => by
    intro x hx
    simp [cuVisitList] at hx
  | .cons hd tl, vis => by
    intro x hx
    rcases (by simpa [cuVisitList] using hx :
        x ∈ (cuVisit hd vis).1 ∨ x ∈ (cuVisitList tl (cuVisit hd vis).2).1)
      with h | h
    · exact ⟨hd, by simp [ExprList.toList], cuVisit_reach hd _ x h⟩
    · rcases cuVisitList_reach tl _ x h with ⟨u, hu, hr⟩
      exact ⟨u, by simp [ExprList.toList, hu], hr⟩

end

mutual

/-- `ComputeUseCounts::include` equals applying the recorded bump
attempts to the entry list; the control flow never reads the
entries. -/
theorem cu_equiv : ∀ (e : Expr) (st : CUState),
    cuInclude e st = ⟨applyBumps st.entries (cuVisit e st.visited).1,
      (cuVisit e st.visited).2⟩
  | .undef, st => by
    simp only [cuInclude, cuVisit, cuRoot_vroot]
  | .intImm ty v, st => by
    simp only [cuInclude, cuVisit, cuRoot_vroot]
  | .uintImm ty v, st => by
    simp only [cuInclude, cuVisit, cuRoot_vroot]
  | .floatImm ty v, st => by
    simp only [cuInclude, cuVisit, cuRoot_vroot]
  | .stringImm v, st => by
    simp only [cuInclude, cuVisit, cuRoot_vroot]
  | .var v, st => by
    simp only [cuInclude, cuVisit, cuRoot_vroot]
  | .cast ty value, st => by
    simp only [cuInclude, cuVisit, cuRoot_vroot]
    by_cases hc : (cuVRoot (Expr.cast ty value) st.visited).2.2
    · simp only [if_pos hc, cu_equiv value, applyBumps_append]
    · simp only [if_neg hc]
  | .add a b, st => by
    simp only [cuInclude, cuVisit, cuRoot_vroot]
    by_cases hc : (cuVRoot (Expr.add a b) st.visited).2.2
    · simp only [if_pos hc, cu_equiv a, cu_equiv b, applyBumps_append]
    · simp only [if_neg hc]
  | .sub a b, st => by
    simp only [cuInclude, cuVisit, cuRoot_vroot]
    by_cases hc : (cuVRoot (Expr.sub a b) st.visited).2.2
    · simp only [if_pos hc, cu_equiv a, cu_equiv b, applyBumps_append]
    · simp only [if_neg hc]
  | .mul a b, st => by
    simp only [cuInclude, cuVisit, cuRoot_vroot]
    by_cases hc : (cuVRoot (Expr.mul a b) st.visited).2.2
    · simp only [if_pos hc, cu_equiv a, cu_equiv b, applyBumps_append]
    · simp only [if_neg hc]
  | .div a b, st => by
    simp only [cuInclude, cuVisit, cuRoot_vroot]
    by_cases hc : (cuVRoot (Expr.div a b) st.visited).2.2
    · simp only [if_pos hc, cu_equiv a, cu_equiv b, applyBumps_append]
    · simp only [if_neg hc]
  | .mod a b, st => by
    simp only [cuInclude, cuVisit, cuRoot_vroot]
    by_cases hc : (cuVRoot (Expr.mod a b) st.visited).2.2
    · simp only [if_pos hc, cu_equiv a, cu_equiv b, applyBumps_append]
    · simp only [if_neg hc]
  | .min a b, st => by
    simp only [cuInclude, cuVisit, cuRoot_vroot]
    by_cases hc : (cuVRoot (Expr.min a b) st.visited).2.2
    · simp only [if_pos hc, cu_equiv a, cu_equiv b, applyBumps_append]
    · simp only [if_neg hc]
  | .max a b, st => by
    simp only [cuInclude, cuVisit, cuRoot_vroot]
    by_cases hc : (cuVRoot (Expr.max a b) st.visited).2.2
    · simp only [if_pos hc, cu_equiv a, cu_equiv b, applyBumps_append]
    · simp only [if_neg hc]
  | .eq a b, st => by
    simp only [cuInclude, cuVisit, cuRoot_vroot]
    by_cases hc : (cuVRoot (Expr.eq a b) st.visited).2.2
    · simp only [if_pos hc, cu_equiv a, cu_equiv b, applyBumps_append]
    · simp only [if_neg hc]
  | .ne a b, st => by
    simp only [cuInclude, cuVisit, cuRoot_vroot]
    by_cases hc : (cuVRoot (Expr.ne a b) st.visited).2.2
    · simp only [if_pos hc, cu_equiv a, cu_equiv b, applyBumps_append]
    · simp only [if_neg hc]
  | .lt a b, st => by
    simp only [cuInclude, cuVisit, cuRoot_vroot]
    by_cases hc : (cuVRoot (Expr.lt a b) st.visited).2.2
    · simp only [if_pos hc, cu_equiv a, cu_equiv b, applyBumps_append]
    · simp only [if_neg hc]
  | .le a b, st => by
    simp only [cuInclude, cuVisit, cuRoot_vroot]
    by_cases hc : (cuVRoot (Expr.le a b) st.visited).2.2
    · simp only [if_pos hc, cu_equiv a, cu_equiv b, applyBumps_append]
    · simp only [if_neg hc]
  | .gt a b, st => by
    simp only [cuInclude, cuVisit, cuRoot_vroot]
    by_cases hc : (cuVRoot (Expr.gt a b) st.visited).2.2
    · simp only [if_pos hc, cu_equiv a, cu_equiv b, applyBumps_append]
    · simp only [if_neg hc]
  | .ge a b, st => by
    simp only [cuInclude, cuVisit, cuRoot_vroot]
    by_cases hc : (cuVRoot (Expr.ge a b) st.visited).2.2
    · simp only [if_pos hc, cu_equiv a, cu_equiv b, applyBumps_append]
    · simp only [if_neg hc]
  | .and a b, st => by
    simp only [cuInclude, cuVisit, cuRoot_vroot]
    by_cases hc : (cuVRoot (Expr.and a b) st.visited).2.2
    · simp only [if_pos hc, cu_equiv a, cu_equiv b, applyBumps_append]
    · simp only [if_neg hc]
  | .or a b, st => by
    simp only [cuInclude, cuVisit, cuRoot_vroot]
    by_cases hc : (cuVRoot (Expr.or a b) st.visited).2.2
    · simp only [if_pos hc, cu_equiv a, cu_equiv b, applyBumps_append]
    · simp only [if_neg hc]
  | .not a, st => by
    simp only [cuInclude, cuVisit, cuRoot_vroot]
    by_cases hc : (cuVRoot (Expr.not a) st.visited).2.2
    · simp only [if_pos hc, cu_equiv a, applyBumps_append]
    · simp only [if_neg hc]
  | .select c t f, st => by
    simp only [cuInclude, cuVisit, cuRoot_vroot]
    by_cases hc : (cuVRoot (Expr.select c t f) st.visited).2.2
    · simp only [if_pos hc, cu_equiv c, cu_equiv t, cu_equiv f, applyBumps_append]
    · simp only [if_neg hc]
  | .load ty bv ix pr, st => by
    simp only [cuInclude, cuVisit, cuRoot_vroot]
    by_cases hc : (cuVRoot (Expr.load ty bv ix pr) st.visited).2.2
    · simp only [if_pos hc, cu_equiv ix, applyBumps_append]
    · simp only [if_neg hc]
  | .ramp b s l, st => by
    simp only [cuInclude, cuVisit, cuRoot_vroot]
    by_cases hc : (cuVRoot (Expr.ramp b s l) st.visited).2.2
    · simp only [if_pos hc, cu_equiv b, cu_equiv s, applyBumps_append]
    · simp only [if_neg hc]
  | .broadcast v l, st => by
    simp only [cuInclude, cuVisit, cuRoot_vroot]
    by_cases hc : (cuVRoot (Expr.broadcast v l) st.visited).2.2
    · simp only [if_pos hc, cu_equiv v, applyBumps_append]
    · simp only [if_neg hc]
  | .call ty nm args ct fn vi, st => by
    simp only [cuInclude, cuVisit, cuRoot_vroot]
    by_cases hc : (cuVRoot (Expr.call ty nm args ct fn vi) st.visited).2.2
    · simp only [if_pos hc, cuListEquiv args, applyBumps_append]
    · simp only [if_neg hc]
  | .letE v value body, st => by
    simp only [cuInclude, cuVisit, cuRoot_vroot]
    by_cases hc : (cuVRoot (Expr.letE v value body) st.visited).2.2
    · simp only [if_pos hc, cu_equiv value, cu_equiv body, applyBumps_append]
    · simp only [if_neg hc]
  | .shuffle vs idxs, st => by
    simp only [cuInclude, cuVisit, cuRoot_vroot]
    by_cases hc : (cuVRoot (Expr.shuffle vs idxs) st.visited).2.2
    · simp only [if_pos hc, cuListEquiv vs, cuListEquiv idxs, applyBumps_append]
    · simp only [if_neg hc]

theorem cuListEquiv : ∀ (es : ExprList) (st : CUState),
    cuIncludeList es st =
      ⟨applyBumps st.entries (cuVisitList es st.visited).1,
        (cuVisitList es st.visited).2⟩
  | .nil, st => by
    simp [cuIncludeList, cuVisitList, applyBumps]
  | .cons hd tl, st => by
    simp only [cuIncludeList, cuVisitList, cu_equiv hd, cuListEquiv tl,
      applyBumps_append]

end

theorem countOf_cons_pos {en : GVNEntry} {rest : List GVNEntry} {y : Expr}
    (h : (en.expr == y) = true) : countOf (en :: rest) y = en.use_count := by
  simp [countOf, List.find?, h]

theorem countOf_cons_neg {en : GVNEntry} {rest : List GVNEntry} {y : Expr}
    (h : (en.expr == y) = false) : countOf (en :: rest) y = countOf rest y := by
  simp [countOf, List.find?, h]

theorem canonicalOf_cons_succ (en : GVNEntry) (rest : List GVNEntry)
    (n : Nat) : canonicalOf (en :: rest) (n + 1) = canonicalOf rest n := by
  simp [canonicalOf, List.getD]

theorem countOf_bumpUse : ∀ {ents : List GVNEntry} {n : Nat} (y : Expr),
    (entryExprs ents).Nodup → n < ents.length →
    countOf (bumpUse ents n) y =
      countOf ents y + (if y = canonicalOf ents n then 1 else 0) := by
  intro ents
  induction ents with
  | nil => intro n y _ hn; simp at hn
  | cons en rest ih =>
    intro n y hnd hn
    rcases (by simpa [entryExprs] using hnd :
        (en.expr ∉ entryExprs rest) ∧ (entryExprs rest).Nodup) with ⟨hne, hnd2⟩
    cases n with
    | zero =>
      by_cases hy : (en.expr == y) = true
      · have hy2 : y = en.expr := (beq_iff_eq.mp hy).symm
        rw [show bumpUse (en :: rest) 0 =
            { en with use_count := en.use_count + 1 } :: rest from rfl]
        rw [countOf_cons_pos (by simpa using hy), countOf_cons_pos hy]
        simp [canonicalOf, hy2]
      · have hy3 : (en.expr == y) = false := by simpa using hy
        rw [show bumpUse (en :: rest) 0 =
            { en with use_count := en.use_count + 1 } :: rest from rfl]
        rw [countOf_cons_neg (by simpa using hy3), countOf_cons_neg hy3]
        have : y ≠ canonicalOf (en :: rest) 0 := by
          show y ≠ en.expr
          intro hcon
          exact absurd (beq_iff_eq.mpr hcon.symm) (by simp [hy3])
        simp [this]
    | succ n =>
      have hn2 : n < rest.length := by simpa using hn
      rw [show bumpUse (en :: rest) (n + 1) = en :: bumpUse rest n from rfl,
        canonicalOf_cons_succ]
      by_cases hy : (en.expr == y) = true
      · have hy2 : y = en.expr := (beq_iff_eq.mp hy).symm
        rw [countOf_cons_pos hy, countOf_cons_pos hy]
        have hmem : canonicalOf rest n ∈ entryExprs rest := canonicalOf_mem hn2
        have : y ≠ canonicalOf rest n := by
          intro hcon
          rw [hy2] at hcon
          exact hne (hcon ▸ hmem)
        simp [this]
      · have hy3 : (en.expr == y) = false := by simpa using hy
        rw [countOf_cons_neg hy3, countOf_cons_neg hy3]
        exact ih y hnd2 hn2

theorem countOf_applyBumps : ∀ (occs : List Expr) (ents : List GVNEntry)
    (y : Expr), (entryExprs ents).Nodup →
    (∀ x ∈ occs, x ∈ entryExprs ents) →
    countOf (applyBumps ents occs) y = countOf ents y + occs.count y
  | [], ents, y, _, _ => by simp [applyBumps]
  | x :: occs, ents, y, hnd, hmem => by
    rw [applyBumps_cons]
    cases hf : findNumber ents x with
    | none => exact absurd (hmem x (by simp)) (findNumber_eq_none.mp hf)
    | some n =>
      show countOf (applyBumps (bumpUse ents n) occs) y =
        countOf ents y + (x :: occs).count y
      rcases findNumber_some hf with ⟨hn, hcan⟩
      have hnd2 : (entryExprs (bumpUse ents n)).Nodup := by
        rw [bumpUse_exprs]
        exact hnd
      have hmem2 : ∀ z ∈ occs, z ∈ entryExprs (bumpUse ents n) := by
        intro z hz
        rw [bumpUse_exprs]
        exact hmem z (by simp [hz])
      rw [countOf_applyBumps occs _ y hnd2 hmem2, countOf_bumpUse y hnd hn,
        hcan, List.count_cons]
      by_cases hyx : y = x
      · simp [hyx]
        omega
      · have : ¬ (x == y) = true := by
          simp only [beq_iff_eq]
          exact fun hcon => hyx hcon.symm
        simp [hyx, this]


/-! ### `Replacer` computes the pure substitution -/

theorem cohHyp_child {m₀ m : ReplMap} {e ch : Expr}
    (hch : ch ∈ childrenOf e) (h : CohHyp m₀ m e) : CohHyp m₀ m ch :=
  ⟨fun s x hs hf => h.1 s x (reaches_through hch hs) hf,
   fun s hs hf => h.2 s (reaches_through hch hs) hf⟩

theorem cohHyp_after {m₀ m : ReplMap} {a b : Expr} {r : Expr × ReplMap}
    (ho : ReplOut m₀ a m r) (h : CohHyp m₀ m b) : CohHyp m₀ r.2 b := by
  constructor
  · intro s x hs hfind
    cases hold : replFind m s with
    | some y =>
      have hm := ho.mono s y hold
      rw [hfind] at hm
      injection hm with hm2
      rw [hm2]
      exact h.1 s y hs hold
    | none => exact (ho.new s x hfind hold).2
  · intro s hs hfind
    cases hold : replFind m s with
    | some y =>
      have hm := ho.mono s y hold
      rw [hfind] at hm
      exact Option.noConfusion hm
    | none => exact h.2 s hs hold

theorem repl_step_hit {m₀ m : ReplMap} {e r : Expr}
    (hval : r = pureRepl m₀ e) : ReplOut m₀ e m (r, m) := by
  refine ⟨hval, fun s x h => h, fun s x h hm => ?_⟩
  rw [hm] at h
  exact Option.noConfusion h

theorem repl_step_leaf {m₀ m : ReplMap} {e : Expr}
    (hval : e = pureRepl m₀ e) : ReplOut m₀ e m (e, m ++ [(e, e)]) := by
  refine ⟨hval, fun s x h => replFind_append_some _ h, ?_⟩
  intro s y hy hmiss
  rw [replFind_append_none _ hmiss] at hy
  by_cases hse : (e == s) = true
  · have hes : e = s := beq_iff_eq.mp hse
    rw [show replFind [(e, e)] s = some e from replFind_cons_pos hse] at hy
    injection hy with hy2
    refine ⟨hes ▸ reaches.refl e, ?_⟩
    rw [← hy2, hval, hes]
  · rw [replFind_cons_neg (by simpa using hse)] at hy
    simp [replFind] at hy

theorem repl_step_unary {m₀ m : ReplMap} (mk : Expr → Expr) (a : Expr)
    (hch : a ∈ childrenOf (mk a))
    (hpure : replFind m₀ (mk a) = none →
      pureRepl m₀ (mk a) = mk (pureRepl m₀ a))
    (hC : CohHyp m₀ m (mk a))
    (hfind : replFind m (mk a) = none)
    (o1 : ReplOut m₀ a m (replMutate a m)) :
    ReplOut m₀ (mk a) m
      (mk (replMutate a m).1,
       (replMutate a m).2 ++ [(mk a, mk (replMutate a m).1)]) := by
  have hm0 : replFind m₀ (mk a) = none := hC.2 _ (reaches.refl _) hfind
  have hval : mk (replMutate a m).1 = pureRepl m₀ (mk a) := by
    rw [hpure hm0, o1.val]
  refine ⟨hval, fun s x h => replFind_append_some _ (o1.mono s x h), ?_⟩
  intro s y hy hmiss
  cases h1 : replFind (replMutate a m).2 s with
  | some z =>
    have hz := replFind_append_some [(mk a, mk (replMutate a m).1)] h1
    rw [hy] at hz
    injection hz with hz2
    rcases o1.new s z h1 hmiss with ⟨hr, hv⟩
    exact ⟨reaches_through hch hr, by rw [hz2, hv]⟩
  | none =>
    rw [replFind_append_none _ h1] at hy
    by_cases hse : ((mk a) == s) = true
    · have hes : mk a = s := beq_iff_eq.mp hse
      rw [show replFind [(mk a, mk (replMutate a m).1)] s =
        some (mk (replMutate a m).1) from replFind_cons_pos hse] at hy
      injection hy with hy2
      refine ⟨hes ▸ reaches.refl _, ?_⟩
      rw [← hy2, hval, hes]
    · rw [replFind_cons_neg (by simpa using hse)] at hy
      simp [replFind] at hy

theorem repl_step_binary {m₀ m : ReplMap} (mk : Expr → Expr → Expr)
    (a b : Expr)
    (hcha : a ∈ childrenOf (mk a b)) (hchb : b ∈ childrenOf (mk a b))
    (hpure : replFind m₀ (mk a b) = none →
      pureRepl m₀ (mk a b) = mk (pureRepl m₀ a) (pureRepl m₀ b))
    (hC : CohHyp m₀ m (mk a b))
    (hfind : replFind m (mk a b) = none)
    (o1 : ReplOut m₀ a m (replMutate a m))
    (o2 : ReplOut m₀ b (replMutate a m).2
      (replMutate b (replMutate a m).2)) :
    ReplOut m₀ (mk a b) m
      (mk (replMutate a m).1 (replMutate b (replMutate a m).2).1,
       (replMutate b (replMutate a m).2).2 ++
         [(mk a b,
           mk (replMutate a m).1 (replMutate b (replMutate a m).2).1)]) := by
  have hm0 : replFind m₀ (mk a b) = none := hC.2 _ (reaches.refl _) hfind
  have hval : mk (replMutate a m).1 (replMutate b (replMutate a m).2).1 =
      pureRepl m₀ (mk a b) := by
    rw [hpure hm0, o1.val, o2.val]
  refine ⟨hval, fun s x h =>
    replFind_append_some _ (o2.mono s x (o1.mono s x h)), ?_⟩
  intro s y hy hmiss
  cases h2 : replFind (replMutate b (replMutate a m).2).2 s with
  | some z =>
    have hz := replFind_append_some
      [(mk a b, mk (replMutate a m).1 (replMutate b (replMutate a m).2).1)] h2
    rw [hy] at hz
    injection hz with hz2
    cases h1 : replFind (replMutate a m).2 s with
    | some w =>
      have hw := o2.mono s w h1
      rw [h2] at hw
      injection hw with hw2
      rcases o1.new s w h1 hmiss with ⟨hr, hv⟩
      exact ⟨reaches_through hcha hr, by rw [hz2, hw2, hv]⟩
    | none =>
      rcases o2.new s z h2 h1 with ⟨hr, hv⟩
      exact ⟨reaches_through hchb hr, by rw [hz2, hv]⟩
  | none =>
    rw [replFind_append_none _ h2] at hy
    by_cases hse : ((mk a b) == s) = true
    · have hes : mk a b = s := beq_iff_eq.mp hse
      rw [show replFind
        [(mk a b, mk (replMutate a m).1 (replMutate b (replMutate a m).2).1)]
        s = some (mk (replMutate a m).1 (replMutate b (replMutate a m).2).1)
        from replFind_cons_pos hse] at hy
      injection hy with hy2
      refine ⟨hes ▸ reaches.refl _, ?_⟩
      rw [← hy2, hval, hes]
    · rw [replFind_cons_neg (by simpa using hse)] at hy
      simp [replFind] at hy


theorem replOut_none {m₀ : ReplMap} {e : Expr} {m : ReplMap}
    {r : Expr × ReplMap} (ho : ReplOut m₀ e m r) {s : Expr}
    (h : replFind r.2 s = none) : replFind m s = none := by
  cases hold : replFind m s with
  | some y =>
    have hm := ho.mono s y hold
    rw [h] at hm
    exact Option.noConfusion hm
  | none => rfl

theorem replListOut_none {m₀ : ReplMap} {es : ExprList} {m : ReplMap}
    {r : ExprList × ReplMap} (ho : ReplListOut m₀ es m r) {s : Expr}
    (h : replFind r.2 s = none) : replFind m s = none := by
  cases hold : replFind m s with
  | some y =>
    have hm := ho.mono s y hold
    rw [h] at hm
    exact Option.noConfusion hm
  | none => rfl

theorem cohHyp_afterList {m₀ m : ReplMap} {es : ExprList} {b : Expr}
    {r : ExprList × ReplMap} (ho : ReplListOut m₀ es m r)
    (h : CohHyp m₀ m b) : CohHyp m₀ r.2 b := by
  constructor
  · intro s x hs hfind
    cases hold : replFind m s with
    | some y =>
      have hm := ho.mono s y hold
      rw [hfind] at hm
      injection hm with hm2
      rw [hm2]
      exact h.1 s y hs hold
    | none => exact (ho.new s x hfind hold).2
  · intro s hs hfind
    exact h.2 s hs (replListOut_none ho hfind)

theorem repl_step_ternary {m₀ m : ReplMap} (mk : Expr → Expr → Expr → Expr)
    (a b c : Expr)
    (hcha : a ∈ childrenOf (mk a b c)) (hchb : b ∈ childrenOf (mk a b c))
    (hchc : c ∈ childrenOf (mk a b c))
    (hpure : replFind m₀ (mk a b c) = none →
      pureRepl m₀ (mk a b c) =
        mk (pureRepl m₀ a) (pureRepl m₀ b) (pureRepl m₀ c))
    (hC : CohHyp m₀ m (mk a b c))
    (hfind : replFind m (mk a b c) = none)
    (o1 : ReplOut m₀ a m (replMutate a m))
    (o2 : ReplOut m₀ b (replMutate a m).2 (replMutate b (replMutate a m).2))
    (o3 : ReplOut m₀ c (replMutate b (replMutate a m).2).2
      (replMutate c (replMutate b (replMutate a m).2).2)) :
    ReplOut m₀ (mk a b c) m
      (mk (replMutate a m).1 (replMutate b (replMutate a m).2).1
        (replMutate c (replMutate b (replMutate a m).2).2).1,
       (replMutate c (replMutate b (replMutate a m).2).2).2 ++
         [(mk a b c,
           mk (replMutate a m).1 (replMutate b (replMutate a m).2).1
             (replMutate c (replMutate b (replMutate a m).2).2).1)]) := by
  have hm0 : replFind m₀ (mk a b c) = none := hC.2 _ (reaches.refl _) hfind
  have hval : mk (replMutate a m).1 (replMutate b (replMutate a m).2).1
      (replMutate c (replMutate b (replMutate a m).2).2).1 =
      pureRepl m₀ (mk a b c) := by
    rw [hpure hm0, o1.val, o2.val, o3.val]
  refine ⟨hval, fun s x h =>
    replFind_append_some _ (o3.mono s x (o2.mono s x (o1.mono s x h))), ?_⟩
  intro s y hy hmiss
  cases h3 : replFind (replMutate c (replMutate b (replMutate a m).2).2).2 s
    with
  | some z =>
    have hz := replFind_append_some
      [(mk a b c,
        mk (replMutate a m).1 (replMutate b (replMutate a m).2).1
          (replMutate c (replMutate b (replMutate a m).2).2).1)] h3
    rw [hy] at hz
    injection hz with hz2
    cases h2 : replFind (replMutate b (replMutate a m).2).2 s with
    | some w =>
      have hw := o3.mono s w h2
      rw [h3] at hw
      injection hw with hw2
      cases h1 : replFind (replMutate a m).2 s with
      | some u =>
        have hu := o2.mono s u h1
        rw [h2] at hu
        injection hu with hu2
        rcases o1.new s u h1 hmiss with ⟨hr, hv⟩
        exact ⟨reaches_through hcha hr, by rw [hz2, hw2, hu2, hv]⟩
      | none =>
        rcases o2.new s w h2 h1 with ⟨hr, hv⟩
        exact ⟨reaches_through hchb hr, by rw [hz2, hw2, hv]⟩
    | none =>
      rcases o3.new s z h3 h2 with ⟨hr, hv⟩
      exact ⟨reaches_through hchc hr, by rw [hz2, hv]⟩
  | none =>
    rw [replFind_append_none _ h3] at hy
    by_cases hse : ((mk a b c) == s) = true
    · have hes : mk a b c = s := beq_iff_eq.mp hse
      rw [show replFind
        [(mk a b c,
          mk (replMutate a m).1 (replMutate b (replMutate a m).2).1
            (replMutate c (replMutate b (replMutate a m).2).2).1)] s =
        some (mk (replMutate a m).1 (replMutate b (replMutate a m).2).1
          (replMutate c (replMutate b (replMutate a m).2).2).1)
        from replFind_cons_pos hse] at hy
      injection hy with hy2
      refine ⟨hes ▸ reaches.refl _, ?_⟩
      rw [← hy2, hval, hes]
    · rw [replFind_cons_neg (by simpa using hse)] at hy
      simp [replFind] at hy

theorem repl_step_call {m₀ m : ReplMap} (mk : ExprList → Expr)
    (args : ExprList)
    (hch : ∀ u ∈ args.toList, u ∈ childrenOf (mk args))
    (hpure : replFind m₀ (mk args) = none →
      pureRepl m₀ (mk args) = mk (pureReplList m₀ args))
    (hC : CohHyp m₀ m (mk args))
    (hfind : replFind m (mk args) = none)
    (o1 : ReplListOut m₀ args m (replMutateList args m)) :
    ReplOut m₀ (mk args) m
      (mk (replMutateList args m).1,
       (replMutateList args m).2 ++
         [(mk args, mk (replMutateList args m).1)]) := by
  have hm0 : replFind m₀ (mk args) = none := hC.2 _ (reaches.refl _) hfind
  have hval : mk (replMutateList args m).1 = pureRepl m₀ (mk args) := by
    rw [hpure hm0, o1.val]
  refine ⟨hval, fun s x h => replFind_append_some _ (o1.mono s x h), ?_⟩
  intro s y hy hmiss
  cases h1 : replFind (replMutateList args m).2 s with
  | some z =>
    have hz := replFind_append_some
      [(mk args, mk (replMutateList args m).1)] h1
    rw [hy] at hz
    injection hz with hz2
    rcases o1.new s z h1 hmiss with ⟨⟨u, hu, hr⟩, hv⟩
    exact ⟨reaches_through (hch u hu) hr, by rw [hz2, hv]⟩
  | none =>
    rw [replFind_append_none _ h1] at hy
    by_cases hse : ((mk args) == s) = true
    · have hes : mk args = s := beq_iff_eq.mp hse
      rw [show replFind [(mk args, mk (replMutateList args m).1)] s =
        some (mk (replMutateList args m).1) from replFind_cons_pos hse] at hy
      injection hy with hy2
      refine ⟨hes ▸ reaches.refl _, ?_⟩
      rw [← hy2, hval, hes]
    · rw [replFind_cons_neg (by simpa using hse)] at hy
      simp [replFind] at hy

theorem repl_step_shuffle {m₀ m : ReplMap}
    (mk : ExprList → ExprList → Expr) (vs idxs : ExprList)
    (hchv : ∀ u ∈ vs.toList, u ∈ childrenOf (mk vs idxs))
    (hchi : ∀ u ∈ idxs.toList, u ∈ childrenOf (mk vs idxs))
    (hpure : replFind m₀ (mk vs idxs) = none →
      pureRepl m₀ (mk vs idxs) =
        mk (pureReplList m₀ vs) (pureReplList m₀ idxs))
    (hC : CohHyp m₀ m (mk vs idxs))
    (hfind : replFind m (mk vs idxs) = none)
    (o1 : ReplListOut m₀ vs m (replMutateList vs m))
    (o2 : ReplListOut m₀ idxs (replMutateList vs m).2
      (replMutateList idxs (replMutateList vs m).2)) :
    ReplOut m₀ (mk vs idxs) m
      (mk (replMutateList vs m).1
        (replMutateList idxs (replMutateList vs m).2).1,
       (replMutateList idxs (replMutateList vs m).2).2 ++
         [(mk vs idxs,
           mk (replMutateList vs m).1
             (replMutateList idxs (replMutateList vs m).2).1)]) := by
  have hm0 : replFind m₀ (mk vs idxs) = none := hC.2 _ (reaches.refl _) hfind
  have hval : mk (replMutateList vs m).1
      (replMutateList idxs (replMutateList vs m).2).1 =
      pureRepl m₀ (mk vs idxs) := by
    rw [hpure hm0, o1.val, o2.val]
  refine ⟨hval, fun s x h =>
    replFind_append_some _ (o2.mono s x (o1.mono s x h)), ?_⟩
  intro s y hy hmiss
  cases h2 : replFind (replMutateList idxs (replMutateList vs m).2).2 s with
  | some z =>
    have hz := replFind_append_some
      [(mk vs idxs,
        mk (replMutateList vs m).1
          (replMutateList idxs (replMutateList vs m).2).1)] h2
    rw [hy] at hz
    injection hz with hz2
    cases h1 : replFind (replMutateList vs m).2 s with
    | some w =>
      have hw := o2.mono s w h1
      rw [h2] at hw
      injection hw with hw2
      rcases o1.new s w h1 hmiss with ⟨⟨u, hu, hr⟩, hv⟩
      exact ⟨reaches_through (hchv u hu) hr, by rw [hz2, hw2, hv]⟩
    | none =>
      rcases o2.new s z h2 h1 with ⟨⟨u, hu, hr⟩, hv⟩
      exact ⟨reaches_through (hchi u hu) hr, by rw [hz2, hv]⟩
  | none =>
    rw [replFind_append_none _ h2] at hy
    by_cases hse : ((mk vs idxs) == s) = true
    · have hes : mk vs idxs = s := beq_iff_eq.mp hse
      rw [show replFind
        [(mk vs idxs,
          mk (replMutateList vs m).1
            (replMutateList idxs (replMutateList vs m).2).1)] s =
        some (mk (replMutateList vs m).1
          (replMutateList idxs (replMutateList vs m).2).1)
        from replFind_cons_pos hse] at hy
      injection hy with hy2
      refine ⟨hes ▸ reaches.refl _, ?_⟩
      rw [← hy2, hval, hes]
    · rw [replFind_cons_neg (by simpa using hse)] at hy
      simp [replFind] at hy

mutual

/-- `Replacer::mutate` computes the pure substitution and its memo map
stays coherent: old bindings survive, and new ones record the pure
value of a subterm. -/
theorem replMutate_pure : ∀ (e : Expr) (m₀ m : ReplMap),
    CohHyp m₀ m e → ReplOut m₀ e m (replMutate e m)
  | .undef, m₀, m, hC => by
    simp only [replMutate]
    cases hfind : replFind m (Expr.undef) with
    | some r =>
      exact repl_step_hit (hC.1 _ r (reaches.refl _) hfind)
    | none =>
      exact repl_step_leaf (by
        have hm0 : replFind m₀ (Expr.undef) = none :=
          hC.2 _ (reaches.refl _) hfind
        simp only [pureRepl, hm0])
  | .intImm ty v, m₀, m, hC => by
    simp only [replMutate]
    cases hfind : replFind m (Expr.intImm ty v) with
    | some r =>
      exact repl_step_hit (hC.1 _ r (reaches.refl _) hfind)
    | none =>
      exact repl_step_leaf (by
        have hm0 : replFind m₀ (Expr.intImm ty v) = none :=
          hC.2 _ (reaches.refl _) hfind
        simp only [pureRepl, hm0])
  | .uintImm ty v, m₀, m, hC => by
    simp only [replMutate]
    cases hfind : replFind m (Expr.uintImm ty v) with
    | some r =>
      exact repl_step_hit (hC.1 _ r (reaches.refl _) hfind)
    | none =>
      exact repl_step_leaf (by
        have hm0 : replFind m₀ (Expr.uintImm ty v) = none :=
          hC.2 _ (reaches.refl _) hfind
        simp only [pureRepl, hm0])
  | .floatImm ty v, m₀, m, hC => by
    simp only [replMutate]
    cases hfind : replFind m (Expr.floatImm ty v) with
    | some r =>
      exact repl_step_hit (hC.1 _ r (reaches.refl _) hfind)
    | none =>
      exact repl_step_leaf (by
        have hm0 : replFind m₀ (Expr.floatImm ty v) = none :=
          hC.2 _ (reaches.refl _) hfind
        simp only [pureRepl, hm0])
  | .stringImm v, m₀, m, hC => by
    simp only [replMutate]
    cases hfind : replFind m (Expr.stringImm v) with
    | some r =>
      exact repl_step_hit (hC.1 _ r (reaches.refl _) hfind)
    | none =>
      exact repl_step_leaf (by
        have hm0 : replFind m₀ (Expr.stringImm v) = none :=
          hC.2 _ (reaches.refl _) hfind
        simp only [pureRepl, hm0])
  | .var v, m₀, m, hC => by
    simp only [replMutate]
    cases hfind : replFind m (Expr.var v) with
    | some r =>
      exact repl_step_hit (hC.1 _ r (reaches.refl _) hfind)
    | none =>
      exact repl_step_leaf (by
        have hm0 : replFind m₀ (Expr.var v) = none :=
          hC.2 _ (reaches.refl _) hfind
        simp only [pureRepl, hm0])
  | .cast ty value, m₀, m, hC => by
    simp only [replMutate]
    cases hfind : replFind m (Expr.cast ty value) with
    | some r =>
      exact repl_step_hit (hC.1 _ r (reaches.refl _) hfind)
    | none =>
      have o1 := replMutate_pure value m₀ m (cohHyp_child (show value ∈ childrenOf (Expr.cast ty value) by simp [childrenOf]) hC)
      exact repl_step_unary (fun x => Expr.cast ty x) value
        (by simp [childrenOf])
        (fun h => by simp only [pureRepl, h]) hC hfind o1
  | .add a b, m₀, m, hC => by
    simp only [replMutate]
    cases hfind : replFind m (Expr.add a b) with
    | some r =>
      exact repl_step_hit (hC.1 _ r (reaches.refl _) hfind)
    | none =>
      have o1 := replMutate_pure a m₀ m (cohHyp_child (show a ∈ childrenOf (Expr.add a b) by simp [childrenOf]) hC)
      have o2 := replMutate_pure b m₀ _ (cohHyp_after o1 (cohHyp_child (show b ∈ childrenOf (Expr.add a b) by simp [childrenOf]) hC))
      exact repl_step_binary (fun x y => Expr.add x y) a b
        (by simp [childrenOf]) (by simp [childrenOf])
        (fun h => by simp only [pureRepl, h]) hC hfind o1 o2
  | .sub a b, m₀, m, hC => by
    simp only [replMutate]
    cases hfind : replFind m (Expr.sub a b) with
    | some r =>
      exact repl_step_hit (hC.1 _ r (reaches.refl _) hfind)
    | none =>
      have o1 := replMutate_pure a m₀ m (cohHyp_child (show a ∈ childrenOf (Expr.sub a b) by simp [childrenOf]) hC)
      have o2 := replMutate_pure b m₀ _ (cohHyp_after o1 (cohHyp_child (show b ∈ childrenOf (Expr.sub a b) by simp [childrenOf]) hC))
      exact repl_step_binary (fun x y => Expr.sub x y) a b
        (by simp [childrenOf]) (by simp [childrenOf])
        (fun h => by simp only [pureRepl, h]) hC hfind o1 o2
  | .mul a b, m₀, m, hC => by
    simp only [replMutate]
    cases hfind : replFind m (Expr.mul a b) with
    | some r =>
      exact repl_step_hit (hC.1 _ r (reaches.refl _) hfind)
    | none =>
      have o1 := replMutate_pure a m₀ m (cohHyp_child (show a ∈ childrenOf (Expr.mul a b) by simp [childrenOf]) hC)
      have o2 := replMutate_pure b m₀ _ (cohHyp_after o1 (cohHyp_child (show b ∈ childrenOf (Expr.mul a b) by simp [childrenOf]) hC))
      exact repl_step_binary (fun x y => Expr.mul x y) a b
        (by simp [childrenOf]) (by simp [childrenOf])
        (fun h => by simp only [pureRepl, h]) hC hfind o1 o2
  | .div a b, m₀, m, hC => by
    simp only [replMutate]
    cases hfind : replFind m (Expr.div a b) with
    | some r =>
      exact repl_step_hit (hC.1 _ r (reaches.refl _) hfind)
    | none =>
      have o1 := replMutate_pure a m₀ m (cohHyp_child (show a ∈ childrenOf (Expr.div a b) by simp [childrenOf]) hC)
      have o2 := replMutate_pure b m₀ _ (cohHyp_after o1 (cohHyp_child (show b ∈ childrenOf (Expr.div a b) by simp [childrenOf]) hC))
      exact repl_step_binary (fun x y => Expr.div x y) a b
        (by simp [childrenOf]) (by simp [childrenOf])
        (fun h => by simp only [pureRepl, h]) hC hfind o1 o2
  | .mod a b, m₀, m, hC => by
    simp only [replMutate]
    cases hfind : replFind m (Expr.mod a b) with
    | some r =>
      exact repl_step_hit (hC.1 _ r (reaches.refl _) hfind)
    | none =>
      have o1 := replMutate_pure a m₀ m (cohHyp_child (show a ∈ childrenOf (Expr.mod a b) by simp [childrenOf]) hC)
      have o2 := replMutate_pure b m₀ _ (cohHyp_after o1 (cohHyp_child (show b ∈ childrenOf (Expr.mod a b) by simp [childrenOf]) hC))
      exact repl_step_binary (fun x y => Expr.mod x y) a b
        (by simp [childrenOf]) (by simp [childrenOf])
        (fun h => by simp only [pureRepl, h]) hC hfind o1 o2
  | .min a b, m₀, m, hC => by
    simp only [replMutate]
    cases hfind : replFind m (Expr.min a b) with
    | some r =>
      exact repl_step_hit (hC.1 _ r (reaches.refl _) hfind)
    | none =>
      have o1 := replMutate_pure a m₀ m (cohHyp_child (show a ∈ childrenOf (Expr.min a b) by simp [childrenOf]) hC)
      have o2 := replMutate_pure b m₀ _ (cohHyp_after o1 (cohHyp_child (show b ∈ childrenOf (Expr.min a b) by simp [childrenOf]) hC))
      exact repl_step_binary (fun x y => Expr.min x y) a b
        (by simp [childrenOf]) (by simp [childrenOf])
        (fun h => by simp only [pureRepl, h]) hC hfind o1 o2
  | .max a b, m₀, m, hC => by
    simp only [replMutate]
    cases hfind : replFind m (Expr.max a b) with
    | some r =>
      exact repl_step_hit (hC.1 _ r (reaches.refl _) hfind)
    | none =>
      have o1 := replMutate_pure a m₀ m (cohHyp_child (show a ∈ childrenOf (Expr.max a b) by simp [childrenOf]) hC)
      have o2 := replMutate_pure b m₀ _ (cohHyp_after o1 (cohHyp_child (show b ∈ childrenOf (Expr.max a b) by simp [childrenOf]) hC))
      exact repl_step_binary (fun x y => Expr.max x y) a b
        (by simp [childrenOf]) (by simp [childrenOf])
        (fun h => by simp only [pureRepl, h]) hC hfind o1 o2
  | .eq a b, m₀, m, hC => by
    simp only [replMutate]
    cases hfind : replFind m (Expr.eq a b) with
    | some r =>
      exact repl_step_hit (hC.1 _ r (reaches.refl _) hfind)
    | none =>
      have o1 := replMutate_pure a m₀ m (cohHyp_child (show a ∈ childrenOf (Expr.eq a b) by simp [childrenOf]) hC)
      have o2 := replMutate_pure b m₀ _ (cohHyp_after o1 (cohHyp_child (show b ∈ childrenOf (Expr.eq a b) by simp [childrenOf]) hC))
      exact repl_step_binary (fun x y => Expr.eq x y) a b
        (by simp [childrenOf]) (by simp [childrenOf])
        (fun h => by simp only [pureRepl, h]) hC hfind o1 o2
  | .ne a b, m₀, m, hC => by
    simp only [replMutate]
    cases hfind : replFind m (Expr.ne a b) with
    | some r =>
      exact repl_step_hit (hC.1 _ r (reaches.refl _) hfind)
    | none =>
      have o1 := replMutate_pure a m₀ m (cohHyp_child (show a ∈ childrenOf (Expr.ne a b) by simp [childrenOf]) hC)
      have o2 := replMutate_pure b m₀ _ (cohHyp_after o1 (cohHyp_child (show b ∈ childrenOf (Expr.ne a b) by simp [childrenOf]) hC))
      exact repl_step_binary (fun x y => Expr.ne x y) a b
        (by simp [childrenOf]) (by simp [childrenOf])
        (fun h => by simp only [pureRepl, h]) hC hfind o1 o2
  | .lt a b, m₀, m, hC => by
    simp only [replMutate]
    cases hfind : replFind m (Expr.lt a b) with
    | some r =>
      exact repl_step_hit (hC.1 _ r (reaches.refl _) hfind)
    | none =>
      have o1 := replMutate_pure a m₀ m (cohHyp_child (show a ∈ childrenOf (Expr.lt a b) by simp [childrenOf]) hC)
      have o2 := replMutate_pure b m₀ _ (cohHyp_after o1 (cohHyp_child (show b ∈ childrenOf (Expr.lt a b) by simp [childrenOf]) hC))
      exact repl_step_binary (fun x y => Expr.lt x y) a b
        (by simp [childrenOf]) (by simp [childrenOf])
        (fun h => by simp only [pureRepl, h]) hC hfind o1 o2
  | .le a b, m₀, m, hC => by
    simp only [replMutate]
    cases hfind : replFind m (Expr.le a b) with
    | some r =>
      exact repl_step_hit (hC.1 _ r (reaches.refl _) hfind)
    | none =>
      have o1 := replMutate_pure a m₀ m (cohHyp_child (show a ∈ childrenOf (Expr.le a b) by simp [childrenOf]) hC)
      have o2 := replMutate_pure b m₀ _ (cohHyp_after o1 (cohHyp_child (show b ∈ childrenOf (Expr.le a b) by simp [childrenOf]) hC))
      exact repl_step_binary (fun x y => Expr.le x y) a b
        (by simp [childrenOf]) (by simp [childrenOf])
        (fun h => by simp only [pureRepl, h]) hC hfind o1 o2
  | .gt a b, m₀, m, hC => by
    simp only [replMutate]
    cases hfind : replFind m (Expr.gt a b) with
    | some r =>
      exact repl_step_hit (hC.1 _ r (reaches.refl _) hfind)
    | none =>
      have o1 := replMutate_pure a m₀ m (cohHyp_child (show a ∈ childrenOf (Expr.gt a b) by simp [childrenOf]) hC)
      have o2 := replMutate_pure b m₀ _ (cohHyp_after o1 (cohHyp_child (show b ∈ childrenOf (Expr.gt a b) by simp [childrenOf]) hC))
      exact repl_step_binary (fun x y => Expr.gt x y) a b
        (by simp [childrenOf]) (by simp [childrenOf])
        (fun h => by simp only [pureRepl, h]) hC hfind o1 o2
  | .ge a b, m₀, m, hC => by
    simp only [replMutate]
    cases hfind : replFind m (Expr.ge a b) with
    | some r =>
      exact repl_step_hit (hC.1 _ r (reaches.refl _) hfind)
    | none =>
      have o1 := replMutate_pure a m₀ m (cohHyp_child (show a ∈ childrenOf (Expr.ge a b) by simp [childrenOf]) hC)
      have o2 := replMutate_pure b m₀ _ (cohHyp_after o1 (cohHyp_child (show b ∈ childrenOf (Expr.ge a b) by simp [childrenOf]) hC))
      exact repl_step_binary (fun x y => Expr.ge x y) a b
        (by simp [childrenOf]) (by simp [childrenOf])
        (fun h => by simp only [pureRepl, h]) hC hfind o1 o2
  | .and a b, m₀, m, hC => by
    simp only [replMutate]
    cases hfind : replFind m (Expr.and a b) with
    | some r =>
      exact repl_step_hit (hC.1 _ r (reaches.refl _) hfind)
    | none =>
      have o1 := replMutate_pure a m₀ m (cohHyp_child (show a ∈ childrenOf (Expr.and a b) by simp [childrenOf]) hC)
      have o2 := replMutate_pure b m₀ _ (cohHyp_after o1 (cohHyp_child (show b ∈ childrenOf (Expr.and a b) by simp [childrenOf]) hC))
      exact repl_step_binary (fun x y => Expr.and x y) a b
        (by simp [childrenOf]) (by simp [childrenOf])
        (fun h => by simp only [pureRepl, h]) hC hfind o1 o2
  | .or a b, m₀, m, hC => by
    simp only [replMutate]
    cases hfind : replFind m (Expr.or a b) with
    | some r =>
      exact repl_step_hit (hC.1 _ r (reaches.refl _) hfind)
    | none =>
      have o1 := replMutate_pure a m₀ m (cohHyp_child (show a ∈ childrenOf (Expr.or a b) by simp [childrenOf]) hC)
      have o2 := replMutate_pure b m₀ _ (cohHyp_after o1 (cohHyp_child (show b ∈ childrenOf (Expr.or a b) by simp [childrenOf]) hC))
      exact repl_step_binary (fun x y => Expr.or x y) a b
        (by simp [childrenOf]) (by simp [childrenOf])
        (fun h => by simp only [pureRepl, h]) hC hfind o1 o2
  | .not a, m₀, m, hC => by
    simp only [replMutate]
    cases hfind : replFind m (Expr.not a) with
    | some r =>
      exact repl_step_hit (hC.1 _ r (reaches.refl _) hfind)
    | none =>
      have o1 := replMutate_pure a m₀ m (cohHyp_child (show a ∈ childrenOf (Expr.not a) by simp [childrenOf]) hC)
      exact repl_step_unary (fun x => Expr.not x) a
        (by simp [childrenOf])
        (fun h => by simp only [pureRepl, h]) hC hfind o1
  | .select c t f, m₀, m, hC => by
    simp only [replMutate]
    cases hfind : replFind m (Expr.select c t f) with
    | some r =>
      exact repl_step_hit (hC.1 _ r (reaches.refl _) hfind)
    | none =>
      have o1 := replMutate_pure c m₀ m (cohHyp_child (show c ∈ childrenOf (Expr.select c t f) by simp [childrenOf]) hC)
      have o2 := replMutate_pure t m₀ _ (cohHyp_after o1 (cohHyp_child (show t ∈ childrenOf (Expr.select c t f) by simp [childrenOf]) hC))
      have o3 := replMutate_pure f m₀ _ (cohHyp_after o2 (cohHyp_after o1 (cohHyp_child (show f ∈ childrenOf (Expr.select c t f) by simp [childrenOf]) hC)))
      exact repl_step_ternary (fun x y z => Expr.select x y z) c t f
        (by simp [childrenOf]) (by simp [childrenOf]) (by simp [childrenOf])
        (fun h => by simp only [pureRepl, h]) hC hfind o1 o2 o3
  | .load ty bv ix pr, m₀, m, hC => by
    simp only [replMutate]
    cases hfind : replFind m (Expr.load ty bv ix pr) with
    | some r =>
      exact repl_step_hit (hC.1 _ r (reaches.refl _) hfind)
    | none =>
      have o1 := replMutate_pure ix m₀ m (cohHyp_child (show ix ∈ childrenOf (Expr.load ty bv ix pr) by simp [childrenOf]) hC)
      exact repl_step_unary (fun x => Expr.load ty bv x pr) ix
        (by simp [childrenOf])
        (fun h => by simp only [pureRepl, h]) hC hfind o1
  | .ramp b s l, m₀, m, hC => by
    simp only [replMutate]
    cases hfind : replFind m (Expr.ramp b s l) with
    | some r =>
      exact repl_step_hit (hC.1 _ r (reaches.refl _) hfind)
    | none =>
      have o1 := replMutate_pure b m₀ m (cohHyp_child (show b ∈ childrenOf (Expr.ramp b s l) by simp [childrenOf]) hC)
      have o2 := replMutate_pure s m₀ _ (cohHyp_after o1 (cohHyp_child (show s ∈ childrenOf (Expr.ramp b s l) by simp [childrenOf]) hC))
      exact repl_step_binary (fun x y => Expr.ramp x y l) b s
        (by simp [childrenOf]) (by simp [childrenOf])
        (fun h => by simp only [pureRepl, h]) hC hfind o1 o2
  | .broadcast v l, m₀, m, hC => by
    simp only [replMutate]
    cases hfind : replFind m (Expr.broadcast v l) with
    | some r =>
      exact repl_step_hit (hC.1 _ r (reaches.refl _) hfind)
    | none =>
      have o1 := replMutate_pure v m₀ m (cohHyp_child (show v ∈ childrenOf (Expr.broadcast v l) by simp [childrenOf]) hC)
      exact repl_step_unary (fun x => Expr.broadcast x l) v
        (by simp [childrenOf])
        (fun h => by simp only [pureRepl, h]) hC hfind o1
  | .call ty nm args ct fn vi, m₀, m, hC => by
    simp only [replMutate]
    cases hfind : replFind m (Expr.call ty nm args ct fn vi) with
    | some r =>
      exact repl_step_hit (hC.1 _ r (reaches.refl _) hfind)
    | none =>
      have h11 : ∀ s x, (∃ u ∈ args.toList, reaches u s) →
          replFind m s = some x → x = pureRepl m₀ s := by
        intro s x hs hf
        rcases hs with ⟨u, hu, hr⟩
        exact hC.1 s x (reaches_through (show u ∈ childrenOf (Expr.call ty nm args ct fn vi) by
          simp only [childrenOf]; simp [hu]) hr) hf
      have h21 : ∀ s, (∃ u ∈ args.toList, reaches u s) →
          replFind m s = none → replFind m₀ s = none := by
        intro s hs hf
        rcases hs with ⟨u, hu, hr⟩
        exact hC.2 s (reaches_through (show u ∈ childrenOf (Expr.call ty nm args ct fn vi) by
          simp only [childrenOf]; simp [hu]) hr) hf
      have o1 := replMutateList_pure args m₀ m h11 h21
      exact repl_step_call (fun xs => Expr.call ty nm xs ct fn vi) args
        (fun u hu => by simp only [childrenOf]; simp [hu])
        (fun h => by simp only [pureRepl, h]) hC hfind o1
  | .letE v value body, m₀, m, hC => by
    simp only [replMutate]
    cases hfind : replFind m (Expr.letE v value body) with
    | some r =>
      exact repl_step_hit (hC.1 _ r (reaches.refl _) hfind)
    | none =>
      have o1 := replMutate_pure value m₀ m (cohHyp_child (show value ∈ childrenOf (Expr.letE v value body) by simp [childrenOf]) hC)
      have o2 := replMutate_pure body m₀ _ (cohHyp_after o1 (cohHyp_child (show body ∈ childrenOf (Expr.letE v value body) by simp [childrenOf]) hC))
      exact repl_step_binary (fun x y => Expr.letE v x y) value body
        (by simp [childrenOf]) (by simp [childrenOf])
        (fun h => by simp only [pureRepl, h]) hC hfind o1 o2
  | .shuffle vs idxs, m₀, m, hC => by
    simp only [replMutate]
    cases hfind : replFind m (Expr.shuffle vs idxs) with
    | some r =>
      exact repl_step_hit (hC.1 _ r (reaches.refl _) hfind)
    | none =>
      have h11 : ∀ s x, (∃ u ∈ vs.toList, reaches u s) →
          replFind m s = some x → x = pureRepl m₀ s := by
        intro s x hs hf
        rcases hs with ⟨u, hu, hr⟩
        exact hC.1 s x (reaches_through (show u ∈ childrenOf (Expr.shuffle vs idxs) by
          simp only [childrenOf]; simp [hu]) hr) hf
      have h21 : ∀ s, (∃ u ∈ vs.toList, reaches u s) →
          replFind m s = none → replFind m₀ s = none := by
        intro s hs hf
        rcases hs with ⟨u, hu, hr⟩
        exact hC.2 s (reaches_through (show u ∈ childrenOf (Expr.shuffle vs idxs) by
          simp only [childrenOf]; simp [hu]) hr) hf
      have o1 := replMutateList_pure vs m₀ m h11 h21
      have h12 : ∀ s x, (∃ u ∈ idxs.toList, reaches u s) →
          replFind (replMutateList vs m).2 s = some x →
          x = pureRepl m₀ s := by
        intro s x hs hf
        cases hold : replFind m s with
        | some y =>
          have hm := o1.mono s y hold
          rw [hf] at hm
          injection hm with hm2
          rw [hm2]
          rcases hs with ⟨u, hu, hr⟩
          exact hC.1 s y (reaches_through (show u ∈ childrenOf (Expr.shuffle vs idxs) by
            simp only [childrenOf]; simp [hu]) hr) hold
        | none => exact (o1.new s x hf hold).2
      have h22 : ∀ s, (∃ u ∈ idxs.toList, reaches u s) →
          replFind (replMutateList vs m).2 s = none →
          replFind m₀ s = none := by
        intro s hs hf
        rcases hs with ⟨u, hu, hr⟩
        exact hC.2 s (reaches_through (show u ∈ childrenOf (Expr.shuffle vs idxs) by
          simp only [childrenOf]; simp [hu]) hr) (replListOut_none o1 hf)
      have o2 := replMutateList_pure idxs m₀ _ h12 h22
      exact repl_step_shuffle (fun xs ys => Expr.shuffle xs ys) vs idxs
        (fun u hu => by simp only [childrenOf]; simp [hu])
        (fun u hu => by simp only [childrenOf]; simp [hu])
        (fun h => by simp only [pureRepl, h]) hC hfind o1 o2

theorem replMutateList_pure : ∀ (es : ExprList) (m₀ m : ReplMap),
    (∀ s x, (∃ u ∈ es.toList, reaches u s) → replFind m s = some x →
      x = pureRepl m₀ s) →
    (∀ s, (∃ u ∈ es.toList, reaches u s) → replFind m s = none →
      replFind m₀ s = none) →
    ReplListOut m₀ es m (replMutateList es m)
  | .nil, m₀, m, h1, h2 => by
    refine ⟨rfl, fun s x h => h, ?_⟩
    intro s x h hm
    have h2x : replFind m s = some x := h
    rw [hm] at h2x
    exact Option.noConfusion h2x
  | .cons hd tl, m₀, m, h1, h2 => by
    have hChd : CohHyp m₀ m hd :=
      ⟨fun s x hs hf => h1 s x ⟨hd, by simp [ExprList.toList], hs⟩ hf,
       fun s hs hf => h2 s ⟨hd, by simp [ExprList.toList], hs⟩ hf⟩
    have o1 := replMutate_pure hd m₀ m hChd
    have h1t : ∀ s x, (∃ u ∈ tl.toList, reaches u s) →
        replFind (replMutate hd m).2 s = some x → x = pureRepl m₀ s := by
      intro s x hs hf
      cases hold : replFind m s with
      | some y =>
        have hm := o1.mono s y hold
        rw [hf] at hm
        injection hm with hm2
        rw [hm2]
        rcases hs with ⟨u, hu, hr⟩
        exact h1 s y ⟨u, by simp [ExprList.toList, hu], hr⟩ hold
      | none => exact (o1.new s x hf hold).2
    have h2t : ∀ s, (∃ u ∈ tl.toList, reaches u s) →
        replFind (replMutate hd m).2 s = none → replFind m₀ s = none := by
      intro s hs hf
      rcases hs with ⟨u, hu, hr⟩
      exact h2 s ⟨u, by simp [ExprList.toList, hu], hr⟩ (replOut_none o1 hf)
    have o2 := replMutateList_pure tl m₀ _ h1t h2t
    show ReplListOut m₀ (.cons hd tl) m
      (.cons (replMutate hd m).1 (replMutateList tl (replMutate hd m).2).1,
        (replMutateList tl (replMutate hd m).2).2)
    refine ⟨?_, ?_, ?_⟩
    · show ExprList.cons (replMutate hd m).1
        (replMutateList tl (replMutate hd m).2).1 =
        pureReplList m₀ (.cons hd tl)
      simp only [pureReplList, o1.val, o2.val]
    · exact fun s x h => o2.mono s x (o1.mono s x h)
    · intro s y hy hmiss
      cases h1f : replFind (replMutate hd m).2 s with
      | some z =>
        have hw := o2.mono s z h1f
        have hcomb : some z = some y := by
          rw [← hw]
          exact hy
        injection hcomb with hc2
        rcases o1.new s z h1f hmiss with ⟨hr, hv⟩
        exact ⟨⟨hd, by simp [ExprList.toList], hr⟩, by rw [← hc2, hv]⟩
      | none =>
        rcases o2.new s y hy h1f with ⟨⟨u, hu, hr⟩, hv⟩
        exact ⟨⟨u, by simp [ExprList.toList, hu], hr⟩, hv⟩

end


/-! ### Numbering the image of a canonical expression -/

theorem scopeGet_key {s : List (Var × Nat)} {v : Var} {n : Nat}
    (h : scopeGet s v = some n) : ∃ p ∈ s, p.1 = v ∧ p.2 = n := by
  simp only [scopeGet, Option.map_eq_some'] at h
  rcases h with ⟨p, hp, hn⟩
  have hk := List.find?_some hp
  exact ⟨p, List.mem_of_find?_eq_some hp, by simpa using hk, hn⟩

theorem envOK_valsT {m₀ : ReplMap} {st : GVNState} (h : EnvOK m₀ st) :
    ∀ p ∈ m₀, ∃ v, p.2 = Expr.var v ∧ isTFamilyName v.name_hint = true :=
  fun p hp => by
    rcases h.binds p hp with ⟨v, n, hv, ht, _, _⟩
    exact ⟨v, hv, ht⟩

theorem envOK_ext {m₀ : ReplMap} {st st' : GVNState} (h : EnvOK m₀ st)
    (hinv : GvnInv st')
    (hext : entriesExtend st.entries st'.entries)
    (hsubs : st'.let_substitutions = st.let_substitutions)
    (htf : ∀ x ∈ entryExprs st'.entries, avoidsT x) : EnvOK m₀ st' := by
  refine ⟨hinv, ?_, htf, by rw [hsubs]; exact h.subsT⟩
  intro p hp
  rcases h.binds p hp with ⟨v, n, hv, ht, hs, hc⟩
  refine ⟨v, n, hv, ht, by rw [hsubs]; exact hs, ?_⟩
  rcases scopeGet_mem hs with ⟨q, hq, hqn⟩
  have hn : n < st.entries.length := hqn ▸ h.inv.scopeOk q hq
  rw [entriesExtend_canonicalOf hext hn]
  exact hc

theorem gvnExp_roothit {m₀ : ReplMap} {st : GVNState} {u val : Expr}
    (hEnv : EnvOK m₀ st) (hfind : replFind m₀ u = some val) :
    ExpOut m₀ u st (gvnMutate val st) := by
  rcases hEnv.binds _ (replFind_mem hfind) with ⟨v, n, hv, ht, hs, hc⟩
  have hv2 : val = Expr.var v := hv
  have hc2 : canonicalOf st.entries n = u := hc
  subst hv2
  have hfn : findNumber st.entries (Expr.var v) = none := by
    cases hk : findNumber st.entries (Expr.var v) with
    | none => rfl
    | some k =>
      rcases findNumber_some hk with ⟨hklt, hkc⟩
      have hmem : Expr.var v ∈ entryExprs st.entries :=
        hkc ▸ canonicalOf_mem hklt
      have h2 := hEnv.tfree _ hmem v (by simp [varsOf])
      rw [ht] at h2
      exact Bool.noConfusion h2
  have hs2 : scopeGet st.let_substitutions v = some n := hs
  simp only [gvnMutate, hfn, hs2]
  exact ⟨hc2, hEnv, fun x hx => Or.inl hx⟩

theorem gvnExp_found {m₀ : ReplMap} {st : GVNState} {u : Expr} {k : Nat}
    (hEnv : EnvOK m₀ st) (hA : avoidsT u)
    (hfound : findNumber st.entries (pureRepl m₀ u) = some k) :
    ExpOut m₀ u st (k, st) := by
  rcases pureRepl_tvar u m₀ (envOK_valsT hEnv) with heq | ⟨w, hw, htw⟩
  · rcases findNumber_some hfound with ⟨hlt, hc⟩
    rw [heq] at hc
    exact ⟨hc, hEnv, fun x hx => Or.inl hx⟩
  · rcases findNumber_some hfound with ⟨hlt, hc⟩
    have hmem : pureRepl m₀ u ∈ entryExprs st.entries :=
      hc ▸ canonicalOf_mem hlt
    have h2 := hEnv.tfree _ hmem w hw
    rw [htw] at h2
    exact Bool.noConfusion h2

theorem gvnFinish_exp {m₀ : ReplMap} {st : GVNState} {u : Expr}
    (hEnv : EnvOK m₀ st)
    (hch : ∀ ch ∈ childrenOf u, ch ∈ entryExprs st.entries)
    (hlet : isLetE u = false) (hA : avoidsT u) :
    ExpOut m₀ u st (gvnFinish u st) := by
  rcases gvnFinish_spec hEnv.inv hch hlet with ⟨oM, hcanon⟩
  refine ⟨hcanon,
    envOK_ext hEnv oM.inv oM.ext oM.subs (gvnFinish_tfree u hEnv.tfree hA),
    ?_⟩
  intro x
  unfold gvnFinish
  cases hf : findNumber st.entries u with
  | some n => exact fun hx => Or.inl hx
  | none =>
    intro hx
    rcases (by simpa [gvnAdd, entryExprs] using hx :
        x ∈ List.map (fun en => en.expr) st.entries ∨ x = u) with h | h
    · exact Or.inl h
    · exact Or.inr (h ▸ reaches.refl u)

theorem exp_step_unary {m₀ : ReplMap} (mk : Expr → Expr)
    (hchd : ∀ x, childrenOf (mk x) = [x])
    (hlet : ∀ x, isLetE (mk x) = false)
    (a : Expr) (st : GVNState)
    (hA : avoidsT (mk a))
    (ia : ExpOut m₀ a st (gvnMutate (pureRepl m₀ a) st))
    (iaM : MutOut st (gvnMutate (pureRepl m₀ a) st)) :
    ExpOut m₀ (mk a) st
      (gvnFinish (mk (canonicalOf (gvnMutate (pureRepl m₀ a) st).2.entries
        (gvnMutate (pureRepl m₀ a) st).1))
        (gvnMutate (pureRepl m₀ a) st).2) := by
  rw [ia.canon]
  have hmema : a ∈ entryExprs (gvnMutate (pureRepl m₀ a) st).2.entries := by
    have h0 := canonicalOf_mem iaM.lt
    rw [ia.canon] at h0
    exact h0
  have hfin := gvnFinish_exp ia.env
    (by
      intro ch hch2
      rw [hchd] at hch2
      have : ch = a := by simpa using hch2
      rw [this]
      exact hmema)
    (hlet a) hA
  refine ⟨hfin.canon, hfin.env, ?_⟩
  intro x hx
  rcases hfin.newr x hx with h | h
  · rcases ia.newr x h with h2 | h2
    · exact Or.inl h2
    · exact Or.inr (reaches_through
        (show a ∈ childrenOf (mk a) by rw [hchd]; simp) h2)
  · exact Or.inr h

theorem exp_step_binary {m₀ : ReplMap} (mk : Expr → Expr → Expr)
    (hchd : ∀ x y, childrenOf (mk x y) = [x, y])
    (hlet : ∀ x y, isLetE (mk x y) = false)
    (a b : Expr) (st : GVNState)
    (hA : avoidsT (mk a b))
    (ia : ExpOut m₀ a st (gvnMutate (pureRepl m₀ a) st))
    (iaM : MutOut st (gvnMutate (pureRepl m₀ a) st))
    (ib : ExpOut m₀ b (gvnMutate (pureRepl m₀ a) st).2
      (gvnMutate (pureRepl m₀ b) (gvnMutate (pureRepl m₀ a) st).2))
    (ibM : MutOut (gvnMutate (pureRepl m₀ a) st).2
      (gvnMutate (pureRepl m₀ b) (gvnMutate (pureRepl m₀ a) st).2)) :
    ExpOut m₀ (mk a b) st
      (gvnFinish (mk
        (canonicalOf (gvnMutate (pureRepl m₀ b)
          (gvnMutate (pureRepl m₀ a) st).2).2.entries
          (gvnMutate (pureRepl m₀ a) st).1)
        (canonicalOf (gvnMutate (pureRepl m₀ b)
          (gvnMutate (pureRepl m₀ a) st).2).2.entries
          (gvnMutate (pureRepl m₀ b) (gvnMutate (pureRepl m₀ a) st).2).1))
        (gvnMutate (pureRepl m₀ b) (gvnMutate (pureRepl m₀ a) st).2).2) := by
  have hca : canonicalOf (gvnMutate (pureRepl m₀ b)
      (gvnMutate (pureRepl m₀ a) st).2).2.entries
      (gvnMutate (pureRepl m₀ a) st).1 = a := by
    rw [entriesExtend_canonicalOf ibM.ext iaM.lt]
    exact ia.canon
  rw [hca, ib.canon]
  have hmema : a ∈ entryExprs (gvnMutate (pureRepl m₀ b)
      (gvnMutate (pureRepl m₀ a) st).2).2.entries := by
    have h0 := canonicalOf_mem (lt_of_lt_of_le iaM.lt
      (entriesExtend_length ibM.ext))
    rw [hca] at h0
    exact h0
  have hmemb : b ∈ entryExprs (gvnMutate (pureRepl m₀ b)
      (gvnMutate (pureRepl m₀ a) st).2).2.entries := by
    have h0 := canonicalOf_mem ibM.lt
    rw [ib.canon] at h0
    exact h0
  have hfin := gvnFinish_exp ib.env
    (by
      intro ch hch2
      rw [hchd] at hch2
      rcases (by simpa using hch2 : ch = a ∨ ch = b) with rfl | rfl
      · exact hmema
      · exact hmemb)
    (hlet a b) hA
  refine ⟨hfin.canon, hfin.env, ?_⟩
  intro x hx
  rcases hfin.newr x hx with h | h
  · rcases ib.newr x h with h2 | h2
    · rcases ia.newr x h2 with h3 | h3
      · exact Or.inl h3
      · exact Or.inr (reaches_through
          (show a ∈ childrenOf (mk a b) by rw [hchd]; simp) h3)
    · exact Or.inr (reaches_through
        (show b ∈ childrenOf (mk a b) by rw [hchd]; simp) h2)
  · exact Or.inr h

theorem exp_step_ternary {m₀ : ReplMap} (mk : Expr → Expr → Expr → Expr)
    (hchd : ∀ x y z, childrenOf (mk x y z) = [x, y, z])
    (hlet : ∀ x y z, isLetE (mk x y z) = false)
    (a b c : Expr) (st : GVNState)
    (hA : avoidsT (mk a b c))
    (ia : ExpOut m₀ a st (gvnMutate (pureRepl m₀ a) st))
    (iaM : MutOut st (gvnMutate (pureRepl m₀ a) st))
    (ib : ExpOut m₀ b (gvnMutate (pureRepl m₀ a) st).2
      (gvnMutate (pureRepl m₀ b) (gvnMutate (pureRepl m₀ a) st).2))
    (ibM : MutOut (gvnMutate (pureRepl m₀ a) st).2
      (gvnMutate (pureRepl m₀ b) (gvnMutate (pureRepl m₀ a) st).2))
    (ic : ExpOut m₀ c
      (gvnMutate (pureRepl m₀ b) (gvnMutate (pureRepl m₀ a) st).2).2
      (gvnMutate (pureRepl m₀ c)
        (gvnMutate (pureRepl m₀ b) (gvnMutate (pureRepl m₀ a) st).2).2))
    (icM : MutOut
      (gvnMutate (pureRepl m₀ b) (gvnMutate (pureRepl m₀ a) st).2).2
      (gvnMutate (pureRepl m₀ c)
        (gvnMutate (pureRepl m₀ b) (gvnMutate (pureRepl m₀ a) st).2).2)) :
    ExpOut m₀ (mk a b c) st
      (gvnFinish (mk
        (canonicalOf (gvnMutate (pureRepl m₀ c)
          (gvnMutate (pureRepl m₀ b)
            (gvnMutate (pureRepl m₀ a) st).2).2).2.entries
          (gvnMutate (pureRepl m₀ a) st).1)
        (canonicalOf (gvnMutate (pureRepl m₀ c)
          (gvnMutate (pureRepl m₀ b)
            (gvnMutate (pureRepl m₀ a) st).2).2).2.entries
          (gvnMutate (pureRepl m₀ b) (gvnMutate (pureRepl m₀ a) st).2).1)
        (canonicalOf (gvnMutate (pureRepl m₀ c)
          (gvnMutate (pureRepl m₀ b)
            (gvnMutate (pureRepl m₀ a) st).2).2).2.entries
          (gvnMutate (pureRepl m₀ c)
            (gvnMutate (pureRepl m₀ b)
              (gvnMutate (pureRepl m₀ a) st).2).2).1))
        (gvnMutate (pureRepl m₀ c)
          (gvnMutate (pureRepl m₀ b)
            (gvnMutate (pureRepl m₀ a) st).2).2).2) := by
  have hca : canonicalOf (gvnMutate (pureRepl m₀ c)
      (gvnMutate (pureRepl m₀ b)
        (gvnMutate (pureRepl m₀ a) st).2).2).2.entries
      (gvnMutate (pureRepl m₀ a) st).1 = a := by
    rw [entriesExtend_canonicalOf icM.ext
      (lt_of_lt_of_le iaM.lt (entriesExtend_length ibM.ext)),
      entriesExtend_canonicalOf ibM.ext iaM.lt]
    exact ia.canon
  have hcb : canonicalOf (gvnMutate (pureRepl m₀ c)
      (gvnMutate (pureRepl m₀ b)
        (gvnMutate (pureRepl m₀ a) st).2).2).2.entries
      (gvnMutate (pureRepl m₀ b) (gvnMutate (pureRepl m₀ a) st).2).1 = b := by
    rw [entriesExtend_canonicalOf icM.ext ibM.lt]
    exact ib.canon
  rw [hca, hcb, ic.canon]
  have hmema : a ∈ entryExprs (gvnMutate (pureRepl m₀ c)
      (gvnMutate (pureRepl m₀ b)
        (gvnMutate (pureRepl m₀ a) st).2).2).2.entries := by
    have h0 := canonicalOf_mem (lt_of_lt_of_le iaM.lt
      (le_trans (entriesExtend_length ibM.ext)
        (entriesExtend_length icM.ext)))
    rw [hca] at h0
    exact h0
  have hmemb : b ∈ entryExprs (gvnMutate (pureRepl m₀ c)
      (gvnMutate (pureRepl m₀ b)
        (gvnMutate (pureRepl m₀ a) st).2).2).2.entries := by
    have h0 := canonicalOf_mem (lt_of_lt_of_le ibM.lt
      (entriesExtend_length icM.ext))
    rw [hcb] at h0
    exact h0
  have hmemc : c ∈ entryExprs (gvnMutate (pureRepl m₀ c)
      (gvnMutate (pureRepl m₀ b)
        (gvnMutate (pureRepl m₀ a) st).2).2).2.entries := by
    have h0 := canonicalOf_mem icM.lt
    rw [ic.canon] at h0
    exact h0
  have hfin := gvnFinish_exp ic.env
    (by
      intro ch hch2
      rw [hchd] at hch2
      rcases (by simpa using hch2 : ch = a ∨ ch = b ∨ ch = c) with
        rfl | rfl | rfl
      · exact hmema
      · exact hmemb
      · exact hmemc)
    (hlet a b c) hA
  refine ⟨hfin.canon, hfin.env, ?_⟩
  intro x hx
  rcases hfin.newr x hx with h | h
  · rcases ic.newr x h with h2 | h2
    · rcases ib.newr x h2 with h3 | h3
      · rcases ia.newr x h3 with h4 | h4
        · exact Or.inl h4
        · exact Or.inr (reaches_through
            (show a ∈ childrenOf (mk a b c) by rw [hchd]; simp) h4)
      · exact Or.inr (reaches_through
          (show b ∈ childrenOf (mk a b c) by rw [hchd]; simp) h3)
    · exact Or.inr (reaches_through
        (show c ∈ childrenOf (mk a b c) by rw [hchd]; simp) h2)
  · exact Or.inr h


mutual

/-- Numbering the image of a `Let`-free, fresh-name-avoiding canonical
expression under a faithful environment reproduces its number: the
resulting canonical form is the expression itself. -/
theorem gvnExp : ∀ (u : Expr) (m₀ : ReplMap) (st : GVNState),
    EnvOK m₀ st → noLetIn u = true → avoidsT u →
    ExpOut m₀ u st (gvnMutate (pureRepl m₀ u) st)
  | .undef, m₀, st, hEnv, hnl, hA => by
    cases hfind0 : replFind m₀ (Expr.undef) with
    | some val =>
      rw [pureRepl_hit hfind0]
      exact gvnExp_roothit hEnv hfind0
    | none =>
      have hw : pureRepl m₀ (Expr.undef) = Expr.undef := by
        simp only [pureRepl, hfind0]
      rw [hw]
      simp only [gvnMutate]
      cases hfound : findNumber st.entries (Expr.undef) with
      | some k =>
        exact gvnExp_found hEnv hA (by rw [hw]; exact hfound)
      | none =>
        exact gvnFinish_exp hEnv
          (by intro ch hch2; simp [childrenOf] at hch2) rfl hA
  | .intImm ty v, m₀, st, hEnv, hnl, hA => by
    cases hfind0 : replFind m₀ (Expr.intImm ty v) with
    | some val =>
      rw [pureRepl_hit hfind0]
      exact gvnExp_roothit hEnv hfind0
    | none =>
      have hw : pureRepl m₀ (Expr.intImm ty v) = Expr.intImm ty v := by
        simp only [pureRepl, hfind0]
      rw [hw]
      simp only [gvnMutate]
      cases hfound : findNumber st.entries (Expr.intImm ty v) with
      | some k =>
        exact gvnExp_found hEnv hA (by rw [hw]; exact hfound)
      | none =>
        exact gvnFinish_exp hEnv
          (by intro ch hch2; simp [childrenOf] at hch2) rfl hA
  | .uintImm ty v, m₀, st, hEnv, hnl, hA => by
    cases hfind0 : replFind m₀ (Expr.uintImm ty v) with
    | some val =>
      rw [pureRepl_hit hfind0]
      exact gvnExp_roothit hEnv hfind0
    | none =>
      have hw : pureRepl m₀ (Expr.uintImm ty v) = Expr.uintImm ty v := by
        simp only [pureRepl, hfind0]
      rw [hw]
      simp only [gvnMutate]
      cases hfound : findNumber st.entries (Expr.uintImm ty v) with
      | some k =>
        exact gvnExp_found hEnv hA (by rw [hw]; exact hfound)
      | none =>
        exact gvnFinish_exp hEnv
          (by intro ch hch2; simp [childrenOf] at hch2) rfl hA
  | .floatImm ty v, m₀, st, hEnv, hnl, hA => by
    cases hfind0 : replFind m₀ (Expr.floatImm ty v) with
    | some val =>
      rw [pureRepl_hit hfind0]
      exact gvnExp_roothit hEnv hfind0
    | none =>
      have hw : pureRepl m₀ (Expr.floatImm ty v) = Expr.floatImm ty v := by
        simp only [pureRepl, hfind0]
      rw [hw]
      simp only [gvnMutate]
      cases hfound : findNumber st.entries (Expr.floatImm ty v) with
      | some k =>
        exact gvnExp_found hEnv hA (by rw [hw]; exact hfound)
      | none =>
        exact gvnFinish_exp hEnv
          (by intro ch hch2; simp [childrenOf] at hch2) rfl hA
  | .stringImm v, m₀, st, hEnv, hnl, hA => by
    cases hfind0 : replFind m₀ (Expr.stringImm v) with
    | some val =>
      rw [pureRepl_hit hfind0]
      exact gvnExp_roothit hEnv hfind0
    | none =>
      have hw : pureRepl m₀ (Expr.stringImm v) = Expr.stringImm v := by
        simp only [pureRepl, hfind0]
      rw [hw]
      simp only [gvnMutate]
      cases hfound : findNumber st.entries (Expr.stringImm v) with
      | some k =>
        exact gvnExp_found hEnv hA (by rw [hw]; exact hfound)
      | none =>
        exact gvnFinish_exp hEnv
          (by intro ch hch2; simp [childrenOf] at hch2) rfl hA
  | .var v, m₀, st, hEnv, hnl, hA => by
    cases hfind0 : replFind m₀ (Expr.var v) with
    | some val =>
      rw [pureRepl_hit hfind0]
      exact gvnExp_roothit hEnv hfind0
    | none =>
      have hw : pureRepl m₀ (Expr.var v) = Expr.var v := by
        simp only [pureRepl, hfind0]
      rw [hw]
      simp only [gvnMutate]
      cases hfound : findNumber st.entries (Expr.var v) with
      | some k =>
        exact gvnExp_found hEnv hA (by rw [hw]; exact hfound)
      | none =>
        have hs : scopeGet st.let_substitutions v = none := by
          cases hg : scopeGet st.let_substitutions v with
          | none => rfl
          | some n =>
            rcases scopeGet_key hg with ⟨p, hp, hpv, hpn⟩
            have ht := hEnv.subsT p hp
            rw [hpv] at ht
            have hf2 := hA v (by simp [varsOf])
            rw [ht] at hf2
            exact Bool.noConfusion hf2
        rw [hs]
        rcases gvnAdd_spec hEnv.inv (findNumber_eq_none.mp hfound)
            (by intro ch hch2; simp [childrenOf] at hch2) rfl with ⟨oM, hcan⟩
        refine ⟨hcan, envOK_ext hEnv oM.inv oM.ext oM.subs
          (gvnAdd_tfree hEnv.tfree hA), ?_⟩
        intro x hx
        rcases (by simpa [gvnAdd, entryExprs] using hx :
            x ∈ List.map (fun en => en.expr) st.entries ∨ x = Expr.var v) with
          h | h
        · exact Or.inl h
        · exact Or.inr (by rw [h]; exact reaches.refl _)
  | .cast ty value, m₀, st, hEnv, hnl, hA => by
    cases hfind0 : replFind m₀ (Expr.cast ty value) with
    | some val =>
      rw [pureRepl_hit hfind0]
      exact gvnExp_roothit hEnv hfind0
    | none =>
      have hw : pureRepl m₀ (Expr.cast ty value) = Expr.cast ty (pureRepl m₀ value) := by
        simp only [pureRepl, hfind0]
      rw [hw]
      simp only [gvnMutate]
      cases hfound : findNumber st.entries (Expr.cast ty (pureRepl m₀ value)) with
      | some k =>
        exact gvnExp_found hEnv hA (by rw [hw]; exact hfound)
      | none =>
        have hA1 : avoidsT value := fun w hw2 => hA w (by simp [varsOf, hw2])
        have ia := gvnExp value m₀ st hEnv (by simpa [noLetIn] using hnl) hA1
        have iaM := gvnMutate_inv (pureRepl m₀ value) st hEnv.inv
        exact exp_step_unary (fun x => Expr.cast ty x) (fun x => rfl) (fun x => rfl)
          value st hA ia iaM
  | .add a b, m₀, st, hEnv, hnl, hA => by
    cases hfind0 : replFind m₀ (Expr.add a b) with
    | some val =>
      rw [pureRepl_hit hfind0]
      exact gvnExp_roothit hEnv hfind0
    | none =>
      have hw : pureRepl m₀ (Expr.add a b) = Expr.add (pureRepl m₀ a) (pureRepl m₀ b) := by
        simp only [pureRepl, hfind0]
      rw [hw]
      simp only [gvnMutate]
      cases hfound : findNumber st.entries (Expr.add (pureRepl m₀ a) (pureRepl m₀ b)) with
      | some k =>
        exact gvnExp_found hEnv hA (by rw [hw]; exact hfound)
      | none =>
        have hn2 : noLetIn a = true ∧ noLetIn b = true := by
          simpa [noLetIn, Bool.and_eq_true] using hnl
        have hA1 : avoidsT a := fun w hw2 => hA w (by simp [varsOf, hw2])
        have hA2 : avoidsT b := fun w hw2 => hA w (by simp [varsOf, hw2])
        have ia := gvnExp a m₀ st hEnv hn2.1 hA1
        have iaM := gvnMutate_inv (pureRepl m₀ a) st hEnv.inv
        have ib := gvnExp b m₀ (gvnMutate (pureRepl m₀ a) st).2
          ia.env hn2.2 hA2
        have ibM := gvnMutate_inv (pureRepl m₀ b)
          (gvnMutate (pureRepl m₀ a) st).2 iaM.inv
        exact exp_step_binary (fun x y => Expr.add x y) (fun x y => rfl) (fun x y => rfl)
          a b st hA ia iaM ib ibM
  | .sub a b, m₀, st, hEnv, hnl, hA => by
    cases hfind0 : replFind m₀ (Expr.sub a b) with
    | some val =>
      rw [pureRepl_hit hfind0]
      exact gvnExp_roothit hEnv hfind0
    | none =>
      have hw : pureRepl m₀ (Expr.sub a b) = Expr.sub (pureRepl m₀ a) (pureRepl m₀ b) := by
        simp only [pureRepl, hfind0]
      rw [hw]
      simp only [gvnMutate]
      cases hfound : findNumber st.entries (Expr.sub (pureRepl m₀ a) (pureRepl m₀ b)) with
      | some k =>
        exact gvnExp_found hEnv hA (by rw [hw]; exact hfound)
      | none =>
        have hn2 : noLetIn a = true ∧ noLetIn b = true := by
          simpa [noLetIn, Bool.and_eq_true] using hnl
        have hA1 : avoidsT a := fun w hw2 => hA w (by simp [varsOf, hw2])
        have hA2 : avoidsT b := fun w hw2 => hA w (by simp [varsOf, hw2])
        have ia := gvnExp a m₀ st hEnv hn2.1 hA1
        have iaM := gvnMutate_inv (pureRepl m₀ a) st hEnv.inv
        have ib := gvnExp b m₀ (gvnMutate (pureRepl m₀ a) st).2
          ia.env hn2.2 hA2
        have ibM := gvnMutate_inv (pureRepl m₀ b)
          (gvnMutate (pureRepl m₀ a) st).2 iaM.inv
        exact exp_step_binary (fun x y => Expr.sub x y) (fun x y => rfl) (fun x y => rfl)
          a b st hA ia iaM ib ibM
  | .mul a b, m₀, st, hEnv, hnl, hA => by
    cases hfind0 : replFind m₀ (Expr.mul a b) with
    | some val =>
      rw [pureRepl_hit hfind0]
      exact gvnExp_roothit hEnv hfind0
    | none =>
      have hw : pureRepl m₀ (Expr.mul a b) = Expr.mul (pureRepl m₀ a) (pureRepl m₀ b) := by
        simp only [pureRepl, hfind0]
      rw [hw]
      simp only [gvnMutate]
      cases hfound : findNumber st.entries (Expr.mul (pureRepl m₀ a) (pureRepl m₀ b)) with
      | some k =>
        exact gvnExp_found hEnv hA (by rw [hw]; exact hfound)
      | none =>
        have hn2 : noLetIn a = true ∧ noLetIn b = true := by
          simpa [noLetIn, Bool.and_eq_true] using hnl
        have hA1 : avoidsT a := fun w hw2 => hA w (by simp [varsOf, hw2])
        have hA2 : avoidsT b := fun w hw2 => hA w (by simp [varsOf, hw2])
        have ia := gvnExp a m₀ st hEnv hn2.1 hA1
        have iaM := gvnMutate_inv (pureRepl m₀ a) st hEnv.inv
        have ib := gvnExp b m₀ (gvnMutate (pureRepl m₀ a) st).2
          ia.env hn2.2 hA2
        have ibM := gvnMutate_inv (pureRepl m₀ b)
          (gvnMutate (pureRepl m₀ a) st).2 iaM.inv
        exact exp_step_binary (fun x y => Expr.mul x y) (fun x y => rfl) (fun x y => rfl)
          a b st hA ia iaM ib ibM
  | .div a b, m₀, st, hEnv, hnl, hA => by
    cases hfind0 : replFind m₀ (Expr.div a b) with
    | some val =>
      rw [pureRepl_hit hfind0]
      exact gvnExp_roothit hEnv hfind0
    | none =>
      have hw : pureRepl m₀ (Expr.div a b) = Expr.div (pureRepl m₀ a) (pureRepl m₀ b) := by
        simp only [pureRepl, hfind0]
      rw [hw]
      simp only [gvnMutate]
      cases hfound : findNumber st.entries (Expr.div (pureRepl m₀ a) (pureRepl m₀ b)) with
      | some k =>
        exact gvnExp_found hEnv hA (by rw [hw]; exact hfound)
      | none =>
        have hn2 : noLetIn a = true ∧ noLetIn b = true := by
          simpa [noLetIn, Bool.and_eq_true] using hnl
        have hA1 : avoidsT a := fun w hw2 => hA w (by simp [varsOf, hw2])
        have hA2 : avoidsT b := fun w hw2 => hA w (by simp [varsOf, hw2])
        have ia := gvnExp a m₀ st hEnv hn2.1 hA1
        have iaM := gvnMutate_inv (pureRepl m₀ a) st hEnv.inv
        have ib := gvnExp b m₀ (gvnMutate (pureRepl m₀ a) st).2
          ia.env hn2.2 hA2
        have ibM := gvnMutate_inv (pureRepl m₀ b)
          (gvnMutate (pureRepl m₀ a) st).2 iaM.inv
        exact exp_step_binary (fun x y => Expr.div x y) (fun x y => rfl) (fun x y => rfl)
          a b st hA ia iaM ib ibM
  | .mod a b, m₀, st, hEnv, hnl, hA => by
    cases hfind0 : replFind m₀ (Expr.mod a b) with
    | some val =>
      rw [pureRepl_hit hfind0]
      exact gvnExp_roothit hEnv hfind0
    | none =>
      have hw : pureRepl m₀ (Expr.mod a b) = Expr.mod (pureRepl m₀ a) (pureRepl m₀ b) := by
        simp only [pureRepl, hfind0]
      rw [hw]
      simp only [gvnMutate]
      cases hfound : findNumber st.entries (Expr.mod (pureRepl m₀ a) (pureRepl m₀ b)) with
      | some k =>
        exact gvnExp_found hEnv hA (by rw [hw]; exact hfound)
      | none =>
        have hn2 : noLetIn a = true ∧ noLetIn b = true := by
          simpa [noLetIn, Bool.and_eq_true] using hnl
        have hA1 : avoidsT a := fun w hw2 => hA w (by simp [varsOf, hw2])
        have hA2 : avoidsT b := fun w hw2 => hA w (by simp [varsOf, hw2])
        have ia := gvnExp a m₀ st hEnv hn2.1 hA1
        have iaM := gvnMutate_inv (pureRepl m₀ a) st hEnv.inv
        have ib := gvnExp b m₀ (gvnMutate (pureRepl m₀ a) st).2
          ia.env hn2.2 hA2
        have ibM := gvnMutate_inv (pureRepl m₀ b)
          (gvnMutate (pureRepl m₀ a) st).2 iaM.inv
        exact exp_step_binary (fun x y => Expr.mod x y) (fun x y => rfl) (fun x y => rfl)
          a b st hA ia iaM ib ibM
  | .min a b, m₀, st, hEnv, hnl, hA => by
    cases hfind0 : replFind m₀ (Expr.min a b) with
    | some val =>
      rw [pureRepl_hit hfind0]
      exact gvnExp_roothit hEnv hfind0
    | none =>
      have hw : pureRepl m₀ (Expr.min a b) = Expr.min (pureRepl m₀ a) (pureRepl m₀ b) := by
        simp only [pureRepl, hfind0]
      rw [hw]
      simp only [gvnMutate]
      cases hfound : findNumber st.entries (Expr.min (pureRepl m₀ a) (pureRepl m₀ b)) with
      | some k =>
        exact gvnExp_found hEnv hA (by rw [hw]; exact hfound)
      | none =>
        have hn2 : noLetIn a = true ∧ noLetIn b = true := by
          simpa [noLetIn, Bool.and_eq_true] using hnl
        have hA1 : avoidsT a := fun w hw2 => hA w (by simp [varsOf, hw2])
        have hA2 : avoidsT b := fun w hw2 => hA w (by simp [varsOf, hw2])
        have ia := gvnExp a m₀ st hEnv hn2.1 hA1
        have iaM := gvnMutate_inv (pureRepl m₀ a) st hEnv.inv
        have ib := gvnExp b m₀ (gvnMutate (pureRepl m₀ a) st).2
          ia.env hn2.2 hA2
        have ibM := gvnMutate_inv (pureRepl m₀ b)
          (gvnMutate (pureRepl m₀ a) st).2 iaM.inv
        exact exp_step_binary (fun x y => Expr.min x y) (fun x y => rfl) (fun x y => rfl)
          a b st hA ia iaM ib ibM
  | .max a b, m₀, st, hEnv, hnl, hA => by
    cases hfind0 : replFind m₀ (Expr.max a b) with
    | some val =>
      rw [pureRepl_hit hfind0]
      exact gvnExp_roothit hEnv hfind0
    | none =>
      have hw : pureRepl m₀ (Expr.max a b) = Expr.max (pureRepl m₀ a) (pureRepl m₀ b) := by
        simp only [pureRepl, hfind0]
      rw [hw]
      simp only [gvnMutate]
      cases hfound : findNumber st.entries (Expr.max (pureRepl m₀ a) (pureRepl m₀ b)) with
      | some k =>
        exact gvnExp_found hEnv hA (by rw [hw]; exact hfound)
      | none =>
        have hn2 : noLetIn a = true ∧ noLetIn b = true := by
          simpa [noLetIn, Bool.and_eq_true] using hnl
        have hA1 : avoidsT a := fun w hw2 => hA w (by simp [varsOf, hw2])
        have hA2 : avoidsT b := fun w hw2 => hA w (by simp [varsOf, hw2])
        have ia := gvnExp a m₀ st hEnv hn2.1 hA1
        have iaM := gvnMutate_inv (pureRepl m₀ a) st hEnv.inv
        have ib := gvnExp b m₀ (gvnMutate (pureRepl m₀ a) st).2
          ia.env hn2.2 hA2
        have ibM := gvnMutate_inv (pureRepl m₀ b)
          (gvnMutate (pureRepl m₀ a) st).2 iaM.inv
        exact exp_step_binary (fun x y => Expr.max x y) (fun x y => rfl) (fun x y => rfl)
          a b st hA ia iaM ib ibM
  | .eq a b, m₀, st, hEnv, hnl, hA => by
    cases hfind0 : replFind m₀ (Expr.eq a b) with
    | some val =>
      rw [pureRepl_hit hfind0]
      exact gvnExp_roothit hEnv hfind0
    | none =>
      have hw : pureRepl m₀ (Expr.eq a b) = Expr.eq (pureRepl m₀ a) (pureRepl m₀ b) := by
        simp only [pureRepl, hfind0]
      rw [hw]
      simp only [gvnMutate]
      cases hfound : findNumber st.entries (Expr.eq (pureRepl m₀ a) (pureRepl m₀ b)) with
      | some k =>
        exact gvnExp_found hEnv hA (by rw [hw]; exact hfound)
      | none =>
        have hn2 : noLetIn a = true ∧ noLetIn b = true := by
          simpa [noLetIn, Bool.and_eq_true] using hnl
        have hA1 : avoidsT a := fun w hw2 => hA w (by simp [varsOf, hw2])
        have hA2 : avoidsT b := fun w hw2 => hA w (by simp [varsOf, hw2])
        have ia := gvnExp a m₀ st hEnv hn2.1 hA1
        have iaM := gvnMutate_inv (pureRepl m₀ a) st hEnv.inv
        have ib := gvnExp b m₀ (gvnMutate (pureRepl m₀ a) st).2
          ia.env hn2.2 hA2
        have ibM := gvnMutate_inv (pureRepl m₀ b)
          (gvnMutate (pureRepl m₀ a) st).2 iaM.inv
        exact exp_step_binary (fun x y => Expr.eq x y) (fun x y => rfl) (fun x y => rfl)
          a b st hA ia iaM ib ibM
  | .ne a b, m₀, st, hEnv, hnl, hA => by
    cases hfind0 : replFind m₀ (Expr.ne a b) with
    | some val =>
      rw [pureRepl_hit hfind0]
      exact gvnExp_roothit hEnv hfind0
    | none =>
      have hw : pureRepl m₀ (Expr.ne a b) = Expr.ne (pureRepl m₀ a) (pureRepl m₀ b) := by
        simp only [pureRepl, hfind0]
      rw [hw]
      simp only [gvnMutate]
      cases hfound : findNumber st.entries (Expr.ne (pureRepl m₀ a) (pureRepl m₀ b)) with
      | some k =>
        exact gvnExp_found hEnv hA (by rw [hw]; exact hfound)
      | none =>
        have hn2 : noLetIn a = true ∧ noLetIn b = true := by
          simpa [noLetIn, Bool.and_eq_true] using hnl
        have hA1 : avoidsT a := fun w hw2 => hA w (by simp [varsOf, hw2])
        have hA2 : avoidsT b := fun w hw2 => hA w (by simp [varsOf, hw2])
        have ia := gvnExp a m₀ st hEnv hn2.1 hA1
        have iaM := gvnMutate_inv (pureRepl m₀ a) st hEnv.inv
        have ib := gvnExp b m₀ (gvnMutate (pureRepl m₀ a) st).2
          ia.env hn2.2 hA2
        have ibM := gvnMutate_inv (pureRepl m₀ b)
          (gvnMutate (pureRepl m₀ a) st).2 iaM.inv
        exact exp_step_binary (fun x y => Expr.ne x y) (fun x y => rfl) (fun x y => rfl)
          a b st hA ia iaM ib ibM
  | .lt a b, m₀, st, hEnv, hnl, hA => by
    cases hfind0 : replFind m₀ (Expr.lt a b) with
    | some val =>
      rw [pureRepl_hit hfind0]
      exact gvnExp_roothit hEnv hfind0
    | none =>
      have hw : pureRepl m₀ (Expr.lt a b) = Expr.lt (pureRepl m₀ a) (pureRepl m₀ b) := by
        simp only [pureRepl, hfind0]
      rw [hw]
      simp only [gvnMutate]
      cases hfound : findNumber st.entries (Expr.lt (pureRepl m₀ a) (pureRepl m₀ b)) with
      | some k =>
        exact gvnExp_found hEnv hA (by rw [hw]; exact hfound)
      | none =>
        have hn2 : noLetIn a = true ∧ noLetIn b = true := by
          simpa [noLetIn, Bool.and_eq_true] using hnl
        have hA1 : avoidsT a := fun w hw2 => hA w (by simp [varsOf, hw2])
        have hA2 : avoidsT b := fun w hw2 => hA w (by simp [varsOf, hw2])
        have ia := gvnExp a m₀ st hEnv hn2.1 hA1
        have iaM := gvnMutate_inv (pureRepl m₀ a) st hEnv.inv
        have ib := gvnExp b m₀ (gvnMutate (pureRepl m₀ a) st).2
          ia.env hn2.2 hA2
        have ibM := gvnMutate_inv (pureRepl m₀ b)
          (gvnMutate (pureRepl m₀ a) st).2 iaM.inv
        exact exp_step_binary (fun x y => Expr.lt x y) (fun x y => rfl) (fun x y => rfl)
          a b st hA ia iaM ib ibM
  | .le a b, m₀, st, hEnv, hnl, hA => by
    cases hfind0 : replFind m₀ (Expr.le a b) with
    | some val =>
      rw [pureRepl_hit hfind0]
      exact gvnExp_roothit hEnv hfind0
    | none =>
      have hw : pureRepl m₀ (Expr.le a b) = Expr.le (pureRepl m₀ a) (pureRepl m₀ b) := by
        simp only [pureRepl, hfind0]
      rw [hw]
      simp only [gvnMutate]
      cases hfound : findNumber st.entries (Expr.le (pureRepl m₀ a) (pureRepl m₀ b)) with
      | some k =>
        exact gvnExp_found hEnv hA (by rw [hw]; exact hfound)
      | none =>
        have hn2 : noLetIn a = true ∧ noLetIn b = true := by
          simpa [noLetIn, Bool.and_eq_true] using hnl
        have hA1 : avoidsT a := fun w hw2 => hA w (by simp [varsOf, hw2])
        have hA2 : avoidsT b := fun w hw2 => hA w (by simp [varsOf, hw2])
        have ia := gvnExp a m₀ st hEnv hn2.1 hA1
        have iaM := gvnMutate_inv (pureRepl m₀ a) st hEnv.inv
        have ib := gvnExp b m₀ (gvnMutate (pureRepl m₀ a) st).2
          ia.env hn2.2 hA2
        have ibM := gvnMutate_inv (pureRepl m₀ b)
          (gvnMutate (pureRepl m₀ a) st).2 iaM.inv
        exact exp_step_binary (fun x y => Expr.le x y) (fun x y => rfl) (fun x y => rfl)
          a b st hA ia iaM ib ibM
  | .gt a b, m₀, st, hEnv, hnl, hA => by
    cases hfind0 : replFind m₀ (Expr.gt a b) with
    | some val =>
      rw [pureRepl_hit hfind0]
      exact gvnExp_roothit hEnv hfind0
    | none =>
      have hw : pureRepl m₀ (Expr.gt a b) = Expr.gt (pureRepl m₀ a) (pureRepl m₀ b) := by
        simp only [pureRepl, hfind0]
      rw [hw]
      simp only [gvnMutate]
      cases hfound : findNumber st.entries (Expr.gt (pureRepl m₀ a) (pureRepl m₀ b)) with
      | some k =>
        exact gvnExp_found hEnv hA (by rw [hw]; exact hfound)
      | none =>
        have hn2 : noLetIn a = true ∧ noLetIn b = true := by
          simpa [noLetIn, Bool.and_eq_true] using hnl
        have hA1 : avoidsT a := fun w hw2 => hA w (by simp [varsOf, hw2])
        have hA2 : avoidsT b := fun w hw2 => hA w (by simp [varsOf, hw2])
        have ia := gvnExp a m₀ st hEnv hn2.1 hA1
        have iaM := gvnMutate_inv (pureRepl m₀ a) st hEnv.inv
        have ib := gvnExp b m₀ (gvnMutate (pureRepl m₀ a) st).2
          ia.env hn2.2 hA2
        have ibM := gvnMutate_inv (pureRepl m₀ b)
          (gvnMutate (pureRepl m₀ a) st).2 iaM.inv
        exact exp_step_binary (fun x y => Expr.gt x y) (fun x y => rfl) (fun x y => rfl)
          a b st hA ia iaM ib ibM
  | .ge a b, m₀, st, hEnv, hnl, hA => by
    cases hfind0 : replFind m₀ (Expr.ge a b) with
    | some val =>
      rw [pureRepl_hit hfind0]
      exact gvnExp_roothit hEnv hfind0
    | none =>
      have hw : pureRepl m₀ (Expr.ge a b) = Expr.ge (pureRepl m₀ a) (pureRepl m₀ b) := by
        simp only [pureRepl, hfind0]
      rw [hw]
      simp only [gvnMutate]
      cases hfound : findNumber st.entries (Expr.ge (pureRepl m₀ a) (pureRepl m₀ b)) with
      | some k =>
        exact gvnExp_found hEnv hA (by rw [hw]; exact hfound)
      | none =>
        have hn2 : noLetIn a = true ∧ noLetIn b = true := by
          simpa [noLetIn, Bool.and_eq_true] using hnl
        have hA1 : avoidsT a := fun w hw2 => hA w (by simp [varsOf, hw2])
        have hA2 : avoidsT b := fun w hw2 => hA w (by simp [varsOf, hw2])
        have ia := gvnExp a m₀ st hEnv hn2.1 hA1
        have iaM := gvnMutate_inv (pureRepl m₀ a) st hEnv.inv
        have ib := gvnExp b m₀ (gvnMutate (pureRepl m₀ a) st).2
          ia.env hn2.2 hA2
        have ibM := gvnMutate_inv (pureRepl m₀ b)
          (gvnMutate (pureRepl m₀ a) st).2 iaM.inv
        exact exp_step_binary (fun x y => Expr.ge x y) (fun x y => rfl) (fun x y => rfl)
          a b st hA ia iaM ib ibM
  | .and a b, m₀, st, hEnv, hnl, hA => by
    cases hfind0 : replFind m₀ (Expr.and a b) with
    | some val =>
      rw [pureRepl_hit hfind0]
      exact gvnExp_roothit hEnv hfind0
    | none =>
      have hw : pureRepl m₀ (Expr.and a b) = Expr.and (pureRepl m₀ a) (pureRepl m₀ b) := by
        simp only [pureRepl, hfind0]
      rw [hw]
      simp only [gvnMutate]
      cases hfound : findNumber st.entries (Expr.and (pureRepl m₀ a) (pureRepl m₀ b)) with
      | some k =>
        exact gvnExp_found hEnv hA (by rw [hw]; exact hfound)
      | none =>
        have hn2 : noLetIn a = true ∧ noLetIn b = true := by
          simpa [noLetIn, Bool.and_eq_true] using hnl
        have hA1 : avoidsT a := fun w hw2 => hA w (by simp [varsOf, hw2])
        have hA2 : avoidsT b := fun w hw2 => hA w (by simp [varsOf, hw2])
        have ia := gvnExp a m₀ st hEnv hn2.1 hA1
        have iaM := gvnMutate_inv (pureRepl m₀ a) st hEnv.inv
        have ib := gvnExp b m₀ (gvnMutate (pureRepl m₀ a) st).2
          ia.env hn2.2 hA2
        have ibM := gvnMutate_inv (pureRepl m₀ b)
          (gvnMutate (pureRepl m₀ a) st).2 iaM.inv
        exact exp_step_binary (fun x y => Expr.and x y) (fun x y => rfl) (fun x y => rfl)
          a b st hA ia iaM ib ibM
  | .or a b, m₀, st, hEnv, hnl, hA => by
    cases hfind0 : replFind m₀ (Expr.or a b) with
    | some val =>
      rw [pureRepl_hit hfind0]
      exact gvnExp_roothit hEnv hfind0
    | none =>
      have hw : pureRepl m₀ (Expr.or a b) = Expr.or (pureRepl m₀ a) (pureRepl m₀ b) := by
        simp only [pureRepl, hfind0]
      rw [hw]
      simp only [gvnMutate]
      cases hfound : findNumber st.entries (Expr.or (pureRepl m₀ a) (pureRepl m₀ b)) with
      | some k =>
        exact gvnExp_found hEnv hA (by rw [hw]; exact hfound)
      | none =>
        have hn2 : noLetIn a = true ∧ noLetIn b = true := by
          simpa [noLetIn, Bool.and_eq_true] using hnl
        have hA1 : avoidsT a := fun w hw2 => hA w (by simp [varsOf, hw2])
        have hA2 : avoidsT b := fun w hw2 => hA w (by simp [varsOf, hw2])
        have ia := gvnExp a m₀ st hEnv hn2.1 hA1
        have iaM := gvnMutate_inv (pureRepl m₀ a) st hEnv.inv
        have ib := gvnExp b m₀ (gvnMutate (pureRepl m₀ a) st).2
          ia.env hn2.2 hA2
        have ibM := gvnMutate_inv (pureRepl m₀ b)
          (gvnMutate (pureRepl m₀ a) st).2 iaM.inv
        exact exp_step_binary (fun x y => Expr.or x y) (fun x y => rfl) (fun x y => rfl)
          a b st hA ia iaM ib ibM
  | .not a, m₀, st, hEnv, hnl, hA => by
    cases hfind0 : replFind m₀ (Expr.not a) with
    | some val =>
      rw [pureRepl_hit hfind0]
      exact gvnExp_roothit hEnv hfind0
    | none =>
      have hw : pureRepl m₀ (Expr.not a) = Expr.not (pureRepl m₀ a) := by
        simp only [pureRepl, hfind0]
      rw [hw]
      simp only [gvnMutate]
      cases hfound : findNumber st.entries (Expr.not (pureRepl m₀ a)) with
      | some k =>
        exact gvnExp_found hEnv hA (by rw [hw]; exact hfound)
      | none =>
        have hA1 : avoidsT a := fun w hw2 => hA w (by simp [varsOf, hw2])
        have ia := gvnExp a m₀ st hEnv (by simpa [noLetIn] using hnl) hA1
        have iaM := gvnMutate_inv (pureRepl m₀ a) st hEnv.inv
        exact exp_step_unary (fun x => Expr.not x) (fun x => rfl) (fun x => rfl)
          a st hA ia iaM
  | .select c t f, m₀, st, hEnv, hnl, hA => by
    cases hfind0 : replFind m₀ (Expr.select c t f) with
    | some val =>
      rw [pureRepl_hit hfind0]
      exact gvnExp_roothit hEnv hfind0
    | none =>
      have hw : pureRepl m₀ (Expr.select c t f) = Expr.select (pureRepl m₀ c) (pureRepl m₀ t) (pureRepl m₀ f) := by
        simp only [pureRepl, hfind0]
      rw [hw]
      simp only [gvnMutate]
      cases hfound : findNumber st.entries (Expr.select (pureRepl m₀ c) (pureRepl m₀ t) (pureRepl m₀ f)) with
      | some k =>
        exact gvnExp_found hEnv hA (by rw [hw]; exact hfound)
      | none =>
        have hn2 : (noLetIn c = true ∧ noLetIn t = true) ∧
            noLetIn f = true := by
          simpa [noLetIn, Bool.and_eq_true, and_assoc] using
            (by simpa [noLetIn, Bool.and_eq_true] using hnl :
              (noLetIn c = true ∧ noLetIn t = true) ∧ noLetIn f = true)
        have hA1 : avoidsT c := fun w hw2 => hA w (by simp [varsOf, hw2])
        have hA2 : avoidsT t := fun w hw2 => hA w (by simp [varsOf, hw2])
        have hA3 : avoidsT f := fun w hw2 => hA w (by simp [varsOf, hw2])
        have ia := gvnExp c m₀ st hEnv hn2.1.1 hA1
        have iaM := gvnMutate_inv (pureRepl m₀ c) st hEnv.inv
        have ib := gvnExp t m₀ (gvnMutate (pureRepl m₀ c) st).2
          ia.env hn2.1.2 hA2
        have ibM := gvnMutate_inv (pureRepl m₀ t)
          (gvnMutate (pureRepl m₀ c) st).2 iaM.inv
        have ic := gvnExp f m₀
          (gvnMutate (pureRepl m₀ t) (gvnMutate (pureRepl m₀ c) st).2).2
          ib.env hn2.2 hA3
        have icM := gvnMutate_inv (pureRepl m₀ f)
          (gvnMutate (pureRepl m₀ t) (gvnMutate (pureRepl m₀ c) st).2).2
          ibM.inv
        exact exp_step_ternary (fun x y z => Expr.select x y z) (fun x y z => rfl) (fun x y z => rfl)
          c t f st hA ia iaM ib ibM ic icM
  | .load ty bv ix pr, m₀, st, hEnv, hnl, hA => by
    cases hfind0 : replFind m₀ (Expr.load ty bv ix pr) with
    | some val =>
      rw [pureRepl_hit hfind0]
      exact gvnExp_roothit hEnv hfind0
    | none =>
      have hw : pureRepl m₀ (Expr.load ty bv ix pr) = Expr.load ty bv (pureRepl m₀ ix) pr := by
        simp only [pureRepl, hfind0]
      rw [hw]
      simp only [gvnMutate]
      cases hfound : findNumber st.entries (Expr.load ty bv (pureRepl m₀ ix) pr) with
      | some k =>
        exact gvnExp_found hEnv hA (by rw [hw]; exact hfound)
      | none =>
        have hA1 : avoidsT ix := fun w hw2 => hA w (by simp [varsOf, hw2])
        have ia := gvnExp ix m₀ st hEnv (by simpa [noLetIn] using hnl) hA1
        have iaM := gvnMutate_inv (pureRepl m₀ ix) st hEnv.inv
        exact exp_step_unary (fun x => Expr.load ty bv x pr) (fun x => rfl) (fun x => rfl)
          ix st hA ia iaM
  | .ramp b s l, m₀, st, hEnv, hnl, hA => by
    cases hfind0 : replFind m₀ (Expr.ramp b s l) with
    | some val =>
      rw [pureRepl_hit hfind0]
      exact gvnExp_roothit hEnv hfind0
    | none =>
      have hw : pureRepl m₀ (Expr.ramp b s l) = Expr.ramp (pureRepl m₀ b) (pureRepl m₀ s) l := by
        simp only [pureRepl, hfind0]
      rw [hw]
      simp only [gvnMutate]
      cases hfound : findNumber st.entries (Expr.ramp (pureRepl m₀ b) (pureRepl m₀ s) l) with
      | some k =>
        exact gvnExp_found hEnv hA (by rw [hw]; exact hfound)
      | none =>
        have hn2 : noLetIn b = true ∧ noLetIn s = true := by
          simpa [noLetIn, Bool.and_eq_true] using hnl
        have hA1 : avoidsT b := fun w hw2 => hA w (by simp [varsOf, hw2])
        have hA2 : avoidsT s := fun w hw2 => hA w (by simp [varsOf, hw2])
        have ia := gvnExp b m₀ st hEnv hn2.1 hA1
        have iaM := gvnMutate_inv (pureRepl m₀ b) st hEnv.inv
        have ib := gvnExp s m₀ (gvnMutate (pureRepl m₀ b) st).2
          ia.env hn2.2 hA2
        have ibM := gvnMutate_inv (pureRepl m₀ s)
          (gvnMutate (pureRepl m₀ b) st).2 iaM.inv
        exact exp_step_binary (fun x y => Expr.ramp x y l) (fun x y => rfl) (fun x y => rfl)
          b s st hA ia iaM ib ibM
  | .broadcast v l, m₀, st, hEnv, hnl, hA => by
    cases hfind0 : replFind m₀ (Expr.broadcast v l) with
    | some val =>
      rw [pureRepl_hit hfind0]
      exact gvnExp_roothit hEnv hfind0
    | none =>
      have hw : pureRepl m₀ (Expr.broadcast v l) = Expr.broadcast (pureRepl m₀ v) l := by
        simp only [pureRepl, hfind0]
      rw [hw]
      simp only [gvnMutate]
      cases hfound : findNumber st.entries (Expr.broadcast (pureRepl m₀ v) l) with
      | some k =>
        exact gvnExp_found hEnv hA (by rw [hw]; exact hfound)
      | none =>
        have hA1 : avoidsT v := fun w hw2 => hA w (by simp [varsOf, hw2])
        have ia := gvnExp v m₀ st hEnv (by simpa [noLetIn] using hnl) hA1
        have iaM := gvnMutate_inv (pureRepl m₀ v) st hEnv.inv
        exact exp_step_unary (fun x => Expr.broadcast x l) (fun x => rfl) (fun x => rfl)
          v st hA ia iaM
  | .call ty nm args ct fn vi, m₀, st, hEnv, hnl, hA => by
    cases hfind0 : replFind m₀ (Expr.call ty nm args ct fn vi) with
    | some val =>
      rw [pureRepl_hit hfind0]
      exact gvnExp_roothit hEnv hfind0
    | none =>
      have hw : pureRepl m₀ (Expr.call ty nm args ct fn vi) = Expr.call ty nm (pureReplList m₀ args) ct fn vi := by
        simp only [pureRepl, hfind0]
      rw [hw]
      simp only [gvnMutate]
      cases hfound : findNumber st.entries (Expr.call ty nm (pureReplList m₀ args) ct fn vi) with
      | some k =>
        exact gvnExp_found hEnv hA (by rw [hw]; exact hfound)
      | none =>
        have hA1 : ∀ x ∈ args.toList, avoidsT x := by
          intro x hx w hw2
          exact hA w (by
            simp only [varsOf, varsOfList_mem]
            exact ⟨x, hx, hw2⟩)
        have il := gvnExpList args m₀ st hEnv (by simpa [noLetIn] using hnl) hA1
        have ilM := gvnMutateList_inv (pureReplList m₀ args) st hEnv.inv
        rw [show (gvnMutateList (pureReplList m₀ args) st).1 = args from
          il.vals]
        have hfin := gvnFinish_exp il.env
          (by
            intro ch hch2
            have hch3 : ch ∈ args.toList := by simpa [childrenOf] using hch2
            refine ilM.mem ch ?_
            rw [il.vals]
            exact hch3)
          (show isLetE (Expr.call ty nm args ct fn vi) = false from rfl) hA
        refine ⟨hfin.canon, hfin.env, ?_⟩
        intro x hx
        rcases hfin.newr x hx with h | h
        · rcases il.newr x h with h2 | ⟨u, hu, h2⟩
          · exact Or.inl h2
          · exact Or.inr (reaches_through
              (show u ∈ childrenOf (Expr.call ty nm args ct fn vi) by simp [childrenOf, hu]) h2)
        · exact Or.inr h
  | .letE v value body, m₀, st, hEnv, hnl, hA => by
    simp [noLetIn] at hnl
  | .shuffle vs idxs, m₀, st, hEnv, hnl, hA => by
    cases hfind0 : replFind m₀ (Expr.shuffle vs idxs) with
    | some val =>
      rw [pureRepl_hit hfind0]
      exact gvnExp_roothit hEnv hfind0
    | none =>
      have hw : pureRepl m₀ (Expr.shuffle vs idxs) = Expr.shuffle (pureReplList m₀ vs) (pureReplList m₀ idxs) := by
        simp only [pureRepl, hfind0]
      rw [hw]
      simp only [gvnMutate]
      cases hfound : findNumber st.entries (Expr.shuffle (pureReplList m₀ vs) (pureReplList m₀ idxs)) with
      | some k =>
        exact gvnExp_found hEnv hA (by rw [hw]; exact hfound)
      | none =>
        have hn2 : noLetInList vs = true ∧ noLetInList idxs = true := by
          simpa [noLetIn, Bool.and_eq_true] using hnl
        have hA1 : ∀ x ∈ vs.toList, avoidsT x := by
          intro x hx w hw2
          exact hA w (by
            simp only [varsOf, List.mem_append, varsOfList_mem]
            exact Or.inl ⟨x, hx, hw2⟩)
        have hA2 : ∀ x ∈ idxs.toList, avoidsT x := by
          intro x hx w hw2
          exact hA w (by
            simp only [varsOf, List.mem_append, varsOfList_mem]
            exact Or.inr ⟨x, hx, hw2⟩)
        have il1 := gvnExpList vs m₀ st hEnv hn2.1 hA1
        have il1M := gvnMutateList_inv (pureReplList m₀ vs) st hEnv.inv
        have il2 := gvnExpList idxs m₀ (gvnMutateList (pureReplList m₀ vs) st).2
          il1.env hn2.2 hA2
        have il2M := gvnMutateList_inv (pureReplList m₀ idxs)
          (gvnMutateList (pureReplList m₀ vs) st).2 il1M.inv
        rw [show (gvnMutateList (pureReplList m₀ vs) st).1 = vs from il1.vals,
          show (gvnMutateList (pureReplList m₀ idxs)
            (gvnMutateList (pureReplList m₀ vs) st).2).1 = idxs from il2.vals]
        have hfin := gvnFinish_exp il2.env
          (by
            intro ch hch2
            rcases (by simpa [childrenOf] using hch2 :
                ch ∈ vs.toList ∨ ch ∈ idxs.toList) with h | h
            · refine entriesExtend_mem il2M.ext (il1M.mem ch ?_)
              rw [il1.vals]
              exact h
            · refine il2M.mem ch ?_
              rw [il2.vals]
              exact h)
          (show isLetE (Expr.shuffle vs idxs) = false from rfl) hA
        refine ⟨hfin.canon, hfin.env, ?_⟩
        intro x hx
        rcases hfin.newr x hx with h | h
        · rcases il2.newr x h with h2 | ⟨u, hu, h2⟩
          · rcases il1.newr x h2 with h3 | ⟨u, hu, h3⟩
            · exact Or.inl h3
            · exact Or.inr (reaches_through
                (show u ∈ childrenOf (Expr.shuffle vs idxs) by simp [childrenOf, hu]) h3)
          · exact Or.inr (reaches_through
              (show u ∈ childrenOf (Expr.shuffle vs idxs) by simp [childrenOf, hu]) h2)
        · exact Or.inr h

/-- The list form of `gvnExp`: numbering the image list reproduces the
original elements as canonical forms. -/
theorem gvnExpList : ∀ (us : ExprList) (m₀ : ReplMap) (st : GVNState),
    EnvOK m₀ st → noLetInList us = true → (∀ x ∈ us.toList, avoidsT x) →
    ExpListOut m₀ us st (gvnMutateList (pureReplList m₀ us) st)
  | .nil, m₀, st, hEnv, _, _ => by
    have h0 : pureReplList m₀ ExprList.nil = ExprList.nil := by
      simp only [pureReplList]
    rw [h0]
    refine ⟨?_, ?_, ?_⟩
    · simp only [gvnMutateList]
    · exact hEnv
    · intro x hx
      have hx2 : x ∈ entryExprs st.entries := by
        simpa only [gvnMutateList] using hx
      exact Or.inl hx2
  | .cons hd tl, m₀, st, hEnv, hnl, hA => by
    have hw : pureReplList m₀ (ExprList.cons hd tl) =
        ExprList.cons (pureRepl m₀ hd) (pureReplList m₀ tl) := by
      simp only [pureReplList]
    rw [hw]
    have hn2 : noLetIn hd = true ∧ noLetInList tl = true := by
      simpa [noLetInList, Bool.and_eq_true] using hnl
    have hAhd : avoidsT hd := hA hd (by simp [ExprList.toList])
    have hAtl : ∀ x ∈ tl.toList, avoidsT x := fun x hx =>
      hA x (by simp [ExprList.toList, hx])
    have ia := gvnExp hd m₀ st hEnv hn2.1 hAhd
    have iaM := gvnMutate_inv (pureRepl m₀ hd) st hEnv.inv
    have il := gvnExpList tl m₀ (gvnMutate (pureRepl m₀ hd) st).2
      ia.env hn2.2 hAtl
    have ilM := gvnMutateList_inv (pureReplList m₀ tl)
      (gvnMutate (pureRepl m₀ hd) st).2 iaM.inv
    have hch : canonicalOf (gvnMutateList (pureReplList m₀ tl)
        (gvnMutate (pureRepl m₀ hd) st).2).2.entries
        (gvnMutate (pureRepl m₀ hd) st).1 = hd := by
      rw [entriesExtend_canonicalOf ilM.ext iaM.lt]
      exact ia.canon
    refine ⟨?_, il.env, ?_⟩
    · show (gvnMutateList (ExprList.cons (pureRepl m₀ hd)
        (pureReplList m₀ tl)) st).1 = ExprList.cons hd tl
      simp only [gvnMutateList]
      rw [hch, il.vals]
    · intro x hx
      have hx2 : x ∈ entryExprs (gvnMutateList (pureReplList m₀ tl)
          (gvnMutate (pureRepl m₀ hd) st).2).2.entries := by
        simpa only [gvnMutateList] using hx
      rcases il.newr x hx2 with h | ⟨u, hu, h⟩
      · rcases ia.newr x h with h2 | h2
        · exact Or.inl h2
        · exact Or.inr ⟨hd, by simp [ExprList.toList], h2⟩
      · exact Or.inr ⟨u, by simp [ExprList.toList, hu], h⟩

end


/-! ### Numbering the full let chain -/

theorem findNumber_letE_none {ents : List GVNEntry}
    (hnoLet : ∀ en ∈ ents, isLetE en.expr = false) (v : Var) (a b : Expr) :
    findNumber ents (Expr.letE v a b) = none := by
  rw [findNumber_eq_none]
  intro hmem
  rcases List.mem_map.mp hmem with ⟨en, hen, heq⟩
  have h2 := hnoLet en hen
  rw [heq] at h2
  simp [isLetE] at h2

theorem scopeGet_cons_self {v : Var} {n : Nat} {s : List (Var × Nat)} :
    scopeGet ((v, n) :: s) v = some n := by
  simp [scopeGet, List.find?]

theorem scopeGet_cons_ne {v w : Var} {n : Nat} {s : List (Var × Nat)}
    (h : v ≠ w) : scopeGet ((v, n) :: s) w = scopeGet s w := by
  have hb : (v == w) = false := by simpa using h
  simp [scopeGet, List.find?, hb]

/-- The fresh block of entries one `gvnExp` call appends: every element
is a subterm of the numbered expression. -/
theorem block_of_exp {m₀ : ReplMap} {u : Expr} {st : GVNState}
    {r : Nat × GVNState}
    (hx : ExpOut m₀ u st r) (hM : MutOut st r) :
    ∃ t, entryExprs r.2.entries = entryExprs st.entries ++ t ∧
      ∀ x ∈ t, reaches u x := by
  rcases hM.ext with ⟨tl, htl⟩
  have happ : entryExprs r.2.entries =
      entryExprs st.entries ++ entryExprs tl := by
    rw [htl]
    simp [entryExprs]
  refine ⟨entryExprs tl, happ, ?_⟩
  intro x hxt
  have hxr : x ∈ entryExprs r.2.entries := by
    rw [happ]
    exact List.mem_append_right _ hxt
  rcases hx.newr x hxr with h | h
  · have hnd := hM.inv.nodup
    rw [happ] at hnd
    exact absurd hxt ((List.nodup_append.mp hnd).2.2 h)
  · exact h

/-- What numbering the whole emitted let chain produces: the body
number's canonical form is the body's canonical expression, and the
entry list has the phase structure of the chain. -/
structure ChainOut (A : List (Var × Expr)) (c : Expr)
    (st : GVNState) (r : Nat × GVNState) : Prop where
  canon : canonicalOf r.2.entries r.1 = c
  phased : Phased (entryExprs st.entries) (A.map (fun p => p.2)) c
    (entryExprs r.2.entries)

theorem gvn_chain : ∀ (A : List (Var × Expr)) (m₀ : ReplMap)
    (st : GVNState) (c : Expr),
    EnvOK m₀ st →
    (∀ p ∈ A, isTFamilyName p.1.name_hint = true) →
    (∀ p ∈ A, noLetIn p.2 = true) →
    (∀ p ∈ A, avoidsT p.2) →
    A.Pairwise (fun p q => ¬ reaches p.2 q.2) →
    A.Pairwise (fun p q => p.1 ≠ q.1) →
    (∀ p ∈ A, p.2 ∉ entryExprs st.entries) →
    (∀ p ∈ A, ∀ q ∈ st.let_substitutions, p.1 ≠ q.1) →
    noLetIn c = true → avoidsT c →
    ChainOut A c st
      (gvnMutate (letChain (wrapVals m₀ A)
        (pureRepl (m₀ ++ fullMap A) c)) st)
  | [], m₀, st, c, hEnv, _, _, _, _, _, _, _, hnlc, hAc => by
    have h0 : letChain (wrapVals m₀ [])
        (pureRepl (m₀ ++ fullMap []) c) = pureRepl m₀ c := by
      simp [wrapVals, fullMap, letChain]
    rw [h0]
    have ia := gvnExp c m₀ st hEnv hnlc hAc
    have iaM := gvnMutate_inv (pureRepl m₀ c) st hEnv.inv
    rcases block_of_exp ia iaM with ⟨t, happ, hreach⟩
    refine ⟨ia.canon, ?_⟩
    show Phased (entryExprs st.entries) [] c
      (entryExprs (gvnMutate (pureRepl m₀ c) st).2.entries)
    simp only [Phased]
    exact ⟨t, happ, hreach⟩
  | (v, u) :: A', m₀, st, c, hEnv, hT, hNL, hAv, hOrd, hVars, hNotIn,
      hFresh, hnlc, hAc => by
    have hin : letChain (wrapVals m₀ ((v, u) :: A'))
        (pureRepl (m₀ ++ fullMap ((v, u) :: A')) c) =
        Expr.letE v (pureRepl m₀ u)
          (letChain (wrapVals (m₀ ++ [(u, Expr.var v)]) A')
            (pureRepl ((m₀ ++ [(u, Expr.var v)]) ++ fullMap A') c)) := by
      simp [wrapVals, fullMap, letChain]
    rw [hin]
    simp only [gvnMutate]
    cases hf : findNumber st.entries (Expr.letE v (pureRepl m₀ u)
        (letChain (wrapVals (m₀ ++ [(u, Expr.var v)]) A')
          (pureRepl ((m₀ ++ [(u, Expr.var v)]) ++ fullMap A') c))) with
    | some n =>
      rw [findNumber_letE_none hEnv.inv.noLet _ _ _] at hf
      exact Option.noConfusion hf
    | none =>
      have ia := gvnExp u m₀ st hEnv (hNL (v, u) (by simp))
        (hAv (v, u) (by simp))
      have iaM := gvnMutate_inv (pureRepl m₀ u) st hEnv.inv
      have hEnv2 : EnvOK (m₀ ++ [(u, Expr.var v)])
          { (gvnMutate (pureRepl m₀ u) st).2 with
            let_substitutions := (v, (gvnMutate (pureRepl m₀ u) st).1) ::
              (gvnMutate (pureRepl m₀ u) st).2.let_substitutions } := by
        refine ⟨⟨ia.env.inv.nodup, ia.env.inv.noLet, ia.env.inv.closed, ?_⟩,
          ?_, ia.env.tfree, ?_⟩
        · intro p hp
          rcases List.mem_cons.mp hp with h1 | h2
          · rw [h1]
            exact iaM.lt
          · exact ia.env.inv.scopeOk p h2
        · intro p hp
          rcases List.mem_append.mp hp with hold | hnew
          · rcases ia.env.binds p hold with ⟨w, n, hw, htw, hs, hc⟩
            refine ⟨w, n, hw, htw, ?_, hc⟩
            rcases scopeGet_key hs with ⟨q, hq, hq1, _⟩
            have hq2 : q ∈ st.let_substitutions := by
              rw [iaM.subs] at hq
              exact hq
            have hvq : v ≠ q.1 := hFresh (v, u) (by simp) q hq2
            have hvw : v ≠ w := by
              rw [hq1] at hvq
              exact hvq
            rw [scopeGet_cons_ne hvw]
            exact hs
          · have hp2 : p = (u, Expr.var v) := by simpa using hnew
            subst hp2
            exact ⟨v, (gvnMutate (pureRepl m₀ u) st).1, rfl,
              hT (v, u) (by simp), scopeGet_cons_self, ia.canon⟩
        · intro p hp
          rcases List.mem_cons.mp hp with h1 | h2
          · rw [h1]
            exact hT (v, u) (by simp)
          · exact ia.env.subsT p h2
      have hT2 : ∀ p ∈ A', isTFamilyName p.1.name_hint = true :=
        fun p hp => hT p (by simp [hp])
      have hNL2 : ∀ p ∈ A', noLetIn p.2 = true :=
        fun p hp => hNL p (by simp [hp])
      have hAv2 : ∀ p ∈ A', avoidsT p.2 :=
        fun p hp => hAv p (by simp [hp])
      have hOrdH := (List.pairwise_cons.mp hOrd).1
      have hOrd2 := (List.pairwise_cons.mp hOrd).2
      have hVarsH := (List.pairwise_cons.mp hVars).1
      have hVars2 := (List.pairwise_cons.mp hVars).2
      have hNotIn2 : ∀ p ∈ A',
          p.2 ∉ entryExprs (gvnMutate (pureRepl m₀ u) st).2.entries := by
        intro p hp hmem
        rcases ia.newr p.2 hmem with h1 | h1
        · exact hNotIn p (by simp [hp]) h1
        · exact hOrdH p hp h1
      have hFresh2 : ∀ p ∈ A',
          ∀ q ∈ ((v, (gvnMutate (pureRepl m₀ u) st).1) ::
            (gvnMutate (pureRepl m₀ u) st).2.let_substitutions),
            p.1 ≠ q.1 := by
        intro p hp q hq
        rcases List.mem_cons.mp hq with h1 | h2
        · rw [h1]
          exact fun h => (hVarsH p hp) h.symm
        · have hq2 : q ∈ st.let_substitutions := by
            rw [iaM.subs] at h2
            exact h2
          exact hFresh p (by simp [hp]) q hq2
      have ih := gvn_chain A' (m₀ ++ [(u, Expr.var v)])
        { (gvnMutate (pureRepl m₀ u) st).2 with
          let_substitutions := (v, (gvnMutate (pureRepl m₀ u) st).1) ::
            (gvnMutate (pureRepl m₀ u) st).2.let_substitutions } c
        hEnv2 hT2 hNL2 hAv2 hOrd2 hVars2 hNotIn2 hFresh2 hnlc hAc
      refine ⟨ih.canon, ?_⟩
      show Phased (entryExprs st.entries) (u :: A'.map (fun p => p.2)) c _
      simp only [Phased]
      rcases block_of_exp ia iaM with ⟨t, happ, hreach⟩
      refine ⟨t, hreach, ?_, ?_⟩
      · have hu : u ∈ entryExprs (gvnMutate (pureRepl m₀ u) st).2.entries := by
          have h0 := canonicalOf_mem iaM.lt
          rw [ia.canon] at h0
          exact h0
        rw [happ] at hu
        rcases List.mem_append.mp hu with h1 | h1
        · exact absurd h1 (hNotIn (v, u) (by simp))
        · exact h1
      · rw [← happ]
        exact ih.phased

/-! ### The shape of a `cse` output -/

theorem reaches_strict {a b : Expr} (h : reaches a b) (hne : b ≠ a) :
    sizeOf b < sizeOf a := by
  cases h with
  | refl => exact absurd rfl hne
  | child e ch x hch h2 =>
    exact lt_of_le_of_lt (reaches_sizeOf h2) (childrenOf_sizeOf hch)

theorem fullMap_find_mem {W : List (Var × Expr)} {s x : Expr}
    (h : replFind (fullMap W) s = some x) :
    ∃ q ∈ W, s = q.2 ∧ x = Expr.var q.1 := by
  have hm := replFind_mem h
  simp only [fullMap, List.mem_map] at hm
  rcases hm with ⟨q, hq, heq⟩
  refine ⟨q, hq, ?_, ?_⟩
  · exact (congrArg Prod.fst heq).symm
  · exact (congrArg Prod.snd heq).symm

theorem fullMap_find_self : ∀ {W : List (Var × Expr)},
    List.Pairwise (fun a b => a.2 ≠ b.2) W → ∀ {p : Var × Expr}, p ∈ W →
    replFind (fullMap W) p.2 = some (Expr.var p.1)
  | [], _, p, hp => by simp at hp
  | q :: rest, hnd, p, hp => by
    rcases List.pairwise_cons.mp hnd with ⟨hq, hnd2⟩
    rcases List.mem_cons.mp hp with rfl | hp2
    · show replFind ((p.2, Expr.var p.1) :: fullMap rest) p.2 =
        some (Expr.var p.1)
      rw [replFind_cons_pos (by simp)]
    · have hne : (q.2 == p.2) = false := by
        simp only [beq_eq_false_iff_ne, ne_eq]
        exact hq p hp2
      show replFind ((q.2, Expr.var q.1) :: fullMap rest) p.2 =
        some (Expr.var p.1)
      rw [replFind_cons_neg hne]
      exact fullMap_find_self hnd2 hp2

theorem fullMap_split_agree {W T : List (Var × Expr)} {s : Expr}
    (hmiss : ∀ s2, reaches s s2 → replFind (fullMap T) s2 = none) :
    pureRepl (fullMap (W ++ T)) s = pureRepl (fullMap W) s := by
  refine pureRepl_congr s _ _ ?_
  intro s2 hs2
  have happ : fullMap (W ++ T) = fullMap W ++ fullMap T := by
    simp [fullMap]
  rw [happ]
  cases hf : replFind (fullMap W) s2 with
  | some y => rw [replFind_append_some _ hf]
  | none => rw [replFind_append_none _ hf, hmiss s2 hs2]

theorem tail_miss {p : Var × Expr} {rest : List (Var × Expr)} {s : Expr}
    (hrest : ∀ q ∈ rest, ¬ reaches p.2 q.2)
    (hr : reaches p.2 s) (hne : s ≠ p.2) :
    ∀ s2, reaches s s2 → replFind (fullMap (p :: rest)) s2 = none := by
  intro s2 hs2
  apply replFind_not_key
  intro q hq
  simp only [fullMap, List.mem_map] at hq
  rcases hq with ⟨r, hr2, rfl⟩
  show r.2 ≠ s2
  intro hcon
  have hreach : reaches p.2 r.2 := by
    rw [hcon]
    exact reaches_trans hr hs2
  rcases List.mem_cons.mp hr2 with rfl | hr3
  · have h1 : sizeOf s2 ≤ sizeOf s := reaches_sizeOf hs2
    have h2 : sizeOf s < sizeOf r.2 := reaches_strict hr hne
    rw [hcon] at h2
    omega
  · exact hrest r hr3 hreach

theorem wrapVals_append : ∀ (A B : List (Var × Expr)) (m₀ : ReplMap),
    wrapVals m₀ (A ++ B) = wrapVals m₀ A ++ wrapVals (m₀ ++ fullMap A) B
  | [], B, m₀ => by simp [wrapVals, fullMap]
  | (v, u) :: A, B, m₀ => by
    simp only [List.cons_append, wrapVals, List.append_eq]
    rw [wrapVals_append A B (m₀ ++ [(u, Expr.var v)])]
    simp [fullMap]

theorem letChain_append : ∀ (xs : List (Var × Expr)) (v : Var) (w : Expr)
    (b : Expr), letChain (xs ++ [(v, w)]) b = letChain xs (Expr.letE v w b)
  | [], v, w, b => by simp [letChain]
  | (y, z) :: xs, v, w, b => by
    simp only [List.cons_append, letChain, List.append_eq]
    rw [letChain_append xs v w b]

/-- The binding-emission loop, fed the selected lets reversed and a map
satisfying the invariant, produces exactly the let chain over the
incrementally rewritten values. -/
theorem cseWrap_chain : ∀ (R : List (Var × Expr)) (body : Expr) (m : ReplMap),
    List.Pairwise (fun a b => ¬ reaches a.2 b.2) R.reverse →
    PINV R.reverse m →
    cseWrap R body m = letChain (wrapVals [] R.reverse) body
  | [], body, m, _, _ => by simp [cseWrap, wrapVals, letChain]
  | (v, u) :: R', body, m, hOrd, hP => by
    have hrev : ((v, u) :: R').reverse = R'.reverse ++ [(v, u)] := by simp
    rw [hrev] at hOrd hP ⊢
    rcases List.pairwise_append.mp hOrd with ⟨hOrd1, _, hCross⟩
    have hvals : ∀ q ∈ R'.reverse, q.2 ≠ u := by
      intro q hq hqu
      exact hCross q hq (v, u) (by simp) (by rw [hqu]; exact reaches.refl _)
    have hC : CohHyp (fullMap R'.reverse) (replErase m u) u := by
      constructor
      · intro s x hrs hfind
        rw [replFind_erase] at hfind
        by_cases hsu : s = u
        · rw [if_pos hsu] at hfind
          exact Option.noConfusion hfind
        · rw [if_neg hsu] at hfind
          exact hP.2 s x hfind R'.reverse (v, u) [] rfl hrs hsu
      · intro s hrs hfind
        rw [replFind_erase] at hfind
        by_cases hsu : s = u
        · subst hsu
          apply replFind_not_key
          intro q hq
          simp only [fullMap, List.mem_map] at hq
          rcases hq with ⟨r, hr2, rfl⟩
          show r.2 ≠ s
          exact hvals r hr2
        · rw [if_neg hsu] at hfind
          cases hf2 : replFind (fullMap R'.reverse) s with
          | none => rfl
          | some y =>
            rcases fullMap_find_mem hf2 with ⟨q, hq, hsq, _⟩
            have hfq := hP.1 q (List.mem_append_left _ hq)
            rw [← hsq, hfind] at hfq
            exact Option.noConfusion hfq
    have o := replMutate_pure u (fullMap R'.reverse) (replErase m u) hC
    have hP2 : PINV R'.reverse (replMutate u (replErase m u)).2 := by
      constructor
      · intro p hp
        have h1 := hP.1 p (List.mem_append_left _ hp)
        have h2 : replFind (replErase m u) p.2 = some (Expr.var p.1) := by
          rw [replFind_erase, if_neg (hvals p hp)]
          exact h1
        exact o.mono p.2 _ h2
      · intro s x hfind W p rest hsplit hrs hsne
        cases hold : replFind (replErase m u) s with
        | some y =>
          have hy := o.mono s y hold
          have hxy : x = y := by
            rw [hfind] at hy
            exact Option.some.inj hy
          have hsu : s ≠ u := by
            intro hcon
            rw [hcon, replFind_erase, if_pos rfl] at hold
            exact Option.noConfusion hold
          have holdm : replFind m s = some y := by
            rw [replFind_erase, if_neg hsu] at hold
            exact hold
          rw [hxy]
          exact hP.2 s y holdm W p (rest ++ [(v, u)])
            (by rw [hsplit]; simp) hrs hsne
        | none =>
          rcases o.new s x hfind hold with ⟨hru, hx⟩
          have hOrdW : List.Pairwise (fun a b => ¬ reaches a.2 b.2)
              (W ++ p :: rest) := by
            rw [← hsplit]
            exact hOrd1
          have hrest : ∀ q ∈ rest, ¬ reaches p.2 q.2 := by
            have h2 := (List.pairwise_append.mp hOrdW).2.1
            exact fun q hq => (List.pairwise_cons.mp h2).1 q hq
          rw [hx, hsplit]
          exact fullMap_split_agree (tail_miss hrest hrs hsne)
    simp only [cseWrap]
    rw [o.val]
    rw [cseWrap_chain R' (Expr.letE v (pureRepl (fullMap R'.reverse) u) body)
      (replMutate u (replErase m u)).2 hOrd1 hP2]
    rw [wrapVals_append]
    simp only [wrapVals, List.nil_append, List.append_nil]
    rw [letChain_append]

theorem cse_eq_of_guard {e : Expr} {k : Nat}
    (hg : (is_const e || isVarExpr e) = false) :
    cse e k = cseWrap (cseLets e k).reverse
      (replMutate (cseTop e) (fullMap (cseLets e k))).1
      (replMutate (cseTop e) (fullMap (cseLets e k))).2 := by
  unfold cse
  rw [hg]
  rfl

/-- The output of `common_subexpression_elimination` on a non-trivial
input: the let chain over the incrementally rewritten selected
expressions, around the fully rewritten canonical form. -/
theorem cse_shape (e : Expr) (k : Nat)
    (hg : (is_const e || isVarExpr e) = false)
    (hOrd : List.Pairwise (fun a b => ¬ reaches a.2 b.2) (cseLets e k)) :
    cse e k = letChain (wrapVals [] (cseLets e k))
      (pureRepl (fullMap (cseLets e k)) (cseTop e)) := by
  have hC0 : CohHyp (fullMap (cseLets e k)) (fullMap (cseLets e k))
      (cseTop e) := by
    constructor
    · intro s x hrs hfind
      exact (pureRepl_hit hfind).symm
    · intro s hrs hfind
      exact hfind
  have o0 := replMutate_pure (cseTop e) (fullMap (cseLets e k))
    (fullMap (cseLets e k)) hC0
  have hvd : List.Pairwise (fun a b => a.2 ≠ b.2) (cseLets e k) :=
    hOrd.imp (fun h hab => h (by rw [hab]; exact reaches.refl _))
  have hP0 : PINV (cseLets e k)
      (replMutate (cseTop e) (fullMap (cseLets e k))).2 := by
    constructor
    · intro p hp
      exact o0.mono p.2 _ (fullMap_find_self hvd hp)
    · intro s x hfind W p rest hsplit hrs hsne
      cases hold : replFind (fullMap (cseLets e k)) s with
      | some y =>
        have hy := o0.mono s y hold
        have hxy : x = y := by
          rw [hfind] at hy
          exact Option.some.inj hy
        rcases fullMap_find_mem hold with ⟨q, hq, hsq, hyq⟩
        have hqW : q ∈ W := by
          rw [hsplit] at hq
          rcases List.mem_append.mp hq with h1 | h1
          · exact h1
          · exfalso
            rcases List.mem_cons.mp h1 with rfl | h2
            · exact hsne hsq
            · have hOrdW : List.Pairwise (fun a b => ¬ reaches a.2 b.2)
                  (W ++ p :: rest) := by
                rw [← hsplit]
                exact hOrd
              have hpr := (List.pairwise_append.mp hOrdW).2.1
              have hnr := (List.pairwise_cons.mp hpr).1 q h2
              exact hnr (by rw [← hsq]; exact hrs)
        have hWd : List.Pairwise (fun a b => a.2 ≠ b.2) W := by
          have hvd2 : List.Pairwise (fun a b => a.2 ≠ b.2)
              (W ++ p :: rest) := by
            rw [← hsplit]
            exact hvd
          exact (List.pairwise_append.mp hvd2).1
        rw [hxy, hyq, hsq]
        rw [pureRepl_hit (fullMap_find_self hWd hqW)]
      | none =>
        rcases o0.new s x hfind hold with ⟨hrc, hx⟩
        have hOrdW : List.Pairwise (fun a b => ¬ reaches a.2 b.2)
            (W ++ p :: rest) := by
          rw [← hsplit]
          exact hOrd
        have hrest : ∀ q2 ∈ rest, ¬ reaches p.2 q2.2 := by
          have h2 := (List.pairwise_append.mp hOrdW).2.1
          exact fun q2 hq2 => (List.pairwise_cons.mp h2).1 q2 hq2
        rw [hx, hsplit]
        exact fullMap_split_agree (tail_miss hrest hrs hsne)
  have hchain := cseWrap_chain (cseLets e k).reverse
    (replMutate (cseTop e) (fullMap (cseLets e k))).1
    (replMutate (cseTop e) (fullMap (cseLets e k))).2
    (by rw [List.reverse_reverse]; exact hOrd)
    (by rw [List.reverse_reverse]; exact hP0)
  rw [List.reverse_reverse] at hchain
  rw [cse_eq_of_guard hg, hchain, o0.val]

/-! ### Selection: which entries get extracted -/

theorem filter_eq_nil_of {P : Expr → Bool} : ∀ {t : List Expr},
    (∀ y ∈ t, P y = false) → t.filter P = []
  | [], _ => rfl
  | a :: t, h => by
    rw [List.filter_cons_of_neg (by simp [h a (by simp)])]
    exact filter_eq_nil_of (fun y hy => h y (by simp [hy]))

theorem filter_eq_single {P : Expr → Bool} : ∀ {t : List Expr},
    t.Nodup → ∀ {u : Expr}, u ∈ t → P u = true →
    (∀ y ∈ t, P y = true → y = u) → t.filter P = [u]
  | [], _, u, hu, _, _ => by simp at hu
  | a :: t, hnd, u, hu, hPu, hall => by
    rcases List.nodup_cons.mp hnd with ⟨ha, hnd2⟩
    rcases List.mem_cons.mp hu with rfl | hu2
    · rw [List.filter_cons_of_pos hPu]
      have hnil : t.filter P = [] := by
        apply filter_eq_nil_of
        intro y hy
        cases hPy : P y with
        | false => rfl
        | true =>
          have hyu := hall y (by simp [hy]) hPy
          exact absurd (show u ∈ t by rw [← hyu]; exact hy) ha
      rw [hnil]
    · have hPa : P a = false := by
        cases hpa : P a with
        | false => rfl
        | true =>
          have hau := hall a (by simp) hpa
          exact absurd (show a ∈ t by rw [hau]; exact hu2) ha
      rw [List.filter_cons_of_neg (by simp [hPa])]
      exact filter_eq_single hnd2 hu2 hPu
        (fun y hy hPy => hall y (by simp [hy]) hPy)

/-- Filtering the phased entry list of the second run by the shared
use-count predicate recovers exactly the selected expressions, in
order. -/
theorem phased_filter (P : Expr → Bool) : ∀ (us : List Expr)
    (base final : List Expr) (b : Expr),
    Phased base us b final →
    (∀ u ∈ us, P u = true) →
    List.Pairwise (fun a c => ¬ reaches a c) us →
    (∀ y, y ∈ final → P y = true → y ∉ base → y ∈ us) →
    (∀ u ∈ us, u ∉ base) →
    final.Nodup →
    ∃ rest, final = base ++ rest ∧ rest.filter P = us
  | [], base, final, b, hph, _, _, hclass, _, hnd => by
    simp only [Phased] at hph
    rcases hph with ⟨t, rfl, hreach⟩
    refine ⟨t, rfl, ?_⟩
    apply filter_eq_nil_of
    intro y hy
    cases hPy : P y with
    | false => rfl
    | true =>
      have hyb : y ∉ base := by
        rcases List.nodup_append.mp hnd with ⟨_, _, hdisj⟩
        intro hyb2
        exact hdisj hyb2 hy
      exact absurd (hclass y (List.mem_append_right _ hy) hPy hyb)
        (List.not_mem_nil y)
  | u :: us, base, final, b, hph, hP, hOrd, hclass, hnew, hnd => by
    simp only [Phased] at hph
    rcases hph with ⟨t, hreach, hut, hph2⟩
    rcases List.pairwise_cons.mp hOrd with ⟨hOrdH, hOrd2⟩
    have ih := phased_filter P us (base ++ t) final b hph2
      (fun w hw => hP w (by simp [hw]))
      hOrd2
      (by
        intro y hyf hPy hybt
        rcases List.mem_cons.mp (hclass y hyf hPy
          (fun hyb => hybt (List.mem_append_left _ hyb))) with rfl | h1
        · exact absurd (List.mem_append_right _ hut) hybt
        · exact h1)
      (by
        intro w hw hwbt
        rcases List.mem_append.mp hwbt with h1 | h1
        · exact hnew w (by simp [hw]) h1
        · exact hOrdH w hw (hreach w h1))
      hnd
    rcases ih with ⟨rest, hfin, hfil⟩
    have hbase_t_nd : (base ++ t).Nodup := by
      rw [hfin] at hnd
      exact (List.nodup_append.mp hnd).1
    have htnd : t.Nodup := (List.nodup_append.mp hbase_t_nd).2.1
    have htb_disj := (List.nodup_append.mp hbase_t_nd).2.2
    have hsingle : t.filter P = [u] := by
      apply filter_eq_single htnd hut (hP u (by simp))
      intro y hy hPy
      have hyfin : y ∈ final := by
        rw [hfin]
        exact List.mem_append_left _ (List.mem_append_right _ hy)
      have hyb : y ∉ base := fun hyb2 => htb_disj hyb2 hy
      rcases List.mem_cons.mp (hclass y hyfin hPy hyb) with h1 | h1
      · exact h1
      · exact absurd (hreach y hy) (hOrdH y h1)
    refine ⟨t ++ rest, by rw [hfin, List.append_assoc], ?_⟩
    rw [List.filter_append, hsingle, hfil]
    rfl

theorem countOf_cons (en : GVNEntry) (rest : List GVNEntry) (y : Expr) :
    countOf (en :: rest) y =
      if en.expr == y then en.use_count else countOf rest y := by
  by_cases h : (en.expr == y) = true
  · simp [countOf, List.find?, h]
  · simp only [Bool.not_eq_true] at h
    simp [countOf, List.find?, h]

theorem countOf_zero : ∀ {ents : List GVNEntry},
    (∀ en ∈ ents, en.use_count = 0) → ∀ (y : Expr), countOf ents y = 0
  | [], _, y => by simp [countOf]
  | en :: rest, h0, y => by
    rw [countOf_cons]
    by_cases h : (en.expr == y) = true
    · rw [if_pos h]
      exact h0 en (by simp)
    · rw [if_neg h]
      exact countOf_zero (fun en2 h2 => h0 en2 (by simp [h2])) y

theorem selExprs_filter : ∀ {ents : List GVNEntry},
    (entryExprs ents).Nodup →
    selExprs ents = (entryExprs ents).filter
      (fun y => decide (countOf ents y > 1))
  | [], _ => rfl
  | en :: rest, hnd => by
    rcases (by simpa [entryExprs] using hnd :
        en.expr ∉ entryExprs rest ∧ (entryExprs rest).Nodup) with ⟨hne, hnd2⟩
    have hhead : countOf (en :: rest) en.expr = en.use_count := by
      rw [countOf_cons, if_pos (by simp)]
    have htail : ∀ y ∈ entryExprs rest,
        countOf (en :: rest) y = countOf rest y := by
      intro y hy
      rw [countOf_cons, if_neg]
      simp only [beq_iff_eq]
      intro hcon
      exact hne (by rw [hcon]; exact hy)
    have hfe : entryExprs (en :: rest) = en.expr :: entryExprs rest := rfl
    rw [hfe]
    by_cases hc : en.use_count > 1
    · rw [show selExprs (en :: rest) = en.expr :: selExprs rest from by
        simp [selExprs, List.filter_cons, hc]]
      rw [List.filter_cons_of_pos (by simp [hhead, hc])]
      rw [selExprs_filter hnd2]
      congr 1
      apply List.filter_congr
      intro y hy
      simp [htail y hy]
    · rw [show selExprs (en :: rest) = selExprs rest from by
        simp [selExprs, List.filter_cons, hc]]
      rw [List.filter_cons_of_neg (by simp [hhead, hc])]
      rw [selExprs_filter hnd2]
      apply List.filter_congr
      intro y hy
      simp [htail y hy]

theorem mkLets_vals : ∀ (us : List Expr) (k : Nat),
    (mkLets us k).map (fun p => p.2) = us
  | [], _ => rfl
  | u :: rest, k => by
    simp only [mkLets, List.map_cons]
    rw [mkLets_vals rest (k + 1)]

/-! ### Normalisation of a fresh let chain -/

theorem normMutate_letE (v : Var) (w b : Expr) (st : NormState)
    (hc : st.counter = st.replacement_var_exprs.length) :
    normMutate (Expr.letE v w b) st =
      (Expr.letE ⟨v.type, "t" ++ natStr st.counter⟩
        (normMutate w (pushNorm v st)).1
        (normMutate b (normMutate w (pushNorm v st)).2).1,
       (normMutate b (normMutate w (pushNorm v st)).2).2) := by
  simp only [normMutate]
  rw [if_pos hc]
  rfl

theorem norm_chain : ∀ (W : List (Var × Expr)) (B : Expr) (st : NormState),
    st.counter = st.replacement_var_exprs.length →
    (∀ p ∈ W, noLetIn p.2 = true) →
    noLetIn B = true →
    normMutate (letChain W B) st =
      (letChain (normLets W st) (pureRepl (nmap (pushAll W st)) B),
        pushAll W st)
  | [], B, st, hc, _, hB => by
    simp only [letChain, normLets, pushAll]
    exact normMutate_pure B st hB
  | (v, w) :: W, B, st, hc, hW, hB => by
    rw [show letChain ((v, w) :: W) B = Expr.letE v w (letChain W B) from rfl]
    rw [normMutate_letE v w (letChain W B) st hc]
    rw [normMutate_pure w (pushNorm v st) (hW (v, w) (by simp))]
    have hc2 : (pushNorm v st).counter =
        (pushNorm v st).replacement_var_exprs.length := by
      simp [pushNorm, hc]
    rw [show ((pureRepl (nmap (pushNorm v st)) w, pushNorm v st)).2 =
      pushNorm v st from rfl]
    rw [norm_chain W B (pushNorm v st) hc2
      (fun p hp => hW p (by simp [hp])) hB]
    rfl

theorem decDigitsAux_digits : ∀ (fuel n : Nat),
    ∀ c ∈ decDigitsAux fuel n, c.isDigit = true
  | _, 0 => by
    intro c hc
    simp [decDigitsAux] at hc
  | 0, n + 1 => by
    intro c hc
    simp [decDigitsAux] at hc
  | fuel + 1, n + 1 => by
    intro c hc
    simp only [decDigitsAux, List.mem_append, List.mem_singleton] at hc
    rcases hc with h | h
    · exact decDigitsAux_digits fuel ((n + 1) / 10) c h
    · rw [h]
      have hm : (n + 1) % 10 < 10 := Nat.mod_lt _ (by omega)
      have hall : ∀ m ∈ List.range 10,
          (Char.ofNat (48 + m)).isDigit = true := by decide
      exact hall _ (List.mem_range.mpr hm)

theorem decRepr_digits (n : Nat) : ∀ c ∈ decRepr n, c.isDigit = true := by
  unfold decRepr
  by_cases h : n = 0
  · rw [if_pos h]
    decide
  · rw [if_neg h]
    exact decDigitsAux_digits n n

theorem decRepr_ne_nil (n : Nat) : decRepr n ≠ [] := by
  unfold decRepr
  by_cases h : n = 0
  · rw [if_pos h]
    simp
  · rw [if_neg h]
    cases n with
    | zero => exact absurd rfl h
    | succ m => simp [decDigitsAux]

theorem isT_tname (n : Nat) : isTFamilyName ("t" ++ natStr n) = true := by
  unfold isTFamilyName
  rw [show ("t" ++ natStr n).data = 't' :: decRepr n from rfl]
  split
  · rename_i rest heq
    have hrest : decRepr n = rest := List.tail_eq_of_cons_eq heq
    subst hrest
    cases hrep : decRepr n with
    | nil => exact absurd hrep (decRepr_ne_nil n)
    | cons c cs =>
      simp only [Bool.and_eq_true, decide_eq_true_eq, List.all_eq_true]
      refine ⟨by simp, ?_⟩
      intro x hx
      exact decRepr_digits n x (by rw [hrep]; exact hx)
  · rename_i x heq
    exact absurd rfl (heq (decRepr n))

theorem tname_inj {a b : Nat}
    (h : ("t" ++ natStr a : String) = "t" ++ natStr b) : a = b := by
  have hd : 't' :: decRepr a = 't' :: decRepr b := congrArg String.data h
  have hd2 : decRepr a = decRepr b := List.tail_eq_of_cons_eq hd
  calc a = decVal (decRepr a) := (decVal_decRepr a).symm
    _ = decVal (decRepr b) := by rw [hd2]
    _ = b := decVal_decRepr b

theorem tvar_beq_false {ty1 ty2 : Ty} {a b : Nat} (hab : a ≠ b) :
    ((⟨ty1, "t" ++ natStr a⟩ : Var) == ⟨ty2, "t" ++ natStr b⟩) = false := by
  simp only [beq_eq_false_iff_ne, ne_eq]
  intro h
  exact hab (tname_inj (congrArg Var.name_hint h))

theorem find?_append_vn {p : Var × Nat → Bool} : ∀ {l1 : List (Var × Nat)}
    (l2 : List (Var × Nat)), l1.find? p = none →
    (l1 ++ l2).find? p = l2.find? p
  | [], l2, _ => rfl
  | q :: l1, l2, h => by
    cases hq : p q with
    | true =>
      rw [List.find?_cons_of_pos _ hq] at h
      exact Option.noConfusion h
    | false =>
      rw [List.find?_cons_of_neg _ (by simp [hq])] at h
      rw [List.cons_append, List.find?_cons_of_neg _ (by simp [hq])]
      exact find?_append_vn l2 h

theorem find?_append_some_vn {p : Var × Nat → Bool} :
    ∀ {l1 : List (Var × Nat)} (l2 : List (Var × Nat)) {x : Var × Nat},
    l1.find? p = some x → (l1 ++ l2).find? p = some x
  | [], _, _, h => Option.noConfusion h
  | q :: l1, l2, x, h => by
    cases hq : p q with
    | true =>
      rw [List.find?_cons_of_pos _ hq] at h
      rw [List.cons_append, List.find?_cons_of_pos _ hq]
      exact h
    | false =>
      rw [List.find?_cons_of_neg _ (by simp [hq])] at h
      rw [List.cons_append, List.find?_cons_of_neg _ (by simp [hq])]
      exact find?_append_some_vn l2 h

theorem NV_find_lt : ∀ (us : List Expr) (k i : Nat) (ty : Ty) (k2 : Nat),
    k2 < k →
    (NV us k i).find? (fun p => p.1 == (⟨ty, "t" ++ natStr k2⟩ : Var)) = none
  | [], _, _, _, _, _ => rfl
  | u :: us, k, i, ty, k2, h => by
    simp only [NV]
    rw [find?_append_vn _ (NV_find_lt us (k + 1) (i + 1) ty k2 (by omega))]
    rw [List.find?_cons_of_neg _
      (by simp [tvar_beq_false (show k ≠ k2 from by omega)])]
    rfl

theorem NV_find : ∀ (us : List Expr) (k i l : Nat), l < us.length →
    (NV us k i).find? (fun p => p.1 ==
        (⟨(us.getD l Expr.undef).type, "t" ++ natStr (k + l)⟩ : Var)) =
      some (⟨(us.getD l Expr.undef).type, "t" ++ natStr (k + l)⟩, i + l)
  | [], _, _, l, h => by simp at h
  | u :: us, k, i, 0, _ => by
    simp only [NV, List.getD_cons_zero, Nat.add_zero]
    rw [find?_append_vn _ (NV_find_lt us (k + 1) (i + 1) u.type k (by omega))]
    rw [List.find?_cons_of_pos _ (by simp)]
  | u :: us, k, i, l + 1, h => by
    simp only [NV, List.getD_cons_succ]
    have hfind := NV_find us (k + 1) (i + 1) l (by simpa using h)
    rw [show k + (l + 1) = (k + 1) + l from by omega]
    rw [find?_append_some_vn _ hfind]
    rw [show (i + 1) + l = i + (l + 1) from by omega]

theorem mkLets_fst_getD : ∀ (us : List Expr) (j l : Nat), l < us.length →
    ((mkLets us j).map (fun p => p.1)).getD l ⟨int32, ""⟩ =
      ⟨(us.getD l Expr.undef).type, "t" ++ natStr (j + l)⟩
  | [], _, l, h => by simp at h
  | u :: us, j, 0, _ => by simp [mkLets]
  | u :: us, j, l + 1, h => by
    simp only [mkLets, List.map_cons, List.getD_cons_succ]
    rw [mkLets_fst_getD us (j + 1) l (by simpa using h)]
    rw [show j + 1 + l = j + (l + 1) from by omega]

theorem wrapVals_fst : ∀ (L : List (Var × Expr)) (m₀ : ReplMap),
    (wrapVals m₀ L).map (fun p => p.1) = L.map (fun p => p.1)
  | [], _ => rfl
  | (v, u) :: L, m₀ => by
    simp only [wrapVals, List.map_cons]
    rw [wrapVals_fst L (m₀ ++ [(u, Expr.var v)])]

theorem pushAll_fst_congr : ∀ (L1 L2 : List (Var × Expr)) (st : NormState),
    L1.map (fun p => p.1) = L2.map (fun p => p.1) →
    pushAll L1 st = pushAll L2 st
  | [], [], _, _ => rfl
  | [], q :: L2, st, h => by simp at h
  | p :: L1, [], st, h => by simp at h
  | (v, w) :: L1, (v2, w2) :: L2, st, h => by
    simp only [List.map_cons, List.cons.injEq] at h
    show pushAll L1 (pushNorm v st) = pushAll L2 (pushNorm v2 st)
    rw [h.1]
    exact pushAll_fst_congr L1 L2 (pushNorm v2 st) h.2

theorem pushAll_mkLets : ∀ (us : List Expr) (k i : Nat) (rv : List Var)
    (nv : List (Var × Nat)),
    pushAll (mkLets us k) ⟨i, rv, nv⟩ =
      ⟨i + us.length, rv ++ (mkLets us i).map (fun p => p.1), NV us k i ++ nv⟩
  | [], k, i, rv, nv => by simp [mkLets, pushAll, NV]
  | u :: us, k, i, rv, nv => by
    show pushAll (mkLets us (k + 1))
      (pushNorm ⟨u.type, "t" ++ natStr k⟩ ⟨i, rv, nv⟩) = _
    rw [show pushNorm ⟨u.type, "t" ++ natStr k⟩ (⟨i, rv, nv⟩ : NormState) =
      ⟨i + 1, rv ++ [⟨u.type, "t" ++ natStr i⟩],
        (⟨u.type, "t" ++ natStr k⟩, i) :: nv⟩ from rfl]
    rw [pushAll_mkLets us (k + 1) (i + 1)
      (rv ++ [(⟨u.type, "t" ++ natStr i⟩ : Var)])
      (((⟨u.type, "t" ++ natStr k⟩ : Var), i) :: nv)]
    congr 1
    · simp only [List.length_cons]
      omega
    · simp [mkLets, List.append_assoc]
    · simp [NV, List.append_assoc]

theorem ST_look (D : List Expr) (k l : Nat) (hl : l < D.length) :
    replFind (nmap (pushAll (mkLets D k) ⟨0, [], []⟩))
        (Expr.var ⟨(D.getD l Expr.undef).type, "t" ++ natStr (k + l)⟩) =
      some (Expr.var ⟨(D.getD l Expr.undef).type, "t" ++ natStr l⟩) := by
  rw [pushAll_mkLets]
  show replFind ((NV D k 0 ++ []).map (fun (p : Var × Nat) => (Expr.var p.1,
      Expr.var (([] ++ (mkLets D 0).map (fun (q : Var × Expr) => q.1)).getD p.2
        ⟨int32, ""⟩))))
      (Expr.var ⟨(D.getD l Expr.undef).type, "t" ++ natStr (k + l)⟩) =
    some (Expr.var ⟨(D.getD l Expr.undef).type, "t" ++ natStr l⟩)
  rw [nmap_find]
  simp only [List.append_nil, List.nil_append]
  rw [NV_find D k 0 l hl]
  simp only [Option.map_some', Nat.zero_add]
  rw [mkLets_fst_getD D 0 l hl]
  simp

theorem mkLets_append : ∀ (A : List Expr) (u : Expr) (k : Nat),
    mkLets (A ++ [u]) k =
      mkLets A k ++ [(⟨u.type, "t" ++ natStr (k + A.length)⟩, u)]
  | [], u, k => by simp [mkLets]
  | a :: A, u, k => by
    show (⟨a.type, "t" ++ natStr k⟩, a) :: mkLets (A ++ [u]) (k + 1) = _
    rw [mkLets_append A u (k + 1)]
    simp only [mkLets, List.cons_append, List.length_cons]
    rw [show k + 1 + A.length = k + (A.length + 1) from by omega]

theorem fullMap_append (A B : List (Var × Expr)) :
    fullMap (A ++ B) = fullMap A ++ fullMap B := by
  simp [fullMap]

theorem pushAll_append : ∀ (A : List (Var × Expr)) (p : Var × Expr)
    (st : NormState),
    pushAll (A ++ [p]) st = pushNorm p.1 (pushAll A st)
  | [], p, st => rfl
  | (v, w) :: A, p, st => by
    show pushAll (A ++ [p]) (pushNorm v st) = _
    rw [pushAll_append A p (pushNorm v st)]
    rfl

theorem NV_keysT : ∀ (us : List Expr) (k i : Nat),
    ∀ p ∈ NV us k i, isTFamilyName p.1.name_hint = true
  | [], _, _ => by
    intro p hp
    simp [NV] at hp
  | u :: us, k, i => by
    intro p hp
    simp only [NV, List.mem_append, List.mem_singleton] at hp
    rcases hp with h | h
    · exact NV_keysT us (k + 1) (i + 1) p h
    · rw [h]
      exact isT_tname k

theorem nmap_keysT (st : NormState)
    (h : ∀ p ∈ st.new_var_exprs, isTFamilyName p.1.name_hint = true) :
    ∀ p ∈ nmap st, ∃ v, p.1 = Expr.var v ∧
      isTFamilyName v.name_hint = true := by
  intro p hp
  simp only [nmap, List.mem_map] at hp
  rcases hp with ⟨q, hq, rfl⟩
  exact ⟨q.1, rfl, h q hq⟩

theorem ST_keysT (D : List Expr) (k : Nat) :
    ∀ p ∈ nmap (pushAll (mkLets D k) ⟨0, [], []⟩), ∃ v, p.1 = Expr.var v ∧
      isTFamilyName v.name_hint = true := by
  apply nmap_keysT
  rw [pushAll_mkLets]
  intro p hp
  exact NV_keysT D k 0 p (by simpa using hp)

theorem fullMap_map_rename : ∀ (done : List Expr) (k j : Nat) (ρ : ReplMap),
    (∀ l, l < done.length →
      replFind ρ (Expr.var ⟨(done.getD l Expr.undef).type,
        "t" ++ natStr (k + l)⟩) =
      some (Expr.var ⟨(done.getD l Expr.undef).type,
        "t" ++ natStr (j + l)⟩)) →
    (fullMap (mkLets done k)).map (fun p => (p.1, pureRepl ρ p.2)) =
      fullMap (mkLets done j)
  | [], _, _, _, _ => rfl
  | u :: done, k, j, ρ, h => by
    have h0 := h 0 (by simp)
    simp only [List.getD_cons_zero, Nat.add_zero] at h0
    show (u, pureRepl ρ (Expr.var ⟨u.type, "t" ++ natStr k⟩)) ::
        (fullMap (mkLets done (k + 1))).map (fun p => (p.1, pureRepl ρ p.2)) =
      (u, Expr.var ⟨u.type, "t" ++ natStr j⟩) :: fullMap (mkLets done (j + 1))
    rw [pureRepl_hit h0]
    rw [fullMap_map_rename done (k + 1) (j + 1) ρ (by
      intro l hl
      have h2 := h (l + 1) (by simpa using hl)
      rw [show k + (l + 1) = k + 1 + l from by omega,
        show j + (l + 1) = j + 1 + l from by omega] at h2
      simpa using h2)]

theorem comp_step (done : List Expr) (x : Expr) (k : Nat) (ρ : ReplMap)
    (hρT : ∀ p ∈ ρ, ∃ v, p.1 = Expr.var v ∧
      isTFamilyName v.name_hint = true)
    (hA : avoidsT x)
    (hlook : ∀ l, l < done.length →
      replFind ρ (Expr.var ⟨(done.getD l Expr.undef).type,
        "t" ++ natStr (k + l)⟩) =
      some (Expr.var ⟨(done.getD l Expr.undef).type, "t" ++ natStr l⟩)) :
    pureRepl ρ (pureRepl (fullMap (mkLets done k)) x) =
      pureRepl (fullMap (mkLets done 0)) x := by
  rw [pureRepl_comp x ρ (fullMap (mkLets done k)) hρT hA]
  rw [fullMap_map_rename done k 0 ρ (by
    intro l hl
    simpa using hlook l hl)]

theorem ST_counter (D : List Expr) (k : Nat) :
    (pushAll (mkLets D k) ⟨0, [], []⟩).counter = D.length := by
  rw [pushAll_mkLets]
  simp

theorem norm_bridge : ∀ (us done : List Expr) (k : Nat),
    (∀ u ∈ us, avoidsT u) →
    normLets (wrapVals (fullMap (mkLets done k))
        (mkLets us (k + done.length)))
        (pushAll (mkLets done k) ⟨0, [], []⟩)
      = wrapVals (fullMap (mkLets done 0)) (mkLets us done.length)
  | [], done, k, _ => by simp [mkLets, wrapVals, normLets]
  | u :: us, done, k, hA => by
    simp only [mkLets, wrapVals, normLets]
    rw [ST_counter]
    have hstep : pushNorm (⟨u.type, "t" ++ natStr (k + done.length)⟩ : Var)
        (pushAll (mkLets done k) ⟨0, [], []⟩) =
        pushAll (mkLets (done ++ [u]) k) ⟨0, [], []⟩ := by
      rw [mkLets_append, pushAll_append]
    rw [hstep]
    have hlook : ∀ l, l < done.length →
        replFind (nmap (pushAll (mkLets (done ++ [u]) k) ⟨0, [], []⟩))
          (Expr.var ⟨(done.getD l Expr.undef).type,
            "t" ++ natStr (k + l)⟩) =
        some (Expr.var ⟨(done.getD l Expr.undef).type,
          "t" ++ natStr l⟩) := by
      intro l hl
      have h2 := ST_look (done ++ [u]) k l (by simp; omega)
      rw [List.getD_append _ _ _ _ hl] at h2
      exact h2
    rw [comp_step done u k _ (ST_keysT (done ++ [u]) k) (hA u (by simp))
      hlook]
    rw [show fullMap (mkLets done k) ++
        [(u, Expr.var ⟨u.type, "t" ++ natStr (k + done.length)⟩)] =
        fullMap (mkLets (done ++ [u]) k) from by
      rw [mkLets_append, fullMap_append]
      simp [fullMap]]
    rw [show k + done.length + 1 = k + (done ++ [u]).length from by
      simp
      omega]
    rw [norm_bridge us (done ++ [u]) k (fun w hw => hA w (by simp [hw]))]
    rw [mkLets_append, fullMap_append]
    simp [mkLets, fullMap]


/-! ### Final assembly helpers -/

mutual

/-- An expression without fresh-family variables trivially satisfies
the let-binding discipline. -/
theorem tOk_of_avoidsT : ∀ (e : Expr) (bs : List Var), avoidsT e →
    tOk e bs = true
  | .undef, bs, hA => by simp [tOk]
  | .intImm ty v, bs, hA => by simp [tOk]
  | .uintImm ty v, bs, hA => by simp [tOk]
  | .floatImm ty v, bs, hA => by simp [tOk]
  | .stringImm v, bs, hA => by simp [tOk]
  | .var v, bs, hA => by
    simp only [tOk]
    rw [hA v (by simp [varsOf])]
    rfl
  | .cast ty value, bs, hA => by
    simp only [tOk]
    exact tOk_of_avoidsT value bs (fun w hw => hA w (by simp [varsOf, hw]))
  | .add a b, bs, hA => by
    simp only [tOk, Bool.and_eq_true]
    constructor
    · exact tOk_of_avoidsT a bs (fun w hw => hA w (by simp [varsOf, hw]))
    · exact tOk_of_avoidsT b bs (fun w hw => hA w (by simp [varsOf, hw]))
  | .sub a b, bs, hA => by
    simp only [tOk, Bool.and_eq_true]
    constructor
    · exact tOk_of_avoidsT a bs (fun w hw => hA w (by simp [varsOf, hw]))
    · exact tOk_of_avoidsT b bs (fun w hw => hA w (by simp [varsOf, hw]))
  | .mul a b, bs, hA => by
    simp only [tOk, Bool.and_eq_true]
    constructor
    · exact tOk_of_avoidsT a bs (fun w hw => hA w (by simp [varsOf, hw]))
    · exact tOk_of_avoidsT b bs (fun w hw => hA w (by simp [varsOf, hw]))
  | .div a b, bs, hA => by
    simp only [tOk, Bool.and_eq_true]
    constructor
    · exact tOk_of_avoidsT a bs (fun w hw => hA w (by simp [varsOf, hw]))
    · exact tOk_of_avoidsT b bs (fun w hw => hA w (by simp [varsOf, hw]))
  | .mod a b, bs, hA => by
    simp only [tOk, Bool.and_eq_true]
    constructor
    · exact tOk_of_avoidsT a bs (fun w hw => hA w (by simp [varsOf, hw]))
    · exact tOk_of_avoidsT b bs (fun w hw => hA w (by simp [varsOf, hw]))
  | .min a b, bs, hA => by
    simp only [tOk, Bool.and_eq_true]
    constructor
    · exact tOk_of_avoidsT a bs (fun w hw => hA w (by simp [varsOf, hw]))
    · exact tOk_of_avoidsT b bs (fun w hw => hA w (by simp [varsOf, hw]))
  | .max a b, bs, hA => by
    simp only [tOk, Bool.and_eq_true]
    constructor
    · exact tOk_of_avoidsT a bs (fun w hw => hA w (by simp [varsOf, hw]))
    · exact tOk_of_avoidsT b bs (fun w hw => hA w (by simp [varsOf, hw]))
  | .eq a b, bs, hA => by
    simp only [tOk, Bool.and_eq_true]
    constructor
    · exact tOk_of_avoidsT a bs (fun w hw => hA w (by simp [varsOf, hw]))
    · exact tOk_of_avoidsT b bs (fun w hw => hA w (by simp [varsOf, hw]))
  | .ne a b, bs, hA => by
    simp only [tOk, Bool.and_eq_true]
    constructor
    · exact tOk_of_avoidsT a bs (fun w hw => hA w (by simp [varsOf, hw]))
    · exact tOk_of_avoidsT b bs (fun w hw => hA w (by simp [varsOf, hw]))
  | .lt a b, bs, hA => by
    simp only [tOk, Bool.and_eq_true]
    constructor
    · exact tOk_of_avoidsT a bs (fun w hw => hA w (by simp [varsOf, hw]))
    · exact tOk_of_avoidsT b bs (fun w hw => hA w (by simp [varsOf, hw]))
  | .le a b, bs, hA => by
    simp only [tOk, Bool.and_eq_true]
    constructor
    · exact tOk_of_avoidsT a bs (fun w hw => hA w (by simp [varsOf, hw]))
    · exact tOk_of_avoidsT b bs (fun w hw => hA w (by simp [varsOf, hw]))
  | .gt a b, bs, hA => by
    simp only [tOk, Bool.and_eq_true]
    constructor
    · exact tOk_of_avoidsT a bs (fun w hw => hA w (by simp [varsOf, hw]))
    · exact tOk_of_avoidsT b bs (fun w hw => hA w (by simp [varsOf, hw]))
  | .ge a b, bs, hA => by
    simp only [tOk, Bool.and_eq_true]
    constructor
    · exact tOk_of_avoidsT a bs (fun w hw => hA w (by simp [varsOf, hw]))
    · exact tOk_of_avoidsT b bs (fun w hw => hA w (by simp [varsOf, hw]))
  | .and a b, bs, hA => by
    simp only [tOk, Bool.and_eq_true]
    constructor
    · exact tOk_of_avoidsT a bs (fun w hw => hA w (by simp [varsOf, hw]))
    · exact tOk_of_avoidsT b bs (fun w hw => hA w (by simp [varsOf, hw]))
  | .or a b, bs, hA => by
    simp only [tOk, Bool.and_eq_true]
    constructor
    · exact tOk_of_avoidsT a bs (fun w hw => hA w (by simp [varsOf, hw]))
    · exact tOk_of_avoidsT b bs (fun w hw => hA w (by simp [varsOf, hw]))
  | .not a, bs, hA => by
    simp only [tOk]
    exact tOk_of_avoidsT a bs (fun w hw => hA w (by simp [varsOf, hw]))
  | .select c t f, bs, hA => by
    simp only [tOk, Bool.and_eq_true]
    refine ⟨⟨?_, ?_⟩, ?_⟩
    · exact tOk_of_avoidsT c bs (fun w hw => hA w (by simp [varsOf, hw]))
    · exact tOk_of_avoidsT t bs (fun w hw => hA w (by simp [varsOf, hw]))
    · exact tOk_of_avoidsT f bs (fun w hw => hA w (by simp [varsOf, hw]))
  | .load ty bv ix pr, bs, hA => by
    simp only [tOk]
    exact tOk_of_avoidsT ix bs (fun w hw => hA w (by simp [varsOf, hw]))
  | .ramp b s l, bs, hA => by
    simp only [tOk, Bool.and_eq_true]
    constructor
    · exact tOk_of_avoidsT b bs (fun w hw => hA w (by simp [varsOf, hw]))
    · exact tOk_of_avoidsT s bs (fun w hw => hA w (by simp [varsOf, hw]))
  | .broadcast v l, bs, hA => by
    simp only [tOk]
    exact tOk_of_avoidsT v bs (fun w hw => hA w (by simp [varsOf, hw]))
  | .call ty nm args ct fn vi, bs, hA => by
    simp only [tOk]
    exact tOkList_of_avoidsT args bs (by
      intro x hx w hw
      exact hA w (by
        simp only [varsOf, varsOfList_mem]
        exact ⟨x, hx, hw⟩))
  | .letE v value body, bs, hA => by
    simp only [tOk, Bool.and_eq_true]
    constructor
    · exact tOk_of_avoidsT value bs (fun w hw => hA w (by simp [varsOf, hw]))
    · exact tOk_of_avoidsT body (v :: bs)
        (fun w hw => hA w (by simp [varsOf, hw]))
  | .shuffle vs idxs, bs, hA => by
    simp only [tOk, Bool.and_eq_true]
    constructor
    · exact tOkList_of_avoidsT vs bs (by
        intro x hx w hw
        exact hA w (by
          simp only [varsOf, List.mem_append, varsOfList_mem]
          exact Or.inl ⟨x, hx, hw⟩))
    · exact tOkList_of_avoidsT idxs bs (by
        intro x hx w hw
        exact hA w (by
          simp only [varsOf, List.mem_append, varsOfList_mem]
          exact Or.inr ⟨x, hx, hw⟩))

theorem tOkList_of_avoidsT : ∀ (es : ExprList) (bs : List Var),
    (∀ x ∈ es.toList, avoidsT x) → tOkList es bs = true
  | .nil, _, _ => rfl
  | .cons hd tl, bs, hA => by
    simp only [tOkList, Bool.and_eq_true]
    constructor
    · exact tOk_of_avoidsT hd bs (hA hd (by simp [ExprList.toList]))
    · exact tOkList_of_avoidsT tl bs
        (fun x hx => hA x (by simp [ExprList.toList, hx]))

end

theorem mkLets_fst_idx : ∀ (us : List Expr) (j : Nat), ∀ p ∈ mkLets us j,
    ∃ i, j ≤ i ∧ p.1.name_hint = "t" ++ natStr i
  | [], _, p, hp => by simp [mkLets] at hp
  | u :: us, j, p, hp => by
    rcases List.mem_cons.mp (show p ∈ (⟨u.type, "t" ++ natStr j⟩, u) ::
        mkLets us (j + 1) from hp) with rfl | h2
    · exact ⟨j, le_refl j, rfl⟩
    · rcases mkLets_fst_idx us (j + 1) p h2 with ⟨i, hi, hn⟩
      exact ⟨i, by omega, hn⟩

theorem mkLets_fst_isT (us : List Expr) (j : Nat) :
    ∀ p ∈ mkLets us j, isTFamilyName p.1.name_hint = true := by
  intro p hp
  rcases mkLets_fst_idx us j p hp with ⟨i, _, hn⟩
  rw [hn]
  exact isT_tname i

theorem mkLets_fst_pairwise : ∀ (us : List Expr) (j : Nat),
    List.Pairwise (fun p q => p.1 ≠ q.1) (mkLets us j)
  | [], _ => List.Pairwise.nil
  | u :: us, j => by
    show List.Pairwise _ ((⟨u.type, "t" ++ natStr j⟩, u) :: mkLets us (j + 1))
    refine List.Pairwise.cons ?_ (mkLets_fst_pairwise us (j + 1))
    intro q hq hcon
    rcases mkLets_fst_idx us (j + 1) q hq with ⟨i, hi, hname⟩
    have hn2 : ("t" ++ natStr j : String) = "t" ++ natStr i := by
      rw [← hname]
      exact congrArg Var.name_hint hcon
    have := tname_inj hn2
    omega

theorem mkLets_mem_vals {us : List Expr} {j : Nat} {p : Var × Expr}
    (hp : p ∈ mkLets us j) : p.2 ∈ us := by
  have h2 := List.mem_map_of_mem (fun q => q.2) hp
  rw [mkLets_vals] at h2
  exact h2

theorem fullMap_vals_var (L : List (Var × Expr)) :
    ∀ r ∈ fullMap L, ∃ v, r.2 = Expr.var v := by
  intro r hr
  simp only [fullMap, List.mem_map] at hr
  rcases hr with ⟨q, hq, rfl⟩
  exact ⟨q.1, rfl⟩

theorem wrapVals_noLet : ∀ (L : List (Var × Expr)) (m₀ : ReplMap),
    (∀ r ∈ m₀, ∃ v, r.2 = Expr.var v) →
    (∀ q ∈ L, noLetIn q.2 = true) →
    ∀ p ∈ wrapVals m₀ L, noLetIn p.2 = true
  | [], _, _, _, p, hp => by simp [wrapVals] at hp
  | (v, u) :: L, m₀, hm, hL, p, hp => by
    rcases List.mem_cons.mp (show p ∈ (v, pureRepl m₀ u) ::
        wrapVals (m₀ ++ [(u, Expr.var v)]) L from hp) with rfl | h2
    · exact pureRepl_noLet u m₀ hm (hL (v, u) (by simp))
    · refine wrapVals_noLet L (m₀ ++ [(u, Expr.var v)]) ?_
        (fun q hq => hL q (by simp [hq])) p h2
      intro r hr
      rcases List.mem_append.mp hr with h | h
      · exact hm r h
      · have hr2 : r = (u, Expr.var v) := by simpa using h
        exact ⟨v, by rw [hr2]⟩

theorem body_bridge (us : List Expr) (j : Nat) (c : Expr) (hAc : avoidsT c) :
    pureRepl (nmap (pushAll (mkLets us j) ⟨0, [], []⟩))
        (pureRepl (fullMap (mkLets us j)) c) =
      pureRepl (fullMap (mkLets us 0)) c :=
  comp_step us c j _ (ST_keysT us j) hAc (fun l hl => ST_look us j l hl)

/-- Normalising the chain forgets the starting counter value: any
`cse` output over the same selected expressions and canonical body
normalises to the `t0, t1, …` chain. -/
theorem norm_output (us : List Expr) (j : Nat) (c : Expr)
    (hAus : ∀ u ∈ us, avoidsT u) (hNLus : ∀ u ∈ us, noLetIn u = true)
    (hAc : avoidsT c) (hnlc : noLetIn c = true) :
    normalize (letChain (wrapVals [] (mkLets us j))
      (pureRepl (fullMap (mkLets us j)) c)) =
    letChain (wrapVals [] (mkLets us 0))
      (pureRepl (fullMap (mkLets us 0)) c) := by
  unfold normalize
  rw [norm_chain (wrapVals [] (mkLets us j))
    (pureRepl (fullMap (mkLets us j)) c) ⟨0, [], []⟩ rfl
    (wrapVals_noLet (mkLets us j) [] (by simp)
      (fun q hq => hNLus q.2 (mkLets_mem_vals hq)))
    (pureRepl_noLet c (fullMap (mkLets us j)) (fullMap_vals_var _) hnlc)]
  dsimp only
  have hpush : pushAll (wrapVals [] (mkLets us j)) ⟨0, [], []⟩ =
      pushAll (mkLets us j) ⟨0, [], []⟩ :=
    pushAll_fst_congr _ _ _ (wrapVals_fst (mkLets us j) [])
  rw [hpush]
  have hb := norm_bridge us [] j hAus
  simp only [mkLets, fullMap, List.map_nil, List.length_nil, Nat.add_zero,
    pushAll] at hb
  rw [hb]
  rw [body_bridge us j c hAc]

end HalideIR
